import Mathlib

/-!
# Interpolation grid (`appl::igrid`) of applgridphoton

A shallow embedding of `src/applgridphoton/src/appl_igrid.cxx` and of the part of
`appl_grid/SparseMatrix3d.h` it uses.

Conventions of the embedding.

* A C++ `double` is an element of a linearly ordered field `K` with a floor function
  (`ℚ` for evaluation, `ℝ` for the statements about real numbers): arithmetic is exact.
  Where the source divides by zero the field convention `x / 0 = 0` applies; the places
  where a claim depends on it have checked variants (`fI_checked`, `spacing_quotient`,
  `double_div`) that make the zero denominator visible.
* A C++ `int` is an `Int`; the casts `(int)x` truncate toward zero (`toInt`). The 32-bit
  arithmetic has a domain: `int_cast` and `int_checked` have no value where the cast or
  a sum leaves the range of `int`, and the selectors `fk1_checked`, `fk2_checked` and
  `fkappa_checked` are built from them.
* The functions of `<cmath>` are the fields of a record `CMath K` that every function
  calling them receives.
* Heap tables and stack arrays are maps from indices to values: the embedding records what
  the code writes at which index. Where the source accesses storage that was not allocated
  (the 16-element scratch arrays of `fill` for an order above 15, the rows of `m_fg2` on a
  DIS grid without symmetry) the functions `fill_checked`, `setuppdf_checked`,
  `amc_convolute` and `amc_convolute_run` have no value.
-/

namespace appl

/-! ## Definitions -/

/-- The functions and constants of `<cmath>` used by the source. -/
structure CMath (K : Type) where
  exp : K → K
  log : K → K
  log10 : K → K
  sqrt : K → K
  pow : K → K → K
  M_PI : K

section defs

variable {K : Type} [LinearOrderedField K] [FloorRing K]

/-- The cast `(int)x` of a double where the cast is defined: truncation toward zero. The
32-bit cast is defined only when the truncated value is an `int` (`int_cast_defined`);
the statements about a cast of an arbitrary double go through `int_cast`, which has no
value outside that domain. -/
def toInt (x : K) : Int := if 0 ≤ x then ⌊x⌋ else ⌈x⌉

/-- Whether the cast `(int)x` of a `double` to the 32-bit `int` is defined: the value
truncated toward zero is one of `INT_MIN .. INT_MAX`. -/
def int_cast_defined (x : K) : Prop := -2147483649 < x ∧ x < 2147483648

instance (x : K) : Decidable (int_cast_defined x) :=
  inferInstanceAs (Decidable (-2147483649 < x ∧ x < 2147483648))

/-- The cast `(int)x` with its domain: `toInt x` where the cast is defined, and no value
where the truncated value is not an `int`, which the language leaves undefined (the
conversion instruction of x86-64 then gives `INT_MIN`). -/
def int_cast (x : K) : Option Int := if int_cast_defined x then some (toInt x) else none

/-- `int pow1(int i) { return ( 1&i ? -1 : 1 ); }` -/
def pow1 (i : Int) : Int := if Int.land 1 i ≠ 0 then -1 else 1

/-- The memo table `f[34]` of `fac` once the `while ( ntop<i )` loop has reached index `k`:
the initialiser `{ 1, 1, 2, 6, 24 }` up to `ntop = 4`, then `f[ntop] = f[j]*ntop` with
`j = ntop - 1`. -/
def facTable : Nat → K
  | 0 => 1
  | 1 => 1
  | 2 => 2
  | 3 => 6
  | 4 => 24
  | (k + 5) => facTable (k + 4) * ((k + 5 : Nat) : K)

/-- `double fac(int i)`: 0 (after an error message) for `i < 0` and for `i > 33`,
the table entry `f[i]` otherwise. -/
def fac (i : Int) : K :=
  if i < 0 then 0
  else if i > 33 then 0
  else facTable i.toNat

/-- The denominator `fac(i)*fac(n-i)*(u-i)` of the quotient in `fI`. -/
def fI_denominator (i n : Int) (u : K) : K := fac i * fac (n - i) * (u - (i : K))

/-- `double fI(int i, int n, double u)` in exact field arithmetic. -/
def fI (i n : Int) (u : K) : K :=
  if n = 0 ∧ i = 0 then 1
  else if |u - (i : K)| < 1e-8 then 1
  else
    (List.range (n + 1).toNat).foldl (fun product (z : Nat) => product * (u - (z : K)))
      ((pow1 (n - i) : K) / fI_denominator i n u)

/-- The value of `fI` as a finite number: `none` when the quotient
`pow1(n-i) / ( fac(i)*fac(n-i)*(u-i) )` has a zero denominator, where the double
computation yields an infinity that the following products never bring back to a
finite value. -/
def fI_checked (i n : Int) (u : K) : Option K :=
  if n = 0 ∧ i = 0 then some 1
  else if |u - (i : K)| < 1e-8 then some 1
  else if fI_denominator i n u = 0 then none
  else some (fI i n u)

/-- The Lagrange basis polynomial of node `i` on the nodes `0..n`, evaluated at `u`: the
product over the nodes `z ≠ i` of `(u - z)/(i - z)`. -/
def lagrange_basis (i n : Nat) (u : K) : K :=
  ∏ z in (Finset.range (n + 1)).erase i, (u - (z : K)) / ((i : K) - (z : K))

/-- Modelled from the spec: the class `axis<double>` of `axis.h`, a uniform grid of `N`
nodes on `[min, max]`. -/
structure axis (K : Type) where
  N : Int
  min : K
  max : K

/-- Modelled from the spec: the spacing `Δ = (max − min)/(N − 1)` of an axis. -/
def axis.delta (a : axis K) : K := (a.max - a.min) / ((a.N : K) - 1)

/-- Modelled from the spec: `node(i) = min + i·Δ`, the value of `axis::operator[]`. -/
def axis.node (a : axis K) (i : Int) : K := a.min + (i : K) * a.delta

/-- Modelled from the spec: the logical content of a `SparseMatrix3d`
(`tsparse3d<double>` with three axes): the value `cell i j k` read at every index
(0 where nothing was stored) and the axes it carries. -/
@[ext]
structure SparseMatrix3d (K : Type) where
  m_xaxis : axis K
  m_yaxis : axis K
  m_zaxis : axis K
  cell : Int → Int → Int → K

/-- Modelled from the spec: the constructor
`SparseMatrix3d(Nx, lx, ux, Ny, ly, uy, Nz, lz, uz)`, an empty tensor on the given axes. -/
def SparseMatrix3d.mk_empty (Nx : Int) (lx ux : K) (Ny : Int) (ly uy : K)
    (Nz : Int) (lz uz : K) : SparseMatrix3d K :=
  { m_xaxis := ⟨Nx, lx, ux⟩, m_yaxis := ⟨Ny, ly, uy⟩, m_zaxis := ⟨Nz, lz, uz⟩,
    cell := fun _ _ _ => 0 }

/-- Modelled from the spec: the mutating `operator()(i, j, k) += v` of `tsparse3d`, which
extends the stored block to the requested cell and adds to it. -/
def SparseMatrix3d.add_cell (T : SparseMatrix3d K) (i j k : Int) (v : K) :
    SparseMatrix3d K :=
  { T with cell := fun a b c => if a = i ∧ b = j ∧ c = k then T.cell a b c + v
                                else T.cell a b c }

/-- Modelled from the spec: `tsparse3d::operator+=`, the cell-wise sum. -/
def SparseMatrix3d.add (T S : SparseMatrix3d K) : SparseMatrix3d K :=
  { T with cell := fun a b c => T.cell a b c + S.cell a b c }

/-- `bool compare_axes(const SparseMatrix3d& s) const`, with the structural equality of
`axis` modelled from the spec. -/
def SparseMatrix3d.compare_axes (T S : SparseMatrix3d K) : Bool :=
  decide (T.m_xaxis.N = S.m_xaxis.N ∧ T.m_xaxis.min = S.m_xaxis.min ∧
      T.m_xaxis.max = S.m_xaxis.max) &&
  decide (T.m_yaxis.N = S.m_yaxis.N ∧ T.m_yaxis.min = S.m_yaxis.min ∧
      T.m_yaxis.max = S.m_yaxis.max) &&
  decide (T.m_zaxis.N = S.m_zaxis.N ∧ T.m_zaxis.min = S.m_zaxis.min ∧
      T.m_zaxis.max = S.m_zaxis.max)

/-- Modelled from the spec: whether the layer `i` of the logical shape holds a non-zero
cell. -/
def SparseMatrix3d.layer_nonzero (T : SparseMatrix3d K) (i : Nat) : Bool :=
  (List.range T.m_yaxis.N.toNat).any fun (j : Nat) =>
    (List.range T.m_zaxis.N.toNat).any fun (k : Nat) => decide (T.cell i j k ≠ 0)

/-- Modelled from the spec: the value of `xmax() - xmin() + 1` after `trim()`, the extent of
the minimal range of outer indices that holds the non-zero entries (0 for an empty
tensor). -/
def SparseMatrix3d.trimmed_xextent (T : SparseMatrix3d K) : Int :=
  match (List.range T.m_xaxis.N.toNat).filter T.layer_nonzero with
  | [] => 0
  | i :: l => ((i :: l).getLast (List.cons_ne_nil i l) : Int) - (i : Int) + 1

/-- Transform `f`: `_fy(x) = std::log(1/x-1)`. -/
def _fy (m : CMath K) (_a x : K) : K := m.log (1 / x - 1)

/-- Transform `f`: `_fx(y) = 1/(1+std::exp(y))`. -/
def _fx (m : CMath K) (_a y : K) : K := 1 / (1 + m.exp y)

/-- Transform `f0`: `_fy0(x) = -std::log(x)`. -/
def _fy0 (m : CMath K) (_a x : K) : K := -m.log x

/-- Transform `f0`: `_fx0(y) = std::exp(-y)`. -/
def _fx0 (m : CMath K) (_a y : K) : K := m.exp (-y)

/-- Transform `f1`: `_fy1(x) = std::sqrt(-std::log(x))`. -/
def _fy1 (m : CMath K) (_a x : K) : K := m.sqrt (-m.log x)

/-- Transform `f1`: `_fx1(y) = std::exp(-y*y)`. -/
def _fx1 (m : CMath K) (_a y : K) : K := m.exp (-y * y)

/-- Transform `f2`: `_fy2(x) = -std::log(x)+m_transvar*(1-x)`. -/
def _fy2 (m : CMath K) (a x : K) : K := -m.log x + a * (1 - x)

/-- The Newton loop `for ( int iter=imax ; iter-- ; )` of `_fx2` with `iter` steps left:
the solution `x` as soon as `|delta| < eps`, and `std::exp(-yp)` when the steps are used
up. -/
def _fx2_loop (m : CMath K) (a y : K) : Nat → K → K
  | 0, yp => m.exp (-yp)
  | (iter + 1), yp =>
    let x := m.exp (-yp)
    let delta := y - yp - a * (1 - x)
    if |delta| < 1e-12 then x
    else
      let deriv := -1 - a * x
      _fx2_loop m a y iter (yp - delta / deriv)

/-- Transform `f2`: `_fx2(y)`, the Newton-Raphson inversion with `imax = 100`. -/
def _fx2 (m : CMath K) (a y : K) : K :=
  if a = 0 then m.exp (-y) else _fx2_loop m a y 100 y

/-- Transform `f3`: `_fy3(x) = std::sqrt(-std::log10(x))`. -/
def _fy3 (m : CMath K) (_a x : K) : K := m.sqrt (-m.log10 x)

/-- Transform `f3`: `_fx3(y) = std::pow(10,-y*y)`. -/
def _fx3 (m : CMath K) (_a y : K) : K := m.pow 10 (-y * y)

/-- Transform `f4`: `_fy4(x) = -std::log10(x)`. -/
def _fy4 (m : CMath K) (_a x : K) : K := -m.log10 x

/-- Transform `f4`: `_fx4(y) = std::pow(10,-y)`. -/
def _fx4 (m : CMath K) (_a y : K) : K := m.pow 10 (-y)

/-- The pair `transform_vec( __fx, __fy )` stored in the map `m_fmap`. -/
structure transform_vec (K : Type) where
  mfx : K → K → K
  mfy : K → K → K

/-- `void igrid::add_transform(transform, __fx, __fy)`: throws when the name is already in
the map, inserts the pair otherwise. -/
def add_transform (fmap : List (String × transform_vec K)) (transform : String)
    (fx fy : K → K → K) : Except String (List (String × transform_vec K)) :=
  if (fmap.lookup transform).isSome then
    Except.error ("igrid::add_fmap() transform " ++ transform ++ " already in std::map")
  else Except.ok (fmap ++ [(transform, ⟨fx, fy⟩)])

/-- `void igrid::init_fmap()`: fills an empty map with the six built-in pairs. -/
def init_fmap (m : CMath K) (fmap : List (String × transform_vec K)) :
    Except String (List (String × transform_vec K)) :=
  if fmap.length = 0 then do
    let f1 ← add_transform fmap "f" (_fx m) (_fy m)
    let f2 ← add_transform f1 "f0" (_fx0 m) (_fy0 m)
    let f3 ← add_transform f2 "f1" (_fx1 m) (_fy1 m)
    let f4 ← add_transform f3 "f2" (_fx2 m) (_fy2 m)
    let f5 ← add_transform f4 "f3" (_fx3 m) (_fy3 m)
    add_transform f5 "f4" (_fx4 m) (_fy4 m)
  else Except.ok fmap

/-- The data members of `appl::igrid`. The array `m_weight` of `m_Nproc` tensors is a map
from the channel index. `mfy` and `mfx` are the pointers to the member functions of the
transform pair selected by `m_transform`; the only member such a function reads is
`m_transvar`, which is their first argument here. -/
structure igrid (K : Type) where
  mfy : K → K → K
  mfx : K → K → K
  m_Ny1 : Int
  m_y1min : K
  m_y1max : K
  m_deltay1 : K
  m_Ny2 : Int
  m_y2min : K
  m_y2max : K
  m_deltay2 : K
  m_yorder : Int
  m_Ntau : Int
  m_taumin : K
  m_taumax : K
  m_deltatau : K
  m_tauorder : Int
  m_Nproc : Int
  m_transform : String
  m_transvar : K
  m_reweight : Bool
  m_symmetrise : Bool
  m_optimised : Bool
  m_DISgrid : Bool
  m_fmap : List (String × transform_vec K)
  m_weight : Nat → SparseMatrix3d K

/-- `double fy(double x) const`: the member function the pointer `mfy` refers to. -/
def igrid.fy (g : igrid K) (x : K) : K := g.mfy g.m_transvar x

/-- `double fx(double y) const`: the member function the pointer `mfx` refers to. -/
def igrid.fx (g : igrid K) (y : K) : K := g.mfx g.m_transvar y

/-- `Ny1()`: `m_weight[0]->yaxis().N()`. -/
def igrid.Ny1 (g : igrid K) : Int := (g.m_weight 0).m_yaxis.N

/-- `y1min()`: `m_weight[0]->yaxis().min()`. -/
def igrid.y1min (g : igrid K) : K := (g.m_weight 0).m_yaxis.min

/-- `y1max()`: `m_weight[0]->yaxis().max()`. -/
def igrid.y1max (g : igrid K) : K := (g.m_weight 0).m_yaxis.max

/-- `deltay1()`: `m_weight[0]->yaxis().delta()`. -/
def igrid.deltay1 (g : igrid K) : K := (g.m_weight 0).m_yaxis.delta

/-- `Ny2()`: `m_weight[0]->zaxis().N()`. -/
def igrid.Ny2 (g : igrid K) : Int := (g.m_weight 0).m_zaxis.N

/-- `y2min()`: `m_weight[0]->zaxis().min()`. -/
def igrid.y2min (g : igrid K) : K := (g.m_weight 0).m_zaxis.min

/-- `y2max()`: `m_weight[0]->zaxis().max()`. -/
def igrid.y2max (g : igrid K) : K := (g.m_weight 0).m_zaxis.max

/-- `deltay2()`: `m_weight[0]->zaxis().delta()`. -/
def igrid.deltay2 (g : igrid K) : K := (g.m_weight 0).m_zaxis.delta

/-- `Ntau()`: `m_weight[0]->xaxis().N()`. -/
def igrid.Ntau (g : igrid K) : Int := (g.m_weight 0).m_xaxis.N

/-- `taumin()`: `m_weight[0]->xaxis().min()`. -/
def igrid.taumin (g : igrid K) : K := (g.m_weight 0).m_xaxis.min

/-- `taumax()`: `m_weight[0]->xaxis().max()`. -/
def igrid.taumax (g : igrid K) : K := (g.m_weight 0).m_xaxis.max

/-- `deltatau()`: `m_weight[0]->xaxis().delta()`. -/
def igrid.deltatau (g : igrid K) : K := (g.m_weight 0).m_xaxis.delta

/-- `gety1(iy)`: `m_weight[0]->yaxis()[iy]`. -/
def igrid.gety1 (g : igrid K) (iy : Int) : K := (g.m_weight 0).m_yaxis.node iy

/-- `gety2(iy)`: `m_weight[0]->zaxis()[iy]`. -/
def igrid.gety2 (g : igrid K) (iy : Int) : K := (g.m_weight 0).m_zaxis.node iy

/-- `gettau(itau)`: `m_weight[0]->xaxis()[itau]`. -/
def igrid.gettau (g : igrid K) (itau : Int) : K := (g.m_weight 0).m_xaxis.node itau

/-- `double ftau(double Q2) { return std::log(std::log(Q2/0.0625)); }` -/
def ftau (m : CMath K) (Q2 : K) : K := m.log (m.log (Q2 / 0.0625))

/-- `double fQ2(double tau) { return 0.0625*std::exp(std::exp(tau)); }` -/
def fQ2 (m : CMath K) (tau : K) : K := 0.0625 * m.exp (m.exp tau)

/-- `double weightfun(double x) { double n=(1-0.99*x); return std::sqrt(x*x*x)/(n*n*n); }` -/
def weightfun (m : CMath K) (x : K) : K :=
  let n := 1 - 0.99 * x
  m.sqrt (x * x * x) / (n * n * n)

/-- `void igrid::construct()`: every channel gets an empty tensor on the axes given by the
data members. -/
def igrid.construct (g : igrid K) : igrid K :=
  { g with
    m_weight := fun _ =>
      SparseMatrix3d.mk_empty g.m_Ntau g.m_taumin g.m_taumax g.m_Ny1 g.m_y1min g.m_y1max
        g.m_Ny2 g.m_y2min g.m_y2max }

/-- The loop `while ( N-1<order ) order--;` of the standard constructor. -/
def lower_order (N order : Int) : Int :=
  if N - 1 < order then lower_order N (order - 1) else order
termination_by (order - (N - 1)).toNat
decreasing_by omega

/-- The standard constructor `igrid(NQ2, Q2min, Q2max, Q2order, Nx, xmin, xmax, xorder,
transform, Nproc, disflag)`; `transvar` is the value of the static `igrid::transvar` at the
time of the call. The result is an error when the constructor throws. -/
def igrid.standard (m : CMath K) (transvar : K) (NQ2 : Int) (Q2min Q2max : K) (Q2order : Int)
    (Nx : Int) (xmin xmax : K) (xorder : Int) (transform : String) (Nproc : Int)
    (disflag : Bool) : Except String (igrid K) := do
  let fmap ← init_fmap m []
  match fmap.lookup transform with
  | none => Except.error ("igrid::igrid() transform " ++ transform ++ " not found\n")
  | some t =>
    let m_Ny1 := Nx
    let m_Ny2 := if disflag then 1 else Nx
    let ymin1 := t.mfy transvar xmax
    let ymax1 := t.mfy transvar xmin
    let m_y2min := if disflag then 1 else ymin1
    let m_y2max := if disflag then 1 else ymax1
    let taumin := ftau m Q2min
    let taumax := ftau m Q2max
    let yorder1 := if m_Ny1 - 1 < xorder then lower_order m_Ny1 xorder else xorder
    let yorder2 :=
      if !disflag then
        (if m_Ny2 - 1 < yorder1 then lower_order m_Ny2 yorder1 else yorder1)
      else yorder1
    Except.ok (igrid.construct
      { mfy := t.mfy, mfx := t.mfx,
        m_Ny1 := m_Ny1, m_y1min := ymin1, m_y1max := ymax1,
        m_deltay1 := if m_Ny1 > 1 then (ymax1 - ymin1) / ((m_Ny1 : K) - 1) else 0,
        m_Ny2 := m_Ny2, m_y2min := m_y2min, m_y2max := m_y2max,
        m_deltay2 := if m_Ny2 > 1 then (m_y2max - m_y2min) / ((m_Ny2 : K) - 1) else 0,
        m_yorder := yorder2,
        m_Ntau := NQ2, m_taumin := taumin, m_taumax := taumax,
        m_deltatau := if NQ2 > 1 then (taumax - taumin) / ((NQ2 : K) - 1) else 0,
        m_tauorder := if NQ2 - 1 < Q2order then lower_order NQ2 Q2order else Q2order,
        m_Nproc := Nproc, m_transform := transform, m_transvar := transvar,
        m_reweight := false, m_symmetrise := false, m_optimised := false,
        m_DISgrid := disflag, m_fmap := fmap,
        m_weight := fun _ => SparseMatrix3d.mk_empty 0 0 0 0 0 0 0 0 0 })

/-- The grid `igrid.standard` builds for the transform `f2` without the DIS flag when the
requested orders need no lowering (see `standard_f2_eq`). -/
def f2_grid (m : CMath K) (transvar : K) (NQ2 : Int) (Q2min Q2max : K) (Q2order Nx : Int)
    (xmin xmax : K) (xorder Nproc : Int) : igrid K :=
  igrid.construct
    { mfy := _fy2 m, mfx := _fx2 m,
      m_Ny1 := Nx, m_y1min := _fy2 m transvar xmax, m_y1max := _fy2 m transvar xmin,
      m_deltay1 :=
        if Nx > 1 then (_fy2 m transvar xmin - _fy2 m transvar xmax) / ((Nx : K) - 1) else 0,
      m_Ny2 := Nx, m_y2min := _fy2 m transvar xmax, m_y2max := _fy2 m transvar xmin,
      m_deltay2 :=
        if Nx > 1 then (_fy2 m transvar xmin - _fy2 m transvar xmax) / ((Nx : K) - 1) else 0,
      m_yorder := xorder,
      m_Ntau := NQ2, m_taumin := ftau m Q2min, m_taumax := ftau m Q2max,
      m_deltatau := if NQ2 > 1 then (ftau m Q2max - ftau m Q2min) / ((NQ2 : K) - 1) else 0,
      m_tauorder := Q2order,
      m_Nproc := Nproc, m_transform := "f2", m_transvar := transvar,
      m_reweight := false, m_symmetrise := false, m_optimised := false,
      m_DISgrid := false,
      m_fmap := [("f", ⟨_fx m, _fy m⟩), ("f0", ⟨_fx0 m, _fy0 m⟩), ("f1", ⟨_fx1 m, _fy1 m⟩),
        ("f2", ⟨_fx2 m, _fy2 m⟩), ("f3", ⟨_fx3 m, _fy3 m⟩), ("f4", ⟨_fx4 m, _fy4 m⟩)],
      m_weight := fun _ => SparseMatrix3d.mk_empty 0 0 0 0 0 0 0 0 0 }

/-- The lower interpolation node as section 4.2 of the specification words it:
`k = ⌊(y − ymin)/Δ⌋ − ⌊p/2⌋`, then `k = clamp(k, 0, N−1−p)`. -/
def lower_node_spec (ymin delta : K) (N p : Int) (y : K) : Int :=
  max 0 (min (⌊(y - ymin) / delta⌋ - p / 2) (N - 1 - p))

/-- `int igrid::fk1(double x) const` (the warning printed for an out-of-range `y` has no
effect on the result): the value the source returns where its `int` arithmetic is defined;
`igrid.fk1_checked` carries that domain. -/
def igrid.fk1 (g : igrid K) (x : K) : Int :=
  let y := g.fy x
  let k := toInt ((y - g.y1min) / g.deltay1 - ((g.m_yorder >>> (1 : Nat) : Int) : K))
  let k := if k < 0 then 0 else k
  if k + g.m_yorder ≥ g.Ny1 then g.Ny1 - 1 - g.m_yorder else k

/-- `int igrid::fk2(double x) const`, where its `int` arithmetic is defined
(`igrid.fk2_checked` carries that domain). -/
def igrid.fk2 (g : igrid K) (x : K) : Int :=
  let y := g.fy x
  let k := toInt ((y - g.y2min) / g.deltay2 - ((g.m_yorder >>> (1 : Nat) : Int) : K))
  let k := if k < 0 then 0 else k
  if k + g.m_yorder ≥ g.Ny2 then g.Ny2 - 1 - g.m_yorder else k

/-- `int igrid::fkappa(double Q2) const`, where its `int` arithmetic is defined
(`igrid.fkappa_checked` carries that domain): the upper clamp comes first here. -/
def igrid.fkappa (m : CMath K) (g : igrid K) (Q2 : K) : Int :=
  let tau := ftau m Q2
  let kappa := toInt ((tau - g.taumin) / g.deltatau - ((g.m_tauorder >>> (1 : Nat) : Int) : K))
  let kappa := if kappa + g.m_tauorder ≥ g.Ntau then g.Ntau - 1 - g.m_tauorder else kappa
  if kappa < 0 then 0 else kappa

/-- The double that `fk1` casts to `int`: `(y-y1min())/deltay1() - (m_yorder>>1)`. -/
def igrid.fk1_operand (g : igrid K) (x : K) : K :=
  (g.fy x - g.y1min) / g.deltay1 - ((g.m_yorder >>> (1 : Nat) : Int) : K)

/-- The double that `fk2` casts to `int`: `(y-y2min())/deltay2() - (m_yorder>>1)`. -/
def igrid.fk2_operand (g : igrid K) (x : K) : K :=
  (g.fy x - g.y2min) / g.deltay2 - ((g.m_yorder >>> (1 : Nat) : Int) : K)

/-- The double that `fkappa` casts to `int`:
`(tau-taumin())/deltatau() - (m_tauorder>>1)`. -/
def igrid.fkappa_operand (m : CMath K) (g : igrid K) (Q2 : K) : K :=
  (ftau m Q2 - g.taumin) / g.deltatau - ((g.m_tauorder >>> (1 : Nat) : Int) : K)

/-- The quotient `a/b` of two doubles as a finite number: for `b = 0` the double is an
infinity or a NaN, which is `none` here. -/
def double_div (a b : K) : Option K := if b = 0 then none else some (a / b)

/-- The result of an `int` operation whose mathematical value is `n`: `n` when it is one
of `INT_MIN .. INT_MAX`, and no value on signed overflow. -/
def int_checked (n : Int) : Option Int :=
  if -2147483648 ≤ n ∧ n ≤ 2147483647 then some n else none

/-- `int igrid::fk1(double x) const` with the domain of its arithmetic: no value when the
quotient by `deltay1()` is not finite, when the cast `(int)(...)` is undefined or when the
sum `k+m_yorder` overflows. -/
def igrid.fk1_checked (g : igrid K) (x : K) : Option Int :=
  let y := g.fy x
  (double_div (y - g.y1min) g.deltay1).bind fun q =>
    (int_cast (q - ((g.m_yorder >>> (1 : Nat) : Int) : K))).bind fun k =>
      let k := if k < 0 then 0 else k
      (int_checked (k + g.m_yorder)).map fun s =>
        if s ≥ g.Ny1 then g.Ny1 - 1 - g.m_yorder else k

/-- `int igrid::fk2(double x) const` with the domain of its arithmetic. -/
def igrid.fk2_checked (g : igrid K) (x : K) : Option Int :=
  let y := g.fy x
  (double_div (y - g.y2min) g.deltay2).bind fun q =>
    (int_cast (q - ((g.m_yorder >>> (1 : Nat) : Int) : K))).bind fun k =>
      let k := if k < 0 then 0 else k
      (int_checked (k + g.m_yorder)).map fun s =>
        if s ≥ g.Ny2 then g.Ny2 - 1 - g.m_yorder else k

/-- `int igrid::fkappa(double Q2) const` with the domain of its arithmetic. -/
def igrid.fkappa_checked (m : CMath K) (g : igrid K) (Q2 : K) : Option Int :=
  let tau := ftau m Q2
  (double_div (tau - g.taumin) g.deltatau).bind fun q =>
    (int_cast (q - ((g.m_tauorder >>> (1 : Nat) : Int) : K))).bind fun kappa =>
      (int_checked (kappa + g.m_tauorder)).map fun s =>
        let kappa := if s ≥ g.Ntau then g.Ntau - 1 - g.m_tauorder else kappa
        if kappa < 0 then 0 else kappa

/-- The condition under which the arithmetic of `fk1` at `x` is defined, for an order that
is a non-negative `int`: the spacing is not zero, the cast `(int)(...)` is defined, and
the sum `k+m_yorder` stays below `2^31`. -/
def igrid.fk1_defined (g : igrid K) (x : K) : Prop :=
  g.deltay1 ≠ 0 ∧ int_cast_defined (g.fk1_operand x) ∧
    g.fk1_operand x + (g.m_yorder : K) < 2147483648

/-- The condition under which the arithmetic of `fk2` at `x` is defined. -/
def igrid.fk2_defined (g : igrid K) (x : K) : Prop :=
  g.deltay2 ≠ 0 ∧ int_cast_defined (g.fk2_operand x) ∧
    g.fk2_operand x + (g.m_yorder : K) < 2147483648

/-- The condition under which the arithmetic of `fkappa` at `Q2` is defined. -/
def igrid.fkappa_defined (m : CMath K) (g : igrid K) (Q2 : K) : Prop :=
  g.deltatau ≠ 0 ∧ int_cast_defined (igrid.fkappa_operand m g Q2) ∧
    igrid.fkappa_operand m g Q2 + (g.m_tauorder : K) < 2147483648

instance (g : igrid K) (x : K) : Decidable (g.fk1_defined x) :=
  inferInstanceAs (Decidable (g.deltay1 ≠ 0 ∧ int_cast_defined (g.fk1_operand x) ∧
    g.fk1_operand x + (g.m_yorder : K) < 2147483648))

instance (g : igrid K) (x : K) : Decidable (g.fk2_defined x) :=
  inferInstanceAs (Decidable (g.deltay2 ≠ 0 ∧ int_cast_defined (g.fk2_operand x) ∧
    g.fk2_operand x + (g.m_yorder : K) < 2147483648))

instance (m : CMath K) (g : igrid K) (Q2 : K) : Decidable (igrid.fkappa_defined m g Q2) :=
  inferInstanceAs (Decidable (g.deltatau ≠ 0 ∧
    int_cast_defined (igrid.fkappa_operand m g Q2) ∧
    igrid.fkappa_operand m g Q2 + (g.m_tauorder : K) < 2147483648))

/-- The three node selectors that `fill(x1, x2, Q2, ...)` calls are defined. -/
def igrid.fill_selectors_defined (m : CMath K) (g : igrid K) (x1 x2 Q2 : K) : Prop :=
  g.fk1_defined x1 ∧ g.fk2_defined x2 ∧ igrid.fkappa_defined m g Q2

instance (m : CMath K) (g : igrid K) (x1 x2 Q2 : K) :
    Decidable (igrid.fill_selectors_defined m g x1 x2 Q2) :=
  inferInstanceAs (Decidable (g.fk1_defined x1 ∧ g.fk2_defined x2 ∧
    igrid.fkappa_defined m g Q2))

/-- `void igrid::fill(x1, x2, Q2, weight)` where the source has a defined result: the
scratch arrays `_fI1`, `_fI2`, `_fI3` are the maps from the index to the coefficient
stored there, and the four nested loops thread the array `m_weight` of tensors. The arrays
have 16 elements and the node selectors cast a double to `int`: this is what the source
computes when the loops stay inside the arrays and the casts are defined, which
`igrid.fill_checked` tests. -/
def igrid.fill (m : CMath K) (g : igrid K) (x1 x2 Q2 : K) (weight : Nat → K) : igrid K :=
  let k1 := g.fk1 x1
  let k2 := g.fk2 x2
  let k3 := igrid.fkappa m g Q2
  let u_y1 := (g.fy x1 - g.gety1 k1) / g.deltay1
  let u_y2 := (g.fy x2 - g.gety2 k2) / g.deltay2
  let u_tau := (ftau m Q2 - g.gettau k3) / g.deltatau
  let _fI1 : Nat → K := fun i1 => fI (i1 : Int) g.m_yorder u_y1
  let _fI2 : Nat → K := fun i2 => fI (i2 : Int) g.m_yorder u_y2
  let _fI3 : Nat → K := fun i3 => fI (i3 : Int) g.m_tauorder u_tau
  let invwfun := 1 / (weightfun m x1 * weightfun m x2)
  { g with
    m_weight :=
      (List.range (g.m_tauorder + 1).toNat).foldl (fun w (i3 : Nat) =>
        (List.range (g.m_yorder + 1).toNat).foldl (fun w (i1 : Nat) =>
          (List.range (g.m_yorder + 1).toNat).foldl (fun w (i2 : Nat) =>
            let fI_factor := _fI1 i1 * _fI2 i2 * _fI3 i3
            let fI_factor := if g.m_reweight then fI_factor * invwfun else fI_factor
            (List.range g.m_Nproc.toNat).foldl (fun w (ip : Nat) =>
              let fillweight := weight ip * fI_factor
              Function.update w ip
                ((w ip).add_cell (k3 + (i3 : Int)) (k1 + (i1 : Int)) (k2 + (i2 : Int))
                  fillweight)) w) w) w) g.m_weight }

/-- The fractional offset `u_y1` that `fill` computes for `x1`. -/
def igrid.fill_u_y1 (g : igrid K) (x1 : K) : K :=
  (g.fy x1 - g.gety1 (g.fk1 x1)) / g.deltay1

/-- The fractional offset `u_y2` that `fill` computes for `x2`. -/
def igrid.fill_u_y2 (g : igrid K) (x2 : K) : K :=
  (g.fy x2 - g.gety2 (g.fk2 x2)) / g.deltay2

/-- The fractional offset `u_tau` that `fill` computes for `Q2`. -/
def igrid.fill_u_tau (m : CMath K) (g : igrid K) (Q2 : K) : K :=
  (ftau m Q2 - g.gettau (igrid.fkappa m g Q2)) / g.deltatau

/-- The value of `fI_factor` in the innermost loop of `fill` at the stencil offset
`(i3, i1, i2)`. -/
def igrid.fill_factor (m : CMath K) (g : igrid K) (x1 x2 Q2 : K) (i3 i1 i2 : Nat) : K :=
  let fI_factor := fI (i1 : Int) g.m_yorder (g.fill_u_y1 x1) *
    fI (i2 : Int) g.m_yorder (g.fill_u_y2 x2) * fI (i3 : Int) g.m_tauorder (g.fill_u_tau m Q2)
  if g.m_reweight then fI_factor * (1 / (weightfun m x1 * weightfun m x2)) else fI_factor

/-- What `fill` at `(x1, x2, Q2)` with the channel weights `weight` adds to the cell
`(a, b, d)` of channel `c`, as specification section 4.5 states it: the weight times the
coefficient product inside the stencil box, nothing outside. -/
def igrid.fill_increment (m : CMath K) (g : igrid K) (x1 x2 Q2 : K) (weight : Nat → K)
    (c : Nat) (a b d : Int) : K :=
  if c < g.m_Nproc.toNat ∧
      (igrid.fkappa m g Q2 ≤ a ∧ a < igrid.fkappa m g Q2 + (g.m_tauorder + 1).toNat) ∧
      (g.fk1 x1 ≤ b ∧ b < g.fk1 x1 + (g.m_yorder + 1).toNat) ∧
      (g.fk2 x2 ≤ d ∧ d < g.fk2 x2 + (g.m_yorder + 1).toNat)
    then weight c * g.fill_factor m x1 x2 Q2 (a - igrid.fkappa m g Q2).toNat
      (b - g.fk1 x1).toNat (d - g.fk2 x2).toNat
    else 0

/-- Two grids that differ at most in the cell contents of their tensors, as far as `fill`
and `operator+=` can tell: same transform, orders, channel count, reweight flag and axes. -/
def igrid.frame_eq (g h : igrid K) : Prop :=
  h.mfy = g.mfy ∧ h.m_transvar = g.m_transvar ∧ h.m_yorder = g.m_yorder ∧
  h.m_tauorder = g.m_tauorder ∧ h.m_Nproc = g.m_Nproc ∧ h.m_reweight = g.m_reweight ∧
  ∀ c, (h.m_weight c).m_xaxis = (g.m_weight c).m_xaxis ∧
    (h.m_weight c).m_yaxis = (g.m_weight c).m_yaxis ∧
    (h.m_weight c).m_zaxis = (g.m_weight c).m_zaxis

/-- One call of `fill`: the point and the channel weights. -/
structure fill_point (K : Type) where
  x1 : K
  x2 : K
  Q2 : K
  weight : Nat → K

/-- A sequence of `fill` calls on one grid, in order. -/
def igrid.fill_all (m : CMath K) (g : igrid K) (S : List (fill_point K)) : igrid K :=
  S.foldl (fun g p => g.fill m p.x1 p.x2 p.Q2 p.weight) g

/-- `igrid& igrid::operator+=(const igrid& g)`: channel by channel, the tensors are added
when their axes agree and an exception is thrown at the first channel where they do not. -/
def igrid.add_assign (g h : igrid K) : Except String (igrid K) := do
  let w ← (List.range g.m_Nproc.toNat).foldlM (fun w (ip : Nat) =>
    if (w ip).compare_axes (h.m_weight ip) then
      Except.ok (Function.update w ip ((w ip).add (h.m_weight ip)))
    else Except.error "igrid::operator+=() grids do not match") g.m_weight
  Except.ok { g with m_weight := w }

/-- `isSymmetric()` of the class declaration: the flag `m_symmetrise`. -/
def igrid.isSymmetric (g : igrid K) : Bool := g.m_symmetrise

/-- `isDISgrid()` of the class declaration: the flag `m_DISgrid`. -/
def igrid.isDISgrid (g : igrid K) : Bool := g.m_DISgrid

/-- The tables `setuppdf` fills: `m_fg1[itau][iy][ip]`, `m_fg2[itau][iy][ip]` and
`m_alphas[itau]`. -/
structure node_cache (K : Type) where
  m_fg1 : Nat → Nat → Nat → K
  m_fg2 : Nat → Nat → Nat → K
  m_alphas : Nat → K

/-- The body of the `iy` loops of `setuppdf` for one node `y` at scale `Q`: the 14 values
the PDF callback `pdf` writes (`NodeCache::evaluate`), times `1/x`, times `weightfun(x)` of
the unscaled `x` when the grid is reweighted; all zero when the beam-scaled `x` is at
least 1. -/
def igrid.pdf_row (m : CMath K) (g : igrid K) (pdf : K → K → Nat → K)
    (fscale_factor beam_scale Q y : K) : Nat → K :=
  let x := g.fx y
  let wfun := if g.m_reweight then weightfun m x else 1
  let scale_beams : Bool := decide (beam_scale ≠ 1)
  let x := if scale_beams then x * beam_scale else x
  if scale_beams ∧ x ≥ 1 then fun _ => 0
  else
    let invx := 1 / x
    fun ip =>
      if g.m_reweight then pdf x (fscale_factor * Q) ip * invx * wfun
      else pdf x (fscale_factor * Q) ip * invx

/-- `void igrid::setuppdf(alphas, pdf0, pdf1, _nloop, rscale_factor, fscale_factor,
beam_scale)`, without the splitting-function tables, which `amc_convolute` does not read.
`pdf1 = none` stands for a null pointer or the pointer `pdf0` itself. The first pass fills
`m_fg1` from `pdf0` on the `y1` nodes; the second pass, run when the grid is neither
symmetric nor DIS or when `pdf1` is a different object, fills `m_fg2` from `pdf1` on the
`y2` nodes, where `m_fg2` is `m_fg1` itself for a symmetric grid. Every table entry is
given by what the loops write at its index. The rows `m_fg2[i]` are allocated only
`if ( !isSymmetric() && !isDISgrid() )`: on a DIS grid that is not symmetric the table
`m_fg2` has no rows and the entries given here for it are not in memory;
`igrid.setuppdf_checked`, `igrid.amc_convolute` and `igrid.amc_convolute_run` have no
value where the source accesses them. -/
def igrid.setuppdf (m : CMath K) (g : igrid K) (alphas : K → K)
    (pdf0 : K → K → Nat → K) (pdf1 : Option (K → K → Nat → K)) (_nloop : Int)
    (rscale_factor fscale_factor beam_scale : K) : node_cache K :=
  let second : K → K → Nat → K := pdf1.getD pdf0
  let invtwopi := 0.5 / m.M_PI
  let Q : Nat → K := fun itau => m.sqrt (fQ2 m (g.gettau (itau : Int)))
  let first_pass : Nat → Nat → Nat → K := fun itau iy =>
    g.pdf_row m pdf0 fscale_factor beam_scale (Q itau) (g.gety1 (iy : Int))
  let second_pass : Nat → Nat → Nat → K := fun itau iy =>
    g.pdf_row m second fscale_factor beam_scale (Q itau) (g.gety2 (iy : Int))
  let runs_second : Bool := (!g.isSymmetric && !g.isDISgrid) || pdf1.isSome
  let fg1 : Nat → Nat → Nat → K :=
    if g.isSymmetric && runs_second then
      fun itau iy => if (iy : Int) < g.Ny2 then second_pass itau iy else first_pass itau iy
    else first_pass
  { m_fg1 := fg1,
    m_fg2 := if g.isSymmetric then fg1 else second_pass,
    m_alphas := fun itau => alphas (rscale_factor * Q itau) * invtwopi }

/-- `double igrid::amc_convolute(pdf0, pdf1, genpdf, alphas, lo_order, nloop,
rscale_factor, fscale_factor, Escale)`. `genpdf f1 f2` is the array `H` that
`genpdf->evaluate(f1, f2, H)` writes. The result is `none` where the source dereferences
rows of `m_fg2` that were never allocated: on a DIS grid that is not symmetric and not
empty. `setuppdf` allocates the rows `m_fg2[i]` only `if ( !isSymmetric() && !isDISgrid() )`;
on such a grid its second pass writes through them when a distinct `pdf1` is given, the
loop below reads `m_fg2[itau][iy2]`, and `deletepdftable` deletes through them. -/
def igrid.amc_convolute (m : CMath K) (g : igrid K)
    (pdf0 : K → K → Nat → K) (pdf1 : Option (K → K → Nat → K))
    (genpdf : (Nat → K) → (Nat → K) → Nat → K) (alphas : K → K)
    (lo_order nloop : Int) (rscale_factor fscale_factor Escale : K) : Option K :=
  let eightpisquared := 8 * m.M_PI * m.M_PI
  let size : Int :=
    (List.range g.m_Nproc.toNat).foldl
      (fun size (ip : Nat) => size + (g.m_weight ip).trimmed_xextent) 0
  if size = 0 then some 0
  else if g.isDISgrid && !g.isSymmetric then none
  else
    let c := g.setuppdf m alphas pdf0 pdf1 nloop rscale_factor fscale_factor Escale
    some ((List.range g.Ntau.toNat).foldl (fun dsigma (itau : Nat) =>
      let alphas_tmp := c.m_alphas itau * eightpisquared
      let _alphas := (List.range lo_order.toNat).foldl (fun a (_ : Nat) => a * alphas_tmp) 1
      (List.range g.Ny1.toNat).reverse.foldl (fun dsigma (iy1 : Nat) =>
        (List.range g.Ny2.toNat).reverse.foldl (fun dsigma (iy2 : Nat) =>
          let sig : Nat → K := fun ip =>
            (g.m_weight ip).cell (itau : Int) (iy1 : Int) (iy2 : Int)
          let nonzero : Bool := (List.range g.m_Nproc.toNat).any fun (ip : Nat) => decide (sig ip ≠ 0)
          if nonzero then
            let H := genpdf (c.m_fg1 itau iy1) (c.m_fg2 itau iy2)
            let xsigma := (List.range g.m_Nproc.toNat).foldl
              (fun xsigma (ip : Nat) => xsigma + sig ip * H ip) 0
            dsigma + _alphas * xsigma
          else dsigma) dsigma) dsigma) 0)

/-- The convolution as a sum: over the `tau` nodes, the factor `couple itau` times the sum
over the `(y1, y2)` nodes and the channels `c` of `T_c(tau, y1, y2) * H_c(tau, y1, y2)`,
where `H` is the luminosity evaluated on the cached rows of the two PDF tables. -/
def igrid.convolution_sum (g : igrid K) (c : node_cache K)
    (genpdf : (Nat → K) → (Nat → K) → Nat → K) (couple : Nat → K) : K :=
  ∑ itau in Finset.range g.Ntau.toNat, couple itau *
    ∑ iy1 in Finset.range g.Ny1.toNat, ∑ iy2 in Finset.range g.Ny2.toNat,
      ∑ ip in Finset.range g.m_Nproc.toNat,
        (g.m_weight ip).cell (itau : Int) (iy1 : Int) (iy2 : Int) *
          genpdf (c.m_fg1 itau iy1) (c.m_fg2 itau iy2) ip

/-- The sum `size` that `amc_convolute` forms over the trimmed extents of the channels. -/
def igrid.trimmed_size (g : igrid K) : Int :=
  (List.range g.m_Nproc.toNat).foldl
    (fun size (ip : Nat) => size + (g.m_weight ip).trimmed_xextent) 0

/-- Every channel tensor has as many nodes on each axis as the tensor of channel 0, from
which the loops of `amc_convolute` take their bounds (true after `construct` and after any
number of fills). -/
def igrid.channels_aligned (g : igrid K) : Prop :=
  ∀ c : Nat, (g.m_weight c).m_xaxis.N = g.Ntau ∧ (g.m_weight c).m_yaxis.N = g.Ny1 ∧
    (g.m_weight c).m_zaxis.N = g.Ny2

/-- A grid with the same `N` nodes over `[lo, hi]` on all three axes, the same
interpolation order on all of them, `Nproc` empty channels and all flags off. -/
def uniform_grid (fy fx : K → K → K) (N : Int) (lo hi : K) (order Nproc : Int) : igrid K :=
  igrid.construct
    { mfy := fy, mfx := fx,
      m_Ny1 := N, m_y1min := lo, m_y1max := hi, m_deltay1 := (hi - lo) / ((N : K) - 1),
      m_Ny2 := N, m_y2min := lo, m_y2max := hi, m_deltay2 := (hi - lo) / ((N : K) - 1),
      m_yorder := order,
      m_Ntau := N, m_taumin := lo, m_taumax := hi, m_deltatau := (hi - lo) / ((N : K) - 1),
      m_tauorder := order,
      m_Nproc := Nproc, m_transform := "f0", m_transvar := 5,
      m_reweight := false, m_symmetrise := false, m_optimised := false, m_DISgrid := false,
      m_fmap := [],
      m_weight := fun _ => SparseMatrix3d.mk_empty 0 0 0 0 0 0 0 0 0 }

/-- Modelled from the spec: `tsparse3d::trim()`, which contracts the stored blocks to the
bounding box of the non-zero entries; every cell reads the same before and after. -/
def SparseMatrix3d.trim (T : SparseMatrix3d K) : SparseMatrix3d K := T

/-- Modelled from the spec: what one `igrid` directory of the container holds: the tag
`Transform`, the vector `Parameters` (a `TVectorT<double>`) and the histograms `weight[ip]`,
`none` where no object was written. A histogram carries the three axes and the non-zero
cells of the trimmed tensor (`sparse_matrix3d_to_th3d`), and
`sparse_matrix3d_from_th3d` rebuilds the tensor from it, so a histogram is represented by
that tensor. -/
structure igrid_record (K : Type) where
  Transform : String
  Parameters : List K
  weight : Nat → Option (SparseMatrix3d K)

/-- `void igrid::write(const std::string& name)`: the record left in the directory `name`.
The vector has 20 entries ("a few spare"), of which the first 17 are assigned. -/
def igrid.write (g : igrid K) : igrid_record K :=
  { Transform := g.m_transform,
    Parameters :=
      [(g.m_Ny1 : K), g.m_y1min, g.m_y1max,
        (g.m_Ny2 : K), g.m_y2min, g.m_y2max,
        (g.m_yorder : K),
        (g.m_Ntau : K), g.m_taumin, g.m_taumax, (g.m_tauorder : K),
        g.m_transvar,
        (g.m_Nproc : K),
        if g.m_reweight then 1 else 0, if g.m_symmetrise then 1 else 0,
        if g.m_optimised then 1 else 0, if g.m_DISgrid then 1 else 0,
        0, 0, 0],
    weight := fun ip => if ip < g.m_Nproc.toNat then some (g.m_weight ip).trim else none }

/-- The constructor `igrid(void* pf, const std::string& s)` that reads a grid from the
directory `s`. It throws when the transform is not in the map; a histogram that is
missing is a null pointer, which the source dereferences, and is an error here. The
spacings are the quotients `(max-min)/(N-1)` as the source writes them, without a test on
`N`; for `N = 1` the double quotient has no finite value (`spacing_quotient`). -/
def igrid.read (m : CMath K) (f : igrid_record K) : Except String (igrid K) := do
  let fmap ← init_fmap m []
  match fmap.lookup f.Transform with
  | none => Except.error ("igrid::igrid() transform " ++ f.Transform ++ " not found\n")
  | some t =>
    let setup : Nat → K := fun i => f.Parameters.getD i 0
    let m_Ny1 := toInt (setup 0 + 0.5)
    let m_y1min := setup 1
    let m_y1max := setup 2
    let m_Ny2 := toInt (setup 3 + 0.5)
    let m_y2min := setup 4
    let m_y2max := setup 5
    let m_yorder := toInt (setup 6 + 0.5)
    let m_Ntau := toInt (setup 7 + 0.5)
    let m_taumin := setup 8
    let m_taumax := setup 9
    let m_tauorder := toInt (setup 10 + 0.5)
    let m_transvar := setup 11
    let m_Nproc := toInt (setup 12 + 0.5)
    if (List.range m_Nproc.toNat).all (fun (ip : Nat) => (f.weight ip).isSome) then
      Except.ok
        { mfy := t.mfy, mfx := t.mfx,
          m_Ny1 := m_Ny1, m_y1min := m_y1min, m_y1max := m_y1max,
          m_deltay1 := (m_y1max - m_y1min) / (((m_Ny1 - 1 : Int) : K)),
          m_Ny2 := m_Ny2, m_y2min := m_y2min, m_y2max := m_y2max,
          m_deltay2 := (m_y2max - m_y2min) / (((m_Ny2 - 1 : Int) : K)),
          m_yorder := m_yorder,
          m_Ntau := m_Ntau, m_taumin := m_taumin, m_taumax := m_taumax,
          m_deltatau := (m_taumax - m_taumin) / (((m_Ntau - 1 : Int) : K)),
          m_tauorder := m_tauorder,
          m_Nproc := m_Nproc, m_transform := f.Transform, m_transvar := m_transvar,
          m_reweight := decide (setup 13 ≠ 0),
          m_symmetrise := decide (setup 14 ≠ 0),
          m_optimised := decide (setup 15 ≠ 0),
          m_DISgrid := decide (f.Parameters.length > 16 ∧ setup 16 ≠ 0),
          m_fmap := fmap,
          m_weight := fun ip =>
            ((f.weight ip).getD (SparseMatrix3d.mk_empty 0 0 0 0 0 0 0 0 0)).trim }
    else Except.error "igrid::igrid() histogram not found"

/-- How often one call of `setuppdf` invokes the callbacks: `alphas`, and
`NodeCache::evaluate` in the loop over the `y1` nodes and in the loop over the `y2`
nodes. -/
structure callback_calls where
  alphas : Nat
  evaluate_y1 : Nat
  evaluate_y2 : Nat

/-- The callback invocations of `setuppdf`: `alphas` once per `tau` node; `evaluate` once per
node of the `y1` loop that does not take the `continue` of a beam-scaled `x >= 1`; the same
for the `y2` loop when the second pass runs. -/
def igrid.setuppdf_calls (g : igrid K) (pdf1_given : Bool) (beam_scale : K) : callback_calls :=
  let evaluates : K → Bool := fun y =>
    let x := g.fx y
    let scale_beams : Bool := decide (beam_scale ≠ 1)
    let x := if scale_beams then x * beam_scale else x
    !(scale_beams && decide (x ≥ 1))
  let runs_second : Bool := (!g.isSymmetric && !g.isDISgrid) || pdf1_given
  { alphas := g.m_Ntau.toNat,
    evaluate_y1 := g.m_Ntau.toNat *
      ((List.range g.Ny1.toNat).filter fun (iy : Nat) => evaluates (g.gety1 (iy : Int))).length,
    evaluate_y2 :=
      if runs_second then g.m_Ntau.toNat *
        ((List.range g.Ny2.toNat).filter fun (iy : Nat) => evaluates (g.gety2 (iy : Int))).length
      else 0 }

/-- The callback invocations of `amc_convolute`: none when the grid is empty, because the
`return 0` comes before the call of `setuppdf`; those of `setuppdf` otherwise. -/
def igrid.amc_convolute_calls (g : igrid K) (pdf1_given : Bool) (Escale : K) : callback_calls :=
  let size : Int :=
    (List.range g.m_Nproc.toNat).foldl
      (fun size (ip : Nat) => size + (g.m_weight ip).trimmed_xextent) 0
  if size = 0 then ⟨0, 0, 0⟩ else g.setuppdf_calls pdf1_given Escale

/-- The value of `yp` in `_fx2` after `k` passes through the loop body that did not return:
`yp = y` at first, then `yp -= delta/deriv`. -/
def fx2_iterate (m : CMath K) (a y : K) : Nat → K
  | 0 => y
  | (k + 1) =>
    let yp := fx2_iterate m a y k
    let x := m.exp (-yp)
    let delta := y - yp - a * (1 - x)
    let deriv := -1 - a * x
    yp - delta / deriv

/-- The quantity `delta = y - yp - m_transvar*(1-x)` of `_fx2` at `yp`, with
`x = std::exp(-yp)`. -/
def fx2_delta (m : CMath K) (a y yp : K) : K := y - yp - a * (1 - m.exp (-yp))

/-- The transform pair of the grid is the pair that the map of built-in transforms holds
under the name `m_transform`: what the constructors establish by looking the name up. -/
def igrid.transform_registered (m : CMath K) (g : igrid K) : Prop :=
  ∃ fmap, init_fmap m [] = Except.ok fmap ∧
    fmap.lookup g.m_transform = some ⟨g.mfx, g.mfy⟩

/-- `void igrid::fill_phasespace(x1, x2, Q2, weight)`: no interpolation, one cell per
channel. -/
def igrid.fill_phasespace (m : CMath K) (g : igrid K) (x1 x2 Q2 : K) (weight : Nat → K) :
    igrid K :=
  let k1 := g.fk1 x1
  let k2 := g.fk2 x2
  let k3 := igrid.fkappa m g Q2
  { g with
    m_weight :=
      (List.range g.m_Nproc.toNat).foldl (fun w (ip : Nat) =>
        Function.update w ip ((w ip).add_cell k3 k1 k2 (weight ip))) g.m_weight }

/-- The length of the arrays `double _fI1[16]`, `_fI2[16]` and `_fI3[16]` of `fill`. -/
def fill_scratch_length : Nat := 16

/-- The indices of `_fI1` and of `_fI2` that `fill` writes in the loops
`for( int i1=0 ; i1<=m_yorder ; i1++ )` and reads in the nested loops with the same
bounds. -/
def igrid.fill_scratch_indices_y (g : igrid K) : List Nat :=
  List.range (g.m_yorder + 1).toNat

/-- The indices of `_fI3` that `fill` writes and reads: `i3 = 0 .. m_tauorder`. -/
def igrid.fill_scratch_indices_tau (g : igrid K) : List Nat :=
  List.range (g.m_tauorder + 1).toNat

/-- Every index at which `fill` accesses a scratch array is inside that array. -/
def igrid.fill_scratch_in_bounds (g : igrid K) : Prop :=
  (∀ i ∈ g.fill_scratch_indices_y, i < fill_scratch_length) ∧
  (∀ i ∈ g.fill_scratch_indices_tau, i < fill_scratch_length)

instance (g : igrid K) : Decidable g.fill_scratch_in_bounds :=
  inferInstanceAs (Decidable ((∀ i ∈ g.fill_scratch_indices_y, i < fill_scratch_length) ∧
    (∀ i ∈ g.fill_scratch_indices_tau, i < fill_scratch_length)))

/-- `void igrid::fill(x1, x2, Q2, weight)` with the conditions under which the source has a
defined result: the arithmetic of `fk1`, `fk2` and `fkappa` is defined (the nodes are then
the ones `igrid.fill` uses) and every access to `_fI1[16]`, `_fI2[16]` and `_fI3[16]` is
inside the array. There is no value otherwise. -/
def igrid.fill_checked (m : CMath K) (g : igrid K) (x1 x2 Q2 : K) (weight : Nat → K) :
    Option (igrid K) :=
  match g.fk1_checked x1, g.fk2_checked x2, igrid.fkappa_checked m g Q2 with
  | some _, some _, some _ =>
    if g.fill_scratch_in_bounds then some (g.fill m x1 x2 Q2 weight) else none
  | _, _, _ => none

/-- A sequence of `fill` calls on one grid, in order, with the conditions under which
each of them has a defined result. -/
def igrid.fill_all_checked (m : CMath K) (g : igrid K) (S : List (fill_point K)) :
    Option (igrid K) :=
  S.foldlM (fun g p => g.fill_checked m p.x1 p.x2 p.Q2 p.weight) g

/-- The two pointer arrays of `shrink` while its loop runs: the old array `w` and the new
array `m_weight`; `none` is the null pointer. -/
structure shrink_state (K : Type) where
  w : Int → Option (SparseMatrix3d K)
  m_weight : Nat → Option (SparseMatrix3d K)

/-- The loop `for ( unsigned ip=0 ; ip<keep.size() ; ip++ )` of `shrink`:
`m_weight[ip] = w[keep[ip]]; w[keep[ip]] = 0;`. The old array holds the `Nproc` tensors of
the grid; a read outside of it, which the source does not guard, gives `none` here. -/
def igrid.shrink_loop (g : igrid K) (keep : List Int) : shrink_state K :=
  (List.range keep.length).foldl (fun s (ip : Nat) =>
      { w := Function.update s.w (keep.getD ip 0) none,
        m_weight := Function.update s.m_weight ip (s.w (keep.getD ip 0)) })
    { w := fun c => if 0 ≤ c ∧ c < g.m_Nproc then some (g.m_weight c.toNat) else none,
      m_weight := fun _ => none }

/-- The channels whose tensor the loop
`for ( int ip=0 ; ip<Nproc ; ip++ ) if ( w[ip]!=0 ) delete w[ip];` of `shrink` deletes. -/
def igrid.shrink_deleted (g : igrid K) (keep : List Int) : List Nat :=
  (List.range g.m_Nproc.toNat).filter fun (ip : Nat) =>
    ((g.shrink_loop keep).w (ip : Int)).isSome

/-- `bool igrid::shrink( const std::vector<int>& keep )`: the return value and the grid
afterwards. An entry of the new array that is a null pointer reads as an empty tensor. -/
def igrid.shrink (g : igrid K) (keep : List Int) : Bool × igrid K :=
  (true,
    { g with
      m_Nproc := (keep.length : Int),
      m_weight := fun ip =>
        ((g.shrink_loop keep).m_weight ip).getD (SparseMatrix3d.mk_empty 0 0 0 0 0 0 0 0 0) })

/-- The enumerator `gluon` of `enum flavour_map_index : std::size_t` in `applcheck.cpp`,
the seventh of the list. -/
def flavour_map_index.gluon : Nat := 6

/-- The enumerator `photon` of `enum flavour_map_index`, the fourteenth of the list. -/
def flavour_map_index.photon : Nat := 13

/-- `constexpr int index_to_pdg_id(std::size_t index)` of `applcheck.cpp`. -/
def index_to_pdg_id (index : Nat) : Int :=
  if index = flavour_map_index.gluon then 21
  else if index = flavour_map_index.photon then 22
  else (index : Int) - 6

/-- `evolvepdf(x, q, xfx)` of `applcheck.cpp`: `flavour_map` is the global array of 14
flags, `xfxQ` the member `pdf->xfxQ` of the provider, and the result is the array `xfx`
after the call. -/
def evolvepdf (flavour_map : Nat → Bool) (xfxQ : Int → K → K → K) (x q : K)
    (xfx : Nat → K) : Nat → K :=
  (List.range 14).foldl (fun xfx (i : Nat) =>
      if flavour_map i then Function.update xfx i (xfxQ (index_to_pdg_id i) x q)
      else Function.update xfx i 0) xfx

/-- Modelled from the spec: the lower end of the minimal range of indices below `N` that
holds every index at which `p` is true; 0 when there is none, which with `last_index = -1`
is the empty range. -/
def first_index (N : Nat) (p : Nat → Bool) : Int :=
  match (List.range N).filter p with
  | [] => 0
  | i :: _ => (i : Int)

/-- Modelled from the spec: the upper end of the minimal range of indices below `N` that
holds every index at which `p` is true; -1 when there is none. -/
def last_index (N : Nat) (p : Nat → Bool) : Int :=
  match (List.range N).filter p with
  | [] => -1
  | i :: l => (((i :: l).getLast (List.cons_ne_nil i l) : Nat) : Int)

/-- Modelled from the spec: the storage of a `tsparse3d<double>` of logical shape
`(Nx, Ny, Nz)`: the stored range `[xlo, xhi]` of outer indices, for every outer index `i`
the stored rectangle `[ylo i, yhi i] × [zlo i, zhi i]`, and the stored values. A range
whose upper end is below its lower end is empty. -/
@[ext]
structure tsparse3d (K : Type) where
  Nx : Nat
  Ny : Nat
  Nz : Nat
  xlo : Int
  xhi : Int
  ylo : Int → Int
  yhi : Int → Int
  zlo : Int → Int
  zhi : Int → Int
  val : Int → Int → Int → K

/-- Modelled from the spec: whether the cell `(i, j, k)` lies in the stored ranges. -/
def tsparse3d.stored (S : tsparse3d K) (i j k : Int) : Prop :=
  S.xlo ≤ i ∧ i ≤ S.xhi ∧ S.ylo i ≤ j ∧ j ≤ S.yhi i ∧ S.zlo i ≤ k ∧ k ≤ S.zhi i

instance (S : tsparse3d K) (i j k : Int) : Decidable (S.stored i j k) :=
  inferInstanceAs (Decidable
    (S.xlo ≤ i ∧ i ≤ S.xhi ∧ S.ylo i ≤ j ∧ j ≤ S.yhi i ∧ S.zlo i ≤ k ∧ k ≤ S.zhi i))

/-- Modelled from the spec: the non-mutating `operator()(i, j, k)`: the stored value inside
the stored ranges and 0 outside of them. -/
def tsparse3d.read (S : tsparse3d K) (i j k : Int) : K :=
  if S.stored i j k then S.val i j k else 0

/-- Modelled from the spec: whether the layer `i` of the logical shape reads a non-zero
value somewhere. -/
def tsparse3d.layer_nonzero (S : tsparse3d K) (i : Nat) : Bool :=
  (List.range S.Ny).any fun (j : Nat) =>
    (List.range S.Nz).any fun (k : Nat) => decide (S.read (i : Int) (j : Int) (k : Int) ≠ 0)

/-- Modelled from the spec: whether the row `j` of the layer `i` reads a non-zero value. -/
def tsparse3d.row_nonzero (S : tsparse3d K) (i : Int) (j : Nat) : Bool :=
  (List.range S.Nz).any fun (k : Nat) => decide (S.read i (j : Int) (k : Int) ≠ 0)

/-- Modelled from the spec: whether the column `k` of the layer `i` reads a non-zero
value. -/
def tsparse3d.col_nonzero (S : tsparse3d K) (i : Int) (k : Nat) : Bool :=
  (List.range S.Ny).any fun (j : Nat) => decide (S.read i (j : Int) (k : Int) ≠ 0)

/-- Modelled from the spec: `tsparse3d::trim()`: the stored range of outer indices becomes
the minimal range of the layers with a non-zero entry, the rectangle of each layer in it
the minimal bounding box of its non-zero entries, the layers outside are discarded, and the
values inside the new ranges are kept. -/
def tsparse3d.trim (S : tsparse3d K) : tsparse3d K :=
  let xlo := first_index S.Nx S.layer_nonzero
  let xhi := last_index S.Nx S.layer_nonzero
  let ylo : Int → Int := fun i =>
    if xlo ≤ i ∧ i ≤ xhi then first_index S.Ny (S.row_nonzero i) else 0
  let yhi : Int → Int := fun i =>
    if xlo ≤ i ∧ i ≤ xhi then last_index S.Ny (S.row_nonzero i) else -1
  let zlo : Int → Int := fun i =>
    if xlo ≤ i ∧ i ≤ xhi then first_index S.Nz (S.col_nonzero i) else 0
  let zhi : Int → Int := fun i =>
    if xlo ≤ i ∧ i ≤ xhi then last_index S.Nz (S.col_nonzero i) else -1
  { Nx := S.Nx, Ny := S.Ny, Nz := S.Nz,
    xlo := xlo, xhi := xhi, ylo := ylo, yhi := yhi, zlo := zlo, zhi := zhi,
    val := fun i j k =>
      if xlo ≤ i ∧ i ≤ xhi ∧ ylo i ≤ j ∧ j ≤ yhi i ∧ zlo i ≤ k ∧ k ≤ zhi i
      then S.read i j k else 0 }

/-- `void igrid::trim()`: every channel tensor is trimmed. -/
def igrid.trim (g : igrid K) : igrid K :=
  { g with
    m_weight :=
      (List.range g.m_Nproc.toNat).foldl
        (fun w (i : Nat) => Function.update w i (w i).trim) g.m_weight }

/-- Modelled from the spec: whether the row `j` (second index) of the logical shape holds a
non-zero cell. -/
def SparseMatrix3d.row_nonzero (T : SparseMatrix3d K) (j : Nat) : Bool :=
  (List.range T.m_xaxis.N.toNat).any fun (i : Nat) =>
    (List.range T.m_zaxis.N.toNat).any fun (k : Nat) => decide (T.cell i j k ≠ 0)

/-- Modelled from the spec: whether the column `k` (third index) of the logical shape holds
a non-zero cell. -/
def SparseMatrix3d.col_nonzero (T : SparseMatrix3d K) (k : Nat) : Bool :=
  (List.range T.m_xaxis.N.toNat).any fun (i : Nat) =>
    (List.range T.m_yaxis.N.toNat).any fun (j : Nat) => decide (T.cell i j k ≠ 0)

/-- Modelled from the spec: `xmin()` of a trimmed tensor, the lower end of the minimal
range of outer indices that holds the non-zero entries. -/
def SparseMatrix3d.xmin (T : SparseMatrix3d K) : Int :=
  first_index T.m_xaxis.N.toNat T.layer_nonzero

/-- Modelled from the spec: `xmax()` of a trimmed tensor. -/
def SparseMatrix3d.xmax (T : SparseMatrix3d K) : Int :=
  last_index T.m_xaxis.N.toNat T.layer_nonzero

/-- Modelled from the spec: `ymin()` of a trimmed tensor, the lower end of the bounding box
of the non-zero entries in the second index. -/
def SparseMatrix3d.ymin (T : SparseMatrix3d K) : Int :=
  first_index T.m_yaxis.N.toNat T.row_nonzero

/-- Modelled from the spec: `ymax()` of a trimmed tensor. -/
def SparseMatrix3d.ymax (T : SparseMatrix3d K) : Int :=
  last_index T.m_yaxis.N.toNat T.row_nonzero

/-- Modelled from the spec: `zmin()` of a trimmed tensor, the lower end of the bounding box
of the non-zero entries in the third index. -/
def SparseMatrix3d.zmin (T : SparseMatrix3d K) : Int :=
  first_index T.m_zaxis.N.toNat T.col_nonzero

/-- Modelled from the spec: `zmax()` of a trimmed tensor. -/
def SparseMatrix3d.zmax (T : SparseMatrix3d K) : Int :=
  last_index T.m_zaxis.N.toNat T.col_nonzero

/-- `isOptimised()` of the class declaration: the flag `m_optimised`. -/
def igrid.isOptimised (g : igrid K) : Bool := g.m_optimised

/-- The local variables `y1setmin, y1setmax, y2setmin, y2setmax, tausetmin, tausetmax` of
`optimise`. -/
structure optimise_limits where
  y1setmin : Int
  y1setmax : Int
  y2setmin : Int
  y2setmax : Int
  tausetmin : Int
  tausetmax : Int

/-- The loop `for ( int ip=0 ; ip<m_Nproc ; ip++ )` of `optimise` that finds the limits of
the filled cells: an empty channel is skipped, every other one lowers the minima and raises
the maxima. -/
def igrid.optimise_find_limits (g : igrid K) : optimise_limits :=
  (List.range g.m_Nproc.toNat).foldl (fun (L : optimise_limits) (ip : Nat) =>
      if (g.m_weight ip).xmax - (g.m_weight ip).xmin + 1 = 0 then L
      else
        let ymin1 := (g.m_weight ip).ymin
        let ymax1 := (g.m_weight ip).ymax
        let ymin2 := (g.m_weight ip).zmin
        let ymax2 := (g.m_weight ip).zmax
        let taumin := (g.m_weight ip).xmin
        let taumax := (g.m_weight ip).xmax
        { y1setmin := if ymin1 < L.y1setmin then ymin1 else L.y1setmin,
          y1setmax := if ymin1 ≤ ymax1 ∧ L.y1setmax < ymax1 then ymax1 else L.y1setmax,
          y2setmin := if ymin2 < L.y2setmin then ymin2 else L.y2setmin,
          y2setmax := if ymin2 ≤ ymax2 ∧ L.y2setmax < ymax2 then ymax2 else L.y2setmax,
          tausetmin := if taumin < L.tausetmin then taumin else L.tausetmin,
          tausetmax :=
            if taumin ≤ taumax ∧ taumax > L.tausetmax then taumax else L.tausetmax })
    { y1setmin := g.Ny1, y1setmax := -1, y2setmin := g.Ny2, y2setmax := -1,
      tausetmin := g.Ntau, tausetmax := -1 }

/-- The widening of one pair of limits in the `else` branch of `optimise`, which the
source writes out for `y1`, `y2` and `tau` in turn with the node count `N` and the
interpolation order of the axis: one node on each side for a grid that is already
optimised; otherwise `order + 1` nodes above and one node below. -/
def optimise_widen (optimised : Bool) (setmin setmax N order : Int) : Int × Int :=
  if optimised then
    (if setmin > 0 then setmin - 1 else setmin,
      if setmax < N - 1 then setmax + 1 else setmax)
  else
    let setmax := setmax + (order + 1)
    let setmin := if setmin > 0 then setmin - 1 else setmin
    let setmax := if setmax ≥ N then N - 1 else setmax
    (setmin, setmax)

/-- `void igrid::optimise(int NQ2, int Nx1, int Nx2)`. -/
def igrid.optimise (g : igrid K) (NQ2 Nx1 Nx2 : Int) : igrid K :=
  let g := g.trim
  let L := g.optimise_find_limits
  let g1 : igrid K :=
    if L.y1setmax = -1 ∨ L.y2setmax = -1 ∨ L.tausetmax = -1 then
      { g with
        m_Ny1 := Nx1, m_Ny2 := Nx2, m_Ntau := NQ2,
        m_deltay1 := (g.m_y1max - g.m_y1min) / (((Nx1 - 1 : Int)) : K),
        m_deltay2 := (g.m_y2max - g.m_y2min) / (((Nx2 - 1 : Int)) : K),
        m_deltatau := (g.m_taumax - g.m_taumin) / (((NQ2 - 1 : Int)) : K) }
    else
      let y1 := optimise_widen g.isOptimised L.y1setmin L.y1setmax g.m_Ny1 g.m_yorder
      let y2 := optimise_widen g.isOptimised L.y2setmin L.y2setmax g.m_Ny2 g.m_yorder
      let tau := optimise_widen g.isOptimised L.tausetmin L.tausetmax g.m_Ntau g.m_tauorder
      { g with
        m_Ny1 := Nx1, m_y1min := g.gety1 y1.1, m_y1max := g.gety1 y1.2,
        m_deltay1 := (g.gety1 y1.2 - g.gety1 y1.1) / (((Nx1 - 1 : Int)) : K),
        m_Ny2 := Nx2, m_y2min := g.gety2 y2.1, m_y2max := g.gety2 y2.2,
        m_deltay2 := (g.gety2 y2.2 - g.gety2 y2.1) / (((Nx2 - 1 : Int)) : K),
        m_Ntau := NQ2, m_taumin := g.gettau tau.1, m_taumax := g.gettau tau.2,
        m_deltatau := (g.gettau tau.2 - g.gettau tau.1) / (((NQ2 - 1 : Int)) : K) }
  { g1 with
    m_weight := fun ip =>
      if (ip : Int) < g1.m_Nproc then
        SparseMatrix3d.mk_empty g1.m_Ntau g1.m_taumin g1.m_taumax g1.m_Ny1 g1.m_y1min
          g1.m_y1max g1.m_Ny2 g1.m_y2min g1.m_y2max
      else g1.m_weight ip,
    m_optimised := true }

/-- Whether some channel of the grid holds a non-zero cell with the `y1` index `j`. -/
def igrid.populated_y1 (g : igrid K) (j : Nat) : Bool :=
  (List.range g.m_Nproc.toNat).any fun (ip : Nat) => (g.m_weight ip).row_nonzero j

/-- Whether some channel of the grid holds a non-zero cell with the `y2` index `k`. -/
def igrid.populated_y2 (g : igrid K) (k : Nat) : Bool :=
  (List.range g.m_Nproc.toNat).any fun (ip : Nat) => (g.m_weight ip).col_nonzero k

/-- Whether some channel of the grid holds a non-zero cell with the `tau` index `i`. -/
def igrid.populated_tau (g : igrid K) (i : Nat) : Bool :=
  (List.range g.m_Nproc.toNat).any fun (ip : Nat) => (g.m_weight ip).layer_nonzero i

/-- A grid of 10 nodes over `[0, 9]` on each axis with interpolation order 1 and one
channel, not optimised, whose only non-zero cell is `(3, 3, 3)`. -/
def single_cell_grid : igrid ℚ :=
  { uniform_grid (fun _ x => -x) (fun _ y => -y) 10 0 9 1 1 with
    m_weight := fun _ => (SparseMatrix3d.mk_empty 10 0 9 10 0 9 10 0 9).add_cell 3 3 3 1 }

/-- The static variables of `fac`: `static int ntop` and `static double f[34]`. -/
structure fac_state (K : Type) where
  ntop : Int
  f : Nat → K

/-- The initial values `ntop = 4` and `f[34] = { 1, 1, 2, 6, 24 }`; the elements of the
array that the initialiser does not list are zero. -/
def fac_state.init : fac_state K :=
  { ntop := 4,
    f := fun n =>
      match n with
      | 0 => 1
      | 1 => 1
      | 2 => 2
      | 3 => 6
      | 4 => 24
      | _ => 0 }

/-- The loop `while ( ntop<i ) { j=ntop++; f[ntop]=f[j]*ntop; }` of `fac`. -/
def fac_loop (i : Int) (s : fac_state K) : fac_state K :=
  if s.ntop < i then
    fac_loop i
      { ntop := s.ntop + 1,
        f := Function.update s.f (s.ntop + 1).toNat
          (s.f s.ntop.toNat * ((s.ntop + 1 : Int) : K)) }
  else s
termination_by (i - s.ntop).toNat
decreasing_by
  show (i - (s.ntop + 1)).toNat < (i - s.ntop).toNat
  omega

/-- `double fac(int i)` with its static variables: the value returned and the state the
call leaves. -/
def fac_call (s : fac_state K) (i : Int) : K × fac_state K :=
  if i < 0 then (0, s)
  else if i > 33 then (0, s)
  else
    let s := fac_loop i s
    (s.f i.toNat, s)

/-- The static variables of `fac` after the calls `fac(i)` for the `i` of a list, in
order, from the start of the program. -/
def fac_history (calls : List Int) : fac_state K :=
  calls.foldl (fun s i => (fac_call s i).2) fac_state.init

/-- Modelled from the spec: the copy constructor `SparseMatrix3d(const SparseMatrix3d& s)`,
declared in `SparseMatrix3d.h` and defined outside `src/`: the copy carries the axes and
the cells of `s`. -/
def SparseMatrix3d.copy (s : SparseMatrix3d K) : SparseMatrix3d K :=
  { m_xaxis := s.m_xaxis, m_yaxis := s.m_yaxis, m_zaxis := s.m_zaxis, cell := s.cell }

/-- The copy constructor `igrid(const igrid& g)`. Its initialiser list names every data
member of `g` except `m_DISgrid`, and the body does not assign that member either, so the
new object keeps whatever value the member has without initialisation: the argument
`indeterminate`. The result is an error when the constructor throws. -/
def igrid.copy (m : CMath K) (g : igrid K) (indeterminate : Bool) :
    Except String (igrid K) := do
  let fmap ← init_fmap m []
  match fmap.lookup g.m_transform with
  | none => Except.error ("igrid::igrid() transform " ++ g.m_transform ++ " not found\n")
  | some t =>
    Except.ok
      { mfy := t.mfy, mfx := t.mfx,
        m_Ny1 := g.m_Ny1,
        m_y1min := g.m_y1min, m_y1max := g.m_y1max, m_deltay1 := g.m_deltay1,
        m_Ny2 := g.m_Ny2,
        m_y2min := g.m_y2min, m_y2max := g.m_y2max, m_deltay2 := g.m_deltay2,
        m_yorder := g.m_yorder,
        m_Ntau := g.m_Ntau,
        m_taumin := g.m_taumin, m_taumax := g.m_taumax, m_deltatau := g.m_deltatau,
        m_tauorder := g.m_tauorder,
        m_Nproc := g.m_Nproc,
        m_transform := g.m_transform,
        m_transvar := g.m_transvar,
        m_reweight := g.m_reweight,
        m_symmetrise := g.m_symmetrise,
        m_optimised := g.m_optimised,
        m_DISgrid := indeterminate,
        m_fmap := fmap,
        m_weight :=
          (List.range g.m_Nproc.toNat).foldl
            (fun w (ip : Nat) => Function.update w ip (g.m_weight ip).copy)
            (fun _ => SparseMatrix3d.mk_empty 0 0 0 0 0 0 0 0 0) }

/-- The quotient `(max - min)/(N - 1)` of a `double` by an `int` as the source writes it
where no test precedes it: for `N - 1 = 0` it is a division by zero, which has no finite
value (an infinity, or a NaN when `max = min`) and is `none` here. -/
def spacing_quotient (min max : K) (N : Int) : Option K :=
  if N - 1 = 0 then none else some ((max - min) / (((N - 1 : Int)) : K))

/-- The assignment of one spacing in the standard constructor:
`if ( m_Ny1>1 ) m_deltay1 = (m_y1max-m_y1min)/(m_Ny1-1); else m_deltay1 = 0;`. -/
def standard_spacing (min max : K) (N : Int) : Option K :=
  if N > 1 then spacing_quotient min max N else some 0

/-- The spacings `(m_deltay1, m_deltay2, m_deltatau)` as the standard constructor computes
them from the members `g` holds. -/
def igrid.guarded_spacings (g : igrid K) : Option (K × K × K) := do
  let d1 ← standard_spacing g.m_y1min g.m_y1max g.m_Ny1
  let d2 ← standard_spacing g.m_y2min g.m_y2max g.m_Ny2
  let dt ← standard_spacing g.m_taumin g.m_taumax g.m_Ntau
  some (d1, d2, dt)

/-- `igrid& igrid::operator+=(const igrid& g)` with the state in which it leaves the
receiver: the flag tells whether the call ended in the `throw`, and the tensors are those
of the receiver at that moment, the channels before the failing one already added to. -/
def igrid.add_assign_state (g h : igrid K) : Bool × igrid K :=
  let s := (List.range g.m_Nproc.toNat).foldl
    (fun (s : Bool × (Nat → SparseMatrix3d K)) (ip : Nat) =>
      if s.1 then s
      else if (s.2 ip).compare_axes (h.m_weight ip) then
        (false, Function.update s.2 ip ((s.2 ip).add (h.m_weight ip)))
      else (true, s.2)) (false, g.m_weight)
  (s.1, { g with m_weight := s.2 })

/-- The index `(i*Ny()+j)*Nz()+k` into the table `m_fastindex` that `fill_fast(i, j, k)`
dereferences. -/
def fill_fast_index (Ny Nz i j k : Int) : Int := (i * Ny + j) * Nz + k

/-- What a call of `SparseMatrix3d::fill` touches. -/
inductive fill_access where
  | skipped : fill_access
  | fast (index : Int) : fill_access
  | slow (i j k : Int) : fill_access
deriving DecidableEq

/-- `void fill(double x, double y, double z, double w)` of `SparseMatrix3d`, from the
bins `i`, `j`, `k` that `xaxis().bin(x)`, `yaxis().bin(y)` and `zaxis().bin(z)` return and
the shape `Nx()`, `Ny()`, `Nz()`: the call returns at once for a bin outside the shape; it
adds `w` through the table when `m_fastindex` is set and through `operator()`
otherwise. -/
def SparseMatrix3d.fill (Nx Ny Nz : Int) (m_fastindex : Bool) (i j k : Int) : fill_access :=
  if i < 0 ∨ i ≥ Nx ∨ j < 0 ∨ j ≥ Ny ∨ k < 0 ∨ k ≥ Nz then fill_access.skipped
  else if m_fastindex then fill_access.fast (fill_fast_index Ny Nz i j k)
  else fill_access.slow i j k

end defs

/-! ## Theorems -/

section thms

variable {K : Type} [LinearOrderedField K] [FloorRing K]

/-! ### Node selectors -/

theorem toInt_of_nonneg {x : K} (h : 0 ≤ x) : toInt x = ⌊x⌋ := by
  simp [toInt, h]

theorem toInt_of_neg {x : K} (h : x < 0) : toInt x = ⌈x⌉ := by
  simp [toInt, not_le.mpr h]

/-- The cast of `v - h` for an integer `h`: either it is the non-negative `⌊v⌋ - h`, or both
it and `⌊v⌋ - h` are at most zero, the latter strictly. -/
theorem toInt_sub_int (v : K) (h : Int) :
    (0 ≤ ⌊v⌋ - h ∧ toInt (v - (h : K)) = ⌊v⌋ - h) ∨
    (⌊v⌋ - h < 0 ∧ toInt (v - (h : K)) ≤ 0) := by
  by_cases hx : 0 ≤ v - (h : K)
  · left
    rw [toInt_of_nonneg hx, Int.floor_sub_int]
    refine ⟨?_, rfl⟩
    have := Int.floor_nonneg.mpr hx
    rwa [Int.floor_sub_int] at this
  · right
    have hx2 : v - (h : K) < 0 := not_le.mp hx
    rw [toInt_of_neg hx2]
    constructor
    · have : ⌊v - (h : K)⌋ < 0 := by
        rw [Int.floor_lt]; simpa using hx2
      rwa [Int.floor_sub_int] at this
    · rw [Int.ceil_le]; simpa using hx2.le

/-- The clamping of `fk1` and `fk2` (lower bound first) computes the clamp of the spec. -/
theorem sel_lower_first (v : K) (h N p : Int) (hN : p ≤ N - 1) :
    (if (if toInt (v - (h : K)) < 0 then 0 else toInt (v - (h : K))) + p ≥ N then N - 1 - p
      else (if toInt (v - (h : K)) < 0 then 0 else toInt (v - (h : K))))
      = max 0 (min (⌊v⌋ - h) (N - 1 - p)) := by
  rcases toInt_sub_int v h with ⟨h1, h2⟩ | ⟨h1, h2⟩
  · rw [h2]; split_ifs <;> omega
  · split_ifs <;> omega

/-- The clamping of `fkappa` (upper bound first) computes the clamp of the spec. -/
theorem sel_upper_first (v : K) (h N p : Int) (hN : p ≤ N - 1) :
    (if (if toInt (v - (h : K)) + p ≥ N then N - 1 - p else toInt (v - (h : K))) < 0 then 0
      else (if toInt (v - (h : K)) + p ≥ N then N - 1 - p else toInt (v - (h : K))))
      = max 0 (min (⌊v⌋ - h) (N - 1 - p)) := by
  rcases toInt_sub_int v h with ⟨h1, h2⟩ | ⟨h1, h2⟩
  · rw [h2]; split_ifs <;> omega
  · split_ifs <;> omega

theorem shiftRight_one (p : Int) : p >>> (1 : Nat) = p / 2 := by
  rw [Int.shiftRight_eq_div_pow]; norm_num

theorem ceil_sub_half (idx p : Int) : ⌈(idx : K) - (p : K) / 2⌉ = idx - p / 2 := by
  rw [Int.ceil_eq_iff]
  have h2 : (p : K) = ((2 * (p / 2) + p % 2 : Int) : K) := by
    rw [Int.ediv_add_emod]
  have h3 : 0 ≤ p % 2 := Int.emod_nonneg _ (by norm_num)
  have h5 : (0 : K) ≤ ((p % 2 : Int) : K) := by exact_mod_cast h3
  have h6 : ((p % 2 : Int) : K) ≤ 1 := by
    have : p % 2 ≤ 1 := by omega
    exact_mod_cast this
  rw [h2]
  push_cast
  constructor <;> linarith

theorem fk1_eq_spec (g : igrid K) (x : K) (hp : g.m_yorder ≤ g.Ny1 - 1) :
    g.fk1 x = lower_node_spec g.y1min g.deltay1 g.Ny1 g.m_yorder (g.fy x) := by
  unfold igrid.fk1 lower_node_spec
  simp only [shiftRight_one]
  exact sel_lower_first _ _ _ _ hp

theorem fk2_eq_spec (g : igrid K) (x : K) (hp : g.m_yorder ≤ g.Ny2 - 1) :
    g.fk2 x = lower_node_spec g.y2min g.deltay2 g.Ny2 g.m_yorder (g.fy x) := by
  unfold igrid.fk2 lower_node_spec
  simp only [shiftRight_one]
  exact sel_lower_first _ _ _ _ hp

theorem fkappa_eq_spec (m : CMath K) (g : igrid K) (Q2 : K)
    (hp : g.m_tauorder ≤ g.Ntau - 1) :
    igrid.fkappa m g Q2
      = lower_node_spec g.taumin g.deltatau g.Ntau g.m_tauorder (ftau m Q2) := by
  unfold igrid.fkappa lower_node_spec
  simp only [shiftRight_one]
  exact sel_upper_first _ _ _ _ hp

theorem toInt_nonneg_of_nonneg (q : K) (h : 0 ≤ q) : toInt q = ⌊q⌋ ∧ 0 ≤ toInt q := by
  unfold toInt
  rw [if_pos h]
  exact ⟨rfl, Int.floor_nonneg.mpr h⟩

theorem toInt_nonpos_of_neg (q : K) (h : q < 0) : toInt q = ⌈q⌉ ∧ toInt q ≤ 0 := by
  unfold toInt
  rw [if_neg (not_le.mpr h)]
  refine ⟨rfl, ?_⟩
  rw [Int.ceil_le]
  simpa using h.le

/-- The truncated value of a double inside the domain of the cast is an `int`. -/
theorem toInt_int_range (q : K) (h : int_cast_defined q) :
    -2147483648 ≤ toInt q ∧ toInt q ≤ 2147483647 := by
  obtain ⟨h1, h2⟩ := h
  rcases le_or_lt 0 q with hq | hq
  · obtain ⟨e, h0⟩ := toInt_nonneg_of_nonneg q hq
    refine ⟨by omega, ?_⟩
    have : ⌊q⌋ < 2147483648 := by
      rw [Int.floor_lt]
      exact_mod_cast h2
    omega
  · obtain ⟨e, h0⟩ := toInt_nonpos_of_neg q hq
    refine ⟨?_, by omega⟩
    have : -2147483649 < ⌈q⌉ := by
      rw [Int.lt_ceil]
      exact_mod_cast h1
    omega

/-- The sum `k+order` of a selector that clamps at 0 first: it overflows exactly when the
operand plus the order reaches `2^31`. -/
theorem int_checked_sum_lower_first (q : K) (p : Int) (h0 : 0 ≤ p) (hp : p ≤ 2147483647)
    (_hc : int_cast_defined q) :
    int_checked ((if toInt q < 0 then 0 else toInt q) + p)
      = if q + (p : K) < 2147483648 then some ((if toInt q < 0 then 0 else toInt q) + p)
        else none := by
  unfold int_checked
  rcases le_or_lt 0 q with hq | hq
  · obtain ⟨e, hk⟩ := toInt_nonneg_of_nonneg q hq
    rw [if_neg (not_lt.mpr hk)]
    have hiff : (toInt q + p ≤ 2147483647) ↔ q + (p : K) < 2147483648 := by
      rw [e]
      have h1 : (⌊q⌋ + p ≤ 2147483647) ↔ ⌊q⌋ < 2147483648 - p := by omega
      rw [h1, Int.floor_lt]
      push_cast
      constructor <;> intro h <;> linarith
    by_cases h : q + (p : K) < 2147483648
    · rw [if_pos h, if_pos ⟨by omega, hiff.2 h⟩]
    · rw [if_neg h, if_neg (fun hh => h (hiff.1 hh.2))]
  · obtain ⟨e, hk⟩ := toInt_nonpos_of_neg q hq
    have hz : (if toInt q < 0 then 0 else toInt q) = 0 := by
      split_ifs <;> omega
    rw [hz]
    have hpK : (p : K) ≤ 2147483647 := by exact_mod_cast hp
    rw [if_pos (by omega), if_pos (by linarith)]

/-- The sum `kappa+order` of a selector that clamps at 0 last. -/
theorem int_checked_sum_upper_first (q : K) (p : Int) (h0 : 0 ≤ p) (hp : p ≤ 2147483647)
    (hc : int_cast_defined q) :
    int_checked (toInt q + p)
      = if q + (p : K) < 2147483648 then some (toInt q + p) else none := by
  unfold int_checked
  have hr := toInt_int_range q hc
  rcases le_or_lt 0 q with hq | hq
  · obtain ⟨e, hk⟩ := toInt_nonneg_of_nonneg q hq
    have hiff : (toInt q + p ≤ 2147483647) ↔ q + (p : K) < 2147483648 := by
      rw [e]
      have h1 : (⌊q⌋ + p ≤ 2147483647) ↔ ⌊q⌋ < 2147483648 - p := by omega
      rw [h1, Int.floor_lt]
      push_cast
      constructor <;> intro h <;> linarith
    by_cases h : q + (p : K) < 2147483648
    · rw [if_pos h, if_pos ⟨by omega, hiff.2 h⟩]
    · rw [if_neg h, if_neg (fun hh => h (hiff.1 hh.2))]
  · obtain ⟨e, hk⟩ := toInt_nonpos_of_neg q hq
    have hpK : (p : K) ≤ 2147483647 := by exact_mod_cast hp
    rw [if_pos (by omega), if_pos (by linarith)]

/-- The checked selector `fk1`, for an order that is a non-negative `int`: the value of
`fk1` where its arithmetic is defined, and no value elsewhere. -/
theorem fk1_checked_eq (g : igrid K) (x : K) (h0 : 0 ≤ g.m_yorder)
    (hp : g.m_yorder ≤ 2147483647) :
    g.fk1_checked x = if g.fk1_defined x then some (g.fk1 x) else none := by
  by_cases hd : g.deltay1 = 0
  · have e1 : double_div (g.fy x - g.y1min) g.deltay1 = none := if_pos hd
    have hn : ¬ g.fk1_defined x := fun h => h.1 hd
    unfold igrid.fk1_checked
    simp only []
    rw [e1, if_neg hn]
    rfl
  · have e1 : double_div (g.fy x - g.y1min) g.deltay1
        = some ((g.fy x - g.y1min) / g.deltay1) := if_neg hd
    unfold igrid.fk1_checked
    simp only []
    rw [e1, Option.some_bind]
    by_cases hc : int_cast_defined (g.fk1_operand x)
    · have e2 : int_cast ((g.fy x - g.y1min) / g.deltay1 -
          ((g.m_yorder >>> (1 : Nat) : Int) : K))
          = some (toInt (g.fk1_operand x)) := if_pos hc
      rw [e2, Option.some_bind]
      rw [int_checked_sum_lower_first _ _ h0 hp hc]
      by_cases hs : g.fk1_operand x + (g.m_yorder : K) < 2147483648
      · have hdef : g.fk1_defined x := ⟨hd, hc, hs⟩
        rw [if_pos hs, if_pos hdef]
        rfl
      · have hn : ¬ g.fk1_defined x := fun h => hs h.2.2
        rw [if_neg hs, if_neg hn]
        rfl
    · have hn : ¬ g.fk1_defined x := fun h => hc h.2.1
      have e2 : int_cast ((g.fy x - g.y1min) / g.deltay1 -
          ((g.m_yorder >>> (1 : Nat) : Int) : K)) = none := if_neg hc
      rw [e2, if_neg hn]
      rfl

theorem fk2_checked_eq (g : igrid K) (x : K) (h0 : 0 ≤ g.m_yorder)
    (hp : g.m_yorder ≤ 2147483647) :
    g.fk2_checked x = if g.fk2_defined x then some (g.fk2 x) else none := by
  by_cases hd : g.deltay2 = 0
  · have e1 : double_div (g.fy x - g.y2min) g.deltay2 = none := if_pos hd
    have hn : ¬ g.fk2_defined x := fun h => h.1 hd
    unfold igrid.fk2_checked
    simp only []
    rw [e1, if_neg hn]
    rfl
  · have e1 : double_div (g.fy x - g.y2min) g.deltay2
        = some ((g.fy x - g.y2min) / g.deltay2) := if_neg hd
    unfold igrid.fk2_checked
    simp only []
    rw [e1, Option.some_bind]
    by_cases hc : int_cast_defined (g.fk2_operand x)
    · have e2 : int_cast ((g.fy x - g.y2min) / g.deltay2 -
          ((g.m_yorder >>> (1 : Nat) : Int) : K))
          = some (toInt (g.fk2_operand x)) := if_pos hc
      rw [e2, Option.some_bind]
      rw [int_checked_sum_lower_first _ _ h0 hp hc]
      by_cases hs : g.fk2_operand x + (g.m_yorder : K) < 2147483648
      · have hdef : g.fk2_defined x := ⟨hd, hc, hs⟩
        rw [if_pos hs, if_pos hdef]
        rfl
      · have hn : ¬ g.fk2_defined x := fun h => hs h.2.2
        rw [if_neg hs, if_neg hn]
        rfl
    · have hn : ¬ g.fk2_defined x := fun h => hc h.2.1
      have e2 : int_cast ((g.fy x - g.y2min) / g.deltay2 -
          ((g.m_yorder >>> (1 : Nat) : Int) : K)) = none := if_neg hc
      rw [e2, if_neg hn]
      rfl

theorem fkappa_checked_eq (m : CMath K) (g : igrid K) (Q2 : K) (h0 : 0 ≤ g.m_tauorder)
    (hp : g.m_tauorder ≤ 2147483647) :
    igrid.fkappa_checked m g Q2
      = if igrid.fkappa_defined m g Q2 then some (igrid.fkappa m g Q2) else none := by
  by_cases hd : g.deltatau = 0
  · have e1 : double_div (ftau m Q2 - g.taumin) g.deltatau = none := if_pos hd
    have hn : ¬ igrid.fkappa_defined m g Q2 := fun h => h.1 hd
    unfold igrid.fkappa_checked
    simp only []
    rw [e1, if_neg hn]
    rfl
  · have e1 : double_div (ftau m Q2 - g.taumin) g.deltatau
        = some ((ftau m Q2 - g.taumin) / g.deltatau) := if_neg hd
    unfold igrid.fkappa_checked
    simp only []
    rw [e1, Option.some_bind]
    by_cases hc : int_cast_defined (igrid.fkappa_operand m g Q2)
    · have e2 : int_cast ((ftau m Q2 - g.taumin) / g.deltatau -
          ((g.m_tauorder >>> (1 : Nat) : Int) : K))
          = some (toInt (igrid.fkappa_operand m g Q2)) := if_pos hc
      rw [e2, Option.some_bind]
      rw [int_checked_sum_upper_first _ _ h0 hp hc]
      by_cases hs : igrid.fkappa_operand m g Q2 + (g.m_tauorder : K) < 2147483648
      · have hdef : igrid.fkappa_defined m g Q2 := ⟨hd, hc, hs⟩
        rw [if_pos hs, if_pos hdef]
        rfl
      · have hn : ¬ igrid.fkappa_defined m g Q2 := fun h => hs h.2.2
        rw [if_neg hs, if_neg hn]
        rfl
    · have hn : ¬ igrid.fkappa_defined m g Q2 := fun h => hc h.2.1
      have e2 : int_cast ((ftau m Q2 - g.taumin) / g.deltatau -
          ((g.m_tauorder >>> (1 : Nat) : Int) : K)) = none := if_neg hc
      rw [e2, if_neg hn]
      rfl

/-- Outside the domain of the cast the selectors have no value, whatever the order. -/
theorem fk1_checked_none (g : igrid K) (x : K) (h : ¬ int_cast_defined (g.fk1_operand x)) :
    g.fk1_checked x = none := by
  unfold igrid.fk1_checked double_div int_cast
  unfold igrid.fk1_operand at h
  by_cases hd : g.deltay1 = 0
  · simp [hd]
  · simp [hd, h]

theorem fk2_checked_none (g : igrid K) (x : K) (h : ¬ int_cast_defined (g.fk2_operand x)) :
    g.fk2_checked x = none := by
  unfold igrid.fk2_checked double_div int_cast
  unfold igrid.fk2_operand at h
  by_cases hd : g.deltay2 = 0
  · simp [hd]
  · simp [hd, h]

theorem fkappa_checked_none (m : CMath K) (g : igrid K) (Q2 : K)
    (h : ¬ int_cast_defined (igrid.fkappa_operand m g Q2)) :
    igrid.fkappa_checked m g Q2 = none := by
  unfold igrid.fkappa_checked double_div int_cast
  unfold igrid.fkappa_operand at h
  by_cases hd : g.deltatau = 0
  · simp [hd]
  · simp [hd, h]

/-- C3 (amended): on every axis with spacing `delta > 0`, a node count `N` that is an
`int` and an order `0 ≤ p ≤ N - 1`, the node selectors `fk1`, `fk2` and `fkappa` return
`clamp(⌊(y - ymin)/delta⌋ - ⌊p/2⌋, 0, N-1-p)`, although they truncate toward zero and clamp
in different orders, for every coordinate `y` at which their `int` arithmetic is defined:
the operand `q = (y - ymin)/delta - ⌊p/2⌋` of the cast lies strictly between `-2^31 - 1`
and `2^31` and `q + p < 2^31`. For any other coordinate the selector has no defined value
(and none at all where the cast is undefined, whatever the axis). When the clamp does not
act, the value is `⌈idx - p/2⌉` with `idx = ⌊(y - ymin)/delta⌋`. Each axis stands under
its own hypotheses. -/
theorem node_selectors_eq_clamp (m : CMath K) (g : igrid K) (x1 x2 Q2 : K) :
    (0 < g.deltay1 → 0 ≤ g.m_yorder → g.Ny1 - 1 ≥ g.m_yorder → g.Ny1 ≤ 2147483647 →
      g.fk1_checked x1
        = if g.fk1_defined x1
          then some (lower_node_spec g.y1min g.deltay1 g.Ny1 g.m_yorder (g.fy x1))
          else none) ∧
    (0 < g.deltay2 → 0 ≤ g.m_yorder → g.Ny2 - 1 ≥ g.m_yorder → g.Ny2 ≤ 2147483647 →
      g.fk2_checked x2
        = if g.fk2_defined x2
          then some (lower_node_spec g.y2min g.deltay2 g.Ny2 g.m_yorder (g.fy x2))
          else none) ∧
    (0 < g.deltatau → 0 ≤ g.m_tauorder → g.Ntau - 1 ≥ g.m_tauorder →
      g.Ntau ≤ 2147483647 →
      igrid.fkappa_checked m g Q2
        = if igrid.fkappa_defined m g Q2
          then some (lower_node_spec g.taumin g.deltatau g.Ntau g.m_tauorder (ftau m Q2))
          else none) ∧
    ((¬ int_cast_defined (g.fk1_operand x1) → g.fk1_checked x1 = none) ∧
      (¬ int_cast_defined (g.fk2_operand x2) → g.fk2_checked x2 = none) ∧
      (¬ int_cast_defined (igrid.fkappa_operand m g Q2) →
        igrid.fkappa_checked m g Q2 = none)) ∧
    (∀ (ymin delta : K) (N p : Int) (y : K),
      0 ≤ ⌊(y - ymin) / delta⌋ - p / 2 → ⌊(y - ymin) / delta⌋ - p / 2 ≤ N - 1 - p →
      lower_node_spec ymin delta N p y
        = ⌈((⌊(y - ymin) / delta⌋ : Int) : K) - (p : K) / 2⌉) := by
  refine ⟨fun _ h0 hp hN => ?_, fun _ h0 hp hN => ?_, fun _ h0 hp hN => ?_,
    ⟨fk1_checked_none g x1, fk2_checked_none g x2, fkappa_checked_none m g Q2⟩, ?_⟩
  · rw [fk1_checked_eq g x1 h0 (by omega), fk1_eq_spec g x1 hp]
  · rw [fk2_checked_eq g x2 h0 (by omega), fk2_eq_spec g x2 hp]
  · rw [fkappa_checked_eq m g Q2 h0 (by omega), fkappa_eq_spec m g Q2 hp]
  · intro ymin delta N p y h0 h1
    rw [ceil_sub_half]
    unfold lower_node_spec
    omega

/-- The grid of 5 nodes over `[0, 4]` with order 2 and the transform `y = -x`: the
spacing is 1, and the operand of the cast of `fk1` at `x` is `-x - 1`. -/
theorem linear_grid_facts (x : ℚ) :
    (0 : ℚ) < (uniform_grid (fun _ x => -x) (fun _ y => -y) 5 0 4 2 1 : igrid ℚ).deltay1 ∧
    (uniform_grid (fun _ x => -x) (fun _ y => -y) 5 0 4 2 1 : igrid ℚ).fk1_operand x
      = -x - 1 ∧
    (uniform_grid (fun _ x => -x) (fun _ y => -y) 5 0 4 2 1 : igrid ℚ).fy x = -x ∧
    ((uniform_grid (fun _ x => -x) (fun _ y => -y) 5 0 4 2 1 : igrid ℚ).y1min = 0 ∧
      (uniform_grid (fun _ x => -x) (fun _ y => -y) 5 0 4 2 1 : igrid ℚ).deltay1 = 1 ∧
      (uniform_grid (fun _ x => -x) (fun _ y => -y) 5 0 4 2 1 : igrid ℚ).Ny1 = 5 ∧
      (uniform_grid (fun _ x => -x) (fun _ y => -y) 5 0 4 2 1 : igrid ℚ).m_yorder = 2) := by
  have e0 : ((2 : Int) >>> (1 : Nat)) = 1 := by decide
  have hd : (uniform_grid (fun _ x => -x) (fun _ y => -y) 5 0 4 2 1 : igrid ℚ).deltay1 = 1 := by
    simp only [uniform_grid, igrid.construct, igrid.deltay1, SparseMatrix3d.mk_empty,
      axis.delta]
    norm_num
  refine ⟨by rw [hd]; norm_num, ?_, rfl, rfl, hd, rfl, rfl⟩
  unfold igrid.fk1_operand
  rw [hd]
  simp only [uniform_grid, igrid.construct, igrid.y1min, igrid.fy, SparseMatrix3d.mk_empty,
    e0]
  norm_num

/-- On the grid of 5 nodes over `[0, 4]` with order 2 and the transform `y = -x`, the
arithmetic of `fk1` is defined at `x` when `-x - 1` lies between `-2^31 - 1` and
`2^31 - 2`. -/
theorem linear_grid_fk1_defined (x : ℚ) (h1 : -2147483649 < -x - 1)
    (h2 : -x - 1 + 2 < 2147483648) :
    (uniform_grid (fun _ x => -x) (fun _ y => -y) 5 0 4 2 1 : igrid ℚ).fk1_defined x := by
  obtain ⟨hd, hop, -, -, -, -, hp⟩ := linear_grid_facts x
  refine ⟨hd.ne', ?_, ?_⟩
  · rw [hop]
    exact ⟨h1, by linarith⟩
  · rw [hop, hp]
    exact_mod_cast h2

/-- Witness of C3 on the grid of 5 nodes over `[0, 4]` with order 2 and the transform
`y = -x`, at `y = 7/2`: the arithmetic of `fk1` is defined and the node is the clamp. -/
theorem node_selectors_eq_clamp_witness :
    (uniform_grid (fun _ x => -x) (fun _ y => -y) 5 0 4 2 1 : igrid ℚ).fk1_checked (-7 / 2)
      = if (uniform_grid (fun _ x => -x) (fun _ y => -y) 5 0 4 2 1 : igrid ℚ).fk1_defined
            (-7 / 2)
        then some (lower_node_spec
          (uniform_grid (fun _ x => -x) (fun _ y => -y) 5 0 4 2 1 : igrid ℚ).y1min
          (uniform_grid (fun _ x => -x) (fun _ y => -y) 5 0 4 2 1 : igrid ℚ).deltay1
          (uniform_grid (fun _ x => -x) (fun _ y => -y) 5 0 4 2 1 : igrid ℚ).Ny1
          (uniform_grid (fun _ x => -x) (fun _ y => -y) 5 0 4 2 1 : igrid ℚ).m_yorder
          ((uniform_grid (fun _ x => -x) (fun _ y => -y) 5 0 4 2 1 : igrid ℚ).fy (-7 / 2)))
        else none :=
  (node_selectors_eq_clamp
    (⟨fun x => x, fun x => x, fun x => x, fun x => x, fun a _ => a, 3⟩ : CMath ℚ)
    (uniform_grid (fun _ x => -x) (fun _ y => -y) 5 0 4 2 1 : igrid ℚ) (-7 / 2) 0 1).1
    (linear_grid_facts 0).1 (by decide) (by decide) (by decide)

/-- C3 fails as worded (every real coordinate): on the grid of 5 nodes over `y` in
`[0, 4e-7]` with order 1 and the transform `f0` (`y = -ln x`), whose spacing is `1e-7`, the
coordinate `x = exp(-700)` (about `1e-304`) has `y = 700` and gives the cast the operand
`7·10^9`, which is above `INT_MAX = 2147483647`: the cast in `fk1` is undefined and `fk1`
has no defined value, where the claim gives the node `clamp(⌊y/delta⌋ - 0, 0, 3) = 3`. -/
theorem fk1_cast_out_of_range :
    (uniform_grid (fun _ x => -Real.log x) (fun _ y => Real.exp (-y)) 5 0 (1 / 2500000) 1 1 :
        igrid ℝ).fk1_operand (Real.exp (-700)) = 7000000000 ∧
    (uniform_grid (fun _ x => -Real.log x) (fun _ y => Real.exp (-y)) 5 0 (1 / 2500000) 1 1 :
        igrid ℝ).fk1_checked (Real.exp (-700)) = none ∧
    lower_node_spec
      (uniform_grid (fun _ x => -Real.log x) (fun _ y => Real.exp (-y)) 5 0 (1 / 2500000) 1 1 :
        igrid ℝ).y1min
      (uniform_grid (fun _ x => -Real.log x) (fun _ y => Real.exp (-y)) 5 0 (1 / 2500000) 1 1 :
        igrid ℝ).deltay1
      (uniform_grid (fun _ x => -Real.log x) (fun _ y => Real.exp (-y)) 5 0 (1 / 2500000) 1 1 :
        igrid ℝ).Ny1
      (uniform_grid (fun _ x => -Real.log x) (fun _ y => Real.exp (-y)) 5 0 (1 / 2500000) 1 1 :
        igrid ℝ).m_yorder
      ((uniform_grid (fun _ x => -Real.log x) (fun _ y => Real.exp (-y)) 5 0 (1 / 2500000) 1 1 :
        igrid ℝ).fy (Real.exp (-700))) = 3 := by
  have e0 : ((1 : Int) >>> (1 : Nat)) = 0 := by decide
  have hop : (uniform_grid (fun _ x => -Real.log x) (fun _ y => Real.exp (-y)) 5 0 (1 / 2500000) 1 1 :
        igrid ℝ).fk1_operand (Real.exp (-700)) = 7000000000 := by
    simp only [igrid.fk1_operand, uniform_grid, igrid.construct, igrid.fy, igrid.y1min,
      igrid.deltay1, SparseMatrix3d.mk_empty, axis.delta, Real.log_exp, neg_neg, e0]
    norm_num
  refine ⟨hop, ?_, ?_⟩
  · apply fk1_checked_none
    rw [hop]
    norm_num [int_cast_defined]
  · simp only [lower_node_spec, uniform_grid, igrid.construct, igrid.fy, igrid.y1min,
      igrid.deltay1, igrid.Ny1, SparseMatrix3d.mk_empty, axis.delta, Real.log_exp, neg_neg]
    have hf : ⌊((700 : ℝ) - 0) / ((1 / 2500000 - 0) / ((5 : Int) - 1))⌋ = 7000000000 := by
      rw [Int.floor_eq_iff]
      norm_num
    rw [hf]
    decide

theorem init_fmap_nil (m : CMath K) : init_fmap m ([] : List (String × transform_vec K)) =
    Except.ok [("f", ⟨_fx m, _fy m⟩), ("f0", ⟨_fx0 m, _fy0 m⟩), ("f1", ⟨_fx1 m, _fy1 m⟩),
      ("f2", ⟨_fx2 m, _fy2 m⟩), ("f3", ⟨_fx3 m, _fy3 m⟩), ("f4", ⟨_fx4 m, _fy4 m⟩)] := by
  simp [init_fmap, add_transform, List.lookup, bind, Except.bind]

/-- C4 fails as worded (every order): the standard constructor called with 3 nodes in `x`,
order 2 and the DIS flag keeps `m_yorder = 2` on a `y2` axis of one node, and `fk2` returns
the negative node `-2`. -/
theorem fk2_negative_on_dis_grid :
    Except.map (fun g => (g.m_yorder, g.Ny2, g.fk2 (1 / 4)))
      (igrid.standard
        (⟨Real.exp, Real.log, fun x => Real.log x / Real.log 10, Real.sqrt, fun a b => a ^ b,
          Real.pi⟩ : CMath ℝ)
        5 30 100 1000000 1 3 (1 / 2) 1 2 "f0" 1 true)
      = Except.ok (2, 1, -2) := by
  simp only [igrid.standard, init_fmap_nil, bind, Except.bind, List.lookup]
  simp [Except.map, igrid.construct, igrid.fk2, igrid.Ny2, SparseMatrix3d.mk_empty]
  split_ifs <;> omega

theorem spec_node_bounds (ymin delta : K) (N p : Int) (y : K) (hp : p ≤ N - 1) :
    0 ≤ lower_node_spec ymin delta N p y ∧ lower_node_spec ymin delta N p y + p ≤ N - 1 := by
  unfold lower_node_spec
  omega

theorem spec_node_below (ymin delta : K) (N p : Int) (y : K) (hd : 0 < delta) (h0 : 0 ≤ p)
    (hy : y < ymin) : lower_node_spec ymin delta N p y = 0 := by
  have hv : (y - ymin) / delta < 0 := div_neg_of_neg_of_pos (by linarith) hd
  have hf : ⌊(y - ymin) / delta⌋ < 0 := by
    rw [Int.floor_lt]; simpa using hv
  unfold lower_node_spec
  omega

theorem spec_node_above (a : axis K) (p : Int) (y : K) (hd : 0 < a.delta) (h0 : 0 ≤ p)
    (hp : p ≤ a.N - 1) (hy : a.max < y) :
    lower_node_spec a.min a.delta a.N p y = a.N - 1 - p := by
  have hN : ((a.N : K) - 1) ≠ 0 := by
    intro h
    have : a.delta = 0 := by simp [axis.delta, h]
    linarith
  have hmul : a.delta * ((a.N : K) - 1) = a.max - a.min := by
    unfold axis.delta
    field_simp
  have hv : ((a.N - 1 : Int) : K) ≤ (y - a.min) / a.delta := by
    rw [le_div_iff₀ hd]
    push_cast
    nlinarith
  have hf : a.N - 1 ≤ ⌊(y - a.min) / a.delta⌋ := Int.le_floor.mpr hv
  unfold lower_node_spec
  omega

/-- C4 (amended): for every order `p` with `0 ≤ p ≤ N - 1` on an axis with spacing
`delta > 0` and a node count `N` that is an `int`, and every coordinate, inside or outside
`[ymin, ymax]`, at which the `int` arithmetic of the selector is defined (the operand
`q = (y - ymin)/delta - ⌊p/2⌋` of the cast strictly between `-2^31 - 1` and `2^31`, and
`q + p < 2^31`), the node `k` returned by `fk1`, `fk2` and `fkappa` satisfies `0 ≤ k` and
`k + p ≤ N - 1`; a coordinate below `ymin` gives `k = 0` and a coordinate above `ymax`
gives `k = N - 1 - p`: an out-of-range coordinate is clamped, not rejected. Each axis
stands under its own hypotheses. -/
theorem node_selectors_within_axis (m : CMath K) (g : igrid K) (x1 x2 Q2 : K) :
    (0 < g.deltay1 → 0 ≤ g.m_yorder → g.Ny1 - 1 ≥ g.m_yorder → g.Ny1 ≤ 2147483647 →
      g.fk1_defined x1 →
      ∃ k, g.fk1_checked x1 = some k ∧ 0 ≤ k ∧ k + g.m_yorder ≤ g.Ny1 - 1 ∧
        (g.fy x1 < g.y1min → k = 0) ∧
        (g.y1max < g.fy x1 → k = g.Ny1 - 1 - g.m_yorder)) ∧
    (0 < g.deltay2 → 0 ≤ g.m_yorder → g.Ny2 - 1 ≥ g.m_yorder → g.Ny2 ≤ 2147483647 →
      g.fk2_defined x2 →
      ∃ k, g.fk2_checked x2 = some k ∧ 0 ≤ k ∧ k + g.m_yorder ≤ g.Ny2 - 1 ∧
        (g.fy x2 < g.y2min → k = 0) ∧
        (g.y2max < g.fy x2 → k = g.Ny2 - 1 - g.m_yorder)) ∧
    (0 < g.deltatau → 0 ≤ g.m_tauorder → g.Ntau - 1 ≥ g.m_tauorder →
      g.Ntau ≤ 2147483647 → igrid.fkappa_defined m g Q2 →
      ∃ k, igrid.fkappa_checked m g Q2 = some k ∧ 0 ≤ k ∧ k + g.m_tauorder ≤ g.Ntau - 1 ∧
        (ftau m Q2 < g.taumin → k = 0) ∧
        (g.taumax < ftau m Q2 → k = g.Ntau - 1 - g.m_tauorder)) := by
  refine ⟨fun hd h0 hp hN hc => ?_, fun hd h0 hp hN hc => ?_, fun hd h0 hp hN hc => ?_⟩
  · refine ⟨_, by rw [fk1_checked_eq g x1 h0 (by omega), if_pos hc, fk1_eq_spec g x1 hp],
      (spec_node_bounds _ _ _ _ _ hp).1, (spec_node_bounds _ _ _ _ _ hp).2,
      fun h => spec_node_below _ _ _ _ _ hd h0 h,
      fun h => spec_node_above (g.m_weight 0).m_yaxis _ _ hd h0 hp h⟩
  · refine ⟨_, by rw [fk2_checked_eq g x2 h0 (by omega), if_pos hc, fk2_eq_spec g x2 hp],
      (spec_node_bounds _ _ _ _ _ hp).1, (spec_node_bounds _ _ _ _ _ hp).2,
      fun h => spec_node_below _ _ _ _ _ hd h0 h,
      fun h => spec_node_above (g.m_weight 0).m_zaxis _ _ hd h0 hp h⟩
  · refine ⟨_, by rw [fkappa_checked_eq m g Q2 h0 (by omega), if_pos hc,
        fkappa_eq_spec m g Q2 hp],
      (spec_node_bounds _ _ _ _ _ hp).1, (spec_node_bounds _ _ _ _ _ hp).2,
      fun h => spec_node_below _ _ _ _ _ hd h0 h,
      fun h => spec_node_above (g.m_weight 0).m_xaxis _ _ hd h0 hp h⟩

/-- Witness of C4 (amended) on the grid of 5 nodes over `[0, 4]` with order 2 and the
transform `y = -x`, at the coordinate `y = 9` above the range: the node is within the
axis. -/
theorem node_selectors_within_axis_witness :
    match (uniform_grid (fun _ x => -x) (fun _ y => -y) 5 0 4 2 1 : igrid ℚ).fk1_checked
        (-9) with
    | some k => 0 ≤ k ∧ k + 2 ≤ 5 - 1
    | none => False := by
  obtain ⟨k, hk, h0, h1, -⟩ := (node_selectors_within_axis
    (⟨fun x => x, fun x => x, fun x => x, fun x => x, fun a _ => a, 3⟩ : CMath ℚ)
    (uniform_grid (fun _ x => -x) (fun _ y => -y) 5 0 4 2 1 : igrid ℚ) (-9) 0 1).1
    (linear_grid_facts 0).1 (by decide) (by decide) (by decide)
    (linear_grid_fk1_defined (-9) (by norm_num) (by norm_num))
  rw [hk]
  exact ⟨h0, h1⟩

/-! ### The interpolation coefficients `fI` -/

theorem facTable_eq (k : Nat) : (facTable k : K) = (k.factorial : K) := by
  have h : ∀ j : Nat, (facTable (j + 4) : K) = ((j + 4).factorial : K) := by
    intro j
    induction j with
    | zero => norm_num [facTable, Nat.factorial]
    | succ j ih =>
      show facTable (j + 5) = _
      rw [facTable, ih, Nat.factorial_succ (j + 4)]
      push_cast
      ring
  rcases Nat.lt_or_ge k 4 with hk | hk
  · interval_cases k <;> norm_num [facTable, Nat.factorial]
  · obtain ⟨j, rfl⟩ := Nat.exists_eq_add_of_le hk
    rw [add_comm]; exact h j

theorem fac_eq (i : Nat) (hi : i ≤ 33) : (fac (i : Int) : K) = (i.factorial : K) := by
  unfold fac
  have h1 : ¬ ((i : Int) < 0) := by omega
  have h2 : ¬ ((i : Int) > 33) := by omega
  simp only [h1, h2, if_false, Int.toNat_ofNat]
  exact facTable_eq i

theorem fac_ne_zero (i : Nat) (hi : i ≤ 33) : (fac (i : Int) : K) ≠ 0 := by
  rw [fac_eq i hi]
  exact_mod_cast Nat.factorial_ne_zero i

theorem foldl_range_eq (f : Nat → K) (c : K) (n : Nat) :
    (List.range n).foldl (fun product z => product * f z) c
      = c * ∏ z in Finset.range n, f z := by
  induction n with
  | zero => simp
  | succ n ih =>
    rw [List.range_succ, List.foldl_append, ih, Finset.prod_range_succ]
    simp [mul_assoc]

theorem pow1_natCast (n : Nat) : pow1 (n : Int) = (-1) ^ n := by
  have h : Int.land 1 (n : Int) = ((n % 2 : Nat) : Int) := by
    show ((1 &&& n : Nat) : Int) = _
    rw [Nat.and_comm, Nat.and_one_is_mod]
  unfold pow1
  rw [h]
  rcases Nat.even_or_odd n with he | ho
  · have : n % 2 = 0 := Nat.even_iff.mp he
    simp [this, he.neg_one_pow]
  · have : n % 2 = 1 := Nat.odd_iff.mp ho
    simp [this, ho.neg_one_pow]

theorem prod_range_sub (m : Nat) :
    ∏ z in Finset.range m, ((m : K) - (z : K)) = (m.factorial : K) := by
  induction m with
  | zero => simp
  | succ m ih =>
    rw [Finset.prod_range_succ', Nat.factorial_succ]
    have : ∀ z ∈ Finset.range m, (((m + 1 : Nat) : K) - ((z + 1 : Nat) : K)) = (m : K) - (z : K) := by
      intro z _; push_cast; ring
    rw [Finset.prod_congr rfl this, ih]
    push_cast
    ring

/-- The product of the differences `i - z` over the other nodes of `0..n`. -/
theorem prod_node_differences (n i : Nat) (hi : i ≤ n) :
    ∏ z in (Finset.range (n + 1)).erase i, ((i : K) - (z : K))
      = (-1) ^ (n - i) * (i.factorial : K) * ((n - i).factorial : K) := by
  induction n with
  | zero =>
    have : i = 0 := by omega
    subst this
    simp
  | succ n ih =>
    rcases Nat.eq_or_lt_of_le hi with h | h
    · subst h
      -- i = n + 1: all z < i
      have : (Finset.range (n + 1 + 1)).erase (n + 1) = Finset.range (n + 1) := by
        ext z; simp [Finset.mem_erase, Finset.mem_range]; omega
      rw [this]
      simp only [Nat.sub_self, pow_zero, Nat.factorial_zero, Nat.cast_one, mul_one, one_mul]
      exact prod_range_sub (n + 1)
    · have hi2 : i ≤ n := by omega
      have : (Finset.range (n + 1 + 1)).erase i
          = insert (n + 1) ((Finset.range (n + 1)).erase i) := by
        ext z; simp [Finset.mem_erase, Finset.mem_range]; omega
      rw [this, Finset.prod_insert (by simp [Finset.mem_erase, Finset.mem_range]), ih hi2]
      have e : n + 1 - i = (n - i) + 1 := by omega
      rw [e, Nat.factorial_succ, pow_succ]
      have e2 : ((n - i + 1 : Nat) : K) = (n : K) + 1 - (i : K) := by
        rw [← e]; push_cast [Nat.cast_sub (by omega : i ≤ n + 1)]; ring
      rw [Nat.cast_mul, e2]
      push_cast
      ring


theorem eps_pos : (0 : K) < 1e-8 := by norm_num

theorem fI_formula (i n : Nat) (hn : n ≤ 33) (hi : i ≤ n) (u : K)
    (hu : ¬ |u - ((i : Int) : K)| < 1e-8) :
    fI (i : Int) (n : Int) u = lagrange_basis i n u := by
  have hui : u - (i : K) ≠ 0 := by
    intro h
    apply hu
    simp only [Int.cast_natCast, h, abs_zero]
    exact eps_pos
  unfold fI lagrange_basis
  by_cases h0 : (n : Int) = 0 ∧ (i : Int) = 0
  · obtain ⟨hn0, hi0⟩ := h0
    have hn0 : n = 0 := by exact_mod_cast hn0
    have hi0 : i = 0 := by exact_mod_cast hi0
    subst hn0 hi0
    simp
  · rw [if_neg h0, if_neg hu]
    have e1 : ((n : Int) + 1).toNat = n + 1 := by omega
    have e2 : (n : Int) - (i : Int) = ((n - i : Nat) : Int) := by omega
    rw [e1, foldl_range_eq, fI_denominator, e2, pow1_natCast, fac_eq i (by omega),
      fac_eq (n - i) (by omega)]
    rw [← Finset.mul_prod_erase (Finset.range (n + 1)) (fun z => u - (z : K))
      (Finset.mem_range.mpr (by omega : i < n + 1))]
    rw [Finset.prod_div_distrib, prod_node_differences n i hi]
    have hf1 : ((i.factorial : Nat) : K) ≠ 0 := by exact_mod_cast Nat.factorial_ne_zero i
    have hf2 : (((n - i).factorial : Nat) : K) ≠ 0 := by
      exact_mod_cast Nat.factorial_ne_zero (n - i)
    have hs : ((-1 : K)) ^ (n - i) ≠ 0 := pow_ne_zero _ (by norm_num)
    have hs2 : ((-1 : K)) ^ (n - i) * (-1) ^ (n - i) = 1 := by
      rw [← pow_add, ← two_mul, pow_mul]; norm_num
    simp only [Int.cast_pow, Int.cast_neg, Int.cast_one, Int.cast_natCast]
    field_simp
    linear_combination (u - (i:K)) * (∏ x ∈ (Finset.range (n + 1)).erase i, (u - (x:K))) * ((i.factorial : K)) * ((n - i).factorial : K) * hs2

theorem lagrange_basis_eq_eval (i n : Nat) (u : K) :
    lagrange_basis i n u
      = Polynomial.eval u (Lagrange.basis (Finset.range (n + 1)) (fun z : Nat => (z : K)) i) := by
  unfold lagrange_basis Lagrange.basis
  rw [Polynomial.eval_prod]
  apply Finset.prod_congr rfl
  intro z _
  simp [Lagrange.basisDivisor, div_eq_mul_inv, mul_comm]

theorem lagrange_basis_sum (n : Nat) (u : K) :
    ∑ i in Finset.range (n + 1), lagrange_basis i n u = 1 := by
  have hinj : Set.InjOn (fun z : Nat => (z : K)) (Finset.range (n + 1) : Set Nat) := by
    intro a _ b _ h
    exact Nat.cast_injective h
  have h := Lagrange.sum_basis hinj (Finset.nonempty_range_succ)
  have h2 := congrArg (Polynomial.eval u) h
  rw [Polynomial.eval_finset_sum, Polynomial.eval_one] at h2
  rw [← h2]
  exact Finset.sum_congr rfl (fun i _ => lagrange_basis_eq_eval i n u)

theorem fI_cases (i n : Nat) (hn : n ≤ 33) (hi : i ≤ n) (u : K) :
    fI (i : Int) (n : Int) u = if |u - (i : K)| < 1e-8 then 1 else lagrange_basis i n u := by
  by_cases h : |u - (i : K)| < 1e-8
  · rw [if_pos h]
    unfold fI
    have h2 : |u - ((i : Int) : K)| < 1e-8 := by simpa using h
    rw [if_pos h2]
    simp
  · rw [if_neg h]
    exact fI_formula i n hn hi u (by simpa using h)

theorem fI_checked_cases (i n : Nat) (hn : n ≤ 33) (hi : i ≤ n) (u : K) :
    fI_checked (i : Int) (n : Int) u = some (fI (i : Int) (n : Int) u) := by
  unfold fI_checked
  by_cases h0 : (n : Int) = 0 ∧ (i : Int) = 0
  · rw [if_pos h0]; unfold fI; rw [if_pos h0]
  · rw [if_neg h0]
    by_cases h : |u - ((i : Int) : K)| < 1e-8
    · rw [if_pos h]; unfold fI; rw [if_neg h0, if_pos h]
    · rw [if_neg h]
      have hui : u - ((i : Int) : K) ≠ 0 := by
        intro e; apply h; rw [e, abs_zero]; exact eps_pos
      have hd : fI_denominator (i : Int) (n : Int) u ≠ 0 := by
        unfold fI_denominator
        have e2 : (n : Int) - (i : Int) = ((n - i : Nat) : Int) := by omega
        rw [e2]
        exact mul_ne_zero (mul_ne_zero (fac_ne_zero i (by omega)) (fac_ne_zero (n - i) (by omega)))
          hui
      rw [if_neg hd]

theorem near_node_unique (u : K) (i j : Nat) (hij : i ≠ j) (h : |u - (i : K)| < 1e-8) :
    ¬ |u - (j : K)| < 1e-8 := by
  intro h2
  have h1 : (1 : K) ≤ |(i : K) - (j : K)| := by
    rcases Nat.lt_or_gt_of_ne hij with hlt | hgt
    · have : (i : K) + 1 ≤ (j : K) := by exact_mod_cast hlt
      rw [abs_sub_comm, abs_of_nonneg (by linarith)]; linarith
    · have : (j : K) + 1 ≤ (i : K) := by exact_mod_cast hgt
      rw [abs_of_nonneg (by linarith)]; linarith
  have h3 : |(i : K) - (j : K)| ≤ |u - (j : K)| + |u - (i : K)| := by
    have := abs_sub_le (i : K) u (j : K)
    rw [abs_sub_comm (i : K) u] at this
    linarith
  have e : (1e-8 : K) < 1 / 2 := by norm_num
  linarith

/-- The sum of the coefficients of one axis: 1 when no node is within `1e-8` of `u`, and
`2 - L` with `L` the Lagrange basis value of the node `i0` that is. -/
theorem fI_sum_cases (n : Nat) (hn : n ≤ 33) (u : K) :
    (∀ i, i ≤ n → ¬ |u - (i : K)| < 1e-8) ∧
        ∑ i in Finset.range (n + 1), fI (i : Int) (n : Int) u = 1 ∨
    ∃ i0, i0 ≤ n ∧ |u - (i0 : K)| < 1e-8 ∧
        ∑ i in Finset.range (n + 1), fI (i : Int) (n : Int) u = 2 - lagrange_basis i0 n u := by
  by_cases hex : ∃ i0, i0 ≤ n ∧ |u - (i0 : K)| < 1e-8
  · right
    obtain ⟨i0, hi0, hnear⟩ := hex
    refine ⟨i0, hi0, hnear, ?_⟩
    have hmem : i0 ∈ Finset.range (n + 1) := Finset.mem_range.mpr (by omega)
    have hL := lagrange_basis_sum n u
    rw [← Finset.add_sum_erase _ _ hmem] at hL ⊢
    have hrest : ∑ i in (Finset.range (n + 1)).erase i0, fI (i : Int) (n : Int) u
        = ∑ i in (Finset.range (n + 1)).erase i0, lagrange_basis i n u := by
      apply Finset.sum_congr rfl
      intro i hi
      rw [Finset.mem_erase, Finset.mem_range] at hi
      rw [fI_cases i n hn (by omega) u,
        if_neg (near_node_unique u i0 i (fun e => hi.1 e.symm) hnear)]
    rw [hrest, fI_cases i0 n hn hi0 u, if_pos hnear]
    linarith
  · left
    push_neg at hex
    refine ⟨fun i hi => not_lt.mpr (hex i hi), ?_⟩
    rw [← lagrange_basis_sum n u]
    apply Finset.sum_congr rfl
    intro i hi
    rw [Finset.mem_range] at hi
    rw [fI_cases i n hn (by omega) u, if_neg (not_lt.mpr (hex i (by omega)))]

theorem prod_one_add_sub_one_le (s : Finset Nat) (a : Nat → K) (d : K) (hd : 0 ≤ d)
    (h : ∀ z ∈ s, |a z| ≤ d) :
    |∏ z in s, (1 + a z) - 1| ≤ (1 + d) ^ s.card - 1 := by
  induction s using Finset.induction_on with
  | empty => simp
  | insert hx ih =>
    rename_i x s
    rw [Finset.prod_insert hx, Finset.card_insert_of_not_mem hx, pow_succ]
    have ih2 := ih (fun z hz => h z (Finset.mem_insert_of_mem hz))
    have hax := h x (Finset.mem_insert_self x s)
    set P := ∏ z in s, (1 + a z)
    have hP : |P| ≤ (1 + d) ^ s.card := by
      have : |P| ≤ |P - 1| + 1 := by
        have := abs_sub_abs_le_abs_sub P 1
        rw [abs_one] at this; linarith
      linarith
    have e : (1 + a x) * P - 1 = (P - 1) + a x * P := by ring
    rw [e]
    calc |P - 1 + a x * P| ≤ |P - 1| + |a x * P| := abs_add _ _
      _ = |P - 1| + |a x| * |P| := by rw [abs_mul]
      _ ≤ ((1 + d) ^ s.card - 1) + d * (1 + d) ^ s.card := by
          have := mul_le_mul hax hP (abs_nonneg P) hd
          linarith
      _ = (1 + d) ^ s.card * (1 + d) - 1 := by ring

theorem lagrange_basis_near_one (i0 n : Nat) (hi0 : i0 ≤ n) (u : K)
    (hnear : |u - (i0 : K)| < 1e-8) :
    |lagrange_basis i0 n u - 1| ≤ (1 + 1e-8) ^ n - 1 := by
  unfold lagrange_basis
  have hfac : ∀ z ∈ (Finset.range (n + 1)).erase i0,
      (u - (z : K)) / ((i0 : K) - (z : K)) = 1 + (u - (i0 : K)) / ((i0 : K) - (z : K)) := by
    intro z hz
    rw [Finset.mem_erase] at hz
    have : (i0 : K) - (z : K) ≠ 0 := by
      intro e
      apply hz.1
      have : (i0 : K) = (z : K) := by linarith
      exact (Nat.cast_injective this).symm
    field_simp
  rw [Finset.prod_congr rfl hfac]
  have hcard : ((Finset.range (n + 1)).erase i0).card = n := by
    rw [Finset.card_erase_of_mem (Finset.mem_range.mpr (by omega)), Finset.card_range]
    rfl
  have := prod_one_add_sub_one_le ((Finset.range (n + 1)).erase i0)
    (fun z => (u - (i0 : K)) / ((i0 : K) - (z : K))) 1e-8 (by norm_num) (by
      intro z hz
      rw [Finset.mem_erase] at hz
      have h1 : (1 : K) ≤ |(i0 : K) - (z : K)| := by
        rcases Nat.lt_or_gt_of_ne hz.1 with hlt | hgt
        · have : (z : K) + 1 ≤ (i0 : K) := by exact_mod_cast hlt
          rw [abs_of_nonneg (by linarith)]; linarith
        · have : (i0 : K) + 1 ≤ (z : K) := by exact_mod_cast hgt
          rw [abs_sub_comm, abs_of_nonneg (by linarith)]; linarith
      rw [abs_div, div_le_iff₀ (by linarith)]
      have := abs_nonneg (u - (i0 : K))
      nlinarith)
  rwa [hcard] at this

theorem fI_near (j k : Int) (v : K) (hv : |v - (j : K)| < 1e-8) :
    fI j k v = 1 ∧ fI_checked j k v = some 1 := by
  unfold fI fI_checked
  rw [if_pos hv, if_pos hv]
  simp

theorem lagrange_basis_at_node (i0 n : Nat) :
    lagrange_basis i0 n ((i0 : K)) = 1 := by
  unfold lagrange_basis
  apply Finset.prod_eq_one
  intro z hz
  rw [Finset.mem_erase] at hz
  have : (i0 : K) - (z : K) ≠ 0 := by
    intro e
    apply hz.1
    have : (i0 : K) = (z : K) := by linarith
    exact (Nat.cast_injective this).symm
  exact div_self this

/-- C7: for `0 ≤ i ≤ n ≤ 33` and `|u - i| ≥ 1e-8`, `fI(i, n, u)` is the Lagrange basis
polynomial of node `i` on the nodes `0..n`, the product over `z ≠ i` of `(u - z)/(i - z)`
(no zero denominator occurs in its evaluation); `fI(0, 0, u) = 1` for every `u`; and
`fI(i, n, u) = 1` whenever `|u - i| < 1e-8`. -/
theorem fI_is_lagrange_basis (n i : Nat) (u : K) (hn : n ≤ 33) (hi : i ≤ n)
    (hu : 1e-8 ≤ |u - (i : K)|) :
    (fI (i : Int) (n : Int) u
        = ∏ z in (Finset.range (n + 1)).erase i, (u - (z : K)) / ((i : K) - (z : K)) ∧
      fI_checked (i : Int) (n : Int) u = some (lagrange_basis i n u) ∧
      lagrange_basis i n u = Polynomial.eval u
        (Lagrange.basis (Finset.range (n + 1)) (fun z : Nat => (z : K)) i)) ∧
    (∀ v : K, fI 0 0 v = 1 ∧ fI_checked 0 0 v = some 1) ∧
    (∀ (j k : Int) (v : K), |v - (j : K)| < 1e-8 →
      fI j k v = 1 ∧ fI_checked j k v = some 1) := by
  have h1 : fI (i : Int) (n : Int) u = lagrange_basis i n u := by
    rw [fI_cases i n hn hi u, if_neg (not_lt.mpr hu)]
  refine ⟨⟨h1, ?_, lagrange_basis_eq_eval i n u⟩, ?_, ?_⟩
  · rw [fI_checked_cases i n hn hi u, h1]
  · intro v
    simp [fI, fI_checked]
  · intro j k v hv
    exact fI_near j k v hv

/-- Witness of C7: order 2, node 1, offset 1/2. -/
theorem fI_is_lagrange_basis_witness :
    fI (1 : Int) (2 : Int) (1 / 2 : ℚ)
      = ∏ z in (Finset.range (2 + 1)).erase 1, ((1 / 2 : ℚ) - (z : ℚ)) / (((1 : Nat) : ℚ) - (z : ℚ)) :=
  (fI_is_lagrange_basis 2 1 (1 / 2 : ℚ) (by norm_num) (by norm_num)
    (by norm_num [abs_of_neg])).1.1

/-- C5 fails as worded (every order `n ≥ 1`): at order 34 the quotient of `fI(0, 34, 1)` has
the denominator `fac(0)*fac(34)*(1-0)` with `fac(34) = 0`, so no finite value results. -/
theorem fI_order_34_not_finite : fI_checked (0 : Int) 34 (1 : ℚ) = none := by
  norm_num [fI_checked, fI_denominator, fac]

/-- C5 (amended): for every order `n ≥ 1` and all `0 ≤ i, j ≤ n` with `i ≤ 33` and
`n - i ≤ 33` (in particular for every order `n ≤ 33`), `fI(i, n, j)` is 1 if `i = j` and 0
otherwise, and no zero denominator occurs in its evaluation. -/
theorem fI_kronecker_on_nodes (n i j : Nat) (_hn : 1 ≤ n) (hi : i ≤ n) (hj : j ≤ n)
    (hi33 : i ≤ 33) (hni : n - i ≤ 33) :
    fI_checked (i : Int) (n : Int) ((j : Int) : K) = some (if i = j then 1 else 0) ∧
    fI (i : Int) (n : Int) ((j : Int) : K) = if i = j then 1 else 0 := by
  by_cases hij : i = j
  · subst hij
    rw [if_pos rfl]
    have h := fI_near (K := K) (i : Int) (n : Int) ((i : Int) : K) (by rw [sub_self, abs_zero]; exact eps_pos)
    exact ⟨h.2, h.1⟩
  · rw [if_neg hij]
    have hnear : ¬ |(((j : Int) : K)) - ((i : Int) : K)| < 1e-8 := by
      have h0 : |(i : K) - (i : K)| < 1e-8 := by rw [sub_self, abs_zero]; exact eps_pos
      have := near_node_unique (i : K) i j hij h0
      simpa [abs_sub_comm] using this
    have h0 : ¬ ((n : Int) = 0 ∧ (i : Int) = 0) := by omega
    have hval : fI (i : Int) (n : Int) ((j : Int) : K) = 0 := by
      unfold fI
      rw [if_neg h0, if_neg hnear]
      have e1 : ((n : Int) + 1).toNat = n + 1 := by omega
      rw [e1, foldl_range_eq]
      have : ∏ z in Finset.range (n + 1), ((((j : Int) : K)) - (z : K)) = 0 :=
        Finset.prod_eq_zero (Finset.mem_range.mpr (by omega : j < n + 1)) (by simp)
      rw [this, mul_zero]
    refine ⟨?_, hval⟩
    unfold fI_checked
    rw [if_neg h0, if_neg hnear]
    have hui : (((j : Int) : K)) - ((i : Int) : K) ≠ 0 := by
      intro e; apply hnear; rw [e, abs_zero]; exact eps_pos
    have hd : fI_denominator (i : Int) (n : Int) ((j : Int) : K) ≠ 0 := by
      unfold fI_denominator
      have e2 : (n : Int) - (i : Int) = ((n - i : Nat) : Int) := by omega
      rw [e2]
      exact mul_ne_zero (mul_ne_zero (fac_ne_zero i hi33) (fac_ne_zero (n - i) hni)) hui
    rw [if_neg hd, hval]

/-- Witness of C5 (amended): order 3, nodes 1 and 2. -/
theorem fI_kronecker_on_nodes_witness :
    fI_checked (1 : Int) (3 : Int) (((2 : Nat) : Int) : ℚ) = some 0 :=
  (fI_kronecker_on_nodes 3 1 2 (by norm_num) (by norm_num) (by norm_num) (by norm_num)
    (by norm_num)).1

/-- C6 fails as worded (tolerance `1e-9`): at order 1 and `u = 5e-9` the coefficient of
node 0 is snapped to 1 while that of node 1 is `u`, so the sum is `1 + 5e-9`. -/
theorem fI_sum_order_1_off_by_5e9 :
    ¬ |∑ i in Finset.range (1 + 1), fI (i : Int) (1 : Int) (5e-9 : ℚ) - 1| ≤ 1e-9 := by
  have e2 : Int.toNat 2 = 2 := rfl
  norm_num [Finset.sum_range_succ, fI, fI_denominator, fac, facTable, pow1, List.range_succ,
    abs_lt, Int.land, e2]
  norm_num [abs_of_pos]

/-- C6 (amended): for every order `1 ≤ n ≤ 8` and every `0 ≤ u ≤ n`, the sum over
`i = 0..n` of `fI(i, n, u)` differs from 1 by at most `1e-7`, and it is exactly 1 whenever
no node is at a distance from `u` that is positive and below `1e-8`. -/
theorem fI_sum_near_one (n : Nat) (_hn1 : 1 ≤ n) (hn8 : n ≤ 8) (u : K) (_hu0 : 0 ≤ u)
    (_hun : u ≤ (n : K)) :
    |∑ i in Finset.range (n + 1), fI (i : Int) (n : Int) u - 1| ≤ 1e-7 ∧
    ((∀ i, i ≤ n → |u - (i : K)| < 1e-8 → u = (i : K)) →
      ∑ i in Finset.range (n + 1), fI (i : Int) (n : Int) u = 1) := by
  rcases fI_sum_cases n (by omega) u with ⟨_, hs⟩ | ⟨i0, hi0, hnear, hs⟩
  · rw [hs]; constructor
    · norm_num
    · intro _; trivial
  · rw [hs]
    have hb := lagrange_basis_near_one i0 n hi0 u hnear
    constructor
    · have e : (2 : K) - lagrange_basis i0 n u - 1 = -(lagrange_basis i0 n u - 1) := by ring
      rw [e, abs_neg]
      have hmono : ((1 : K) + 1e-8) ^ n ≤ (1 + 1e-8) ^ 8 :=
        pow_le_pow_right₀ (by norm_num) hn8
      have h8 : ((1 : K) + 1e-8) ^ 8 - 1 ≤ 1e-7 := by norm_num
      linarith
    · intro hex
      have hu : u = (i0 : K) := hex i0 hi0 hnear
      have : lagrange_basis i0 n u = 1 := by
        rw [hu]; exact lagrange_basis_at_node i0 n
      rw [this]; norm_num

/-- Witness of C6 (amended): order 2, offset 1/2. -/
theorem fI_sum_near_one_witness :
    |∑ i in Finset.range (2 + 1), fI (i : Int) ((2 : Nat) : Int) (1 / 2 : ℚ) - 1| ≤ 1e-7 :=
  (fI_sum_near_one 2 (by norm_num) (by norm_num) (1 / 2 : ℚ) (by norm_num)
    (by norm_num)).1

/-! ### `fill`, `operator+=` -/

theorem foldl_range_add {W : Type} (val : W → K) (step : W → Nat → W) (D : Nat → K)
    (h : ∀ w z, val (step w z) = val w + D z) (w : W) (n : Nat) :
    val ((List.range n).foldl step w) = val w + ∑ z in Finset.range n, D z := by
  induction n with
  | zero => simp
  | succ n ih =>
    rw [List.range_succ, List.foldl_append, Finset.sum_range_succ]
    simp only [List.foldl_cons, List.foldl_nil]
    rw [h, ih, add_assoc]

theorem foldl_invariant {W A : Type} (f : W → A) (step : W → Nat → W)
    (h : ∀ w z, f (step w z) = f w) (w : W) (l : List Nat) :
    f (l.foldl step w) = f w := by
  induction l generalizing w with
  | nil => rfl
  | cons a l ih => simp only [List.foldl_cons]; rw [ih, h]

theorem update_add_cell_cell (w : Nat → SparseMatrix3d K) (ip : Nat) (i j k : Int) (v : K)
    (c : Nat) (a b d : Int) :
    ((Function.update w ip ((w ip).add_cell i j k v)) c).cell a b d
      = (w c).cell a b d + if c = ip ∧ a = i ∧ b = j ∧ d = k then v else 0 := by
  by_cases hc : c = ip
  · subst hc
    simp only [Function.update_same, SparseMatrix3d.add_cell, true_and]
    split_ifs <;> simp
  · rw [Function.update_noteq hc]
    simp [hc]

theorem sum4_indicator (P3 P1 P2 Np : Nat) (k3 k1 k2 : Int)
    (V : Nat → Nat → Nat → Nat → K) (c : Nat) (a b d : Int) :
    ∑ i3 in Finset.range P3, ∑ i1 in Finset.range P1, ∑ i2 in Finset.range P2,
      ∑ ip in Finset.range Np,
        (if c = ip ∧ a = k3 + (i3 : Int) ∧ b = k1 + (i1 : Int) ∧ d = k2 + (i2 : Int)
          then V i3 i1 i2 ip else 0)
      = if c < Np ∧ (k3 ≤ a ∧ a < k3 + P3) ∧ (k1 ≤ b ∧ b < k1 + P1) ∧ (k2 ≤ d ∧ d < k2 + P2)
          then V (a - k3).toNat (b - k1).toNat (d - k2).toNat c else 0 := by
  by_cases hcond : c < Np ∧ (k3 ≤ a ∧ a < k3 + P3) ∧ (k1 ≤ b ∧ b < k1 + P1) ∧
      (k2 ≤ d ∧ d < k2 + P2)
  · rw [if_pos hcond]
    obtain ⟨hc, ⟨ha1, ha2⟩, ⟨hb1, hb2⟩, ⟨hd1, hd2⟩⟩ := hcond
    rw [Finset.sum_eq_single_of_mem (a - k3).toNat (Finset.mem_range.mpr (by omega))
      (fun i3 _ hne => Finset.sum_eq_zero (fun i1 _ => Finset.sum_eq_zero (fun i2 _ =>
        Finset.sum_eq_zero (fun ip _ => if_neg (fun h => hne (by omega))))))]
    rw [Finset.sum_eq_single_of_mem (b - k1).toNat (Finset.mem_range.mpr (by omega))
      (fun i1 _ hne => Finset.sum_eq_zero (fun i2 _ =>
        Finset.sum_eq_zero (fun ip _ => if_neg (fun h => hne (by omega)))))]
    rw [Finset.sum_eq_single_of_mem (d - k2).toNat (Finset.mem_range.mpr (by omega))
      (fun i2 _ hne => Finset.sum_eq_zero (fun ip _ => if_neg (fun h => hne (by omega))))]
    rw [Finset.sum_eq_single_of_mem c (Finset.mem_range.mpr hc)
      (fun ip _ hne => if_neg (fun h => hne h.1.symm))]
    rw [if_pos ⟨rfl, by omega, by omega, by omega⟩]
  · rw [if_neg hcond]
    apply Finset.sum_eq_zero; intro i3 h3
    apply Finset.sum_eq_zero; intro i1 h1
    apply Finset.sum_eq_zero; intro i2 h2
    apply Finset.sum_eq_zero; intro ip hp
    rw [Finset.mem_range] at h3 h1 h2 hp
    apply if_neg
    intro h
    apply hcond
    omega
theorem fill_loop_ip (w : Nat → SparseMatrix3d K) (c : Nat) (a b d : Int) (Np : Nat)
    (i j k : Int) (wt : Nat → K) (f : K) :
    (((List.range Np).foldl (fun w (ip : Nat) =>
        Function.update w ip ((w ip).add_cell i j k (wt ip * f))) w) c).cell a b d
      = (w c).cell a b d +
        ∑ ip in Finset.range Np, (if c = ip ∧ a = i ∧ b = j ∧ d = k then wt ip * f else 0) :=
  foldl_range_add (fun w : Nat → SparseMatrix3d K => (w c).cell a b d)
    (fun w (ip : Nat) => Function.update w ip ((w ip).add_cell i j k (wt ip * f)))
    (fun ip => if c = ip ∧ a = i ∧ b = j ∧ d = k then wt ip * f else 0)
    (fun w ip => update_add_cell_cell w ip i j k (wt ip * f) c a b d) w Np

theorem fill_loop_i2 (w : Nat → SparseMatrix3d K) (c : Nat) (a b d : Int) (Np P2 : Nat)
    (i j k2 : Int) (wt : Nat → K) (f : Nat → K) :
    (((List.range P2).foldl (fun w (i2 : Nat) =>
        (List.range Np).foldl (fun w (ip : Nat) =>
          Function.update w ip ((w ip).add_cell i j (k2 + (i2 : Int)) (wt ip * f i2))) w)
        w) c).cell a b d
      = (w c).cell a b d +
        ∑ i2 in Finset.range P2, ∑ ip in Finset.range Np,
          (if c = ip ∧ a = i ∧ b = j ∧ d = k2 + (i2 : Int) then wt ip * f i2 else 0) :=
  foldl_range_add (fun w : Nat → SparseMatrix3d K => (w c).cell a b d)
    (fun w (i2 : Nat) =>
        (List.range Np).foldl (fun w (ip : Nat) =>
          Function.update w ip ((w ip).add_cell i j (k2 + (i2 : Int)) (wt ip * f i2))) w)
    (fun i2 => ∑ ip in Finset.range Np,
          (if c = ip ∧ a = i ∧ b = j ∧ d = k2 + (i2 : Int) then wt ip * f i2 else 0))
    (fun w i2 => fill_loop_ip w c a b d Np i j (k2 + (i2 : Int)) wt (f i2)) w P2

theorem fill_loop_i1 (w : Nat → SparseMatrix3d K) (c : Nat) (a b d : Int) (Np P2 P1 : Nat)
    (i k1 k2 : Int) (wt : Nat → K) (f : Nat → Nat → K) :
    (((List.range P1).foldl (fun w (i1 : Nat) =>
        (List.range P2).foldl (fun w (i2 : Nat) =>
          (List.range Np).foldl (fun w (ip : Nat) =>
            Function.update w ip
              ((w ip).add_cell i (k1 + (i1 : Int)) (k2 + (i2 : Int)) (wt ip * f i1 i2))) w)
          w) w) c).cell a b d
      = (w c).cell a b d +
        ∑ i1 in Finset.range P1, ∑ i2 in Finset.range P2, ∑ ip in Finset.range Np,
          (if c = ip ∧ a = i ∧ b = k1 + (i1 : Int) ∧ d = k2 + (i2 : Int)
            then wt ip * f i1 i2 else 0) :=
  foldl_range_add (fun w : Nat → SparseMatrix3d K => (w c).cell a b d)
    (fun w (i1 : Nat) =>
        (List.range P2).foldl (fun w (i2 : Nat) =>
          (List.range Np).foldl (fun w (ip : Nat) =>
            Function.update w ip
              ((w ip).add_cell i (k1 + (i1 : Int)) (k2 + (i2 : Int)) (wt ip * f i1 i2))) w)
          w)
    (fun i1 => ∑ i2 in Finset.range P2, ∑ ip in Finset.range Np,
          (if c = ip ∧ a = i ∧ b = k1 + (i1 : Int) ∧ d = k2 + (i2 : Int)
            then wt ip * f i1 i2 else 0))
    (fun w i1 => fill_loop_i2 w c a b d Np P2 i (k1 + (i1 : Int)) k2 wt (f i1)) w P1

theorem fill_loop_i3 (w : Nat → SparseMatrix3d K) (c : Nat) (a b d : Int) (Np P2 P1 P3 : Nat)
    (k3 k1 k2 : Int) (wt : Nat → K) (f : Nat → Nat → Nat → K) :
    (((List.range P3).foldl (fun w (i3 : Nat) =>
        (List.range P1).foldl (fun w (i1 : Nat) =>
          (List.range P2).foldl (fun w (i2 : Nat) =>
            (List.range Np).foldl (fun w (ip : Nat) =>
              Function.update w ip
                ((w ip).add_cell (k3 + (i3 : Int)) (k1 + (i1 : Int)) (k2 + (i2 : Int))
                  (wt ip * f i3 i1 i2))) w)
            w) w) w) c).cell a b d
      = (w c).cell a b d +
        ∑ i3 in Finset.range P3, ∑ i1 in Finset.range P1, ∑ i2 in Finset.range P2,
          ∑ ip in Finset.range Np,
          (if c = ip ∧ a = k3 + (i3 : Int) ∧ b = k1 + (i1 : Int) ∧ d = k2 + (i2 : Int)
            then wt ip * f i3 i1 i2 else 0) :=
  foldl_range_add (fun w : Nat → SparseMatrix3d K => (w c).cell a b d)
    (fun w (i3 : Nat) =>
        (List.range P1).foldl (fun w (i1 : Nat) =>
          (List.range P2).foldl (fun w (i2 : Nat) =>
            (List.range Np).foldl (fun w (ip : Nat) =>
              Function.update w ip
                ((w ip).add_cell (k3 + (i3 : Int)) (k1 + (i1 : Int)) (k2 + (i2 : Int))
                  (wt ip * f i3 i1 i2))) w)
            w) w)
    (fun i3 => ∑ i1 in Finset.range P1, ∑ i2 in Finset.range P2, ∑ ip in Finset.range Np,
          (if c = ip ∧ a = k3 + (i3 : Int) ∧ b = k1 + (i1 : Int) ∧ d = k2 + (i2 : Int)
            then wt ip * f i3 i1 i2 else 0))
    (fun w i3 => fill_loop_i1 w c a b d Np P2 P1 (k3 + (i3 : Int)) k1 k2 wt (f i3)) w P3

theorem fill_cell_sum (m : CMath K) (g : igrid K) (x1 x2 Q2 : K) (weight : Nat → K)
    (c : Nat) (a b d : Int) :
    ((g.fill m x1 x2 Q2 weight).m_weight c).cell a b d
      = (g.m_weight c).cell a b d +
        ∑ i3 in Finset.range (g.m_tauorder + 1).toNat,
        ∑ i1 in Finset.range (g.m_yorder + 1).toNat,
        ∑ i2 in Finset.range (g.m_yorder + 1).toNat,
        ∑ ip in Finset.range g.m_Nproc.toNat,
          (if c = ip ∧ a = igrid.fkappa m g Q2 + (i3 : Int) ∧ b = g.fk1 x1 + (i1 : Int) ∧
              d = g.fk2 x2 + (i2 : Int)
            then weight ip * g.fill_factor m x1 x2 Q2 i3 i1 i2 else 0) :=
  fill_loop_i3 g.m_weight c a b d g.m_Nproc.toNat (g.m_yorder + 1).toNat
    (g.m_yorder + 1).toNat (g.m_tauorder + 1).toNat (igrid.fkappa m g Q2) (g.fk1 x1)
    (g.fk2 x2) weight (fun i3 i1 i2 => g.fill_factor m x1 x2 Q2 i3 i1 i2)

/-- The cell of channel `c` at `(a, b, d)` after one `fill`. -/
theorem fill_cell (m : CMath K) (g : igrid K) (x1 x2 Q2 : K) (weight : Nat → K)
    (c : Nat) (a b d : Int) :
    ((g.fill m x1 x2 Q2 weight).m_weight c).cell a b d
      = (g.m_weight c).cell a b d +
        if c < g.m_Nproc.toNat ∧
            (igrid.fkappa m g Q2 ≤ a ∧ a < igrid.fkappa m g Q2 + (g.m_tauorder + 1).toNat) ∧
            (g.fk1 x1 ≤ b ∧ b < g.fk1 x1 + (g.m_yorder + 1).toNat) ∧
            (g.fk2 x2 ≤ d ∧ d < g.fk2 x2 + (g.m_yorder + 1).toNat)
          then weight c * g.fill_factor m x1 x2 Q2 (a - igrid.fkappa m g Q2).toNat
            (b - g.fk1 x1).toNat (d - g.fk2 x2).toNat
          else 0 := by
  rw [fill_cell_sum, sum4_indicator]
theorem fill_cell_increment (m : CMath K) (g : igrid K) (x1 x2 Q2 : K) (weight : Nat → K)
    (c : Nat) (a b d : Int) :
    ((g.fill m x1 x2 Q2 weight).m_weight c).cell a b d
      = (g.m_weight c).cell a b d + g.fill_increment m x1 x2 Q2 weight c a b d :=
  fill_cell m g x1 x2 Q2 weight c a b d

theorem update_add_cell_axes (w : Nat → SparseMatrix3d K) (ip : Nat) (i j k : Int) (v : K)
    (c : Nat) :
    ((Function.update w ip ((w ip).add_cell i j k v)) c).m_xaxis = (w c).m_xaxis ∧
    ((Function.update w ip ((w ip).add_cell i j k v)) c).m_yaxis = (w c).m_yaxis ∧
    ((Function.update w ip ((w ip).add_cell i j k v)) c).m_zaxis = (w c).m_zaxis := by
  by_cases hc : c = ip
  · subst hc
    simp [SparseMatrix3d.add_cell]
  · rw [Function.update_noteq hc]
    simp

theorem fill_axes (m : CMath K) (g : igrid K) (x1 x2 Q2 : K) (weight : Nat → K) (c : Nat) :
    ((g.fill m x1 x2 Q2 weight).m_weight c).m_xaxis = (g.m_weight c).m_xaxis ∧
    ((g.fill m x1 x2 Q2 weight).m_weight c).m_yaxis = (g.m_weight c).m_yaxis ∧
    ((g.fill m x1 x2 Q2 weight).m_weight c).m_zaxis = (g.m_weight c).m_zaxis := by
  have key : ∀ (P3 P1 P2 Np : Nat) (k3 k1 k2 : Int) (f : Nat → Nat → Nat → K)
      (w : Nat → SparseMatrix3d K),
      (fun w : Nat → SparseMatrix3d K => ((w c).m_xaxis, (w c).m_yaxis, (w c).m_zaxis))
        ((List.range P3).foldl (fun w (i3 : Nat) =>
          (List.range P1).foldl (fun w (i1 : Nat) =>
            (List.range P2).foldl (fun w (i2 : Nat) =>
              (List.range Np).foldl (fun w (ip : Nat) =>
                Function.update w ip
                  ((w ip).add_cell (k3 + (i3 : Int)) (k1 + (i1 : Int)) (k2 + (i2 : Int))
                    (weight ip * f i3 i1 i2))) w) w) w) w)
        = ((w c).m_xaxis, (w c).m_yaxis, (w c).m_zaxis) := by
    intro P3 P1 P2 Np k3 k1 k2 f w
    exact foldl_invariant
      (fun w : Nat → SparseMatrix3d K => ((w c).m_xaxis, (w c).m_yaxis, (w c).m_zaxis)) _
      (fun w i3 => foldl_invariant
        (fun w : Nat → SparseMatrix3d K => ((w c).m_xaxis, (w c).m_yaxis, (w c).m_zaxis)) _
        (fun w i1 => foldl_invariant
          (fun w : Nat → SparseMatrix3d K => ((w c).m_xaxis, (w c).m_yaxis, (w c).m_zaxis)) _
          (fun w i2 => foldl_invariant
            (fun w : Nat → SparseMatrix3d K => ((w c).m_xaxis, (w c).m_yaxis, (w c).m_zaxis))
            _
            (fun w ip => by
              have := update_add_cell_axes w ip (k3 + (i3 : Int)) (k1 + (i1 : Int))
                (k2 + (i2 : Int)) (weight ip * f i3 i1 i2) c
              simp only [this.1, this.2.1, this.2.2]) w _) w _) w _) w _
  have h := key (g.m_tauorder + 1).toNat (g.m_yorder + 1).toNat (g.m_yorder + 1).toNat
    g.m_Nproc.toNat (igrid.fkappa m g Q2) (g.fk1 x1) (g.fk2 x2)
    (fun i3 i1 i2 => g.fill_factor m x1 x2 Q2 i3 i1 i2) g.m_weight
  simp only [Prod.mk.injEq] at h
  exact h

theorem fill_frame_eq (m : CMath K) (g : igrid K) (x1 x2 Q2 : K) (weight : Nat → K) :
    g.frame_eq (g.fill m x1 x2 Q2 weight) :=
  ⟨rfl, rfl, rfl, rfl, rfl, rfl, fun c => fill_axes m g x1 x2 Q2 weight c⟩

theorem frame_eq_refl (g : igrid K) : g.frame_eq g :=
  ⟨rfl, rfl, rfl, rfl, rfl, rfl, fun _ => ⟨rfl, rfl, rfl⟩⟩

theorem frame_eq_trans {g h k : igrid K} (h1 : g.frame_eq h) (h2 : h.frame_eq k) :
    g.frame_eq k := by
  obtain ⟨a1, a2, a3, a4, a5, a6, a7⟩ := h1
  obtain ⟨b1, b2, b3, b4, b5, b6, b7⟩ := h2
  refine ⟨b1.trans a1, b2.trans a2, b3.trans a3, b4.trans a4, b5.trans a5, b6.trans a6, ?_⟩
  intro c
  exact ⟨(b7 c).1.trans (a7 c).1, (b7 c).2.1.trans (a7 c).2.1, (b7 c).2.2.trans (a7 c).2.2⟩

theorem frame_eq_increment (m : CMath K) {g h : igrid K} (hf : g.frame_eq h)
    (x1 x2 Q2 : K) (weight : Nat → K) :
    h.fill_increment m x1 x2 Q2 weight = g.fill_increment m x1 x2 Q2 weight := by
  obtain ⟨a1, a2, a3, a4, a5, a6, a7⟩ := hf
  have hx := (a7 0).1
  have hy := (a7 0).2.1
  have hz := (a7 0).2.2
  have e1 : h.fk1 x1 = g.fk1 x1 := by
    simp only [igrid.fk1, igrid.fy, igrid.y1min, igrid.deltay1, igrid.Ny1, a1, a2, a3, hy]
  have e2 : h.fk2 x2 = g.fk2 x2 := by
    simp only [igrid.fk2, igrid.fy, igrid.y2min, igrid.deltay2, igrid.Ny2, a1, a2, a3, hz]
  have e3 : igrid.fkappa m h Q2 = igrid.fkappa m g Q2 := by
    simp only [igrid.fkappa, igrid.taumin, igrid.deltatau, igrid.Ntau, a4, hx]
  have e4 : h.fill_factor m x1 x2 Q2 = g.fill_factor m x1 x2 Q2 := by
    funext i3 i1 i2
    simp only [igrid.fill_factor, igrid.fill_u_y1, igrid.fill_u_y2, igrid.fill_u_tau,
      igrid.gety1, igrid.gety2, igrid.gettau, igrid.fy, igrid.deltay1, igrid.deltay2,
      igrid.deltatau, e1, e2, e3, a1, a2, a3, a4, a6, hx, hy, hz]
  funext c a b d
  simp only [igrid.fill_increment, e1, e2, e3, e4, a3, a4, a5]

theorem fill_all_frame_eq (m : CMath K) (g : igrid K) (S : List (fill_point K)) :
    g.frame_eq (g.fill_all m S) := by
  induction S generalizing g with
  | nil => exact frame_eq_refl g
  | cons p S ih =>
    exact frame_eq_trans (fill_frame_eq m g p.x1 p.x2 p.Q2 p.weight) (ih _)

/-- The cells after a sequence of fills: the initial content plus the sum of the
increments of the separate fills. -/
theorem fill_all_cell (m : CMath K) (g : igrid K) (S : List (fill_point K)) (c : Nat)
    (a b d : Int) :
    ((g.fill_all m S).m_weight c).cell a b d
      = (g.m_weight c).cell a b d +
        (S.map (fun p => g.fill_increment m p.x1 p.x2 p.Q2 p.weight c a b d)).sum := by
  induction S generalizing g with
  | nil => simp [igrid.fill_all]
  | cons p S ih =>
    have h1 : g.fill_all m (p :: S) = (g.fill m p.x1 p.x2 p.Q2 p.weight).fill_all m S := rfl
    rw [h1, ih, fill_cell_increment, List.map_cons, List.sum_cons, add_assoc]
    simp only [frame_eq_increment m (fill_frame_eq m g p.x1 p.x2 p.Q2 p.weight)]
/-! ### The domain of `fill` -/

theorem fill_scratch_in_bounds_iff (g : igrid K) :
    g.fill_scratch_in_bounds ↔ g.m_yorder ≤ 15 ∧ g.m_tauorder ≤ 15 := by
  unfold igrid.fill_scratch_in_bounds igrid.fill_scratch_indices_y
    igrid.fill_scratch_indices_tau fill_scratch_length
  constructor
  · rintro ⟨h1, h2⟩
    constructor
    · by_contra hc
      have := h1 16 (by rw [List.mem_range]; omega)
      omega
    · by_contra hc
      have := h2 16 (by rw [List.mem_range]; omega)
      omega
  · rintro ⟨h1, h2⟩
    constructor
    · intro i hi
      rw [List.mem_range] at hi
      omega
    · intro i hi
      rw [List.mem_range] at hi
      omega

/-- Whenever `fill` has a defined result, it is the grid that `igrid.fill` computes. -/
theorem fill_checked_result (m : CMath K) (g : igrid K) (x1 x2 Q2 : K) (w : Nat → K)
    (g1 : igrid K) (h : g.fill_checked m x1 x2 Q2 w = some g1) :
    g1 = g.fill m x1 x2 Q2 w ∧ g.fill_scratch_in_bounds := by
  unfold igrid.fill_checked at h
  split at h
  · by_cases hb : g.fill_scratch_in_bounds
    · rw [if_pos hb] at h
      exact ⟨(Option.some.inj h).symm, hb⟩
    · rw [if_neg hb] at h
      exact absurd h (by simp)
  · exact absurd h (by simp)

/-- For orders between 0 and 15 and defined selectors, `fill` has a defined result. -/
theorem fill_checked_some (m : CMath K) (g : igrid K) (x1 x2 Q2 : K) (w : Nat → K)
    (hy0 : 0 ≤ g.m_yorder) (hy : g.m_yorder ≤ 15) (ht0 : 0 ≤ g.m_tauorder)
    (ht : g.m_tauorder ≤ 15) (hdef : igrid.fill_selectors_defined m g x1 x2 Q2) :
    g.fill_checked m x1 x2 Q2 w = some (g.fill m x1 x2 Q2 w) := by
  unfold igrid.fill_checked
  rw [fk1_checked_eq g x1 hy0 (by omega), if_pos hdef.1,
    fk2_checked_eq g x2 hy0 (by omega), if_pos hdef.2.1,
    fkappa_checked_eq m g Q2 ht0 (by omega), if_pos hdef.2.2]
  simp only []
  rw [if_pos ((fill_scratch_in_bounds_iff g).2 ⟨hy, ht⟩)]

/-- For an order above 15 on either axis `fill` has no defined result. -/
theorem fill_checked_none_of_order (m : CMath K) (g : igrid K) (x1 x2 Q2 : K) (w : Nat → K)
    (h : 15 < g.m_yorder ∨ 15 < g.m_tauorder) : g.fill_checked m x1 x2 Q2 w = none := by
  have hb : ¬ g.fill_scratch_in_bounds := by
    rw [fill_scratch_in_bounds_iff]
    omega
  unfold igrid.fill_checked
  split
  · rw [if_neg hb]
  · rfl

/-- Where a selector is not defined, `fill` has no defined result. -/
theorem fill_checked_none_of_selectors (m : CMath K) (g : igrid K) (x1 x2 Q2 : K)
    (w : Nat → K) (hy0 : 0 ≤ g.m_yorder) (hy : g.m_yorder ≤ 15) (ht0 : 0 ≤ g.m_tauorder)
    (ht : g.m_tauorder ≤ 15) (hdef : ¬ igrid.fill_selectors_defined m g x1 x2 Q2) :
    g.fill_checked m x1 x2 Q2 w = none := by
  unfold igrid.fill_checked
  rw [fk1_checked_eq g x1 hy0 (by omega), fk2_checked_eq g x2 hy0 (by omega),
    fkappa_checked_eq m g Q2 ht0 (by omega)]
  by_cases h1 : g.fk1_defined x1
  · by_cases h2 : g.fk2_defined x2
    · by_cases h3 : igrid.fkappa_defined m g Q2
      · exact absurd ⟨h1, h2, h3⟩ hdef
      · rw [if_pos h1, if_pos h2, if_neg h3]
    · rw [if_pos h1, if_neg h2]
  · rw [if_neg h1]

/-- The selectors of two grids with the same frame are defined at the same points. -/
theorem frame_eq_selectors_defined (m : CMath K) {g h : igrid K} (hf : g.frame_eq h)
    (x1 x2 Q2 : K) :
    igrid.fill_selectors_defined m h x1 x2 Q2 ↔ igrid.fill_selectors_defined m g x1 x2 Q2 := by
  obtain ⟨a1, a2, a3, a4, a5, a6, a7⟩ := hf
  have hx := (a7 0).1
  have hy := (a7 0).2.1
  have hz := (a7 0).2.2
  simp only [igrid.fill_selectors_defined, igrid.fk1_defined, igrid.fk2_defined,
    igrid.fkappa_defined, igrid.fk1_operand, igrid.fk2_operand, igrid.fkappa_operand,
    igrid.fy, igrid.y1min, igrid.y2min, igrid.taumin, igrid.deltay1, igrid.deltay2,
    igrid.deltatau, a1, a2, a3, a4, hx, hy, hz]

/-- Whenever a sequence of fills has a defined result, it is the grid that
`igrid.fill_all` computes. -/
theorem fill_all_checked_result (m : CMath K) (g : igrid K) (S : List (fill_point K))
    (g1 : igrid K) (h : g.fill_all_checked m S = some g1) : g1 = g.fill_all m S := by
  induction S generalizing g with
  | nil =>
    simp only [igrid.fill_all_checked, List.foldlM, pure] at h
    exact (Option.some.inj h).symm
  | cons p S ih =>
    simp only [igrid.fill_all_checked, List.foldlM, bind, Option.bind] at h
    cases hp : g.fill_checked m p.x1 p.x2 p.Q2 p.weight with
    | none => rw [hp] at h; exact absurd h (by simp)
    | some g2 =>
      rw [hp] at h
      have e := (fill_checked_result m g p.x1 p.x2 p.Q2 p.weight g2 hp).1
      subst e
      exact ih _ h

/-- For orders between 0 and 15, a sequence of fills at points where the selectors are
defined has a defined result. -/
theorem fill_all_checked_some (m : CMath K) (g : igrid K) (S : List (fill_point K))
    (hy0 : 0 ≤ g.m_yorder) (hy : g.m_yorder ≤ 15) (ht0 : 0 ≤ g.m_tauorder)
    (ht : g.m_tauorder ≤ 15)
    (hdef : ∀ p ∈ S, igrid.fill_selectors_defined m g p.x1 p.x2 p.Q2) :
    g.fill_all_checked m S = some (g.fill_all m S) := by
  induction S generalizing g with
  | nil => rfl
  | cons p S ih =>
    have h1 := fill_checked_some m g p.x1 p.x2 p.Q2 p.weight hy0 hy ht0 ht
      (hdef p (List.mem_cons_self _ _))
    have hf := fill_frame_eq m g p.x1 p.x2 p.Q2 p.weight
    have hrec := ih (g.fill m p.x1 p.x2 p.Q2 p.weight)
      (by rw [hf.2.2.1]; exact hy0) (by rw [hf.2.2.1]; exact hy)
      (by rw [hf.2.2.2.1]; exact ht0) (by rw [hf.2.2.2.1]; exact ht)
      (fun q hq => (frame_eq_selectors_defined m hf q.x1 q.x2 q.Q2).2
        (hdef q (List.mem_cons_of_mem _ hq)))
    simp only [igrid.fill_all_checked, List.foldlM, bind, Option.bind, h1]
    exact hrec

/-- The cells after one `fill`, where `fill` has a defined result: the stencil cells gain
`w[c]` times the product of the three coefficients and the reweighting factor, and every
other cell and the axes are as before. -/
theorem fill_stencil_cells (m : CMath K) (g : igrid K) (x1 x2 Q2 : K) (w : Nat → K) :
    (∀ c i_tau i1 i2 : Nat, (c : Int) < g.m_Nproc → (i_tau : Int) ≤ g.m_tauorder →
      (i1 : Int) ≤ g.m_yorder → (i2 : Int) ≤ g.m_yorder →
      ((g.fill m x1 x2 Q2 w).m_weight c).cell (igrid.fkappa m g Q2 + (i_tau : Int))
          (g.fk1 x1 + (i1 : Int)) (g.fk2 x2 + (i2 : Int))
        = (g.m_weight c).cell (igrid.fkappa m g Q2 + (i_tau : Int))
            (g.fk1 x1 + (i1 : Int)) (g.fk2 x2 + (i2 : Int)) +
          w c * fI (i_tau : Int) g.m_tauorder (g.fill_u_tau m Q2) *
            fI (i1 : Int) g.m_yorder (g.fill_u_y1 x1) *
            fI (i2 : Int) g.m_yorder (g.fill_u_y2 x2) *
            (if g.m_reweight then 1 / (weightfun m x1 * weightfun m x2) else 1)) ∧
    (∀ (c : Nat) (a b d : Int),
      ¬ ((c : Int) < g.m_Nproc ∧
        (igrid.fkappa m g Q2 ≤ a ∧ a ≤ igrid.fkappa m g Q2 + g.m_tauorder) ∧
        (g.fk1 x1 ≤ b ∧ b ≤ g.fk1 x1 + g.m_yorder) ∧
        (g.fk2 x2 ≤ d ∧ d ≤ g.fk2 x2 + g.m_yorder)) →
      ((g.fill m x1 x2 Q2 w).m_weight c).cell a b d = (g.m_weight c).cell a b d) ∧
    (∀ c : Nat,
      ((g.fill m x1 x2 Q2 w).m_weight c).m_xaxis = (g.m_weight c).m_xaxis ∧
      ((g.fill m x1 x2 Q2 w).m_weight c).m_yaxis = (g.m_weight c).m_yaxis ∧
      ((g.fill m x1 x2 Q2 w).m_weight c).m_zaxis = (g.m_weight c).m_zaxis) ∧
    (g.fill_u_tau m Q2
        = (ftau m Q2 - (g.m_weight 0).m_xaxis.node (igrid.fkappa m g Q2)) /
          (g.m_weight 0).m_xaxis.delta ∧
      g.fill_u_y1 x1
        = (g.fy x1 - (g.m_weight 0).m_yaxis.node (g.fk1 x1)) / (g.m_weight 0).m_yaxis.delta ∧
      g.fill_u_y2 x2
        = (g.fy x2 - (g.m_weight 0).m_zaxis.node (g.fk2 x2)) / (g.m_weight 0).m_zaxis.delta) ∧
    (∀ x : K, weightfun m x = m.sqrt (x ^ 3) / (1 - 0.99 * x) ^ 3) := by
  refine ⟨?_, ?_, fun c => fill_axes m g x1 x2 Q2 w c, ⟨rfl, rfl, rfl⟩, ?_⟩
  · intro c i3 i1 i2 hc h3 h1 h2
    rw [fill_cell]
    have hcond : c < g.m_Nproc.toNat ∧
        (igrid.fkappa m g Q2 ≤ igrid.fkappa m g Q2 + (i3 : Int) ∧
          igrid.fkappa m g Q2 + (i3 : Int)
            < igrid.fkappa m g Q2 + (g.m_tauorder + 1).toNat) ∧
        (g.fk1 x1 ≤ g.fk1 x1 + (i1 : Int) ∧
          g.fk1 x1 + (i1 : Int) < g.fk1 x1 + (g.m_yorder + 1).toNat) ∧
        (g.fk2 x2 ≤ g.fk2 x2 + (i2 : Int) ∧
          g.fk2 x2 + (i2 : Int) < g.fk2 x2 + (g.m_yorder + 1).toNat) := by omega
    rw [if_pos hcond]
    have e3 : (igrid.fkappa m g Q2 + (i3 : Int) - igrid.fkappa m g Q2).toNat = i3 := by omega
    have e1 : (g.fk1 x1 + (i1 : Int) - g.fk1 x1).toNat = i1 := by omega
    have e2 : (g.fk2 x2 + (i2 : Int) - g.fk2 x2).toNat = i2 := by omega
    rw [e3, e1, e2]
    unfold igrid.fill_factor
    congr 1
    split_ifs <;> ring
  · intro c a b d hnot
    rw [fill_cell, if_neg, add_zero]
    intro h
    apply hnot
    omega
  · intro x
    unfold weightfun
    simp only []
    congr 1 <;> ring_nf

/-- The grid of 5 nodes over `[0, 4]` with order 2, the transform `y = -x` and the
functions of `cmath` replaced by the identity, so that `tau = Q2/0.0625`: the three
selectors are defined at every point with coordinates between `-1000` and `1000`. -/
theorem linear_grid_fill_defined (x1 x2 Q2 : ℚ) (h1 : -1000 ≤ x1 ∧ x1 ≤ 1000)
    (h2 : -1000 ≤ x2 ∧ x2 ≤ 1000) (h3 : -1000 ≤ Q2 ∧ Q2 ≤ 1000) :
    igrid.fill_selectors_defined
      (⟨fun x => x, fun x => x, fun x => x, fun x => x, fun a _ => a, 3⟩ : CMath ℚ)
      (uniform_grid (fun _ x => -x) (fun _ y => -y) 5 0 4 2 1 : igrid ℚ) x1 x2 Q2 := by
  have e0 : ((2 : Int) >>> (1 : Nat)) = 1 := by decide
  obtain ⟨h1a, h1b⟩ := h1
  obtain ⟨h2a, h2b⟩ := h2
  obtain ⟨h3a, h3b⟩ := h3
  simp only [igrid.fill_selectors_defined, igrid.fk1_defined, igrid.fk2_defined,
    igrid.fkappa_defined, igrid.fk1_operand, igrid.fk2_operand, igrid.fkappa_operand,
    int_cast_defined, uniform_grid, igrid.construct, igrid.fy, igrid.y1min, igrid.y2min,
    igrid.taumin, igrid.deltay1, igrid.deltay2, igrid.deltatau, SparseMatrix3d.mk_empty,
    axis.delta, ftau, e0]
  norm_num
  refine ⟨⟨⟨?_, ?_⟩, ?_⟩, ⟨⟨?_, ?_⟩, ?_⟩, ⟨?_, ?_⟩, ?_⟩ <;> linarith

theorem compare_axes_of_eq (T S : SparseMatrix3d K) (hx : T.m_xaxis = S.m_xaxis)
    (hy : T.m_yaxis = S.m_yaxis) (hz : T.m_zaxis = S.m_zaxis) :
    T.compare_axes S = true := by
  simp [SparseMatrix3d.compare_axes, hx, hy, hz]

theorem add_assign_loop (w0 h : Nat → SparseMatrix3d K)
    (hax : ∀ c, (w0 c).compare_axes (h c) = true) (n : Nat) :
    (List.range n).foldlM (fun w (ip : Nat) =>
      if (w ip).compare_axes (h ip) then
        (Except.ok (Function.update w ip ((w ip).add (h ip))) :
          Except String (Nat → SparseMatrix3d K))
      else Except.error "igrid::operator+=() grids do not match") w0
      = Except.ok (fun c => if c < n then (w0 c).add (h c) else w0 c) := by
  induction n with
  | zero => simp [List.foldlM, pure, Except.pure]
  | succ n ih =>
    rw [List.range_succ, List.foldlM_append, ih]
    simp only [List.foldlM, bind, Except.bind, pure, Except.pure, lt_irrefl, if_false, hax,
      if_true]
    congr 1
    funext c
    by_cases hc : c = n
    · subst hc; simp
    · rw [Function.update_noteq hc]
      have : (c < n + 1) ↔ (c < n) := by omega
      simp only [this]

theorem add_assign_ok (g h : igrid K)
    (hax : ∀ c, (g.m_weight c).compare_axes (h.m_weight c) = true) :
    g.add_assign h = Except.ok
      { g with m_weight := fun c =>
          if c < g.m_Nproc.toNat then (g.m_weight c).add (h.m_weight c) else g.m_weight c } := by
  unfold igrid.add_assign
  rw [add_assign_loop g.m_weight h.m_weight hax]
  rfl

/-- Fills on fresh grids with the same frame, where every fill has a defined result:
`operator+=` of the two filled grids does not throw and yields, cell by cell, the grid
filled with both sequences; the order of the fills does not matter. -/
theorem fill_all_additive (m : CMath K) (g0 : igrid K) (S1 S2 : List (fill_point K))
    (hfresh : ∀ c a b d, (g0.m_weight c).cell a b d = 0) :
    (∃ g, (g0.fill_all m S1).add_assign (g0.fill_all m S2) = Except.ok g ∧
      ∀ c a b d, (g.m_weight c).cell a b d
        = ((g0.fill_all m (S1 ++ S2)).m_weight c).cell a b d) ∧
    (∀ c a b d, ((g0.fill_all m (S1 ++ S2)).m_weight c).cell a b d
        = ((g0.fill_all m (S2 ++ S1)).m_weight c).cell a b d) := by
  have f1 := fill_all_frame_eq m g0 S1
  have f2 := fill_all_frame_eq m g0 S2
  have hax : ∀ c, ((g0.fill_all m S1).m_weight c).compare_axes
      ((g0.fill_all m S2).m_weight c) = true := by
    intro c
    obtain ⟨_, _, _, _, _, _, a7⟩ := f1
    obtain ⟨_, _, _, _, _, _, b7⟩ := f2
    exact compare_axes_of_eq _ _ ((a7 c).1.trans (b7 c).1.symm)
      ((a7 c).2.1.trans (b7 c).2.1.symm) ((a7 c).2.2.trans (b7 c).2.2.symm)
  constructor
  · refine ⟨_, add_assign_ok _ _ hax, ?_⟩
    intro c a b d
    simp only []
    rw [fill_all_cell m g0 (S1 ++ S2), hfresh, List.map_append, List.sum_append]
    by_cases hc : c < (g0.fill_all m S1).m_Nproc.toNat
    · rw [if_pos hc]
      simp only [SparseMatrix3d.add]
      rw [fill_all_cell, fill_all_cell, hfresh]
      ring
    · rw [if_neg hc, fill_all_cell, hfresh]
      have hN : (g0.fill_all m S1).m_Nproc = g0.m_Nproc := f1.2.2.2.2.1
      rw [hN] at hc
      have hz : ∀ p : fill_point K,
          g0.fill_increment m p.x1 p.x2 p.Q2 p.weight c a b d = 0 := by
        intro p
        unfold igrid.fill_increment
        rw [if_neg (fun h => hc h.1)]
      simp [hz]
  · intro c a b d
    rw [fill_all_cell, fill_all_cell, List.map_append, List.map_append, List.sum_append,
      List.sum_append]
    ring

/-- C9: for fills `S1` and `S2` on fresh grids with the same construction parameters,
whenever the fills have a defined result, `operator+=` of the grid filled with `S1` and
the grid filled with `S2` does not throw and yields, cell by cell, the tensors of one fresh
grid filled with `S1` followed by `S2`; so the stored content does not depend on the order
of the fills. The fills have a defined result when the orders are between 0 and 15 and
the node selectors are defined at every point. -/
theorem fills_additive (m : CMath K) (g0 : igrid K) (S1 S2 : List (fill_point K))
    (hfresh : ∀ c a b d, (g0.m_weight c).cell a b d = 0) :
    (∀ g1 g2 g12, g0.fill_all_checked m S1 = some g1 → g0.fill_all_checked m S2 = some g2 →
      g0.fill_all_checked m (S1 ++ S2) = some g12 →
      ∃ g, g1.add_assign g2 = Except.ok g ∧
        ∀ c a b d, (g.m_weight c).cell a b d = (g12.m_weight c).cell a b d) ∧
    (∀ g12 g21, g0.fill_all_checked m (S1 ++ S2) = some g12 →
      g0.fill_all_checked m (S2 ++ S1) = some g21 →
      ∀ c a b d, (g12.m_weight c).cell a b d = (g21.m_weight c).cell a b d) ∧
    (0 ≤ g0.m_yorder → g0.m_yorder ≤ 15 → 0 ≤ g0.m_tauorder → g0.m_tauorder ≤ 15 →
      (∀ p ∈ S1 ++ S2, igrid.fill_selectors_defined m g0 p.x1 p.x2 p.Q2) →
      ∃ g1 g2 g12 g21, g0.fill_all_checked m S1 = some g1 ∧
        g0.fill_all_checked m S2 = some g2 ∧
        g0.fill_all_checked m (S1 ++ S2) = some g12 ∧
        g0.fill_all_checked m (S2 ++ S1) = some g21) := by
  have h := fill_all_additive m g0 S1 S2 hfresh
  refine ⟨?_, ?_, ?_⟩
  · intro g1 g2 g12 h1 h2 h12
    rw [fill_all_checked_result m g0 S1 g1 h1, fill_all_checked_result m g0 S2 g2 h2,
      fill_all_checked_result m g0 _ g12 h12]
    exact h.1
  · intro g12 g21 h12 h21
    rw [fill_all_checked_result m g0 _ g12 h12, fill_all_checked_result m g0 _ g21 h21]
    exact h.2
  · intro hy0 hy ht0 ht hdef
    have hd1 : ∀ p ∈ S1, igrid.fill_selectors_defined m g0 p.x1 p.x2 p.Q2 :=
      fun p hp => hdef p (List.mem_append_left _ hp)
    have hd2 : ∀ p ∈ S2, igrid.fill_selectors_defined m g0 p.x1 p.x2 p.Q2 :=
      fun p hp => hdef p (List.mem_append_right _ hp)
    have hd21 : ∀ p ∈ S2 ++ S1, igrid.fill_selectors_defined m g0 p.x1 p.x2 p.Q2 := by
      intro p hp
      rcases List.mem_append.1 hp with hp | hp
      · exact hd2 p hp
      · exact hd1 p hp
    exact ⟨_, _, _, _, fill_all_checked_some m g0 S1 hy0 hy ht0 ht hd1,
      fill_all_checked_some m g0 S2 hy0 hy ht0 ht hd2,
      fill_all_checked_some m g0 _ hy0 hy ht0 ht hdef,
      fill_all_checked_some m g0 _ hy0 hy ht0 ht hd21⟩

/-- Witness of C9: two fills on the fresh grid of 5 nodes over `[0, 4]` with order 2 and
the transform `y = -x`: the fills return, `operator+=` returns, and the cell `(0, 1, 1)` of
the sum is that of the grid filled with both. -/
theorem fills_additive_witness :
    match (uniform_grid (fun _ x => -x) (fun _ y => -y) 5 0 4 2 1 : igrid ℚ).fill_all_checked
        (⟨fun x => x, fun x => x, fun x => x, fun x => x, fun a _ => a, 3⟩ : CMath ℚ)
        [⟨-7 / 2, -5 / 2, 5 / 32, fun _ => 1⟩],
      (uniform_grid (fun _ x => -x) (fun _ y => -y) 5 0 4 2 1 : igrid ℚ).fill_all_checked
        (⟨fun x => x, fun x => x, fun x => x, fun x => x, fun a _ => a, 3⟩ : CMath ℚ)
        [⟨-1 / 4, -1 / 5, 1 / 8, fun _ => 2⟩],
      (uniform_grid (fun _ x => -x) (fun _ y => -y) 5 0 4 2 1 : igrid ℚ).fill_all_checked
        (⟨fun x => x, fun x => x, fun x => x, fun x => x, fun a _ => a, 3⟩ : CMath ℚ)
        ([⟨-7 / 2, -5 / 2, 5 / 32, fun _ => 1⟩] ++ [⟨-1 / 4, -1 / 5, 1 / 8, fun _ => 2⟩]) with
    | some g1, some g2, some g12 =>
      (match g1.add_assign g2 with
        | Except.ok g => (g.m_weight 0).cell 0 1 1 = (g12.m_weight 0).cell 0 1 1
        | Except.error _ => False)
    | _, _, _ => False := by
  have hdef : ∀ p ∈ ([⟨-7 / 2, -5 / 2, 5 / 32, fun _ => 1⟩] ++
      [⟨-1 / 4, -1 / 5, 1 / 8, fun _ => 2⟩] : List (fill_point ℚ)),
      igrid.fill_selectors_defined
        (⟨fun x => x, fun x => x, fun x => x, fun x => x, fun a _ => a, 3⟩ : CMath ℚ)
        (uniform_grid (fun _ x => -x) (fun _ y => -y) 5 0 4 2 1 : igrid ℚ) p.x1 p.x2 p.Q2 := by
    intro p hp
    simp only [List.singleton_append, List.mem_cons, List.mem_singleton, List.not_mem_nil,
      or_false] at hp
    rcases hp with rfl | rfl
    · exact linear_grid_fill_defined _ _ _ (by norm_num) (by norm_num) (by norm_num)
    · exact linear_grid_fill_defined _ _ _ (by norm_num) (by norm_num) (by norm_num)
  obtain ⟨g1, g2, g12, g21, h1, h2, h12, -⟩ := (fills_additive
    (⟨fun x => x, fun x => x, fun x => x, fun x => x, fun a _ => a, 3⟩ : CMath ℚ)
    (uniform_grid (fun _ x => -x) (fun _ y => -y) 5 0 4 2 1 : igrid ℚ)
    [⟨-7 / 2, -5 / 2, 5 / 32, fun _ => 1⟩] [⟨-1 / 4, -1 / 5, 1 / 8, fun _ => 2⟩]
    (fun _ _ _ _ => rfl)).2.2 (by decide) (by decide) (by decide) (by decide) hdef
  obtain ⟨g, hg, hcell⟩ := (fills_additive
    (⟨fun x => x, fun x => x, fun x => x, fun x => x, fun a _ => a, 3⟩ : CMath ℚ)
    (uniform_grid (fun _ x => -x) (fun _ y => -y) 5 0 4 2 1 : igrid ℚ)
    [⟨-7 / 2, -5 / 2, 5 / 32, fun _ => 1⟩] [⟨-1 / 4, -1 / 5, 1 / 8, fun _ => 2⟩]
    (fun _ _ _ _ => rfl)).1 g1 g2 g12 h1 h2 h12
  rw [h1, h2, h12]
  simp only []
  rw [hg]
  exact hcell 0 0 1 1

/-! ### `setuppdf`, `amc_convolute`, `operator*=` -/

theorem foldl_list_add {W : Type} (val : W → K) (step : W → Nat → W) (D : Nat → K)
    (h : ∀ w z, val (step w z) = val w + D z) (w : W) (l : List Nat) :
    val (l.foldl step w) = val w + (l.map D).sum := by
  induction l generalizing w with
  | nil => simp
  | cons a l ih =>
    simp only [List.foldl_cons, List.map_cons, List.sum_cons]
    rw [ih, h, add_assoc]

theorem sum_map_range (D : Nat → K) (n : Nat) :
    ((List.range n).map D).sum = ∑ z in Finset.range n, D z := by
  induction n with
  | zero => simp
  | succ n ih =>
    rw [List.range_succ, List.map_append, List.sum_append, ih, Finset.sum_range_succ]
    simp

theorem foldl_reverse_range_add (step : K → Nat → K) (D : Nat → K)
    (h : ∀ w z, step w z = w + D z) (w : K) (n : Nat) :
    (List.range n).reverse.foldl step w = w + ∑ z in Finset.range n, D z := by
  have := foldl_list_add (fun x : K => x) step D h w (List.range n).reverse
  simp only at this
  rw [this, List.map_reverse, List.sum_reverse, sum_map_range]

theorem foldl_const_mul (a : K) (n : Nat) :
    (List.range n).foldl (fun x (_ : Nat) => x * a) 1 = a ^ n := by
  have := foldl_range_eq (fun _ => a) (1 : K) n
  rw [this, Finset.prod_const, Finset.card_range, one_mul]

theorem any_false_sum_zero (sig H : Nat → K) (n : Nat)
    (h : ((List.range n).any fun (ip : Nat) => decide (sig ip ≠ 0)) = false) :
    ∑ ip in Finset.range n, sig ip * H ip = 0 := by
  apply Finset.sum_eq_zero
  intro ip hip
  rw [Finset.mem_range] at hip
  rw [List.any_eq_false] at h
  have := h ip (List.mem_range.mpr hip)
  simp only [ne_eq, decide_not, Bool.not_eq_true', decide_eq_false_iff_not, not_not] at this
  rw [this, zero_mul]

theorem amc_inner_step (sig H : Nat → K) (n : Nat) (al dsigma : K) :
    (if ((List.range n).any fun (ip : Nat) => decide (sig ip ≠ 0)) = true then
        dsigma + al * (List.range n).foldl (fun xsigma (ip : Nat) => xsigma + sig ip * H ip) 0
      else dsigma)
      = dsigma + al * ∑ ip in Finset.range n, sig ip * H ip := by
  have hx : (List.range n).foldl (fun xsigma (ip : Nat) => xsigma + sig ip * H ip) 0
      = ∑ ip in Finset.range n, sig ip * H ip := by
    have := foldl_range_add (fun x : K => x) (fun xsigma (ip : Nat) => xsigma + sig ip * H ip)
      (fun ip => sig ip * H ip) (fun _ _ => rfl) 0 n
    simpa using this
  split_ifs with hnz
  · rw [hx]
  · have hz := any_false_sum_zero sig H n (by simpa using hnz)
    rw [hz, mul_zero, add_zero]

/-- The value `amc_convolute` returns: 0 for a grid of trimmed size 0, nothing for the
DIS grid that is not symmetric, whose second table has no rows, and otherwise the
convolution sum with the factor `(m_alphas[itau] * 8π²)^lo_order` on the layer `itau`. -/
theorem amc_convolute_eq (m : CMath K) (g : igrid K)
    (pdf0 : K → K → Nat → K) (pdf1 : Option (K → K → Nat → K))
    (genpdf : (Nat → K) → (Nat → K) → Nat → K) (alphas : K → K)
    (lo_order nloop : Int) (rs fs Es : K) :
    g.amc_convolute m pdf0 pdf1 genpdf alphas lo_order nloop rs fs Es
      = if g.trimmed_size = 0 then some 0
        else if (g.isDISgrid && !g.isSymmetric) = true then none
        else some (g.convolution_sum (g.setuppdf m alphas pdf0 pdf1 nloop rs fs Es) genpdf
          (fun itau => ((g.setuppdf m alphas pdf0 pdf1 nloop rs fs Es).m_alphas itau *
            (8 * m.M_PI * m.M_PI)) ^ lo_order.toNat)) := by
  unfold igrid.amc_convolute igrid.trimmed_size
  simp only []
  split_ifs with h1 h2
  · rfl
  · rfl
  · congr 1
    unfold igrid.convolution_sum
    have := foldl_range_add (fun x : K => x)
      (fun dsigma (itau : Nat) =>
        (List.range g.Ny1.toNat).reverse.foldl (fun dsigma (iy1 : Nat) =>
          (List.range g.Ny2.toNat).reverse.foldl (fun dsigma (iy2 : Nat) =>
            if ((List.range g.m_Nproc.toNat).any fun (ip : Nat) =>
                decide ((g.m_weight ip).cell (itau : Int) (iy1 : Int) (iy2 : Int) ≠ 0)) = true
            then
              dsigma + (List.range lo_order.toNat).foldl (fun a (_ : Nat) =>
                  a * ((g.setuppdf m alphas pdf0 pdf1 nloop rs fs Es).m_alphas itau *
                    (8 * m.M_PI * m.M_PI))) 1 *
                (List.range g.m_Nproc.toNat).foldl (fun xsigma (ip : Nat) => xsigma +
                  (g.m_weight ip).cell (itau : Int) (iy1 : Int) (iy2 : Int) *
                    genpdf ((g.setuppdf m alphas pdf0 pdf1 nloop rs fs Es).m_fg1 itau iy1)
                      ((g.setuppdf m alphas pdf0 pdf1 nloop rs fs Es).m_fg2 itau iy2) ip) 0
            else dsigma) dsigma) dsigma)
      (fun itau => ((g.setuppdf m alphas pdf0 pdf1 nloop rs fs Es).m_alphas itau *
            (8 * m.M_PI * m.M_PI)) ^ lo_order.toNat *
        ∑ iy1 in Finset.range g.Ny1.toNat, ∑ iy2 in Finset.range g.Ny2.toNat,
          ∑ ip in Finset.range g.m_Nproc.toNat,
            (g.m_weight ip).cell (itau : Int) (iy1 : Int) (iy2 : Int) *
              genpdf ((g.setuppdf m alphas pdf0 pdf1 nloop rs fs Es).m_fg1 itau iy1)
                ((g.setuppdf m alphas pdf0 pdf1 nloop rs fs Es).m_fg2 itau iy2) ip)
      (by
        intro dsigma itau
        simp only []
        rw [foldl_reverse_range_add _
          (fun iy1 => ((g.setuppdf m alphas pdf0 pdf1 nloop rs fs Es).m_alphas itau *
            (8 * m.M_PI * m.M_PI)) ^ lo_order.toNat *
            ∑ iy2 in Finset.range g.Ny2.toNat, ∑ ip in Finset.range g.m_Nproc.toNat,
              (g.m_weight ip).cell (itau : Int) (iy1 : Int) (iy2 : Int) *
              genpdf ((g.setuppdf m alphas pdf0 pdf1 nloop rs fs Es).m_fg1 itau iy1)
                ((g.setuppdf m alphas pdf0 pdf1 nloop rs fs Es).m_fg2 itau iy2) ip)]
        · rw [Finset.mul_sum]
        · intro dsigma iy1
          rw [foldl_reverse_range_add _
            (fun iy2 => ((g.setuppdf m alphas pdf0 pdf1 nloop rs fs Es).m_alphas itau *
              (8 * m.M_PI * m.M_PI)) ^ lo_order.toNat *
              ∑ ip in Finset.range g.m_Nproc.toNat,
                (g.m_weight ip).cell (itau : Int) (iy1 : Int) (iy2 : Int) *
                genpdf ((g.setuppdf m alphas pdf0 pdf1 nloop rs fs Es).m_fg1 itau iy1)
                  ((g.setuppdf m alphas pdf0 pdf1 nloop rs fs Es).m_fg2 itau iy2) ip)]
          · rw [Finset.mul_sum]
          · intro dsigma iy2
            rw [foldl_const_mul]
            exact amc_inner_step _ _ _ _ _)
      0 g.Ntau.toNat
    simp only [zero_add] at this
    exact this
theorem zero_cells_trimmed_xextent (T : SparseMatrix3d K)
    (h : ∀ i j k : Nat, T.cell i j k = 0) : T.trimmed_xextent = 0 := by
  unfold SparseMatrix3d.trimmed_xextent
  have : (List.range T.m_xaxis.N.toNat).filter T.layer_nonzero = [] := by
    rw [List.filter_eq_nil_iff]
    intro i _
    simp [SparseMatrix3d.layer_nonzero, h]
  rw [this]

theorem trimmed_size_eq_sum (g : igrid K) :
    g.trimmed_size = ∑ ip in Finset.range g.m_Nproc.toNat, (g.m_weight ip).trimmed_xextent := by
  unfold igrid.trimmed_size
  generalize g.m_Nproc.toNat = n
  induction n with
  | zero => simp
  | succ n ih =>
    rw [List.range_succ, List.foldl_append, Finset.sum_range_succ, ih]
    simp
theorem trimmed_xextent_cases (T : SparseMatrix3d K) :
    ((List.range T.m_xaxis.N.toNat).filter T.layer_nonzero = [] ∧ T.trimmed_xextent = 0) ∨
    1 ≤ T.trimmed_xextent := by
  unfold SparseMatrix3d.trimmed_xextent
  have hp : List.Pairwise (· < ·) ((List.range T.m_xaxis.N.toNat).filter T.layer_nonzero) :=
    List.Pairwise.filter _ (List.pairwise_lt_range _)
  generalize (List.range T.m_xaxis.N.toNat).filter T.layer_nonzero = l at hp
  cases l with
  | nil => left; exact ⟨rfl, rfl⟩
  | cons i l =>
    right
    simp only []
    have hmem := List.getLast_mem (List.cons_ne_nil i l)
    rw [List.pairwise_cons] at hp
    rcases List.mem_cons.mp hmem with h | h
    · rw [h]; omega
    · have := hp.1 _ h
      omega

theorem trimmed_xextent_nonneg (T : SparseMatrix3d K) : 0 ≤ T.trimmed_xextent := by
  rcases trimmed_xextent_cases T with ⟨_, h⟩ | h <;> omega

theorem cells_zero_of_trimmed_xextent (T : SparseMatrix3d K) (h : T.trimmed_xextent = 0)
    (i j k : Nat) (hi : i < T.m_xaxis.N.toNat) (hj : j < T.m_yaxis.N.toNat)
    (hk : k < T.m_zaxis.N.toNat) : T.cell i j k = 0 := by
  rcases trimmed_xextent_cases T with ⟨hnil, _⟩ | h1
  · rw [List.filter_eq_nil_iff] at hnil
    have := hnil i (List.mem_range.mpr hi)
    unfold SparseMatrix3d.layer_nonzero at this
    simp only [ne_eq, decide_not, List.any_eq_true, List.mem_range, Bool.not_eq_true',
      decide_eq_false_iff_not, not_exists, not_and, not_not] at this
    exact this j hj k hk
  · omega

theorem trimmed_size_zero_iff (g : igrid K) :
    g.trimmed_size = 0 ↔ ∀ ip, ip < g.m_Nproc.toNat → (g.m_weight ip).trimmed_xextent = 0 := by
  rw [trimmed_size_eq_sum, Finset.sum_eq_zero_iff_of_nonneg
    (fun ip _ => trimmed_xextent_nonneg _)]
  simp only [Finset.mem_range]

/-- On a grid of trimmed size zero whose channels have the shape of channel 0, the
convolution sum vanishes. -/
theorem convolution_sum_of_trimmed_size_zero (g : igrid K) (hal : g.channels_aligned)
    (h : g.trimmed_size = 0) (c : node_cache K) (genpdf : (Nat → K) → (Nat → K) → Nat → K)
    (couple : Nat → K) : g.convolution_sum c genpdf couple = 0 := by
  rw [trimmed_size_zero_iff] at h
  unfold igrid.convolution_sum
  apply Finset.sum_eq_zero; intro itau hitau
  rw [Finset.sum_eq_zero, mul_zero]; intro iy1 hiy1
  apply Finset.sum_eq_zero; intro iy2 hiy2
  apply Finset.sum_eq_zero; intro ip hip
  rw [Finset.mem_range] at hitau hiy1 hiy2 hip
  obtain ⟨a1, a2, a3⟩ := hal ip
  rw [cells_zero_of_trimmed_xextent _ (h ip hip) itau iy1 iy2 (by rw [a1]; exact hitau)
    (by rw [a2]; exact hiy1) (by rw [a3]; exact hiy2), zero_mul]

theorem sum_range_shift (N P : Nat) (k : Int) (F : Nat → K) (h0 : 0 ≤ k)
    (h1 : k + (P : Int) ≤ (N : Int)) :
    ∑ a in Finset.range N,
        (if k ≤ (a : Int) ∧ (a : Int) < k + (P : Int) then F ((a : Int) - k).toNat else 0)
      = ∑ i in Finset.range P, F i := by
  obtain ⟨kn, rfl⟩ := Int.eq_ofNat_of_zero_le h0
  have hfilter : (Finset.range N).filter
      (fun a : Nat => (kn : Int) ≤ (a : Int) ∧ (a : Int) < (kn : Int) + (P : Int))
      = Finset.Ico kn (kn + P) := by
    ext a
    simp only [Finset.mem_filter, Finset.mem_range, Finset.mem_Ico]
    omega
  rw [← Finset.sum_filter, hfilter, Finset.sum_Ico_eq_sum_range]
  have : kn + P - kn = P := by omega
  rw [this]
  apply Finset.sum_congr rfl
  intro i _
  congr 1
  omega

theorem fill_factor_eq (m : CMath K) (g : igrid K) (x1 x2 Q2 : K) (i3 i1 i2 : Nat) :
    g.fill_factor m x1 x2 Q2 i3 i1 i2
      = fI (i3 : Int) g.m_tauorder (g.fill_u_tau m Q2) *
        fI (i1 : Int) g.m_yorder (g.fill_u_y1 x1) *
        fI (i2 : Int) g.m_yorder (g.fill_u_y2 x2) *
        (if g.m_reweight then 1 / (weightfun m x1 * weightfun m x2) else 1) := by
  unfold igrid.fill_factor
  split_ifs <;> ring

/-- The sum of one fill's increments over the logical shape, when the stencil lies inside
the shape: the channel weight times the reweighting factor times the three sums of
interpolation coefficients. -/
theorem fill_increment_shape_sum (m : CMath K) (g : igrid K) (x1 x2 Q2 : K) (w : Nat → K)
    (c : Nat) (hc : c < g.m_Nproc.toNat)
    (h3 : 0 ≤ igrid.fkappa m g Q2 ∧ igrid.fkappa m g Q2 + g.m_tauorder ≤ g.Ntau - 1)
    (h1 : 0 ≤ g.fk1 x1 ∧ g.fk1 x1 + g.m_yorder ≤ g.Ny1 - 1)
    (h2 : 0 ≤ g.fk2 x2 ∧ g.fk2 x2 + g.m_yorder ≤ g.Ny2 - 1)
    (ht : 0 ≤ g.m_tauorder) (hy : 0 ≤ g.m_yorder) :
    ∑ a in Finset.range g.Ntau.toNat, ∑ b in Finset.range g.Ny1.toNat,
      ∑ d in Finset.range g.Ny2.toNat,
        g.fill_increment m x1 x2 Q2 w c (a : Int) (b : Int) (d : Int)
      = w c * (if g.m_reweight then 1 / (weightfun m x1 * weightfun m x2) else 1) *
        (∑ i in Finset.range (g.m_tauorder + 1).toNat,
          fI (i : Int) g.m_tauorder (g.fill_u_tau m Q2)) *
        (∑ i in Finset.range (g.m_yorder + 1).toNat,
          fI (i : Int) g.m_yorder (g.fill_u_y1 x1)) *
        (∑ i in Finset.range (g.m_yorder + 1).toNat,
          fI (i : Int) g.m_yorder (g.fill_u_y2 x2)) := by
  have e3 := sum_range_shift g.Ntau.toNat (g.m_tauorder + 1).toNat (igrid.fkappa m g Q2)
    (fun i => fI (i : Int) g.m_tauorder (g.fill_u_tau m Q2)) h3.1 (by omega)
  have e1 := sum_range_shift g.Ny1.toNat (g.m_yorder + 1).toNat (g.fk1 x1)
    (fun i => fI (i : Int) g.m_yorder (g.fill_u_y1 x1)) h1.1 (by omega)
  have e2 := sum_range_shift g.Ny2.toNat (g.m_yorder + 1).toNat (g.fk2 x2)
    (fun i => fI (i : Int) g.m_yorder (g.fill_u_y2 x2)) h2.1 (by omega)
  rw [← e3, ← e1, ← e2]
  have hsummand : ∀ a b d : Nat,
      g.fill_increment m x1 x2 Q2 w c (a : Int) (b : Int) (d : Int)
        = w c * (if g.m_reweight then 1 / (weightfun m x1 * weightfun m x2) else 1) *
          (if igrid.fkappa m g Q2 ≤ (a : Int) ∧
              (a : Int) < igrid.fkappa m g Q2 + ((g.m_tauorder + 1).toNat : Int)
            then (fun i : Nat => fI (i : Int) g.m_tauorder (g.fill_u_tau m Q2))
              ((a : Int) - igrid.fkappa m g Q2).toNat else 0) *
          (if g.fk1 x1 ≤ (b : Int) ∧ (b : Int) < g.fk1 x1 + ((g.m_yorder + 1).toNat : Int)
            then (fun i : Nat => fI (i : Int) g.m_yorder (g.fill_u_y1 x1))
              ((b : Int) - g.fk1 x1).toNat else 0) *
          (if g.fk2 x2 ≤ (d : Int) ∧ (d : Int) < g.fk2 x2 + ((g.m_yorder + 1).toNat : Int)
            then (fun i : Nat => fI (i : Int) g.m_yorder (g.fill_u_y2 x2))
              ((d : Int) - g.fk2 x2).toNat else 0) := by
    intro a b d
    unfold igrid.fill_increment
    simp only [fill_factor_eq, hc, true_and]
    by_cases ha : igrid.fkappa m g Q2 ≤ (a : Int) ∧
        (a : Int) < igrid.fkappa m g Q2 + ((g.m_tauorder + 1).toNat : Int)
    · by_cases hb : g.fk1 x1 ≤ (b : Int) ∧
          (b : Int) < g.fk1 x1 + ((g.m_yorder + 1).toNat : Int)
      · by_cases hd : g.fk2 x2 ≤ (d : Int) ∧
            (d : Int) < g.fk2 x2 + ((g.m_yorder + 1).toNat : Int)
        · rw [if_pos ⟨ha, hb, hd⟩, if_pos ha, if_pos hb, if_pos hd]
          ring
        · rw [if_neg (fun h => hd h.2.2), if_neg hd]
          ring
      · rw [if_neg (fun h => hb h.2.1), if_neg hb]
        ring
    · rw [if_neg (fun h => ha h.1), if_neg ha]
      ring
  simp_rw [hsummand, ← Finset.mul_sum, ← Finset.sum_mul, ← Finset.mul_sum, ← Finset.sum_mul,
    ← Finset.mul_sum]
theorem fI_sum_one (p : Int) (hp0 : 0 ≤ p) (hp : p ≤ 33) (u : K)
    (h : ∀ i : Nat, (i : Int) ≤ p → |u - (i : K)| < 1e-8 → u = (i : K)) :
    ∑ i in Finset.range (p + 1).toNat, fI (i : Int) p u = 1 := by
  obtain ⟨n, rfl⟩ := Int.eq_ofNat_of_zero_le hp0
  have e : ((n : Int) + 1).toNat = n + 1 := by omega
  rw [e]
  rcases fI_sum_cases n (by omega) u with ⟨_, hs⟩ | ⟨i0, hi0, hnear, hs⟩
  · exact hs
  · rw [hs, h i0 (by omega) hnear, lagrange_basis_at_node]
    norm_num

/-- For a grid whose channels have the shape of channel 0 and whose node tables are all
written, `amc_convolute` returns the convolution sum. -/
theorem amc_convolute_value (m : CMath K) (g : igrid K)
    (pdf0 : K → K → Nat → K) (pdf1 : Option (K → K → Nat → K))
    (genpdf : (Nat → K) → (Nat → K) → Nat → K) (alphas : K → K)
    (lo_order nloop : Int) (rs fs Es : K) (hal : g.channels_aligned)
    (hdef : ¬ (g.m_DISgrid = true ∧ g.m_symmetrise = false)) :
    g.amc_convolute m pdf0 pdf1 genpdf alphas lo_order nloop rs fs Es
      = some (g.convolution_sum (g.setuppdf m alphas pdf0 pdf1 nloop rs fs Es) genpdf
          (fun itau => ((g.setuppdf m alphas pdf0 pdf1 nloop rs fs Es).m_alphas itau *
            (8 * m.M_PI * m.M_PI)) ^ lo_order.toNat)) := by
  rw [amc_convolute_eq]
  by_cases h1 : g.trimmed_size = 0
  · rw [if_pos h1, convolution_sum_of_trimmed_size_zero g hal h1]
  · rw [if_neg h1, if_neg]
    intro h
    apply hdef
    simp only [igrid.isDISgrid, igrid.isSymmetric, Bool.and_eq_true, Bool.not_eq_true'] at h
    exact ⟨h.1, h.2⟩

theorem fill_channels_aligned (m : CMath K) (g : igrid K) (x1 x2 Q2 : K) (w : Nat → K)
    (hal : g.channels_aligned) : (g.fill m x1 x2 Q2 w).channels_aligned := by
  intro c
  have hc := fill_axes m g x1 x2 Q2 w c
  have h0 := fill_axes m g x1 x2 Q2 w 0
  unfold igrid.Ntau igrid.Ny1 igrid.Ny2
  rw [hc.1, hc.2.1, hc.2.2, h0.1, h0.2.1, h0.2.2]
  exact hal c

/-- The cached value `f/x` of a PDF callback that writes `x` into every slot is 1 on a grid
that is not reweighted, without beam scaling, wherever the transform gives `x ≠ 0`. -/
theorem pdf_row_identity (m : CMath K) (g : igrid K) (fs Q y : K) (ip : Nat)
    (hrw : g.m_reweight = false) (hx : g.fx y ≠ 0) :
    g.pdf_row m (fun x _ _ => x) fs 1 Q y ip = 1 := by
  unfold igrid.pdf_row
  simp only [ne_eq, not_true_eq_false, decide_False, Bool.false_eq_true, false_and, if_false,
    hrw]
  field_simp

theorem setuppdf_identity (m : CMath K) (g : igrid K) (alphas : K → K)
    (pdf1 : Option (K → K → Nat → K)) (hpdf1 : pdf1 = none ∨ pdf1 = some (fun x _ _ => x))
    (nloop : Int) (rs fs : K) (hrw : g.m_reweight = false) (hx : ∀ y, g.fx y ≠ 0)
    (itau iy ip : Nat) :
    (g.setuppdf m alphas (fun x _ _ => x) pdf1 nloop rs fs 1).m_fg1 itau iy ip = 1 ∧
    (g.setuppdf m alphas (fun x _ _ => x) pdf1 nloop rs fs 1).m_fg2 itau iy ip = 1 := by
  have hsecond : pdf1.getD (fun x _ _ => x) = (fun (x : K) (_ : K) (_ : Nat) => x) := by
    rcases hpdf1 with h | h <;> rw [h] <;> rfl
  unfold igrid.setuppdf
  simp only [hsecond]
  constructor
  · split_ifs <;> simp only [] <;> (try split_ifs) <;>
      exact pdf_row_identity m g fs _ _ ip hrw (hx _)
  · split_ifs <;> simp only [] <;> (try split_ifs) <;>
      exact pdf_row_identity m g fs _ _ ip hrw (hx _)

/-- The convolution sum of one fill on a fresh grid that is not reweighted, with a coupling
factor that is the same on every layer and a luminosity that is 1 at every node: the
factor times the channel weights times the three sums of interpolation coefficients. -/
theorem single_fill_convolution_product (m : CMath K) (g0 : igrid K) (x1 x2 Q2 : K)
    (w : Nat → K) (c : node_cache K) (genpdf : (Nat → K) → (Nat → K) → Nat → K) (kappa : K)
    (hfresh : ∀ ch a b d, (g0.m_weight ch).cell a b d = 0)
    (hrw : g0.m_reweight = false)
    (hy0 : 0 ≤ g0.m_yorder) (ht0 : 0 ≤ g0.m_tauorder)
    (hN1 : g0.Ny1 - 1 ≥ g0.m_yorder) (hN2 : g0.Ny2 - 1 ≥ g0.m_yorder)
    (hNt : g0.Ntau - 1 ≥ g0.m_tauorder)
    (hH : ∀ itau iy1 iy2 ip, genpdf (c.m_fg1 itau iy1) (c.m_fg2 itau iy2) ip = 1) :
    (g0.fill m x1 x2 Q2 w).convolution_sum c genpdf (fun _ => kappa)
      = kappa * ∑ ip in Finset.range g0.m_Nproc.toNat, w ip *
          (∑ i in Finset.range (g0.m_tauorder + 1).toNat,
            fI (i : Int) g0.m_tauorder (g0.fill_u_tau m Q2)) *
          (∑ i in Finset.range (g0.m_yorder + 1).toNat,
            fI (i : Int) g0.m_yorder (g0.fill_u_y1 x1)) *
          (∑ i in Finset.range (g0.m_yorder + 1).toNat,
            fI (i : Int) g0.m_yorder (g0.fill_u_y2 x2)) := by
  have hax := fill_axes m g0 x1 x2 Q2 w 0
  have eN : (g0.fill m x1 x2 Q2 w).m_Nproc = g0.m_Nproc := rfl
  unfold igrid.convolution_sum
  have e1 : (g0.fill m x1 x2 Q2 w).Ntau = g0.Ntau := by unfold igrid.Ntau; rw [hax.1]
  have e2 : (g0.fill m x1 x2 Q2 w).Ny1 = g0.Ny1 := by unfold igrid.Ny1; rw [hax.2.1]
  have e3 : (g0.fill m x1 x2 Q2 w).Ny2 = g0.Ny2 := by unfold igrid.Ny2; rw [hax.2.2]
  rw [e1, e2, e3, eN, ← Finset.mul_sum]
  congr 1
  simp only [hH, mul_one, fill_cell_increment, hfresh, zero_add]
  calc ∑ a in Finset.range g0.Ntau.toNat, ∑ b in Finset.range g0.Ny1.toNat,
        ∑ d in Finset.range g0.Ny2.toNat, ∑ ip in Finset.range g0.m_Nproc.toNat,
          g0.fill_increment m x1 x2 Q2 w ip (a : Int) (b : Int) (d : Int)
      = ∑ ip in Finset.range g0.m_Nproc.toNat, ∑ a in Finset.range g0.Ntau.toNat,
          ∑ b in Finset.range g0.Ny1.toNat, ∑ d in Finset.range g0.Ny2.toNat,
            g0.fill_increment m x1 x2 Q2 w ip (a : Int) (b : Int) (d : Int) := by
        have s1 : ∀ a b : Nat, ∑ d in Finset.range g0.Ny2.toNat,
            ∑ ip in Finset.range g0.m_Nproc.toNat,
              g0.fill_increment m x1 x2 Q2 w ip (a : Int) (b : Int) (d : Int)
            = ∑ ip in Finset.range g0.m_Nproc.toNat, ∑ d in Finset.range g0.Ny2.toNat,
              g0.fill_increment m x1 x2 Q2 w ip (a : Int) (b : Int) (d : Int) :=
          fun a b => Finset.sum_comm
        simp only [s1]
        have s2 : ∀ a : Nat, ∑ b in Finset.range g0.Ny1.toNat,
            ∑ ip in Finset.range g0.m_Nproc.toNat, ∑ d in Finset.range g0.Ny2.toNat,
              g0.fill_increment m x1 x2 Q2 w ip (a : Int) (b : Int) (d : Int)
            = ∑ ip in Finset.range g0.m_Nproc.toNat, ∑ b in Finset.range g0.Ny1.toNat,
              ∑ d in Finset.range g0.Ny2.toNat,
              g0.fill_increment m x1 x2 Q2 w ip (a : Int) (b : Int) (d : Int) :=
          fun a => Finset.sum_comm
        simp only [s2]
        exact Finset.sum_comm
    _ = _ := by
        apply Finset.sum_congr rfl
        intro ip hip
        rw [Finset.mem_range] at hip
        have b3 := spec_node_bounds g0.taumin g0.deltatau g0.Ntau g0.m_tauorder (ftau m Q2) hNt
        rw [← fkappa_eq_spec m g0 Q2 hNt] at b3
        have b1 := spec_node_bounds g0.y1min g0.deltay1 g0.Ny1 g0.m_yorder (g0.fy x1) hN1
        rw [← fk1_eq_spec g0 x1 hN1] at b1
        have b2 := spec_node_bounds g0.y2min g0.deltay2 g0.Ny2 g0.m_yorder (g0.fy x2) hN2
        rw [← fk2_eq_spec g0 x2 hN2] at b2
        rw [fill_increment_shape_sum m g0 x1 x2 Q2 w ip hip b3 b1 b2 ht0 hy0, hrw]
        simp

/-- The convolution sum of one fill on a fresh grid with the node tables of the PDF `x`
and the luminosity `fg1[up]*fg2[up]`, for a coupling factor that is the same on every
layer. -/
theorem single_fill_convolution_identity (m : CMath K) (g0 : igrid K) (x1 x2 Q2 : K)
    (w : Nat → K) (pdf1 : Option (K → K → Nat → K)) (as : K) (nloop : Int) (kappa : K)
    (hfresh : ∀ ch a b d, (g0.m_weight ch).cell a b d = 0)
    (hrw : g0.m_reweight = false)
    (hy0 : 0 ≤ g0.m_yorder) (ht0 : 0 ≤ g0.m_tauorder)
    (hN1 : g0.Ny1 - 1 ≥ g0.m_yorder) (hN2 : g0.Ny2 - 1 ≥ g0.m_yorder)
    (hNt : g0.Ntau - 1 ≥ g0.m_tauorder)
    (hx : ∀ y, g0.fx y ≠ 0) (hpdf1 : pdf1 = none ∨ pdf1 = some (fun x _ _ => x)) :
    (g0.fill m x1 x2 Q2 w).convolution_sum
        ((g0.fill m x1 x2 Q2 w).setuppdf m (fun _ => as) (fun x _ _ => x) pdf1 nloop 1 1 1)
        (fun f1 f2 _ => f1 8 * f2 8) (fun _ => kappa)
      = kappa * ∑ ip in Finset.range g0.m_Nproc.toNat, w ip *
          (∑ i in Finset.range (g0.m_tauorder + 1).toNat,
            fI (i : Int) g0.m_tauorder (g0.fill_u_tau m Q2)) *
          (∑ i in Finset.range (g0.m_yorder + 1).toNat,
            fI (i : Int) g0.m_yorder (g0.fill_u_y1 x1)) *
          (∑ i in Finset.range (g0.m_yorder + 1).toNat,
            fI (i : Int) g0.m_yorder (g0.fill_u_y2 x2)) :=
  single_fill_convolution_product m g0 x1 x2 Q2 w _ _ _ hfresh hrw hy0 ht0 hN1 hN2 hNt
    (fun itau iy1 iy2 ip => by
      have h1 := (setuppdf_identity m (g0.fill m x1 x2 Q2 w) (fun _ => as) pdf1 hpdf1 nloop 1 1
        hrw hx itau iy1 8).1
      have h2 := (setuppdf_identity m (g0.fill m x1 x2 Q2 w) (fun _ => as) pdf1 hpdf1 nloop 1 1
        hrw hx itau iy2 8).2
      simp only [h1, h2, mul_one])

/-- The value `amc_convolute` returns after one fill on a fresh grid that is neither
reweighted nor DIS, for the PDF `x`, the luminosity `fg1[up]*fg2[up]`, a constant
`alpha_s` and unit scale factors. -/
theorem single_fill_amc_convolute (m : CMath K) (g0 : igrid K) (x1 x2 Q2 : K)
    (w : Nat → K) (pdf1 : Option (K → K → Nat → K)) (as : K) (lo_order nloop : Int)
    (hfresh : ∀ ch a b d, (g0.m_weight ch).cell a b d = 0)
    (hal : g0.channels_aligned) (hrw : g0.m_reweight = false) (hdis : g0.m_DISgrid = false)
    (hy0 : 0 ≤ g0.m_yorder) (ht0 : 0 ≤ g0.m_tauorder)
    (hN1 : g0.Ny1 - 1 ≥ g0.m_yorder) (hN2 : g0.Ny2 - 1 ≥ g0.m_yorder)
    (hNt : g0.Ntau - 1 ≥ g0.m_tauorder)
    (hx : ∀ y, g0.fx y ≠ 0) (hpdf1 : pdf1 = none ∨ pdf1 = some (fun x _ _ => x)) :
    (g0.fill m x1 x2 Q2 w).amc_convolute m (fun x _ _ => x) pdf1
        (fun f1 f2 _ => f1 8 * f2 8) (fun _ => as) lo_order nloop 1 1 1
      = some ((as * (0.5 / m.M_PI) * (8 * m.M_PI * m.M_PI)) ^ lo_order.toNat *
          ∑ ip in Finset.range g0.m_Nproc.toNat, w ip *
          (∑ i in Finset.range (g0.m_tauorder + 1).toNat,
            fI (i : Int) g0.m_tauorder (g0.fill_u_tau m Q2)) *
          (∑ i in Finset.range (g0.m_yorder + 1).toNat,
            fI (i : Int) g0.m_yorder (g0.fill_u_y1 x1)) *
          (∑ i in Finset.range (g0.m_yorder + 1).toNat,
            fI (i : Int) g0.m_yorder (g0.fill_u_y2 x2))) := by
  rw [amc_convolute_value m _ _ _ _ _ _ _ _ _ _ (fill_channels_aligned m g0 x1 x2 Q2 w hal)
    (fun h => by
      have : (g0.fill m x1 x2 Q2 w).m_DISgrid = g0.m_DISgrid := rfl
      rw [this, hdis] at h
      exact Bool.false_ne_true h.1)]
  congr 1
  have hcouple : (fun itau : Nat =>
      (((g0.fill m x1 x2 Q2 w).setuppdf m (fun _ => as) (fun x _ _ => x) pdf1 nloop 1 1
        1).m_alphas itau * (8 * m.M_PI * m.M_PI)) ^ lo_order.toNat)
      = fun _ => (as * (0.5 / m.M_PI) * (8 * m.M_PI * m.M_PI)) ^ lo_order.toNat := by
    funext itau
    rfl
  rw [hcouple]
  exact single_fill_convolution_identity m g0 x1 x2 Q2 w pdf1 as nloop _ hfresh hrw hy0 ht0 hN1
    hN2 hNt hx hpdf1

theorem standard_f2_eq (m : CMath K) (transvar : K) (NQ2 : Int) (Q2min Q2max : K)
    (Q2order Nx : Int) (xmin xmax : K) (xorder Nproc : Int) (hNx : ¬ Nx - 1 < xorder)
    (hNQ : ¬ NQ2 - 1 < Q2order) :
    igrid.standard m transvar NQ2 Q2min Q2max Q2order Nx xmin xmax xorder "f2" Nproc false
      = Except.ok (f2_grid m transvar NQ2 Q2min Q2max Q2order Nx xmin xmax xorder Nproc) := by
  simp only [igrid.standard, init_fmap_nil, bind, Except.bind, List.lookup, f2_grid]
  simp [hNx, hNQ]

theorem toInt_of_floor_bounds (v : K) (n : Nat) (h0 : (n : K) ≤ v) (h1 : v < (n : K) + 1) :
    toInt v = n := by
  have hv : 0 ≤ v := le_trans (Nat.cast_nonneg n) h0
  rw [toInt_of_nonneg hv, Int.floor_eq_iff]
  constructor
  · push_cast; exact h0
  · push_cast; exact h1

/-- The node and the offset of `fill` on the `y1` axis from bounds on the coordinate. -/
theorem fill_u_y1_of_bounds (g : igrid K) (x : K) (n : Nat) (hd : g.deltay1 ≠ 0)
    (h0 : (n : K) ≤ (g.fy x - g.y1min) / g.deltay1 - ((g.m_yorder >>> (1 : Nat) : Int) : K))
    (h1 : (g.fy x - g.y1min) / g.deltay1 - ((g.m_yorder >>> (1 : Nat) : Int) : K) < (n : K) + 1)
    (hfit : (n : Int) + g.m_yorder < g.Ny1) :
    g.fk1 x = n ∧ g.fill_u_y1 x = (g.fy x - g.y1min) / g.deltay1 - (n : K) := by
  have hk : g.fk1 x = n := by
    unfold igrid.fk1
    simp only []
    rw [toInt_of_floor_bounds _ n h0 h1]
    split_ifs <;> omega
  refine ⟨hk, ?_⟩
  unfold igrid.fill_u_y1
  rw [hk]
  unfold igrid.gety1 axis.node
  have : (g.m_weight 0).m_yaxis.delta = g.deltay1 := rfl
  have h2 : (g.m_weight 0).m_yaxis.min = g.y1min := rfl
  rw [this, h2]
  field_simp
  ring

/-- The node and the offset of `fill` on the `y2` axis from bounds on the coordinate. -/
theorem fill_u_y2_of_bounds (g : igrid K) (x : K) (n : Nat) (hd : g.deltay2 ≠ 0)
    (h0 : (n : K) ≤ (g.fy x - g.y2min) / g.deltay2 - ((g.m_yorder >>> (1 : Nat) : Int) : K))
    (h1 : (g.fy x - g.y2min) / g.deltay2 - ((g.m_yorder >>> (1 : Nat) : Int) : K) < (n : K) + 1)
    (hfit : (n : Int) + g.m_yorder < g.Ny2) :
    g.fk2 x = n ∧ g.fill_u_y2 x = (g.fy x - g.y2min) / g.deltay2 - (n : K) := by
  have hk : g.fk2 x = n := by
    unfold igrid.fk2
    simp only []
    rw [toInt_of_floor_bounds _ n h0 h1]
    split_ifs <;> omega
  refine ⟨hk, ?_⟩
  unfold igrid.fill_u_y2
  rw [hk]
  unfold igrid.gety2 axis.node
  have : (g.m_weight 0).m_zaxis.delta = g.deltay2 := rfl
  have h2 : (g.m_weight 0).m_zaxis.min = g.y2min := rfl
  rw [this, h2]
  field_simp
  ring

/-- The node and the offset of `fill` on the `tau` axis from bounds on the coordinate. -/
theorem fill_u_tau_of_bounds (m : CMath K) (g : igrid K) (Q2 : K) (n : Nat)
    (hd : g.deltatau ≠ 0)
    (h0 : (n : K) ≤ (ftau m Q2 - g.taumin) / g.deltatau
      - ((g.m_tauorder >>> (1 : Nat) : Int) : K))
    (h1 : (ftau m Q2 - g.taumin) / g.deltatau - ((g.m_tauorder >>> (1 : Nat) : Int) : K)
      < (n : K) + 1)
    (hfit : (n : Int) + g.m_tauorder < g.Ntau) :
    igrid.fkappa m g Q2 = n ∧
      g.fill_u_tau m Q2 = (ftau m Q2 - g.taumin) / g.deltatau - (n : K) := by
  have hk : igrid.fkappa m g Q2 = n := by
    unfold igrid.fkappa
    simp only []
    rw [toInt_of_floor_bounds _ n h0 h1]
    split_ifs <;> omega
  refine ⟨hk, ?_⟩
  unfold igrid.fill_u_tau
  rw [hk]
  unfold igrid.gettau axis.node
  have : (g.m_weight 0).m_xaxis.delta = g.deltatau := rfl
  have h2 : (g.m_weight 0).m_xaxis.min = g.taumin := rfl
  rw [this, h2]
  field_simp
  ring

theorem offset_interior_no_near_miss (u : K) (h0 : (1 / 10 : K) ≤ u) (h1 : u ≤ 9 / 10) (i : Nat)
    (hi : (i : Int) ≤ 1) (h : |u - (i : K)| < 1e-8) : u = (i : K) := by
  exfalso
  have hi2 : i = 0 ∨ i = 1 := by omega
  rw [abs_lt] at h
  rcases hi2 with rfl | rfl
  · norm_num at h; linarith
  · norm_num at h; linarith
theorem log_five_bounds : (65 / 28 : ℝ) * Real.log 2 ≤ Real.log 5 ∧
    Real.log 5 ≤ (72 / 31 : ℝ) * Real.log 2 := by
  constructor
  · have h : Real.log ((2 : ℝ) ^ 65) ≤ Real.log ((5 : ℝ) ^ 28) :=
      Real.log_le_log (by positivity) (by norm_num)
    rw [Real.log_pow, Real.log_pow] at h
    push_cast at h
    linarith
  · have h : Real.log ((5 : ℝ) ^ 31) ≤ Real.log ((2 : ℝ) ^ 72) :=
      Real.log_le_log (by positivity) (by norm_num)
    rw [Real.log_pow, Real.log_pow] at h
    push_cast at h
    linarith

theorem log_two_five_product (a b : Nat) :
    Real.log ((2 : ℝ) ^ a * 5 ^ b) = (a : ℝ) * Real.log 2 + (b : ℝ) * Real.log 5 := by
  rw [Real.log_mul (by positivity) (by positivity), Real.log_pow, Real.log_pow]

/-- The coordinate `y = fy(0.25)` of the test on the `y` axis of 50 nodes over
`[fy(1), fy(2e-7)]` of the transform `f2`: it lies between the nodes 12 and 13, at least
0.3 from either. -/
theorem test_y_coordinate :
    (12.3 : ℝ) ≤ ((-Real.log 0.25 + 5 * (1 - 0.25)) - (-Real.log 1 + 5 * (1 - 1))) /
        (((-Real.log 2e-7 + 5 * (1 - 2e-7)) - (-Real.log 1 + 5 * (1 - 1))) / ((50 : ℝ) - 1)) ∧
    ((-Real.log 0.25 + 5 * (1 - 0.25)) - (-Real.log 1 + 5 * (1 - 1))) /
        (((-Real.log 2e-7 + 5 * (1 - 2e-7)) - (-Real.log 1 + 5 * (1 - 1))) / ((50 : ℝ) - 1))
      ≤ 12.4 := by
  have h2lo := Real.log_two_gt_d9
  have h2hi := Real.log_two_lt_d9
  obtain ⟨h5lo, h5hi⟩ := log_five_bounds
  have e1 : Real.log (0.25 : ℝ) = -(2 * Real.log 2) := by
    have : (0.25 : ℝ) = ((2 : ℝ) ^ 2)⁻¹ := by norm_num
    rw [this, Real.log_inv, Real.log_pow]
    push_cast; ring
  have e2 : Real.log (2e-7 : ℝ) = -(6 * Real.log 2 + 7 * Real.log 5) := by
    have : (2e-7 : ℝ) = ((2 : ℝ) ^ 6 * 5 ^ 7)⁻¹ := by norm_num
    rw [this, Real.log_inv, log_two_five_product]
    push_cast; ring
  rw [e1, e2, Real.log_one]
  have hden : (0 : ℝ) < (-(-(6 * Real.log 2 + 7 * Real.log 5)) + 5 * (1 - 2e-7) - (-0 + 5 * (1 - 1)))
      / ((50 : ℝ) - 1) := by
    apply div_pos
    · norm_num; linarith
    · norm_num
  constructor
  · rw [le_div_iff₀ hden]
    norm_num
    linarith
  · rw [div_le_iff₀ hden]
    norm_num
    linarith

theorem log_pow_le (a b : ℝ) (p q : Nat) (hb : 0 < b) (hpow : b ^ q ≤ a ^ p) :
    (q : ℝ) * Real.log b ≤ (p : ℝ) * Real.log a := by
  have h : Real.log (b ^ q) ≤ Real.log (a ^ p) :=
    Real.log_le_log (by positivity) hpow
  rwa [Real.log_pow, Real.log_pow] at h

/-- The coordinate `tau = ftau(10000)` of the test on the `tau` axis of 30 nodes over
`[ftau(100), ftau(1000000)]`: it lies between the nodes 17 and 18, at least 0.2 from
either. -/
theorem test_tau_coordinate :
    (17.2 : ℝ) ≤ (Real.log (Real.log (10000 / 0.0625)) - Real.log (Real.log (100 / 0.0625))) /
        ((Real.log (Real.log (1000000 / 0.0625)) - Real.log (Real.log (100 / 0.0625)))
          / ((30 : ℝ) - 1)) ∧
    (Real.log (Real.log (10000 / 0.0625)) - Real.log (Real.log (100 / 0.0625))) /
        ((Real.log (Real.log (1000000 / 0.0625)) - Real.log (Real.log (100 / 0.0625)))
          / ((30 : ℝ) - 1)) ≤ 17.5 := by
  have h2lo := Real.log_two_gt_d9
  have h2hi := Real.log_two_lt_d9
  obtain ⟨h5lo, h5hi⟩ := log_five_bounds
  have hA : Real.log ((100 : ℝ) / 0.0625) = 6 * Real.log 2 + 2 * Real.log 5 := by
    have : ((100 : ℝ) / 0.0625) = (2 : ℝ) ^ 6 * 5 ^ 2 := by norm_num
    rw [this, log_two_five_product]; push_cast; ring
  have hB : Real.log ((10000 : ℝ) / 0.0625) = 8 * Real.log 2 + 4 * Real.log 5 := by
    have : ((10000 : ℝ) / 0.0625) = (2 : ℝ) ^ 8 * 5 ^ 4 := by norm_num
    rw [this, log_two_five_product]; push_cast; ring
  have hC : Real.log ((1000000 : ℝ) / 0.0625) = 10 * Real.log 2 + 6 * Real.log 5 := by
    have : ((1000000 : ℝ) / 0.0625) = (2 : ℝ) ^ 10 * 5 ^ 6 := by norm_num
    rw [this, log_two_five_product]; push_cast; ring
  rw [hA, hB, hC]
  set L2 := Real.log 2
  set L5 := Real.log 5
  have hApos : 0 < 6 * L2 + 2 * L5 := by linarith
  have hBpos : 0 < 8 * L2 + 4 * L5 := by linarith
  have hCpos : 0 < 10 * L2 + 6 * L5 := by linarith
  rw [← Real.log_div hBpos.ne' hApos.ne', ← Real.log_div hCpos.ne' hApos.ne']
  have rB1 : (16238 / 10000 : ℝ) ≤ (8 * L2 + 4 * L5) / (6 * L2 + 2 * L5) := by
    rw [le_div_iff₀ hApos]; linarith
  have rB2 : (8 * L2 + 4 * L5) / (6 * L2 + 2 * L5) ≤ (16246 / 10000 : ℝ) := by
    rw [div_le_iff₀ hApos]; linarith
  have rC1 : (22478 / 10000 : ℝ) ≤ (10 * L2 + 6 * L5) / (6 * L2 + 2 * L5) := by
    rw [le_div_iff₀ hApos]; linarith
  have rC2 : (10 * L2 + 6 * L5) / (6 * L2 + 2 * L5) ≤ (2249 / 1000 : ℝ) := by
    rw [div_le_iff₀ hApos]; linarith
  set lB := Real.log ((8 * L2 + 4 * L5) / (6 * L2 + 2 * L5))
  set lC := Real.log ((10 * L2 + 6 * L5) / (6 * L2 + 2 * L5))
  have lB1 : Real.log (16238 / 10000 : ℝ) ≤ lB := Real.log_le_log (by norm_num) rB1
  have lB2 : lB ≤ Real.log (16246 / 10000 : ℝ) :=
    Real.log_le_log (lt_of_lt_of_le (by norm_num) rB1) rB2
  have lC1 : Real.log (22478 / 10000 : ℝ) ≤ lC := Real.log_le_log (by norm_num) rC1
  have lC2 : lC ≤ Real.log (2249 / 1000 : ℝ) :=
    Real.log_le_log (lt_of_lt_of_le (by norm_num) rC1) rC2
  have p1 := log_pow_le (16238 / 10000 : ℝ) (2249 / 1000) 145 86 (by norm_num) (by norm_num)
  have p2 := log_pow_le (22478 / 10000 : ℝ) (16246 / 10000) 35 58 (by norm_num) (by norm_num)
  push_cast at p1 p2
  have hCpos2 : 0 < lC := lt_of_lt_of_le (Real.log_pos (by norm_num)) lC1
  have hden : (0 : ℝ) < lC / ((30 : ℝ) - 1) := div_pos hCpos2 (by norm_num)
  constructor
  · rw [le_div_iff₀ hden]
    norm_num
    linarith
  · rw [div_le_iff₀ hden]
    norm_num
    linarith
theorem fx2_loop_pos (a y : ℝ) (iter : Nat) (yp : ℝ) :
    0 < _fx2_loop
      ⟨Real.exp, Real.log, fun x => Real.log x / Real.log 10, Real.sqrt, fun a b => a ^ b,
        Real.pi⟩ a y iter yp := by
  induction iter generalizing yp with
  | zero => exact Real.exp_pos _
  | succ n ih =>
    unfold _fx2_loop
    simp only []
    split_ifs
    · exact Real.exp_pos _
    · exact ih _

theorem fx2_pos (a y : ℝ) :
    0 < _fx2
      ⟨Real.exp, Real.log, fun x => Real.log x / Real.log 10, Real.sqrt, fun a b => a ^ b,
        Real.pi⟩ a y := by
  unfold _fx2
  split_ifs
  · exact Real.exp_pos _
  · exact fx2_loop_pos a y 100 y

/-- The grid of `tests/basic.cpp` (30 `tau` nodes over `Q2` in `[100, 10^6]`, 50 `y` nodes
over `x` in `[2e-7, 1]`, orders 1, transform `f2` with `a = 5`, one channel): the hypotheses
on the grid. -/
theorem f2_test_grid_facts (G : igrid ℝ)
    (hG : G = f2_grid
      ⟨Real.exp, Real.log, fun x => Real.log x / Real.log 10, Real.sqrt, fun a b => a ^ b,
        Real.pi⟩ 5 30 100 1000000 1 50 2e-7 1 1 1) :
    (∀ ch a b d, (G.m_weight ch).cell a b d = 0) ∧ G.channels_aligned ∧
    G.m_reweight = false ∧ G.m_DISgrid = false ∧
    (0 ≤ G.m_yorder ∧ G.m_yorder ≤ 33 ∧ 0 ≤ G.m_tauorder ∧ G.m_tauorder ≤ 33) ∧
    (G.Ny1 - 1 ≥ G.m_yorder ∧ G.Ny2 - 1 ≥ G.m_yorder ∧ G.Ntau - 1 ≥ G.m_tauorder) ∧
    (∀ y, G.fx y ≠ 0) ∧ G.m_Nproc = 1 := by
  subst hG
  refine ⟨fun _ _ _ _ => rfl, fun _ => ⟨rfl, rfl, rfl⟩, rfl, rfl, ?_, ?_, ?_, rfl⟩
  · refine ⟨?_, ?_, ?_, ?_⟩ <;> decide
  · refine ⟨?_, ?_, ?_⟩ <;> decide
  · intro y
    exact (fx2_pos _ _).ne'

/-- The fractional offsets of the fill point `(0.25, 0.25, 10000)` of the test on that
grid: none is within `1e-8` of a stencil node. -/
theorem f2_test_offsets (G : igrid ℝ)
    (hG : G = f2_grid
      ⟨Real.exp, Real.log, fun x => Real.log x / Real.log 10, Real.sqrt, fun a b => a ^ b,
        Real.pi⟩ 5 30 100 1000000 1 50 2e-7 1 1 1) :
    ((1 / 10 : ℝ) ≤ G.fill_u_y1 0.25 ∧ G.fill_u_y1 0.25 ≤ 9 / 10) ∧
    ((1 / 10 : ℝ) ≤ G.fill_u_y2 0.25 ∧ G.fill_u_y2 0.25 ≤ 9 / 10) ∧
    ((1 / 10 : ℝ) ≤ G.fill_u_tau
        ⟨Real.exp, Real.log, fun x => Real.log x / Real.log 10, Real.sqrt, fun a b => a ^ b,
          Real.pi⟩ 10000 ∧
      G.fill_u_tau
        ⟨Real.exp, Real.log, fun x => Real.log x / Real.log 10, Real.sqrt, fun a b => a ^ b,
          Real.pi⟩ 10000 ≤ 9 / 10) := by
  subst hG
  have e0 : ((1 : Int) >>> (1 : Nat)) = 0 := by decide
  obtain ⟨hy1, hy2⟩ := test_y_coordinate
  obtain ⟨ht1, ht2⟩ := test_tau_coordinate
  have hdy : (-Real.log 2e-7 + 5 * (1 - 2e-7) - (-Real.log 1 + 5 * (1 - 1))) / ((50 : ℝ) - 1)
      ≠ 0 := by
    intro h
    rw [h, div_zero] at hy1
    norm_num at hy1
  have hdt : (Real.log (Real.log (1000000 / 0.0625)) - Real.log (Real.log (100 / 0.0625)))
      / ((30 : ℝ) - 1) ≠ 0 := by
    intro h
    rw [h, div_zero] at ht1
    norm_num at ht1
  refine ⟨?_, ?_, ?_⟩
  · have h := (fill_u_y1_of_bounds (f2_grid
      ⟨Real.exp, Real.log, fun x => Real.log x / Real.log 10, Real.sqrt, fun a b => a ^ b,
        Real.pi⟩ 5 30 100 1000000 1 50 2e-7 1 1 1) 0.25 12
      (by
        simp only [f2_grid, igrid.construct, igrid.deltay1, SparseMatrix3d.mk_empty, axis.delta,
          _fy2]
        push_cast
        exact hdy)
      (by
        simp only [f2_grid, igrid.construct, igrid.deltay1, igrid.y1min, igrid.fy,
          SparseMatrix3d.mk_empty, axis.delta, _fy2, e0]
        push_cast
        linarith)
      (by
        simp only [f2_grid, igrid.construct, igrid.deltay1, igrid.y1min, igrid.fy,
          SparseMatrix3d.mk_empty, axis.delta, _fy2, e0]
        push_cast
        linarith)
      (by decide)).2
    rw [h]
    simp only [f2_grid, igrid.construct, igrid.deltay1, igrid.y1min, igrid.fy,
      SparseMatrix3d.mk_empty, axis.delta, _fy2]
    push_cast
    constructor <;> linarith
  · have h := (fill_u_y2_of_bounds (f2_grid
      ⟨Real.exp, Real.log, fun x => Real.log x / Real.log 10, Real.sqrt, fun a b => a ^ b,
        Real.pi⟩ 5 30 100 1000000 1 50 2e-7 1 1 1) 0.25 12
      (by
        simp only [f2_grid, igrid.construct, igrid.deltay2, SparseMatrix3d.mk_empty, axis.delta,
          _fy2]
        push_cast
        exact hdy)
      (by
        simp only [f2_grid, igrid.construct, igrid.deltay2, igrid.y2min, igrid.fy,
          SparseMatrix3d.mk_empty, axis.delta, _fy2, e0]
        push_cast
        linarith)
      (by
        simp only [f2_grid, igrid.construct, igrid.deltay2, igrid.y2min, igrid.fy,
          SparseMatrix3d.mk_empty, axis.delta, _fy2, e0]
        push_cast
        linarith)
      (by decide)).2
    rw [h]
    simp only [f2_grid, igrid.construct, igrid.deltay2, igrid.y2min, igrid.fy,
      SparseMatrix3d.mk_empty, axis.delta, _fy2]
    push_cast
    constructor <;> linarith
  · have h := (fill_u_tau_of_bounds
      ⟨Real.exp, Real.log, fun x => Real.log x / Real.log 10, Real.sqrt, fun a b => a ^ b,
        Real.pi⟩ (f2_grid
      ⟨Real.exp, Real.log, fun x => Real.log x / Real.log 10, Real.sqrt, fun a b => a ^ b,
        Real.pi⟩ 5 30 100 1000000 1 50 2e-7 1 1 1) 10000 17
      (by
        simp only [f2_grid, igrid.construct, igrid.deltatau, SparseMatrix3d.mk_empty,
          axis.delta, ftau]
        push_cast
        exact hdt)
      (by
        simp only [f2_grid, igrid.construct, igrid.deltatau, igrid.taumin,
          SparseMatrix3d.mk_empty, axis.delta, ftau, e0]
        push_cast
        linarith)
      (by
        simp only [f2_grid, igrid.construct, igrid.deltatau, igrid.taumin,
          SparseMatrix3d.mk_empty, axis.delta, ftau, e0]
        push_cast
        linarith)
      (by decide)).2
    rw [h]
    simp only [f2_grid, igrid.construct, igrid.deltatau, igrid.taumin,
      SparseMatrix3d.mk_empty, axis.delta, ftau]
    push_cast
    constructor <;> linarith

/-- The test of `tests/basic.cpp` in exact arithmetic: the grid built by the standard
constructor, filled once at `(0.25, 0.25, 10000)` with weight 1, convolutes to 1. -/
theorem f2_test_value (pdf2 : Option (ℝ → ℝ → Nat → ℝ)) (nloops : Int)
    (hpdf : pdf2 = none ∨ pdf2 = some (fun x _ _ => x)) :
    Except.map
      (fun g : igrid ℝ =>
        (g.fill
          ⟨Real.exp, Real.log, fun x => Real.log x / Real.log 10, Real.sqrt,
            fun a b => a ^ b, Real.pi⟩
          0.25 0.25 10000 (fun _ => 1)).amc_convolute
          ⟨Real.exp, Real.log, fun x => Real.log x / Real.log 10, Real.sqrt,
            fun a b => a ^ b, Real.pi⟩
          (fun x _ _ => x) pdf2 (fun f1 f2 _ => f1 8 * f2 8) (fun _ => 1) 0 nloops 1 1 1)
      (igrid.standard
        ⟨Real.exp, Real.log, fun x => Real.log x / Real.log 10, Real.sqrt,
          fun a b => a ^ b, Real.pi⟩
        5 30 100 1000000 1 50 2e-7 1 1 "f2" 1 false)
      = Except.ok (some 1) := by
  rw [standard_f2_eq _ _ _ _ _ _ _ _ _ _ _ (by decide) (by decide)]
  simp only [Except.map]
  congr 1
  obtain ⟨hfresh, hal, hrw, hdis, ⟨hy0, hy33, ht0, ht33⟩, ⟨hN1, hN2, hNt⟩, hx, hNp⟩ :=
    f2_test_grid_facts _ rfl
  obtain ⟨⟨a1, a2⟩, ⟨b1, b2⟩, ⟨c1, c2⟩⟩ := f2_test_offsets _ rfl
  rw [single_fill_amc_convolute _ _ _ _ _ _ pdf2 1 0 nloops hfresh hal hrw hdis hy0 ht0 hN1 hN2
    hNt hx hpdf]
  have hm : (f2_grid
      (⟨Real.exp, Real.log, fun x => Real.log x / Real.log 10, Real.sqrt, fun a b => a ^ b,
        Real.pi⟩ : CMath ℝ) 5 30 100 1000000 1 50 2e-7 1 1 1).m_yorder = 1 := rfl
  have hmt : (f2_grid
      (⟨Real.exp, Real.log, fun x => Real.log x / Real.log 10, Real.sqrt, fun a b => a ^ b,
        Real.pi⟩ : CMath ℝ) 5 30 100 1000000 1 50 2e-7 1 1 1).m_tauorder = 1 := rfl
  rw [fI_sum_one _ ht0 ht33 _ (fun i hi h => offset_interior_no_near_miss _ c1 c2 i
      (by rw [hmt] at hi; exact hi) h),
    fI_sum_one _ hy0 hy33 _ (fun i hi h => offset_interior_no_near_miss _ a1 a2 i
      (by rw [hm] at hi; exact hi) h),
    fI_sum_one _ hy0 hy33 _ (fun i hi h => offset_interior_no_near_miss _ b1 b2 i
      (by rw [hm] at hi; exact hi) h), hNp]
  norm_num

theorem pdf_row_eq (m : CMath K) (g : igrid K) (pdf : K → K → Nat → K)
    (fs bs Q y : K) (s : Nat) :
    g.pdf_row m pdf fs bs Q y s
      = if bs ≠ 1 ∧ g.fx y * bs ≥ 1 then 0
        else pdf (g.fx y * bs) (fs * Q) s / (g.fx y * bs) *
          (if g.m_reweight then weightfun m (g.fx y) else 1) := by
  unfold igrid.pdf_row
  by_cases hb : bs = 1
  · subst hb
    simp only [mul_one, ne_eq, not_true_eq_false, decide_False, Bool.false_eq_true,
      false_and, if_false]
    split_ifs <;> simp [div_eq_mul_inv]
  · simp only [ne_eq, hb, not_false_eq_true, decide_True, if_true, true_and]
    split_ifs <;> simp [div_eq_mul_inv]

/-- The entries of `m_alphas` after `setuppdf`. -/
theorem setuppdf_alphas (m : CMath K) (g : igrid K) (alphas : K → K)
    (pdf0 : K → K → Nat → K) (pdf1 : Option (K → K → Nat → K)) (nloop : Int)
    (rs fs bs : K) (i : Nat) :
    (g.setuppdf m alphas pdf0 pdf1 nloop rs fs bs).m_alphas i
      = alphas (rs * m.sqrt (fQ2 m (g.gettau (i : Int)))) / (2 * m.M_PI) := by
  unfold igrid.setuppdf
  simp only []
  rw [div_eq_mul_inv, div_eq_mul_inv, mul_inv]
  norm_num

/-- The entries of `m_fg1` after `setuppdf` when the second pass does not write through
the alias of a symmetric grid. -/
theorem setuppdf_fg1_first_pass (m : CMath K) (g : igrid K) (alphas : K → K)
    (pdf0 : K → K → Nat → K) (pdf1 : Option (K → K → Nat → K)) (nloop : Int)
    (rs fs bs : K) (h : g.m_symmetrise = false ∨ pdf1 = none) (i j s : Nat) :
    (g.setuppdf m alphas pdf0 pdf1 nloop rs fs bs).m_fg1 i j s
      = if bs ≠ 1 ∧ g.fx (g.gety1 (j : Int)) * bs ≥ 1 then 0
        else pdf0 (g.fx (g.gety1 (j : Int)) * bs)
            (fs * m.sqrt (fQ2 m (g.gettau (i : Int)))) s / (g.fx (g.gety1 (j : Int)) * bs) *
          (if g.m_reweight then weightfun m (g.fx (g.gety1 (j : Int))) else 1) := by
  rw [← pdf_row_eq]
  unfold igrid.setuppdf igrid.isSymmetric
  rcases h with h | h
  · simp [h]
  · subst h
    by_cases hs : g.m_symmetrise = true
    · simp [hs]
    · simp [hs]

/-- C11, the code at the failing input: on a symmetric grid of 5 nodes over `[0, 4]` with
the transform `f0`, `setuppdf` called with a first PDF that writes 1 and a distinct second
PDF that writes 2 leaves `m_fg1[0][0][0] = 2`, the value of the second PDF, where the
claim gives `out0[0] / x' * W(x)^0 = 1`. -/
theorem setuppdf_symmetric_fg1_overwritten :
    (({ (uniform_grid (fun _ x => -Real.log x) (fun _ y => Real.exp (-y)) 5 0 4 1 1 :
          igrid ℝ) with m_symmetrise := true } : igrid ℝ).setuppdf
        ⟨Real.exp, Real.log, fun x => Real.log x / Real.log 10, Real.sqrt, fun a b => a ^ b,
          Real.pi⟩
        (fun _ => 1) (fun _ _ _ => 1) (some (fun _ _ _ => 2)) 0 1 1 1).m_fg1 0 0 0 = 2 ∧
    (fun (_ _ : ℝ) (_ : Nat) => (1 : ℝ))
        (({ (uniform_grid (fun _ x => -Real.log x) (fun _ y => Real.exp (-y)) 5 0 4 1 1 :
          igrid ℝ) with m_symmetrise := true } : igrid ℝ).fx
          (({ (uniform_grid (fun _ x => -Real.log x) (fun _ y => Real.exp (-y)) 5 0 4 1 1 :
            igrid ℝ) with m_symmetrise := true } : igrid ℝ).gety1 0) * 1)
        (1 * Real.sqrt (fQ2
          ⟨Real.exp, Real.log, fun x => Real.log x / Real.log 10, Real.sqrt, fun a b => a ^ b,
            Real.pi⟩
          (({ (uniform_grid (fun _ x => -Real.log x) (fun _ y => Real.exp (-y)) 5 0 4 1 1 :
            igrid ℝ) with m_symmetrise := true } : igrid ℝ).gettau 0))) 0
      / (({ (uniform_grid (fun _ x => -Real.log x) (fun _ y => Real.exp (-y)) 5 0 4 1 1 :
          igrid ℝ) with m_symmetrise := true } : igrid ℝ).fx
          (({ (uniform_grid (fun _ x => -Real.log x) (fun _ y => Real.exp (-y)) 5 0 4 1 1 :
            igrid ℝ) with m_symmetrise := true } : igrid ℝ).gety1 0) * 1)
      * 1 = 1 := by
  constructor
  · simp [igrid.setuppdf, igrid.isSymmetric, igrid.isDISgrid, igrid.pdf_row, igrid.Ny2,
      igrid.fx, igrid.gety2, uniform_grid, igrid.construct, SparseMatrix3d.mk_empty,
      axis.node]
  · simp [igrid.fx, igrid.gety1, uniform_grid, igrid.construct, SparseMatrix3d.mk_empty,
      axis.node]

/-- C12: when the trimmed extent of every channel tensor is 0, `amc_convolute` returns 0
whatever the callbacks are, and it invokes neither `alphas` nor a PDF callback: the
`return 0` precedes the call of `setuppdf`. -/
theorem amc_convolute_empty_returns_zero (m : CMath K) (g : igrid K)
    (pdf0 : K → K → Nat → K) (pdf1 : Option (K → K → Nat → K))
    (genpdf : (Nat → K) → (Nat → K) → Nat → K) (alphas : K → K)
    (lo_order nloop : Int) (rs fs Es : K)
    (h : ∀ ip, ip < g.m_Nproc.toNat → (g.m_weight ip).trimmed_xextent = 0) :
    g.amc_convolute m pdf0 pdf1 genpdf alphas lo_order nloop rs fs Es = some 0 ∧
    g.amc_convolute_calls pdf1.isSome Es = ⟨0, 0, 0⟩ := by
  have hsize : g.trimmed_size = 0 := (trimmed_size_zero_iff g).2 h
  constructor
  · rw [amc_convolute_eq, if_pos hsize]
  · unfold igrid.amc_convolute_calls
    unfold igrid.trimmed_size at hsize
    simp only []
    rw [if_pos hsize]

/-- Witness of C12: the fresh one-channel grid of 5 nodes over `[0, 4]`. -/
theorem amc_convolute_empty_returns_zero_witness :
    (uniform_grid (fun _ x => -Real.log x) (fun _ y => Real.exp (-y)) 5 0 4 1 1 :
        igrid ℝ).amc_convolute
      ⟨Real.exp, Real.log, fun x => Real.log x / Real.log 10, Real.sqrt, fun a b => a ^ b,
        Real.pi⟩
      (fun x _ _ => x) none (fun f1 f2 _ => f1 8 * f2 8) (fun _ => 1) 0 0 1 1 1 = some 0 ∧
    (uniform_grid (fun _ x => -Real.log x) (fun _ y => Real.exp (-y)) 5 0 4 1 1 :
        igrid ℝ).amc_convolute_calls (none : Option (ℝ → ℝ → Nat → ℝ)).isSome 1 = ⟨0, 0, 0⟩ :=
  amc_convolute_empty_returns_zero _ _ _ none _ _ 0 0 1 1 1
    (fun _ _ => zero_cells_trimmed_xextent _ (fun _ _ _ => rfl))

/-! ### `write` and the read constructor -/

/-- The decoding `int(v + 0.5)` of a stored non-negative integer `n` that was perturbed by
less than one half. -/
theorem toInt_add_half (n : Int) (h : 0 ≤ n) (e : K) (he : |e| < 0.5) :
    toInt ((n : K) + e + 0.5) = n := by
  have he2 := abs_lt.mp he
  have hn : (0 : K) ≤ (n : K) := by exact_mod_cast h
  have hv : (0 : K) ≤ (n : K) + e + 0.5 := by linarith [he2.1]
  rw [toInt_of_nonneg hv, Int.floor_eq_iff]
  constructor
  · linarith [he2.1]
  · linarith [he2.2]

theorem toInt_int_add_half (n : Int) (h : 0 ≤ n) : toInt ((n : K) + 0.5) = n := by
  have := toInt_add_half n h (0 : K) (by norm_num)
  rwa [add_zero] at this

/-- The channel loops run as often after decoding `m_Nproc` as before, also for a negative
count. -/
theorem toInt_add_half_toNat (n : Int) : (toInt ((n : K) + 0.5)).toNat = n.toNat := by
  by_cases h : 0 ≤ n
  · rw [toInt_int_add_half n h]
  · have hn : n ≤ -1 := by omega
    have hn2 : (n : K) ≤ -1 := by exact_mod_cast hn
    have hneg : (n : K) + 0.5 < 0 := by
      have : (0.5 : K) < 1 := by norm_num
      linarith
    rw [toInt_of_neg hneg]
    have hc : ⌈(n : K) + 0.5⌉ ≤ 0 := by
      rw [Int.ceil_le]
      push_cast
      exact hneg.le
    rw [Int.toNat_of_nonpos hc, Int.toNat_of_nonpos (by omega)]

theorem decode_flag (b : Bool) : decide ((if b = true then (1 : K) else 0) ≠ 0) = b := by
  cases b <;> simp

/-- The grid that the read constructor builds from what `write` stored. -/
theorem read_write (m : CMath K) (g : igrid K) (hreg : g.transform_registered m) :
    ∃ r, igrid.read m g.write = Except.ok r ∧
      (r.mfx = g.mfx ∧ r.mfy = g.mfy ∧ r.m_transform = g.m_transform) ∧
      (r.m_Ny1 = toInt ((g.m_Ny1 : K) + 0.5) ∧ r.m_Ny2 = toInt ((g.m_Ny2 : K) + 0.5) ∧
        r.m_yorder = toInt ((g.m_yorder : K) + 0.5) ∧
        r.m_Ntau = toInt ((g.m_Ntau : K) + 0.5) ∧
        r.m_tauorder = toInt ((g.m_tauorder : K) + 0.5) ∧
        r.m_Nproc = toInt ((g.m_Nproc : K) + 0.5)) ∧
      (r.m_y1min = g.m_y1min ∧ r.m_y1max = g.m_y1max ∧ r.m_y2min = g.m_y2min ∧
        r.m_y2max = g.m_y2max ∧ r.m_taumin = g.m_taumin ∧ r.m_taumax = g.m_taumax ∧
        r.m_transvar = g.m_transvar) ∧
      (r.m_reweight = g.m_reweight ∧ r.m_symmetrise = g.m_symmetrise ∧
        r.m_optimised = g.m_optimised ∧ r.m_DISgrid = g.m_DISgrid) ∧
      ∀ ip, ip < g.m_Nproc.toNat → r.m_weight ip = g.m_weight ip := by
  obtain ⟨fmap, hf, hl⟩ := hreg
  have hall : (List.range (toInt ((g.m_Nproc : K) + 0.5)).toNat).all
      (fun (ip : Nat) => (g.write.weight ip).isSome) = true := by
    rw [toInt_add_half_toNat, List.all_eq_true]
    intro ip hip
    rw [List.mem_range] at hip
    have hip2 : (ip : Int) < g.m_Nproc := by omega
    simp [igrid.write, hip2]
  unfold igrid.read
  simp only [hf, bind, Except.bind]
  have hT : g.write.Transform = g.m_transform := rfl
  rw [hT, hl]
  simp only []
  have h12 : g.write.Parameters.getD 12 0 = (g.m_Nproc : K) := rfl
  rw [h12, if_pos hall]
  refine ⟨_, rfl, ⟨rfl, rfl, rfl⟩, ⟨rfl, rfl, rfl, rfl, rfl, rfl⟩,
    ⟨rfl, rfl, rfl, rfl, rfl, rfl, rfl⟩, ⟨?_, ?_, ?_, ?_⟩, ?_⟩
  · exact decode_flag g.m_reweight
  · exact decode_flag g.m_symmetrise
  · exact decode_flag g.m_optimised
  · simp [igrid.write]
  · intro ip hip
    have hip2 : (ip : Int) < g.m_Nproc := by omega
    simp [igrid.write, hip2, SparseMatrix3d.trim]

/-- The integer members of a grid that was read are the casts `int(v + 0.5)` of the
stored values. -/
theorem read_integer_fields (m : CMath K) (f : igrid_record K) (r : igrid K)
    (h : igrid.read m f = Except.ok r) :
    r.m_Ny1 = toInt (f.Parameters.getD 0 0 + 0.5) ∧
    r.m_Ny2 = toInt (f.Parameters.getD 3 0 + 0.5) ∧
    r.m_yorder = toInt (f.Parameters.getD 6 0 + 0.5) ∧
    r.m_Ntau = toInt (f.Parameters.getD 7 0 + 0.5) ∧
    r.m_tauorder = toInt (f.Parameters.getD 10 0 + 0.5) ∧
    r.m_Nproc = toInt (f.Parameters.getD 12 0 + 0.5) := by
  unfold igrid.read at h
  simp only [init_fmap_nil, bind, Except.bind] at h
  split at h
  · cases h
  · split_ifs at h
    injection h with h
    subst h
    exact ⟨rfl, rfl, rfl, rfl, rfl, rfl⟩

/-- C14: `write` stores the 17 fields at the positions 0..16 of `Parameters` in the order
`N_y1, y1min, y1max, N_y2, y2min, y2max, y_order, N_tau, taumin, taumax, tau_order,
transvar, K, reweight, symmetrise, optimised, DIS`, the booleans as 0/1; the read
constructor applied to that record recovers every one of them (for a grid whose transform
is registered and whose integer members are not negative); and an integer field stored as
`n + e` with a non-negative integer `n` and `|e| < 0.5` is decoded as `n`. -/
theorem write_parameters_read_back (m : CMath K) (g : igrid K)
    (hreg : g.transform_registered m)
    (hN1 : 0 ≤ g.m_Ny1) (hN2 : 0 ≤ g.m_Ny2) (hyo : 0 ≤ g.m_yorder) (hNt : 0 ≤ g.m_Ntau)
    (hto : 0 ≤ g.m_tauorder) (hNp : 0 ≤ g.m_Nproc) :
    g.write.Parameters.take 17 =
      [(g.m_Ny1 : K), g.m_y1min, g.m_y1max, (g.m_Ny2 : K), g.m_y2min, g.m_y2max,
        (g.m_yorder : K), (g.m_Ntau : K), g.m_taumin, g.m_taumax, (g.m_tauorder : K),
        g.m_transvar, (g.m_Nproc : K),
        if g.m_reweight then 1 else 0, if g.m_symmetrise then 1 else 0,
        if g.m_optimised then 1 else 0, if g.m_DISgrid then 1 else 0] ∧
    (∃ r, igrid.read m g.write = Except.ok r ∧
      r.m_Ny1 = g.m_Ny1 ∧ r.m_y1min = g.m_y1min ∧ r.m_y1max = g.m_y1max ∧
      r.m_Ny2 = g.m_Ny2 ∧ r.m_y2min = g.m_y2min ∧ r.m_y2max = g.m_y2max ∧
      r.m_yorder = g.m_yorder ∧
      r.m_Ntau = g.m_Ntau ∧ r.m_taumin = g.m_taumin ∧ r.m_taumax = g.m_taumax ∧
      r.m_tauorder = g.m_tauorder ∧
      r.m_transvar = g.m_transvar ∧
      r.m_Nproc = g.m_Nproc ∧
      r.m_reweight = g.m_reweight ∧ r.m_symmetrise = g.m_symmetrise ∧
      r.m_optimised = g.m_optimised ∧ r.m_DISgrid = g.m_DISgrid) ∧
    (∀ (f : igrid_record K) (r : igrid K), igrid.read m f = Except.ok r →
      ∀ (n : Int) (e : K), 0 ≤ n → |e| < 0.5 →
        (f.Parameters.getD 0 0 = (n : K) + e → r.m_Ny1 = n) ∧
        (f.Parameters.getD 3 0 = (n : K) + e → r.m_Ny2 = n) ∧
        (f.Parameters.getD 6 0 = (n : K) + e → r.m_yorder = n) ∧
        (f.Parameters.getD 7 0 = (n : K) + e → r.m_Ntau = n) ∧
        (f.Parameters.getD 10 0 = (n : K) + e → r.m_tauorder = n) ∧
        (f.Parameters.getD 12 0 = (n : K) + e → r.m_Nproc = n)) := by
  refine ⟨rfl, ?_, ?_⟩
  · obtain ⟨r, hr, -, ⟨i1, i2, i3, i4, i5, i6⟩, ⟨r1, r2, r3, r4, r5, r6, r7⟩,
      ⟨b1, b2, b3, b4⟩, -⟩ := read_write m g hreg
    rw [toInt_int_add_half _ hN1] at i1
    rw [toInt_int_add_half _ hN2] at i2
    rw [toInt_int_add_half _ hyo] at i3
    rw [toInt_int_add_half _ hNt] at i4
    rw [toInt_int_add_half _ hto] at i5
    rw [toInt_int_add_half _ hNp] at i6
    exact ⟨r, hr, i1, r1, r2, i2, r3, r4, i3, i4, r5, r6, i5, r7, i6, b1, b2, b3, b4⟩
  · intro f r hr n e hn he
    obtain ⟨i1, i2, i3, i4, i5, i6⟩ := read_integer_fields m f r hr
    refine ⟨fun h => ?_, fun h => ?_, fun h => ?_, fun h => ?_, fun h => ?_, fun h => ?_⟩
    · rw [i1, h, toInt_add_half n hn e he]
    · rw [i2, h, toInt_add_half n hn e he]
    · rw [i3, h, toInt_add_half n hn e he]
    · rw [i4, h, toInt_add_half n hn e he]
    · rw [i5, h, toInt_add_half n hn e he]
    · rw [i6, h, toInt_add_half n hn e he]

/-- The grid of 5 nodes over `[0, 4]` with the registered pair of the transform `f0`. -/
theorem f0_registered :
    (uniform_grid
      (_fy0 (⟨Real.exp, Real.log, fun x => Real.log x / Real.log 10, Real.sqrt,
        fun a b => a ^ b, Real.pi⟩ : CMath ℝ))
      (_fx0 (⟨Real.exp, Real.log, fun x => Real.log x / Real.log 10, Real.sqrt,
        fun a b => a ^ b, Real.pi⟩ : CMath ℝ)) 5 0 4 2 1 : igrid ℝ).transform_registered
      ⟨Real.exp, Real.log, fun x => Real.log x / Real.log 10, Real.sqrt, fun a b => a ^ b,
        Real.pi⟩ :=
  ⟨_, init_fmap_nil _, by simp [uniform_grid, igrid.construct, List.lookup]⟩

/-- Witness of C14: the grid of 5 nodes over `[0, 4]` with order 2 and the transform
`f0`. -/
theorem write_parameters_read_back_witness :
    Except.map (fun r : igrid ℝ => (r.m_Ny1, r.m_yorder, r.m_Nproc, r.m_DISgrid))
      (igrid.read
        (⟨Real.exp, Real.log, fun x => Real.log x / Real.log 10, Real.sqrt,
          fun a b => a ^ b, Real.pi⟩ : CMath ℝ)
        (uniform_grid
          (_fy0 (⟨Real.exp, Real.log, fun x => Real.log x / Real.log 10, Real.sqrt,
            fun a b => a ^ b, Real.pi⟩ : CMath ℝ))
          (_fx0 (⟨Real.exp, Real.log, fun x => Real.log x / Real.log 10, Real.sqrt,
            fun a b => a ^ b, Real.pi⟩ : CMath ℝ)) 5 0 4 2 1 : igrid ℝ).write)
      = Except.ok (5, 2, 1, false) := by
  obtain ⟨r, hr, h1, -, -, -, -, -, h7, -, -, -, -, -, h13, -, -, -, h17⟩ :=
    (write_parameters_read_back _ _ f0_registered (by decide) (by decide) (by decide)
      (by decide) (by decide) (by decide)).2.1
  rw [hr]
  simp only [Except.map, h1, h7, h13, h17]
  rfl

/-- The convolution reads a grid only through its transform `mfx`, `m_transvar`, its
flags, the number of channels and the tensors of those channels. -/
theorem amc_convolute_congr (m : CMath K) (g h : igrid K)
    (hfx : h.mfx = g.mfx) (htv : h.m_transvar = g.m_transvar)
    (hrw : h.m_reweight = g.m_reweight) (hsym : h.m_symmetrise = g.m_symmetrise)
    (hdis : h.m_DISgrid = g.m_DISgrid) (hN : h.m_Nproc.toNat = g.m_Nproc.toNat)
    (hw : ∀ ip, ip < g.m_Nproc.toNat → h.m_weight ip = g.m_weight ip)
    (pdf0 : K → K → Nat → K) (pdf1 : Option (K → K → Nat → K))
    (genpdf : (Nat → K) → (Nat → K) → Nat → K) (alphas : K → K)
    (lo_order nloop : Int) (rs fs Es : K) :
    h.amc_convolute m pdf0 pdf1 genpdf alphas lo_order nloop rs fs Es
      = g.amc_convolute m pdf0 pdf1 genpdf alphas lo_order nloop rs fs Es := by
  have hts : h.trimmed_size = g.trimmed_size := by
    rw [trimmed_size_eq_sum, trimmed_size_eq_sum, hN]
    apply Finset.sum_congr rfl
    intro ip hip
    rw [hw ip (Finset.mem_range.mp hip)]
  rw [amc_convolute_eq, amc_convolute_eq, hts]
  by_cases hz : g.trimmed_size = 0
  · rw [if_pos hz, if_pos hz]
  · rw [if_neg hz, if_neg hz]
    have hpos : 0 < g.m_Nproc.toNat := by
      rcases Nat.eq_zero_or_pos g.m_Nproc.toNat with h0 | h0
      · exfalso
        apply hz
        rw [trimmed_size_eq_sum, h0]
        simp
      · exact h0
    have h0 : h.m_weight 0 = g.m_weight 0 := hw 0 hpos
    have hflag : (h.isDISgrid && !h.isSymmetric)
        = (g.isDISgrid && !g.isSymmetric) := by
      unfold igrid.isDISgrid igrid.isSymmetric
      rw [hdis, hsym]
    have hsetup : h.setuppdf m alphas pdf0 pdf1 nloop rs fs Es
        = g.setuppdf m alphas pdf0 pdf1 nloop rs fs Es := by
      unfold igrid.setuppdf igrid.pdf_row igrid.fx igrid.gettau igrid.gety1 igrid.gety2
        igrid.Ny2 igrid.isSymmetric igrid.isDISgrid
      rw [hfx, htv, hrw, hsym, hdis, h0]
    have hsum : ∀ (c : node_cache K) (couple : Nat → K),
        h.convolution_sum c genpdf couple = g.convolution_sum c genpdf couple := by
      intro c couple
      unfold igrid.convolution_sum igrid.Ntau igrid.Ny1 igrid.Ny2
      rw [h0, hN]
      apply Finset.sum_congr rfl; intro itau _
      congr 1
      apply Finset.sum_congr rfl; intro iy1 _
      apply Finset.sum_congr rfl; intro iy2 _
      apply Finset.sum_congr rfl; intro ip hip
      rw [hw ip (Finset.mem_range.mp hip)]
    rw [hflag, hsetup, hsum]

/-- The grid of the test of `tests/files.cpp` before it is written: the `f2` grid of the
standard constructor filled once at `(0.25, 0.25, 10000)` with weight 1. Its transform is
registered and it convolutes to 1. -/
theorem f2_test_grid_filled (pdf2 : Option (ℝ → ℝ → Nat → ℝ)) (nloops : Int)
    (hpdf : pdf2 = none ∨ pdf2 = some (fun x _ _ => x)) :
    ((f2_grid
        (⟨Real.exp, Real.log, fun x => Real.log x / Real.log 10, Real.sqrt, fun a b => a ^ b,
          Real.pi⟩ : CMath ℝ) 5 30 100 1000000 1 50 2e-7 1 1 1).fill
        ⟨Real.exp, Real.log, fun x => Real.log x / Real.log 10, Real.sqrt, fun a b => a ^ b,
          Real.pi⟩ 0.25 0.25 10000 (fun _ => 1)).transform_registered
      ⟨Real.exp, Real.log, fun x => Real.log x / Real.log 10, Real.sqrt, fun a b => a ^ b,
        Real.pi⟩ ∧
    ((f2_grid
        (⟨Real.exp, Real.log, fun x => Real.log x / Real.log 10, Real.sqrt, fun a b => a ^ b,
          Real.pi⟩ : CMath ℝ) 5 30 100 1000000 1 50 2e-7 1 1 1).fill
        ⟨Real.exp, Real.log, fun x => Real.log x / Real.log 10, Real.sqrt, fun a b => a ^ b,
          Real.pi⟩ 0.25 0.25 10000 (fun _ => 1)).amc_convolute
      ⟨Real.exp, Real.log, fun x => Real.log x / Real.log 10, Real.sqrt, fun a b => a ^ b,
        Real.pi⟩
      (fun x _ _ => x) pdf2 (fun f1 f2 _ => f1 8 * f2 8) (fun _ => 1) 0 nloops 1 1 1
      = some 1 := by
  constructor
  · exact ⟨_, init_fmap_nil _, by simp [igrid.fill, f2_grid, igrid.construct, List.lookup]⟩
  · have h := f2_test_value pdf2 nloops hpdf
    rw [standard_f2_eq _ _ _ _ _ _ _ _ _ _ _ (by decide) (by decide)] at h
    simp only [Except.map] at h
    injection h

/-- Reading back what `write` stored gives a grid with the same convolution and the same
cells in every channel. -/
theorem read_write_convolute (m : CMath K) (g : igrid K) (hreg : g.transform_registered m) :
    ∃ r, igrid.read m g.write = Except.ok r ∧
      (∀ (pdf0 : K → K → Nat → K) (pdf1 : Option (K → K → Nat → K))
        (genpdf : (Nat → K) → (Nat → K) → Nat → K) (alphas : K → K)
        (lo_order nloop : Int) (rs fs Es : K),
        r.amc_convolute m pdf0 pdf1 genpdf alphas lo_order nloop rs fs Es
          = g.amc_convolute m pdf0 pdf1 genpdf alphas lo_order nloop rs fs Es) ∧
      (∀ ip, ip < g.m_Nproc.toNat → ∀ a b c : Int,
        (r.m_weight ip).cell a b c = (g.m_weight ip).cell a b c) := by
  obtain ⟨r, hr, ⟨hfx, -, -⟩, ⟨-, -, -, -, -, hNp⟩, ⟨-, -, -, -, -, -, htv⟩,
    ⟨hrw, hsym, -, hdis⟩, hw⟩ := read_write m g hreg
  refine ⟨r, hr, ?_, ?_⟩
  · intro pdf0 pdf1 genpdf alphas lo_order nloop rs fs Es
    apply amc_convolute_congr m g r hfx htv hrw hsym hdis _ hw
    rw [hNp, toInt_add_half_toNat]
  · intro ip hip a b c
    rw [hw ip hip]

/-- C13: for every grid whose transform pair is the registered one, the grid read back from
what `write` stored convolutes to the same value as the grid itself for the same PDFs,
`alpha_s`, order and scale factors, and the cells of its channel tensors are those of the
grid. The one-channel `f2` grid of the test, filled once at `(0.25, 0.25, 10000)` with
weight 1, convolutes to 1 after `write` and read. -/
theorem read_write_round_trip (m : CMath K) (g : igrid K)
    (hreg : g.transform_registered m) :
    (∃ r, igrid.read m g.write = Except.ok r ∧
      (∀ (pdf0 : K → K → Nat → K) (pdf1 : Option (K → K → Nat → K))
        (genpdf : (Nat → K) → (Nat → K) → Nat → K) (alphas : K → K)
        (lo_order nloop : Int) (rs fs Es : K),
        r.amc_convolute m pdf0 pdf1 genpdf alphas lo_order nloop rs fs Es
          = g.amc_convolute m pdf0 pdf1 genpdf alphas lo_order nloop rs fs Es) ∧
      (∀ ip, ip < g.m_Nproc.toNat → ∀ a b c : Int,
        (r.m_weight ip).cell a b c = (g.m_weight ip).cell a b c)) ∧
    (∀ (pdf2 : Option (ℝ → ℝ → Nat → ℝ)) (nloops : Int),
      pdf2 = none ∨ pdf2 = some (fun x _ _ => x) →
      Except.bind
        (igrid.standard
          ⟨Real.exp, Real.log, fun x => Real.log x / Real.log 10, Real.sqrt,
            fun a b => a ^ b, Real.pi⟩
          5 30 100 1000000 1 50 2e-7 1 1 "f2" 1 false)
        (fun g0 : igrid ℝ =>
          Except.map
            (fun r : igrid ℝ =>
              r.amc_convolute
                ⟨Real.exp, Real.log, fun x => Real.log x / Real.log 10, Real.sqrt,
                  fun a b => a ^ b, Real.pi⟩
                (fun x _ _ => x) pdf2 (fun f1 f2 _ => f1 8 * f2 8) (fun _ => 1) 0 nloops
                1 1 1)
            (igrid.read
              ⟨Real.exp, Real.log, fun x => Real.log x / Real.log 10, Real.sqrt,
                fun a b => a ^ b, Real.pi⟩
              (g0.fill
                ⟨Real.exp, Real.log, fun x => Real.log x / Real.log 10, Real.sqrt,
                  fun a b => a ^ b, Real.pi⟩
                0.25 0.25 10000 (fun _ => 1)).write))
        = Except.ok (some 1)) := by
  refine ⟨read_write_convolute m g hreg, ?_⟩
  intro pdf2 nloops hpdf
  rw [standard_f2_eq _ _ _ _ _ _ _ _ _ _ _ (by decide) (by decide)]
  obtain ⟨hregG, hval⟩ := f2_test_grid_filled pdf2 nloops hpdf
  obtain ⟨r, hr, hconv, -⟩ := read_write_convolute _ _ hregG
  simp only [Except.bind]
  rw [hr]
  simp only [Except.map]
  rw [hconv, hval]

/-- The grid of 5 nodes over `[0, 4]` with the transform `f0`, filled once, keeps the
registered pair. -/
theorem f0_filled_registered :
    ((uniform_grid
          (_fy0 (⟨Real.exp, Real.log, fun x => Real.log x / Real.log 10, Real.sqrt,
            fun a b => a ^ b, Real.pi⟩ : CMath ℝ))
          (_fx0 (⟨Real.exp, Real.log, fun x => Real.log x / Real.log 10, Real.sqrt,
            fun a b => a ^ b, Real.pi⟩ : CMath ℝ)) 5 0 4 2 1 : igrid ℝ).fill
          ⟨Real.exp, Real.log, fun x => Real.log x / Real.log 10, Real.sqrt,
            fun a b => a ^ b, Real.pi⟩
          (Real.exp (-1)) (Real.exp (-1)) (0.0625 * Real.exp (Real.exp 1)) (fun _ => 1)).transform_registered
      ⟨Real.exp, Real.log, fun x => Real.log x / Real.log 10, Real.sqrt,
            fun a b => a ^ b, Real.pi⟩ :=
  ⟨_, init_fmap_nil _, by simp [igrid.fill, uniform_grid, igrid.construct, List.lookup]⟩

/-- Witness of C13: the one-channel grid of 5 nodes over `[0, 4]` with the transform `f0`
and order 2, filled once at `x1 = x2 = exp(-1)`, `Q2 = 0.0625 exp(exp 1)`. -/
theorem read_write_round_trip_witness :
    Except.map
      (fun r : igrid ℝ =>
        r.amc_convolute
          ⟨Real.exp, Real.log, fun x => Real.log x / Real.log 10, Real.sqrt,
            fun a b => a ^ b, Real.pi⟩
          (fun x _ _ => x) none (fun f1 f2 _ => f1 8 * f2 8) (fun _ => 1) 0 0 1 1 1)
      (igrid.read
        (⟨Real.exp, Real.log, fun x => Real.log x / Real.log 10, Real.sqrt,
            fun a b => a ^ b, Real.pi⟩ : CMath ℝ)
        ((uniform_grid
          (_fy0 (⟨Real.exp, Real.log, fun x => Real.log x / Real.log 10, Real.sqrt,
            fun a b => a ^ b, Real.pi⟩ : CMath ℝ))
          (_fx0 (⟨Real.exp, Real.log, fun x => Real.log x / Real.log 10, Real.sqrt,
            fun a b => a ^ b, Real.pi⟩ : CMath ℝ)) 5 0 4 2 1 : igrid ℝ).fill
          ⟨Real.exp, Real.log, fun x => Real.log x / Real.log 10, Real.sqrt,
            fun a b => a ^ b, Real.pi⟩
          (Real.exp (-1)) (Real.exp (-1)) (0.0625 * Real.exp (Real.exp 1)) (fun _ => 1)).write)
      = Except.ok
        (((uniform_grid
          (_fy0 (⟨Real.exp, Real.log, fun x => Real.log x / Real.log 10, Real.sqrt,
            fun a b => a ^ b, Real.pi⟩ : CMath ℝ))
          (_fx0 (⟨Real.exp, Real.log, fun x => Real.log x / Real.log 10, Real.sqrt,
            fun a b => a ^ b, Real.pi⟩ : CMath ℝ)) 5 0 4 2 1 : igrid ℝ).fill
          ⟨Real.exp, Real.log, fun x => Real.log x / Real.log 10, Real.sqrt,
            fun a b => a ^ b, Real.pi⟩
          (Real.exp (-1)) (Real.exp (-1)) (0.0625 * Real.exp (Real.exp 1)) (fun _ => 1)).amc_convolute
          ⟨Real.exp, Real.log, fun x => Real.log x / Real.log 10, Real.sqrt,
            fun a b => a ^ b, Real.pi⟩
          (fun x _ _ => x) none (fun f1 f2 _ => f1 8 * f2 8) (fun _ => 1) 0 0 1 1 1) := by
  obtain ⟨r, hr, hconv, -⟩ := (read_write_round_trip _ _ f0_filled_registered).1
  rw [hr]
  simp only [Except.map]
  rw [hconv]

/-! ### The transform pairs over the real numbers -/

theorem fx_fy_exact (a x : ℝ) (h0 : 0 < x) (h1 : x < 1) :
    _fx (⟨Real.exp, Real.log, fun x => Real.log x / Real.log 10, Real.sqrt, fun a b => a ^ b,
      Real.pi⟩ : CMath ℝ) a
      (_fy (⟨Real.exp, Real.log, fun x => Real.log x / Real.log 10, Real.sqrt,
        fun a b => a ^ b, Real.pi⟩ : CMath ℝ) a x) = x := by
  unfold _fx _fy
  simp only []
  have hpos : 0 < 1 / x - 1 := by
    have : 1 < 1 / x := by rw [lt_div_iff₀ h0]; linarith
    linarith
  rw [Real.exp_log hpos]
  field_simp

theorem fx0_fy0_exact (a x : ℝ) (h0 : 0 < x) :
    _fx0 (⟨Real.exp, Real.log, fun x => Real.log x / Real.log 10, Real.sqrt, fun a b => a ^ b,
      Real.pi⟩ : CMath ℝ) a
      (_fy0 (⟨Real.exp, Real.log, fun x => Real.log x / Real.log 10, Real.sqrt,
        fun a b => a ^ b, Real.pi⟩ : CMath ℝ) a x) = x := by
  unfold _fx0 _fy0
  simp only [neg_neg]
  exact Real.exp_log h0

theorem fx1_fy1_exact (a x : ℝ) (h0 : 0 < x) (h1 : x < 1) :
    _fx1 (⟨Real.exp, Real.log, fun x => Real.log x / Real.log 10, Real.sqrt, fun a b => a ^ b,
      Real.pi⟩ : CMath ℝ) a
      (_fy1 (⟨Real.exp, Real.log, fun x => Real.log x / Real.log 10, Real.sqrt,
        fun a b => a ^ b, Real.pi⟩ : CMath ℝ) a x) = x := by
  unfold _fx1 _fy1
  simp only []
  have hneg : 0 ≤ -Real.log x := by
    have := Real.log_neg h0 h1
    linarith
  rw [neg_mul, Real.mul_self_sqrt hneg, neg_neg]
  exact Real.exp_log h0

theorem ten_rpow_log10 (x : ℝ) (h0 : 0 < x) :
    (10 : ℝ) ^ (Real.log x / Real.log 10) = x := by
  have h10 : (0 : ℝ) < 10 := by norm_num
  have hl : Real.log 10 ≠ 0 := by
    have : 0 < Real.log 10 := Real.log_pos (by norm_num)
    exact this.ne'
  rw [Real.rpow_def_of_pos h10, mul_div_cancel₀ _ hl]
  exact Real.exp_log h0

theorem fx3_fy3_exact (a x : ℝ) (h0 : 0 < x) (h1 : x < 1) :
    _fx3 (⟨Real.exp, Real.log, fun x => Real.log x / Real.log 10, Real.sqrt, fun a b => a ^ b,
      Real.pi⟩ : CMath ℝ) a
      (_fy3 (⟨Real.exp, Real.log, fun x => Real.log x / Real.log 10, Real.sqrt,
        fun a b => a ^ b, Real.pi⟩ : CMath ℝ) a x) = x := by
  unfold _fx3 _fy3
  simp only []
  have hneg : 0 ≤ -(Real.log x / Real.log 10) := by
    have h := Real.log_neg h0 h1
    have h10 : 0 < Real.log 10 := Real.log_pos (by norm_num)
    have := div_neg_of_neg_of_pos h h10
    linarith
  rw [neg_mul, Real.mul_self_sqrt hneg, neg_neg]
  exact ten_rpow_log10 x h0

theorem fx4_fy4_exact (a x : ℝ) (h0 : 0 < x) :
    _fx4 (⟨Real.exp, Real.log, fun x => Real.log x / Real.log 10, Real.sqrt, fun a b => a ^ b,
      Real.pi⟩ : CMath ℝ) a
      (_fy4 (⟨Real.exp, Real.log, fun x => Real.log x / Real.log 10, Real.sqrt,
        fun a b => a ^ b, Real.pi⟩ : CMath ℝ) a x) = x := by
  unfold _fx4 _fy4
  simp only [neg_neg]
  exact ten_rpow_log10 x h0

/-- C15: for the closed-form transforms `f`, `f0`, `f1`, `f3`, `f4` and every real `x`
with `0 < x < 1`, the inverse applied to the forward map returns `x` within `1e-10` (the
difference is 0 in real arithmetic). -/
theorem closed_form_transforms_round_trip (a x : ℝ) (h0 : 0 < x) (h1 : x < 1) :
    |_fx (⟨Real.exp, Real.log, fun x => Real.log x / Real.log 10, Real.sqrt, fun a b => a ^ b,
        Real.pi⟩ : CMath ℝ) a
      (_fy (⟨Real.exp, Real.log, fun x => Real.log x / Real.log 10, Real.sqrt,
        fun a b => a ^ b, Real.pi⟩ : CMath ℝ) a x) - x| < 1e-10 ∧
    |_fx0 (⟨Real.exp, Real.log, fun x => Real.log x / Real.log 10, Real.sqrt, fun a b => a ^ b,
        Real.pi⟩ : CMath ℝ) a
      (_fy0 (⟨Real.exp, Real.log, fun x => Real.log x / Real.log 10, Real.sqrt,
        fun a b => a ^ b, Real.pi⟩ : CMath ℝ) a x) - x| < 1e-10 ∧
    |_fx1 (⟨Real.exp, Real.log, fun x => Real.log x / Real.log 10, Real.sqrt, fun a b => a ^ b,
        Real.pi⟩ : CMath ℝ) a
      (_fy1 (⟨Real.exp, Real.log, fun x => Real.log x / Real.log 10, Real.sqrt,
        fun a b => a ^ b, Real.pi⟩ : CMath ℝ) a x) - x| < 1e-10 ∧
    |_fx3 (⟨Real.exp, Real.log, fun x => Real.log x / Real.log 10, Real.sqrt, fun a b => a ^ b,
        Real.pi⟩ : CMath ℝ) a
      (_fy3 (⟨Real.exp, Real.log, fun x => Real.log x / Real.log 10, Real.sqrt,
        fun a b => a ^ b, Real.pi⟩ : CMath ℝ) a x) - x| < 1e-10 ∧
    |_fx4 (⟨Real.exp, Real.log, fun x => Real.log x / Real.log 10, Real.sqrt, fun a b => a ^ b,
        Real.pi⟩ : CMath ℝ) a
      (_fy4 (⟨Real.exp, Real.log, fun x => Real.log x / Real.log 10, Real.sqrt,
        fun a b => a ^ b, Real.pi⟩ : CMath ℝ) a x) - x| < 1e-10 := by
  rw [fx_fy_exact a x h0 h1, fx0_fy0_exact a x h0, fx1_fy1_exact a x h0 h1,
    fx3_fy3_exact a x h0 h1, fx4_fy4_exact a x h0]
  norm_num

/-- Witness of C15: `x = 1/4`. -/
theorem closed_form_transforms_round_trip_witness :
    |_fx0 (⟨Real.exp, Real.log, fun x => Real.log x / Real.log 10, Real.sqrt, fun a b => a ^ b,
        Real.pi⟩ : CMath ℝ) 5
      (_fy0 (⟨Real.exp, Real.log, fun x => Real.log x / Real.log 10, Real.sqrt,
        fun a b => a ^ b, Real.pi⟩ : CMath ℝ) 5 (1 / 4)) - 1 / 4| < 1e-10 :=
  (closed_form_transforms_round_trip 5 (1 / 4) (by norm_num) (by norm_num)).2.1

/-- C18: `ftau(Q2) = ln(ln(Q2/0.0625))`, `fQ2(ftau(Q2)) = Q2` for every real
`Q2 > 0.0625`, and `ftau(fQ2(tau)) = tau` for every real `tau`. -/
theorem ftau_fQ2_inverse :
    (∀ Q2 : ℝ, ftau (⟨Real.exp, Real.log, fun x => Real.log x / Real.log 10, Real.sqrt,
        fun a b => a ^ b, Real.pi⟩ : CMath ℝ) Q2 = Real.log (Real.log (Q2 / 0.0625))) ∧
    (∀ Q2 : ℝ, 0.0625 < Q2 →
      fQ2 (⟨Real.exp, Real.log, fun x => Real.log x / Real.log 10, Real.sqrt,
        fun a b => a ^ b, Real.pi⟩ : CMath ℝ)
        (ftau (⟨Real.exp, Real.log, fun x => Real.log x / Real.log 10, Real.sqrt,
          fun a b => a ^ b, Real.pi⟩ : CMath ℝ) Q2) = Q2) ∧
    (∀ tau : ℝ,
      ftau (⟨Real.exp, Real.log, fun x => Real.log x / Real.log 10, Real.sqrt,
        fun a b => a ^ b, Real.pi⟩ : CMath ℝ)
        (fQ2 (⟨Real.exp, Real.log, fun x => Real.log x / Real.log 10, Real.sqrt,
          fun a b => a ^ b, Real.pi⟩ : CMath ℝ) tau) = tau) := by
  refine ⟨fun _ => rfl, ?_, ?_⟩
  · intro Q2 hQ
    unfold fQ2 ftau
    simp only []
    have h1 : (1 : ℝ) < Q2 / 0.0625 := by
      rw [lt_div_iff₀ (by norm_num)]
      linarith
    have h2 : 0 < Real.log (Q2 / 0.0625) := Real.log_pos h1
    rw [Real.exp_log h2, Real.exp_log (by linarith)]
    field_simp
  · intro tau
    unfold fQ2 ftau
    simp only []
    rw [mul_div_cancel_left₀ _ (by norm_num : (0.0625 : ℝ) ≠ 0), Real.log_exp, Real.log_exp]

/-- Witness of C18: `Q2 = 1`. -/
theorem ftau_fQ2_inverse_witness :
    fQ2 (⟨Real.exp, Real.log, fun x => Real.log x / Real.log 10, Real.sqrt,
        fun a b => a ^ b, Real.pi⟩ : CMath ℝ)
      (ftau (⟨Real.exp, Real.log, fun x => Real.log x / Real.log 10, Real.sqrt,
        fun a b => a ^ b, Real.pi⟩ : CMath ℝ) 1) = 1 :=
  ftau_fQ2_inverse.2.1 1 (by norm_num)

theorem fy_strictAnti (a : ℝ) :
    StrictAntiOn (_fy (⟨Real.exp, Real.log, fun x => Real.log x / Real.log 10, Real.sqrt,
      fun a b => a ^ b, Real.pi⟩ : CMath ℝ) a) (Set.Ioo 0 1) := by
  intro x hx y hy hxy
  unfold _fy
  simp only []
  have hy1 : 0 < 1 / y - 1 := by
    have : 1 < 1 / y := by rw [lt_div_iff₀ hy.1]; linarith [hy.2]
    linarith
  apply Real.log_lt_log hy1
  have := one_div_lt_one_div_of_lt hx.1 hxy
  linarith

theorem fy0_strictAnti (a : ℝ) :
    StrictAntiOn (_fy0 (⟨Real.exp, Real.log, fun x => Real.log x / Real.log 10, Real.sqrt,
      fun a b => a ^ b, Real.pi⟩ : CMath ℝ) a) (Set.Ioo 0 1) := by
  intro x hx y _ hxy
  unfold _fy0
  simp only []
  have := Real.log_lt_log hx.1 hxy
  linarith

theorem fy1_strictAnti (a : ℝ) :
    StrictAntiOn (_fy1 (⟨Real.exp, Real.log, fun x => Real.log x / Real.log 10, Real.sqrt,
      fun a b => a ^ b, Real.pi⟩ : CMath ℝ) a) (Set.Ioo 0 1) := by
  intro x hx y hy hxy
  unfold _fy1
  simp only []
  have h := Real.log_lt_log hx.1 hxy
  have hneg := Real.log_neg hy.1 hy.2
  exact Real.sqrt_lt_sqrt (by linarith) (by linarith)

theorem fy2_strictAnti (a : ℝ) (ha : 0 ≤ a) :
    StrictAntiOn (_fy2 (⟨Real.exp, Real.log, fun x => Real.log x / Real.log 10, Real.sqrt,
      fun a b => a ^ b, Real.pi⟩ : CMath ℝ) a) (Set.Ioo 0 1) := by
  intro x hx y _ hxy
  unfold _fy2
  simp only []
  have h := Real.log_lt_log hx.1 hxy
  have h2 : a * (1 - y) ≤ a * (1 - x) := mul_le_mul_of_nonneg_left (by linarith) ha
  linarith

theorem log10_lt (x y : ℝ) (hx : 0 < x) (hxy : x < y) :
    Real.log x / Real.log 10 < Real.log y / Real.log 10 := by
  have h10 : 0 < Real.log 10 := Real.log_pos (by norm_num)
  exact div_lt_div_of_pos_right (Real.log_lt_log hx hxy) h10

theorem fy3_strictAnti (a : ℝ) :
    StrictAntiOn (_fy3 (⟨Real.exp, Real.log, fun x => Real.log x / Real.log 10, Real.sqrt,
      fun a b => a ^ b, Real.pi⟩ : CMath ℝ) a) (Set.Ioo 0 1) := by
  intro x hx y hy hxy
  unfold _fy3
  simp only []
  have h := log10_lt x y hx.1 hxy
  have hneg : Real.log y / Real.log 10 < 0 :=
    div_neg_of_neg_of_pos (Real.log_neg hy.1 hy.2) (Real.log_pos (by norm_num))
  exact Real.sqrt_lt_sqrt (by linarith) (by linarith)

theorem fy4_strictAnti (a : ℝ) :
    StrictAntiOn (_fy4 (⟨Real.exp, Real.log, fun x => Real.log x / Real.log 10, Real.sqrt,
      fun a b => a ^ b, Real.pi⟩ : CMath ℝ) a) (Set.Ioo 0 1) := by
  intro x hx y _ hxy
  unfold _fy4
  simp only []
  have h := log10_lt x y hx.1 hxy
  linarith

/-- What the standard constructor builds when the map holds the pair `t` under the
requested name. -/
theorem standard_of_lookup (m : CMath K) (transvar : K) (NQ2 : Int) (Q2min Q2max : K)
    (Q2order Nx : Int) (xmin xmax : K) (xorder : Int) (transform : String) (Nproc : Int)
    (disflag : Bool) (t : transform_vec K)
    (h : List.lookup transform
      [("f", (⟨_fx m, _fy m⟩ : transform_vec K)), ("f0", ⟨_fx0 m, _fy0 m⟩),
        ("f1", ⟨_fx1 m, _fy1 m⟩), ("f2", ⟨_fx2 m, _fy2 m⟩), ("f3", ⟨_fx3 m, _fy3 m⟩),
        ("f4", ⟨_fx4 m, _fy4 m⟩)] = some t) :
    ∃ g, igrid.standard m transvar NQ2 Q2min Q2max Q2order Nx xmin xmax xorder transform Nproc
        disflag = Except.ok g ∧
      g.mfy = t.mfy ∧ g.mfx = t.mfx ∧ g.m_transvar = transvar ∧
      (g.m_y1min = t.mfy transvar xmax ∧ g.m_y1max = t.mfy transvar xmin) ∧
      (g.y1min = t.mfy transvar xmax ∧ g.y1max = t.mfy transvar xmin) ∧
      (g.m_y2min = if disflag then 1 else t.mfy transvar xmax) ∧
      (g.m_y2max = if disflag then 1 else t.mfy transvar xmin) ∧
      g.y2min = g.m_y2min ∧ g.y2max = g.m_y2max := by
  unfold igrid.standard
  simp only [init_fmap_nil, bind, Except.bind]
  rw [h]
  exact ⟨_, rfl, rfl, rfl, rfl, ⟨rfl, rfl⟩, ⟨rfl, rfl⟩, rfl, rfl, rfl, rfl⟩

/-- The standard constructor throws when the map does not hold the requested name. -/
theorem standard_of_lookup_none (m : CMath K) (transvar : K) (NQ2 : Int) (Q2min Q2max : K)
    (Q2order Nx : Int) (xmin xmax : K) (xorder : Int) (transform : String) (Nproc : Int)
    (disflag : Bool)
    (h : List.lookup transform
      [("f", (⟨_fx m, _fy m⟩ : transform_vec K)), ("f0", ⟨_fx0 m, _fy0 m⟩),
        ("f1", ⟨_fx1 m, _fy1 m⟩), ("f2", ⟨_fx2 m, _fy2 m⟩), ("f3", ⟨_fx3 m, _fy3 m⟩),
        ("f4", ⟨_fx4 m, _fy4 m⟩)] = none) :
    igrid.standard m transvar NQ2 Q2min Q2max Q2order Nx xmin xmax xorder transform Nproc
        disflag = Except.error ("igrid::igrid() transform " ++ transform ++ " not found\n") := by
  unfold igrid.standard
  simp only [init_fmap_nil, bind, Except.bind]
  rw [h]

/-- The lookup of a name in the map of the six built-in transforms. -/
theorem builtin_lookup (m : CMath K) (transform : String) :
    List.lookup transform
      [("f", (⟨_fx m, _fy m⟩ : transform_vec K)), ("f0", ⟨_fx0 m, _fy0 m⟩),
        ("f1", ⟨_fx1 m, _fy1 m⟩), ("f2", ⟨_fx2 m, _fy2 m⟩), ("f3", ⟨_fx3 m, _fy3 m⟩),
        ("f4", ⟨_fx4 m, _fy4 m⟩)]
      = if transform = "f" then some ⟨_fx m, _fy m⟩
        else if transform = "f0" then some ⟨_fx0 m, _fy0 m⟩
        else if transform = "f1" then some ⟨_fx1 m, _fy1 m⟩
        else if transform = "f2" then some ⟨_fx2 m, _fy2 m⟩
        else if transform = "f3" then some ⟨_fx3 m, _fy3 m⟩
        else if transform = "f4" then some ⟨_fx4 m, _fy4 m⟩
        else none := by
  by_cases h0 : transform = "f"
  · subst h0; rfl
  by_cases h1 : transform = "f0"
  · subst h1; rfl
  by_cases h2 : transform = "f1"
  · subst h2; rfl
  by_cases h3 : transform = "f2"
  · subst h3; rfl
  by_cases h4 : transform = "f3"
  · subst h4; rfl
  by_cases h5 : transform = "f4"
  · subst h5; rfl
  have b0 : (transform == "f") = false := beq_eq_false_iff_ne.mpr h0
  have b1 : (transform == "f0") = false := beq_eq_false_iff_ne.mpr h1
  have b2 : (transform == "f1") = false := beq_eq_false_iff_ne.mpr h2
  have b3 : (transform == "f2") = false := beq_eq_false_iff_ne.mpr h3
  have b4 : (transform == "f3") = false := beq_eq_false_iff_ne.mpr h4
  have b5 : (transform == "f4") = false := beq_eq_false_iff_ne.mpr h5
  simp only [List.lookup, b0, b1, b2, b3, b4, b5, h0, h1, h2, h3, h4, h5, if_false]

/-- A name is one of the six built-in names exactly when the map holds a pair for it. -/
theorem construction_lookup_iff (m : CMath K) (transform : String) :
    transform ∈ ["f", "f0", "f1", "f2", "f3", "f4"] ↔
      ∃ t, List.lookup transform
        [("f", (⟨_fx m, _fy m⟩ : transform_vec K)), ("f0", ⟨_fx0 m, _fy0 m⟩),
          ("f1", ⟨_fx1 m, _fy1 m⟩), ("f2", ⟨_fx2 m, _fy2 m⟩), ("f3", ⟨_fx3 m, _fy3 m⟩),
          ("f4", ⟨_fx4 m, _fy4 m⟩)] = some t := by
  rw [builtin_lookup]
  simp only [List.mem_cons, List.mem_singleton, List.not_mem_nil, or_false]
  constructor
  · rintro (h | h | h | h | h | h) <;> subst h <;> exact ⟨_, rfl⟩
  · rintro ⟨t, ht⟩
    split_ifs at ht with h0 h1 h2 h3 h4 h5
    · exact Or.inl h0
    · exact Or.inr (Or.inl h1)
    · exact Or.inr (Or.inr (Or.inl h2))
    · exact Or.inr (Or.inr (Or.inr (Or.inl h3)))
    · exact Or.inr (Or.inr (Or.inr (Or.inr (Or.inl h4))))
    · exact Or.inr (Or.inr (Or.inr (Or.inr (Or.inr h5))))

/-- C20: the map that `init_fmap` fills holds the six built-in names `f`, `f0`, `f1`, `f2`,
`f3`, `f4`, each bound to its own pair `(x(y), y(x))`, and the standard constructor
succeeds exactly when the requested name is one of them: it throws for every other
name. -/
theorem construction_throws_iff_unregistered (m : CMath K) (transvar : K) (NQ2 : Int)
    (Q2min Q2max : K) (Q2order Nx : Int) (xmin xmax : K) (xorder : Int) (transform : String)
    (Nproc : Int) (disflag : Bool) :
    init_fmap m ([] : List (String × transform_vec K)) =
      Except.ok [("f", ⟨_fx m, _fy m⟩), ("f0", ⟨_fx0 m, _fy0 m⟩), ("f1", ⟨_fx1 m, _fy1 m⟩),
        ("f2", ⟨_fx2 m, _fy2 m⟩), ("f3", ⟨_fx3 m, _fy3 m⟩), ("f4", ⟨_fx4 m, _fy4 m⟩)] ∧
    ((∃ g, igrid.standard m transvar NQ2 Q2min Q2max Q2order Nx xmin xmax xorder transform
        Nproc disflag = Except.ok g) ↔ transform ∈ ["f", "f0", "f1", "f2", "f3", "f4"]) ∧
    ((∃ e, igrid.standard m transvar NQ2 Q2min Q2max Q2order Nx xmin xmax xorder transform
        Nproc disflag = Except.error e) ↔ transform ∉ ["f", "f0", "f1", "f2", "f3", "f4"]) := by
  have hmem := construction_lookup_iff m transform
  refine ⟨init_fmap_nil m, ?_, ?_⟩
  · rw [hmem]
    constructor
    · rintro ⟨g, hg⟩
      cases hl : List.lookup transform
        [("f", (⟨_fx m, _fy m⟩ : transform_vec K)), ("f0", ⟨_fx0 m, _fy0 m⟩),
          ("f1", ⟨_fx1 m, _fy1 m⟩), ("f2", ⟨_fx2 m, _fy2 m⟩), ("f3", ⟨_fx3 m, _fy3 m⟩),
          ("f4", ⟨_fx4 m, _fy4 m⟩)] with
      | none =>
        rw [standard_of_lookup_none m transvar NQ2 Q2min Q2max Q2order Nx xmin xmax xorder
          transform Nproc disflag hl] at hg
        cases hg
      | some t => exact ⟨t, rfl⟩
    · rintro ⟨t, ht⟩
      obtain ⟨g, hg, -⟩ := standard_of_lookup m transvar NQ2 Q2min Q2max Q2order Nx xmin xmax
        xorder transform Nproc disflag t ht
      exact ⟨g, hg⟩
  · rw [hmem]
    constructor
    · rintro ⟨e, he⟩ ⟨t, ht⟩
      obtain ⟨g, hg, -⟩ := standard_of_lookup m transvar NQ2 Q2min Q2max Q2order Nx xmin xmax
        xorder transform Nproc disflag t ht
      rw [hg] at he
      cases he
    · intro hno
      refine ⟨_, standard_of_lookup_none m transvar NQ2 Q2min Q2max Q2order Nx xmin xmax
        xorder transform Nproc disflag ?_⟩
      cases hl : List.lookup transform
        [("f", (⟨_fx m, _fy m⟩ : transform_vec K)), ("f0", ⟨_fx0 m, _fy0 m⟩),
          ("f1", ⟨_fx1 m, _fy1 m⟩), ("f2", ⟨_fx2 m, _fy2 m⟩), ("f3", ⟨_fx3 m, _fy3 m⟩),
          ("f4", ⟨_fx4 m, _fy4 m⟩)] with
      | none => rfl
      | some t => exact absurd ⟨t, hl⟩ hno

/-- The forward map of every pair in the map of built-in transforms is strictly decreasing
on `(0, 1)`, with `a = 5` for `f2`. -/
theorem builtin_forward_strictAnti (tv : ℝ) (transform : String) (t : transform_vec ℝ)
    (hl : List.lookup transform
      [("f", (⟨_fx (⟨Real.exp, Real.log, fun x => Real.log x / Real.log 10, Real.sqrt,
          fun a b => a ^ b, Real.pi⟩ : CMath ℝ),
        _fy (⟨Real.exp, Real.log, fun x => Real.log x / Real.log 10, Real.sqrt,
          fun a b => a ^ b, Real.pi⟩ : CMath ℝ)⟩ : transform_vec ℝ)),
        ("f0", ⟨_fx0 (⟨Real.exp, Real.log, fun x => Real.log x / Real.log 10, Real.sqrt,
          fun a b => a ^ b, Real.pi⟩ : CMath ℝ),
        _fy0 (⟨Real.exp, Real.log, fun x => Real.log x / Real.log 10, Real.sqrt,
          fun a b => a ^ b, Real.pi⟩ : CMath ℝ)⟩),
        ("f1", ⟨_fx1 (⟨Real.exp, Real.log, fun x => Real.log x / Real.log 10, Real.sqrt,
          fun a b => a ^ b, Real.pi⟩ : CMath ℝ),
        _fy1 (⟨Real.exp, Real.log, fun x => Real.log x / Real.log 10, Real.sqrt,
          fun a b => a ^ b, Real.pi⟩ : CMath ℝ)⟩),
        ("f2", ⟨_fx2 (⟨Real.exp, Real.log, fun x => Real.log x / Real.log 10, Real.sqrt,
          fun a b => a ^ b, Real.pi⟩ : CMath ℝ),
        _fy2 (⟨Real.exp, Real.log, fun x => Real.log x / Real.log 10, Real.sqrt,
          fun a b => a ^ b, Real.pi⟩ : CMath ℝ)⟩),
        ("f3", ⟨_fx3 (⟨Real.exp, Real.log, fun x => Real.log x / Real.log 10, Real.sqrt,
          fun a b => a ^ b, Real.pi⟩ : CMath ℝ),
        _fy3 (⟨Real.exp, Real.log, fun x => Real.log x / Real.log 10, Real.sqrt,
          fun a b => a ^ b, Real.pi⟩ : CMath ℝ)⟩),
        ("f4", ⟨_fx4 (⟨Real.exp, Real.log, fun x => Real.log x / Real.log 10, Real.sqrt,
          fun a b => a ^ b, Real.pi⟩ : CMath ℝ),
        _fy4 (⟨Real.exp, Real.log, fun x => Real.log x / Real.log 10, Real.sqrt,
          fun a b => a ^ b, Real.pi⟩ : CMath ℝ)⟩)] = some t)
    (hf2 : transform = "f2" → tv = 5) :
    StrictAntiOn (t.mfy tv) (Set.Ioo 0 1) := by
  rw [builtin_lookup] at hl
  split_ifs at hl with h0 h1 h2 h3 h4 h5
  · injection hl with hl; subst hl; exact fy_strictAnti tv
  · injection hl with hl; subst hl; exact fy0_strictAnti tv
  · injection hl with hl; subst hl; exact fy1_strictAnti tv
  · injection hl with hl; subst hl
    rw [hf2 h3]
    exact fy2_strictAnti 5 (by norm_num)
  · injection hl with hl; subst hl; exact fy3_strictAnti tv
  · injection hl with hl; subst hl; exact fy4_strictAnti tv

/-- C19: the standard constructor sets `ymin = fy(xmax)` and `ymax = fy(xmin)`; each of the
built-in forward maps `f`, `f0`, `f1`, `f2` (with `a = 5`), `f3`, `f4` is strictly
decreasing on `(0, 1)`; so for `0 < xmin ≤ xmax < 1` the constructed ranges satisfy
`ymin ≤ ymax`. -/
theorem constructed_y_range_ordered (tv : ℝ) (NQ2 : Int) (Q2min Q2max : ℝ) (Q2order Nx : Int)
    (xmin xmax : ℝ) (xorder : Int) (transform : String) (Nproc : Int) (disflag : Bool)
    (hmem : transform ∈ ["f", "f0", "f1", "f2", "f3", "f4"])
    (hf2 : transform = "f2" → tv = 5)
    (h0 : 0 < xmin) (hle : xmin ≤ xmax) (h1 : xmax < 1) :
    ((∀ a : ℝ, StrictAntiOn (_fy (⟨Real.exp, Real.log, fun x => Real.log x / Real.log 10,
        Real.sqrt, fun a b => a ^ b, Real.pi⟩ : CMath ℝ) a) (Set.Ioo 0 1)) ∧
      (∀ a : ℝ, StrictAntiOn (_fy0 (⟨Real.exp, Real.log, fun x => Real.log x / Real.log 10,
        Real.sqrt, fun a b => a ^ b, Real.pi⟩ : CMath ℝ) a) (Set.Ioo 0 1)) ∧
      (∀ a : ℝ, StrictAntiOn (_fy1 (⟨Real.exp, Real.log, fun x => Real.log x / Real.log 10,
        Real.sqrt, fun a b => a ^ b, Real.pi⟩ : CMath ℝ) a) (Set.Ioo 0 1)) ∧
      StrictAntiOn (_fy2 (⟨Real.exp, Real.log, fun x => Real.log x / Real.log 10,
        Real.sqrt, fun a b => a ^ b, Real.pi⟩ : CMath ℝ) 5) (Set.Ioo 0 1) ∧
      (∀ a : ℝ, StrictAntiOn (_fy3 (⟨Real.exp, Real.log, fun x => Real.log x / Real.log 10,
        Real.sqrt, fun a b => a ^ b, Real.pi⟩ : CMath ℝ) a) (Set.Ioo 0 1)) ∧
      (∀ a : ℝ, StrictAntiOn (_fy4 (⟨Real.exp, Real.log, fun x => Real.log x / Real.log 10,
        Real.sqrt, fun a b => a ^ b, Real.pi⟩ : CMath ℝ) a) (Set.Ioo 0 1))) ∧
    ∃ g, igrid.standard
        (⟨Real.exp, Real.log, fun x => Real.log x / Real.log 10, Real.sqrt, fun a b => a ^ b,
          Real.pi⟩ : CMath ℝ)
        tv NQ2 Q2min Q2max Q2order Nx xmin xmax xorder transform Nproc disflag
        = Except.ok g ∧
      (g.m_y1min = g.fy xmax ∧ g.m_y1max = g.fy xmin) ∧
      (g.y1min = g.fy xmax ∧ g.y1max = g.fy xmin) ∧
      (disflag = false →
        (g.m_y2min = g.fy xmax ∧ g.m_y2max = g.fy xmin) ∧
        (g.y2min = g.fy xmax ∧ g.y2max = g.fy xmin)) ∧
      g.m_y1min ≤ g.m_y1max ∧ g.m_y2min ≤ g.m_y2max ∧
      g.y1min ≤ g.y1max ∧ g.y2min ≤ g.y2max := by
  refine ⟨⟨fy_strictAnti, fy0_strictAnti, fy1_strictAnti, fy2_strictAnti 5 (by norm_num),
    fy3_strictAnti, fy4_strictAnti⟩, ?_⟩
  have hl : ∃ t, List.lookup transform _ = some t :=
    ((construction_lookup_iff (⟨Real.exp, Real.log, fun x => Real.log x / Real.log 10,
      Real.sqrt, fun a b => a ^ b, Real.pi⟩ : CMath ℝ) transform).1 hmem)
  obtain ⟨t, ht⟩ := hl
  obtain ⟨g, hg, hfy, -, htv, ⟨a1, a2⟩, ⟨b1, b2⟩, c1, c2, d1, d2⟩ :=
    standard_of_lookup _ tv NQ2 Q2min Q2max Q2order Nx xmin xmax xorder transform Nproc disflag
      t ht
  have hanti := builtin_forward_strictAnti tv transform t ht hf2
  have hord : t.mfy tv xmax ≤ t.mfy tv xmin :=
    hanti.antitoneOn ⟨h0, lt_of_le_of_lt hle h1⟩ ⟨lt_of_lt_of_le h0 hle, h1⟩ hle
  have hfyx : ∀ x, g.fy x = t.mfy tv x := by
    intro x
    unfold igrid.fy
    rw [hfy, htv]
  have h2 : g.m_y2min ≤ g.m_y2max := by
    rw [c1, c2]
    cases disflag
    · simpa using hord
    · simp
  refine ⟨g, hg, ?_, ?_, ?_, ?_, h2, ?_, ?_⟩
  · rw [hfyx, hfyx]; exact ⟨a1, a2⟩
  · rw [hfyx, hfyx]; exact ⟨b1, b2⟩
  · intro hd
    subst hd
    rw [hfyx, hfyx, d1, d2, c1, c2]
    simp
  · rw [a1, a2]; exact hord
  · rw [b1, b2]; exact hord
  · rw [d1, d2]; exact h2

/-- Witness of C19: the transform `f2` with `a = 5` on `[1/4, 1/2]`. -/
theorem constructed_y_range_ordered_witness :
    match igrid.standard
        (⟨Real.exp, Real.log, fun x => Real.log x / Real.log 10, Real.sqrt, fun a b => a ^ b,
          Real.pi⟩ : CMath ℝ)
        5 30 100 1000000 1 50 (1 / 4) (1 / 2) 1 "f2" 1 false with
    | Except.ok g => g.m_y1min ≤ g.m_y1max ∧ g.m_y2min ≤ g.m_y2max
    | Except.error _ => False := by
  obtain ⟨g, hg, -, -, -, h1, h2, -, -⟩ :=
    (constructed_y_range_ordered 5 30 100 1000000 1 50 (1 / 4) (1 / 2) 1 "f2" 1 false
      (by simp) (fun _ => rfl) (by norm_num) (by norm_num) (by norm_num)).2
  rw [hg]
  exact ⟨h1, h2⟩

/-! ### The Newton inversion `_fx2` -/

theorem fx2_loop_succ (m : CMath K) (a y : K) (n k : Nat) :
    _fx2_loop m a y (n + 1) (fx2_iterate m a y k)
      = if |fx2_delta m a y (fx2_iterate m a y k)| < 1e-12
        then m.exp (-(fx2_iterate m a y k))
        else _fx2_loop m a y n (fx2_iterate m a y (k + 1)) := rfl

/-- The loop returns at the first iterate that meets the tolerance. -/
theorem fx2_loop_first_converged (m : CMath K) (a y : K) (n : Nat) :
    ∀ k j, j < n →
      (∀ i, i < j → ¬ |fx2_delta m a y (fx2_iterate m a y (k + i))| < 1e-12) →
      |fx2_delta m a y (fx2_iterate m a y (k + j))| < 1e-12 →
      _fx2_loop m a y n (fx2_iterate m a y k) = m.exp (-(fx2_iterate m a y (k + j))) := by
  induction n with
  | zero => intro k j hj; omega
  | succ n ih =>
    intro k j hj hbefore hat
    rw [fx2_loop_succ]
    rcases Nat.eq_zero_or_pos j with h0 | hpos
    · subst h0
      rw [Nat.add_zero] at hat
      rw [if_pos hat]
      rfl
    · have hk := hbefore 0 hpos
      rw [Nat.add_zero] at hk
      rw [if_neg hk]
      have := ih (k + 1) (j - 1) (by omega)
        (fun i hi => by
          have := hbefore (i + 1) (by omega)
          rwa [show k + (i + 1) = k + 1 + i by omega] at this)
        (by rwa [show k + 1 + (j - 1) = k + j by omega])
      rw [this, show k + 1 + (j - 1) = k + j by omega]

/-- When no iterate meets the tolerance, the loop returns `exp(-yp)` of the iterate reached
after all its steps. -/
theorem fx2_loop_exhausted (m : CMath K) (a y : K) (n : Nat) :
    ∀ k, (∀ i, i < n → ¬ |fx2_delta m a y (fx2_iterate m a y (k + i))| < 1e-12) →
      _fx2_loop m a y n (fx2_iterate m a y k) = m.exp (-(fx2_iterate m a y (k + n))) := by
  induction n with
  | zero => intro k _; rfl
  | succ n ih =>
    intro k hno
    rw [fx2_loop_succ]
    have hk := hno 0 (Nat.succ_pos n)
    rw [Nat.add_zero] at hk
    rw [if_neg hk, ih (k + 1) (fun i hi => by
      have := hno (i + 1) (by omega)
      rwa [show k + (i + 1) = k + 1 + i by omega] at this)]
    rw [show k + 1 + n = k + (n + 1) by omega]

/-- The loop returns `exp(-yp)` of one of the iterates it can reach. -/
theorem fx2_loop_returns_iterate (m : CMath K) (a y : K) (n : Nat) :
    ∀ k, ∃ j, j ≤ n ∧
      _fx2_loop m a y n (fx2_iterate m a y k) = m.exp (-(fx2_iterate m a y (k + j))) := by
  induction n with
  | zero => intro k; exact ⟨0, le_refl 0, rfl⟩
  | succ n ih =>
    intro k
    rw [fx2_loop_succ]
    by_cases h : |fx2_delta m a y (fx2_iterate m a y k)| < 1e-12
    · rw [if_pos h]
      exact ⟨0, Nat.zero_le _, rfl⟩
    · rw [if_neg h]
      obtain ⟨j, hj, hv⟩ := ih (k + 1)
      refine ⟨j + 1, by omega, ?_⟩
      rw [hv, show k + 1 + j = k + (j + 1) by omega]

/-- C17: for every `y` and every parameter `a`, `_fx2` returns after at most 100 Newton
steps: it returns `exp(-y')` at the first iterate `y'` with
`|y - y' - a(1 - exp(-y'))| < 1e-12`; when none of the first 100 iterates meets that
tolerance it returns `exp(-y')` of the iterate after the 100th step; and for `a = 0` it
returns `exp(-y)` without iterating. -/
theorem fx2_returns_within_100_steps (m : CMath K) (a y : K) :
    (∃ k, k ≤ 100 ∧ _fx2 m a y = m.exp (-(fx2_iterate m a y k))) ∧
    (a = 0 → _fx2 m a y = m.exp (-y)) ∧
    (a ≠ 0 →
      (∀ j, j < 100 →
        (∀ i, i < j → ¬ |fx2_delta m a y (fx2_iterate m a y i)| < 1e-12) →
        |fx2_delta m a y (fx2_iterate m a y j)| < 1e-12 →
        _fx2 m a y = m.exp (-(fx2_iterate m a y j))) ∧
      ((∀ i, i < 100 → ¬ |fx2_delta m a y (fx2_iterate m a y i)| < 1e-12) →
        _fx2 m a y = m.exp (-(fx2_iterate m a y 100)))) := by
  have hstart : fx2_iterate m a y 0 = y := rfl
  refine ⟨?_, ?_, ?_⟩
  · by_cases ha : a = 0
    · exact ⟨0, Nat.zero_le _, by simp [_fx2, ha, fx2_iterate]⟩
    · obtain ⟨j, hj, hv⟩ := fx2_loop_returns_iterate m a y 100 0
      refine ⟨j, hj, ?_⟩
      unfold _fx2
      rw [if_neg ha]
      rw [hstart, Nat.zero_add] at hv
      exact hv
  · intro ha
    simp [_fx2, ha]
  · intro ha
    constructor
    · intro j hj hbefore hat
      have := fx2_loop_first_converged m a y 100 0 j hj
        (fun i hi => by rw [Nat.zero_add]; exact hbefore i hi)
        (by rw [Nat.zero_add]; exact hat)
      unfold _fx2
      rw [if_neg ha]
      rw [hstart, Nat.zero_add] at this
      exact this
    · intro hno
      have := fx2_loop_exhausted m a y 100 0
        (fun i hi => by rw [Nat.zero_add]; exact hno i hi)
      unfold _fx2
      rw [if_neg ha]
      rw [hstart, Nat.zero_add] at this
      exact this

/-- Witness of C17: `a = 0`, `y = 1`. -/
theorem fx2_returns_within_100_steps_witness :
    _fx2 (⟨Real.exp, Real.log, fun x => Real.log x / Real.log 10, Real.sqrt, fun a b => a ^ b,
      Real.pi⟩ : CMath ℝ) 0 1 = Real.exp (-1) :=
  (fx2_returns_within_100_steps _ 0 1).2.1 rfl

/-! ### Convergence of the Newton inversion for `a = 5` -/

/-- With `yp = -ln x - e`, the value `exp(-yp)` is `x exp(e)`. -/
theorem exp_neg_state (x e : ℝ) (hx : 0 < x) :
    Real.exp (-(-Real.log x - e)) = x * Real.exp e := by
  rw [show -(-Real.log x - e) = Real.log x + e by ring, Real.exp_add, Real.exp_log hx]

/-- One pass through the loop body of `_fx2` for `y = _fy2(x)`, in terms of the distance
`e` of the iterate below the solution `-ln x`. -/
theorem fx2_loop_step (x e : ℝ) (hx : 0 < x) (f : Nat) :
    _fx2_loop (⟨Real.exp, Real.log, fun x => Real.log x / Real.log 10, Real.sqrt,
        fun a b => a ^ b, Real.pi⟩ : CMath ℝ) 5
      (_fy2 (⟨Real.exp, Real.log, fun x => Real.log x / Real.log 10, Real.sqrt,
        fun a b => a ^ b, Real.pi⟩ : CMath ℝ) 5 x) (f + 1) (-Real.log x - e)
      = if |e + 5 * x * (Real.exp e - 1)| < 1e-12 then x * Real.exp e
        else _fx2_loop (⟨Real.exp, Real.log, fun x => Real.log x / Real.log 10, Real.sqrt,
            fun a b => a ^ b, Real.pi⟩ : CMath ℝ) 5
          (_fy2 (⟨Real.exp, Real.log, fun x => Real.log x / Real.log 10, Real.sqrt,
            fun a b => a ^ b, Real.pi⟩ : CMath ℝ) 5 x) f
          (-Real.log x - 5 * x * (1 + (e - 1) * Real.exp e) / (1 + 5 * x * Real.exp e)) := by
  have hE := exp_neg_state x e hx
  have hpos : 0 < 1 + 5 * x * Real.exp e := by positivity
  have h1 : -Real.log x + 5 * (1 - x) - (-Real.log x - e) - 5 * (1 - x * Real.exp e)
      = e + 5 * x * (Real.exp e - 1) := by ring
  have h2 : -Real.log x - e - (e + 5 * x * (Real.exp e - 1)) / (-1 - 5 * (x * Real.exp e))
      = -Real.log x - 5 * x * (1 + (e - 1) * Real.exp e) / (1 + 5 * x * Real.exp e) := by
    have hne : -1 - 5 * (x * Real.exp e) ≠ 0 := by nlinarith
    field_simp
    ring
  rw [_fx2_loop]
  simp only [_fy2]
  rw [hE, h1, h2]

/-- The distance after a Newton step is not negative. -/
theorem newton_error_nonneg (x e : ℝ) (hx : 0 < x) :
    0 ≤ 5 * x * (1 + (e - 1) * Real.exp e) / (1 + 5 * x * Real.exp e) := by
  have hE : 0 < Real.exp e := Real.exp_pos e
  have hN : 0 ≤ 1 + (e - 1) * Real.exp e := by
    have h1 : -e + 1 ≤ Real.exp (-e) := Real.add_one_le_exp (-e)
    have h2 : Real.exp (-e) * Real.exp e = 1 := by
      rw [← Real.exp_add]; simp
    nlinarith
  positivity

/-- After the first step, which starts above the solution, the distance is at most 5. -/
theorem newton_error_first (x e : ℝ) (hx : 0 < x) (hx1 : x < 1) (he : e ≤ 0) :
    5 * x * (1 + (e - 1) * Real.exp e) / (1 + 5 * x * Real.exp e) ≤ 5 := by
  have hE : 0 < Real.exp e := Real.exp_pos e
  have hpos : 0 < 1 + 5 * x * Real.exp e := by positivity
  rw [div_le_iff₀ hpos]
  have h1 : (e - 1) * Real.exp e ≤ 0 := mul_nonpos_of_nonpos_of_nonneg (by linarith) hE.le
  have h2 : 0 ≤ x * Real.exp e := by positivity
  nlinarith

/-- A Newton step from a distance `e ≥ 0` below the solution leaves at most
`e²/(1 + e)`. -/
theorem newton_error_step (x e : ℝ) (hx : 0 < x) (he : 0 ≤ e) :
    5 * x * (1 + (e - 1) * Real.exp e) / (1 + 5 * x * Real.exp e) ≤ e ^ 2 / (1 + e) := by
  have hE : 0 < Real.exp e := Real.exp_pos e
  have hpos : 0 < 1 + 5 * x * Real.exp e := by positivity
  have h1e : 0 < 1 + e := by linarith
  have hexp : e + 1 ≤ Real.exp e := Real.add_one_le_exp e
  rw [div_le_div_iff₀ hpos h1e]
  have hx5 : 0 ≤ 5 * x := by positivity
  have key : (1 + (e - 1) * Real.exp e) * (1 + e) ≤ e ^ 2 * Real.exp e := by nlinarith
  have := mul_le_mul_of_nonneg_left key hx5
  nlinarith [sq_nonneg e]

/-- The bound `e²/(1 + e)` grows with `e`. -/
theorem newton_bound_mono (e b : ℝ) (he : 0 ≤ e) (hb : e ≤ b) :
    e ^ 2 / (1 + e) ≤ b ^ 2 / (1 + b) := by
  have h1 : 0 < 1 + e := by linarith
  have h2 : 0 < 1 + b := by linarith
  rw [div_le_div_iff₀ h1 h2]
  have hb0 : 0 ≤ b := le_trans he hb
  nlinarith [mul_nonneg he hb0, mul_nonneg (mul_nonneg he hb0) (sub_nonneg.mpr hb),
    mul_nonneg (add_nonneg he hb0) (sub_nonneg.mpr hb)]

/-- An iterate that meets the tolerance of `_fx2` gives `x` within `1e-10`. -/
theorem newton_accept_accurate (x e : ℝ) (hx : 0 < x)
    (h : |e + 5 * x * (Real.exp e - 1)| < 1e-12) : |x * Real.exp e - x| < 1e-10 := by
  have hexp : e + 1 ≤ Real.exp e := Real.add_one_le_exp e
  rw [abs_lt] at h ⊢
  rcases le_total 0 e with he | he
  · have h1 : 0 ≤ Real.exp e - 1 := by linarith
    have h2 : 0 ≤ x * (Real.exp e - 1) := mul_nonneg hx.le h1
    constructor
    · have : (0 : ℝ) < 1e-10 := by norm_num
      nlinarith
    · have : (1e-12 : ℝ) < 1e-10 := by norm_num
      nlinarith [h.2]
  · have h1 : Real.exp e - 1 ≤ 0 := by
      have := Real.exp_le_exp.mpr he
      rw [Real.exp_zero] at this
      linarith
    have h2 : x * (Real.exp e - 1) ≤ 0 := mul_nonpos_of_nonneg_of_nonpos hx.le h1
    constructor
    · have : (1e-12 : ℝ) < 1e-10 := by norm_num
      nlinarith [h.1]
    · have : (0 : ℝ) < 1e-10 := by norm_num
      nlinarith

/-- An iterate within `1e-14` below the solution meets the tolerance of `_fx2`. -/
theorem newton_close_accepts (x e : ℝ) (hx : 0 < x) (hx1 : x < 1) (he : 0 ≤ e)
    (hs : e ≤ 1e-14) : |e + 5 * x * (Real.exp e - 1)| < 1e-12 := by
  have hexp : e + 1 ≤ Real.exp e := Real.add_one_le_exp e
  have hE1 : Real.exp e ≤ 3 := by
    have h1 : Real.exp e ≤ Real.exp 1 := Real.exp_le_exp.mpr (by
      have : (1e-14 : ℝ) ≤ 1 := by norm_num
      linarith)
    have h2 := Real.exp_one_lt_d9
    linarith
  have hup : Real.exp e - 1 ≤ e * Real.exp e := by
    have h1 : -e + 1 ≤ Real.exp (-e) := Real.add_one_le_exp (-e)
    have h2 : Real.exp (-e) * Real.exp e = 1 := by
      rw [← Real.exp_add]; simp
    nlinarith [Real.exp_pos e]
  have hlow : 0 ≤ Real.exp e - 1 := by linarith
  have h5 : 0 ≤ 5 * x * (Real.exp e - 1) := by positivity
  have hupper : 5 * x * (Real.exp e - 1) ≤ 5 * (e * 3) := by
    have hA : 5 * x * (Real.exp e - 1) ≤ 5 * 1 * (e * Real.exp e) := by
      apply mul_le_mul _ hup hlow (by norm_num)
      nlinarith
    have hB : e * Real.exp e ≤ e * 3 := mul_le_mul_of_nonneg_left hE1 he
    linarith
  rw [abs_of_nonneg (by linarith)]
  have : (16 : ℝ) * 1e-14 < 1e-12 := by norm_num
  linarith

/-- The loop of `_fx2` started within `1e-14` below the solution returns at once, with `x`
within `1e-10`. -/
theorem fx2_loop_close (x : ℝ) (hx : 0 < x) (hx1 : x < 1) :
    ∀ fuel : Nat, 1 ≤ fuel → ∀ e : ℝ, 0 ≤ e → e ≤ 1e-14 →
      |_fx2_loop (⟨Real.exp, Real.log, fun x => Real.log x / Real.log 10, Real.sqrt,
          fun a b => a ^ b, Real.pi⟩ : CMath ℝ) 5
        (_fy2 (⟨Real.exp, Real.log, fun x => Real.log x / Real.log 10, Real.sqrt,
          fun a b => a ^ b, Real.pi⟩ : CMath ℝ) 5 x) fuel (-Real.log x - e) - x| < 1e-10 := by
  intro fuel hfuel e he hs
  obtain ⟨f, rfl⟩ : ∃ f, fuel = f + 1 := ⟨fuel - 1, by omega⟩
  have hacc := newton_close_accepts x e hx hx1 he hs
  rw [fx2_loop_step x e hx f, if_pos hacc]
  exact newton_accept_accurate x e hx hacc

/-- One more step of fuel handles a larger distance: if the loop with `n` steps succeeds
from every distance up to `c`, and `b²/(1 + b) ≤ c`, then the loop with `n + 1` steps
succeeds from every distance up to `b`. -/
theorem fx2_loop_chain (x : ℝ) (hx : 0 < x) (b c : ℝ) (n : Nat)
    (hbc : b ^ 2 / (1 + b) ≤ c)
    (H : ∀ fuel : Nat, n ≤ fuel → ∀ e : ℝ, 0 ≤ e → e ≤ c →
      |_fx2_loop (⟨Real.exp, Real.log, fun x => Real.log x / Real.log 10, Real.sqrt,
          fun a b => a ^ b, Real.pi⟩ : CMath ℝ) 5
        (_fy2 (⟨Real.exp, Real.log, fun x => Real.log x / Real.log 10, Real.sqrt,
          fun a b => a ^ b, Real.pi⟩ : CMath ℝ) 5 x) fuel (-Real.log x - e) - x| < 1e-10) :
    ∀ fuel : Nat, n + 1 ≤ fuel → ∀ e : ℝ, 0 ≤ e → e ≤ b →
      |_fx2_loop (⟨Real.exp, Real.log, fun x => Real.log x / Real.log 10, Real.sqrt,
          fun a b => a ^ b, Real.pi⟩ : CMath ℝ) 5
        (_fy2 (⟨Real.exp, Real.log, fun x => Real.log x / Real.log 10, Real.sqrt,
          fun a b => a ^ b, Real.pi⟩ : CMath ℝ) 5 x) fuel (-Real.log x - e) - x| < 1e-10 := by
  intro fuel hfuel e he hb
  obtain ⟨f, rfl⟩ : ∃ f, fuel = f + 1 := ⟨fuel - 1, by omega⟩
  rw [fx2_loop_step x e hx f]
  split_ifs with hacc
  · exact newton_accept_accurate x e hx hacc
  · apply H f (by omega) _ (newton_error_nonneg x e hx)
    exact le_trans (newton_error_step x e hx he) (le_trans (newton_bound_mono e b he hb) hbc)

/-- From every distance up to 5 below the solution, 13 steps of the loop suffice. -/
theorem fx2_loop_from_five (x : ℝ) (hx : 0 < x) (hx1 : x < 1) :
    ∀ fuel : Nat, 13 ≤ fuel → ∀ e : ℝ, 0 ≤ e → e ≤ 5 →
      |_fx2_loop (⟨Real.exp, Real.log, fun x => Real.log x / Real.log 10, Real.sqrt,
          fun a b => a ^ b, Real.pi⟩ : CMath ℝ) 5
        (_fy2 (⟨Real.exp, Real.log, fun x => Real.log x / Real.log 10, Real.sqrt,
          fun a b => a ^ b, Real.pi⟩ : CMath ℝ) 5 x) fuel (-Real.log x - e) - x| < 1e-10 := by
  have h0 := fx2_loop_close x hx hx1
  have h1 := fx2_loop_chain x hx 2e-10 1e-14 1 (by norm_num) h0
  have h2 := fx2_loop_chain x hx 1.4e-5 2e-10 2 (by norm_num) h1
  have h3 := fx2_loop_chain x hx 0.0037 1.4e-5 3 (by norm_num) h2
  have h4 := fx2_loop_chain x hx 0.062 0.0037 4 (by norm_num) h3
  have h5 := fx2_loop_chain x hx 0.28 0.062 5 (by norm_num) h4
  have h6 := fx2_loop_chain x hx 0.68 0.28 6 (by norm_num) h5
  have h7 := fx2_loop_chain x hx 1.23 0.68 7 (by norm_num) h6
  have h8 := fx2_loop_chain x hx 1.88 1.23 8 (by norm_num) h7
  have h9 := fx2_loop_chain x hx 2.6 1.88 9 (by norm_num) h8
  have h10 := fx2_loop_chain x hx 3.37 2.6 10 (by norm_num) h9
  have h11 := fx2_loop_chain x hx 4.17 3.37 11 (by norm_num) h10
  exact fx2_loop_chain x hx 5 4.17 12 (by norm_num) h11

/-- C16: for the transform `f2` with the default parameter `a = 5` and every real `x`
with `0 < x < 1`, the Newton inversion recovers `x`:
`|_fx2(_fy2(x)) - x| < 1e-10`, where `_fy2(x) = -ln x + a(1 - x)`. -/
theorem fx2_inverts_fy2 (x : ℝ) (h0 : 0 < x) (h1 : x < 1) :
    _fy2 (⟨Real.exp, Real.log, fun x => Real.log x / Real.log 10, Real.sqrt,
        fun a b => a ^ b, Real.pi⟩ : CMath ℝ) 5 x = -Real.log x + 5 * (1 - x) ∧
    |_fx2 (⟨Real.exp, Real.log, fun x => Real.log x / Real.log 10, Real.sqrt,
        fun a b => a ^ b, Real.pi⟩ : CMath ℝ) 5
      (_fy2 (⟨Real.exp, Real.log, fun x => Real.log x / Real.log 10, Real.sqrt,
        fun a b => a ^ b, Real.pi⟩ : CMath ℝ) 5 x) - x| < 1e-10 := by
  refine ⟨rfl, ?_⟩
  unfold _fx2
  rw [if_neg (by norm_num)]
  have hy : _fy2 (⟨Real.exp, Real.log, fun x => Real.log x / Real.log 10, Real.sqrt,
      fun a b => a ^ b, Real.pi⟩ : CMath ℝ) 5 x = -Real.log x - (-(5 * (1 - x))) := by
    unfold _fy2
    simp only []
    ring
  have hstep := fx2_loop_step x (-(5 * (1 - x))) h0 99
  rw [← hy] at hstep
  rw [hstep]
  split_ifs with hacc
  · exact newton_accept_accurate x _ h0 hacc
  · exact fx2_loop_from_five x h0 h1 99 (by norm_num) _ (newton_error_nonneg x _ h0)
      (newton_error_first x _ h0 h1 (by nlinarith))

/-- Witness of C16: `x = 1/4`. -/
theorem fx2_inverts_fy2_witness :
    |_fx2 (⟨Real.exp, Real.log, fun x => Real.log x / Real.log 10, Real.sqrt,
        fun a b => a ^ b, Real.pi⟩ : CMath ℝ) 5
      (_fy2 (⟨Real.exp, Real.log, fun x => Real.log x / Real.log 10, Real.sqrt,
        fun a b => a ^ b, Real.pi⟩ : CMath ℝ) 5 (1 / 4)) - 1 / 4| < 1e-10 :=
  (fx2_inverts_fy2 (1 / 4) (by norm_num) (by norm_num)).2

/-! ### The members set by the standard constructor -/

/-- The loop `while ( N-1<order ) order--;` ends at `N - 1` when it starts above it. -/
theorem lower_order_eq (N : Int) : ∀ (n : Nat) (order : Int), (order - (N - 1)).toNat = n →
    lower_order N order = min order (N - 1) := by
  intro n
  induction n with
  | zero =>
    intro order h
    rw [lower_order, if_neg (by omega)]
    omega
  | succ n ih =>
    intro order h
    rw [lower_order, if_pos (by omega), ih (order - 1) (by omega)]
    omega

/-- The node counts, ranges, spacings and orders of the grid that the standard constructor
builds when the map holds the pair `t` under the requested name. -/
theorem standard_shape_of_lookup (m : CMath K) (transvar : K) (NQ2 : Int) (Q2min Q2max : K)
    (Q2order Nx : Int) (xmin xmax : K) (xorder : Int) (transform : String) (Nproc : Int)
    (disflag : Bool) (t : transform_vec K)
    (h : List.lookup transform
      [("f", (⟨_fx m, _fy m⟩ : transform_vec K)), ("f0", ⟨_fx0 m, _fy0 m⟩),
        ("f1", ⟨_fx1 m, _fy1 m⟩), ("f2", ⟨_fx2 m, _fy2 m⟩), ("f3", ⟨_fx3 m, _fy3 m⟩),
        ("f4", ⟨_fx4 m, _fy4 m⟩)] = some t) :
    ∃ g, igrid.standard m transvar NQ2 Q2min Q2max Q2order Nx xmin xmax xorder transform Nproc
        disflag = Except.ok g ∧
      (g.mfy = t.mfy ∧ g.m_transvar = transvar ∧ g.m_DISgrid = disflag) ∧
      (g.m_Ntau = NQ2 ∧ g.m_Ny1 = Nx ∧ g.m_Ny2 = if disflag then 1 else Nx) ∧
      (g.Ntau = NQ2 ∧ g.Ny1 = Nx ∧ g.Ny2 = if disflag then 1 else Nx) ∧
      (g.m_tauorder = min Q2order (NQ2 - 1) ∧ g.m_yorder = min xorder (Nx - 1)) ∧
      (g.m_y1min = t.mfy transvar xmax ∧ g.m_y1max = t.mfy transvar xmin ∧
        g.y1min = t.mfy transvar xmax ∧ g.y1max = t.mfy transvar xmin) ∧
      (g.m_y2min = (if disflag then 1 else t.mfy transvar xmax) ∧
        g.m_y2max = (if disflag then 1 else t.mfy transvar xmin) ∧
        g.y2min = g.m_y2min ∧ g.y2max = g.m_y2max) ∧
      (disflag = true → g.m_deltay2 = 0) := by
  unfold igrid.standard
  simp only [init_fmap_nil, bind, Except.bind]
  rw [h]
  refine ⟨_, rfl, ⟨rfl, rfl, rfl⟩, ⟨rfl, rfl, rfl⟩, ⟨rfl, rfl, rfl⟩, ⟨?_, ?_⟩,
    ⟨rfl, rfl, rfl, rfl⟩, ⟨rfl, rfl, rfl, rfl⟩, ?_⟩
  · show (if NQ2 - 1 < Q2order then lower_order NQ2 Q2order else Q2order)
      = min Q2order (NQ2 - 1)
    split_ifs with h1
    · exact lower_order_eq NQ2 _ Q2order rfl
    · omega
  · show (if (!disflag) = true then
        (if (if disflag = true then 1 else Nx) - 1
            < (if Nx - 1 < xorder then lower_order Nx xorder else xorder)
          then lower_order (if disflag = true then 1 else Nx)
            (if Nx - 1 < xorder then lower_order Nx xorder else xorder)
          else (if Nx - 1 < xorder then lower_order Nx xorder else xorder))
        else (if Nx - 1 < xorder then lower_order Nx xorder else xorder))
      = min xorder (Nx - 1)
    have h1 : (if Nx - 1 < xorder then lower_order Nx xorder else xorder)
        = min xorder (Nx - 1) := by
      split_ifs with h1
      · exact lower_order_eq Nx _ xorder rfl
      · omega
    rw [h1]
    cases disflag
    · simp only [Bool.not_false, if_true, Bool.false_eq_true, if_false]
      rw [if_neg (by omega)]
    · simp
  · intro hd
    subst hd
    simp [igrid.construct]

/-- C21 fails as worded (every axis, DIS grids alike): the standard constructor called with
3 nodes in `x`, order 2 and the DIS flag keeps `m_yorder = 2` on the `y2` axis of one node,
so `N_y2 - 1 = 0 < 2`. -/
theorem standard_dis_order_above_y2_nodes :
    Except.map (fun g : igrid ℝ => (g.Ny2, g.m_yorder, decide (g.Ny2 - 1 ≥ g.m_yorder)))
      (igrid.standard
        (⟨Real.exp, Real.log, fun x => Real.log x / Real.log 10, Real.sqrt, fun a b => a ^ b,
          Real.pi⟩ : CMath ℝ)
        5 30 100 1000000 1 3 (1 / 4) (1 / 2) 2 "f2" 1 true)
      = Except.ok (1, 2, false) := by
  obtain ⟨g, hg, -, -, ⟨-, -, hN2⟩, ⟨-, hyo⟩, -, -, -⟩ :=
    standard_shape_of_lookup
      (⟨Real.exp, Real.log, fun x => Real.log x / Real.log 10, Real.sqrt, fun a b => a ^ b,
        Real.pi⟩ : CMath ℝ)
      5 30 100 1000000 1 3 (1 / 4) (1 / 2) 2 "f2" 1 true _ rfl
  rw [hg]
  simp only [Except.map, hN2, hyo]
  rfl

/-- C21 (amended): after the standard constructor returns, the `tau` axis and the `y1` axis
satisfy `N - 1 ≥ order`, and so does the `y2` axis of a grid built without the DIS flag; a
requested order that satisfies this is kept and a larger one is lowered to `N - 1`: the
orders are `min(Q2order, NQ2 - 1)` and `min(xorder, Nx - 1)`. -/
theorem standard_orders_fit_axes (m : CMath K) (transvar : K) (NQ2 : Int) (Q2min Q2max : K)
    (Q2order Nx : Int) (xmin xmax : K) (xorder : Int) (transform : String) (Nproc : Int)
    (disflag : Bool) (hmem : transform ∈ ["f", "f0", "f1", "f2", "f3", "f4"]) :
    ∃ g, igrid.standard m transvar NQ2 Q2min Q2max Q2order Nx xmin xmax xorder transform Nproc
        disflag = Except.ok g ∧
      (g.Ntau = NQ2 ∧ g.Ny1 = Nx ∧ (disflag = false → g.Ny2 = Nx)) ∧
      (g.m_tauorder = min Q2order (NQ2 - 1) ∧ g.m_yorder = min xorder (Nx - 1)) ∧
      (g.Ntau - 1 ≥ g.m_tauorder ∧ g.Ny1 - 1 ≥ g.m_yorder ∧
        (disflag = false → g.Ny2 - 1 ≥ g.m_yorder)) ∧
      (NQ2 - 1 ≥ Q2order → g.m_tauorder = Q2order) ∧
      (Nx - 1 ≥ xorder → g.m_yorder = xorder) ∧
      (NQ2 - 1 < Q2order → g.m_tauorder = NQ2 - 1) ∧
      (Nx - 1 < xorder → g.m_yorder = Nx - 1) := by
  obtain ⟨t, ht⟩ := (construction_lookup_iff m transform).1 hmem
  obtain ⟨g, hg, -, -, ⟨hNt, hN1, hN2⟩, ⟨hto, hyo⟩, -, -, -⟩ :=
    standard_shape_of_lookup m transvar NQ2 Q2min Q2max Q2order Nx xmin xmax xorder transform
      Nproc disflag t ht
  refine ⟨g, hg, ⟨hNt, hN1, ?_⟩, ⟨hto, hyo⟩, ⟨?_, ?_, ?_⟩, ?_, ?_, ?_, ?_⟩
  · intro hd; rw [hN2, hd]; simp
  · rw [hNt, hto]; omega
  · rw [hN1, hyo]; omega
  · intro hd
    rw [hN2, hd, hyo]
    simp only [Bool.false_eq_true, if_false]
    omega
  · intro h; rw [hto]; omega
  · intro h; rw [hyo]; omega
  · intro h; rw [hto]; omega
  · intro h; rw [hyo]; omega

/-- Witness of C21 (amended): the transform `f2`, 3 nodes in `x` and the requested
order 5. -/
theorem standard_orders_fit_axes_witness :
    match igrid.standard
        (⟨Real.exp, Real.log, fun x => Real.log x / Real.log 10, Real.sqrt, fun a b => a ^ b,
          Real.pi⟩ : CMath ℝ)
        5 30 100 1000000 1 3 (1 / 4) (1 / 2) 5 "f2" 1 false with
    | Except.ok g => g.m_yorder = 2 ∧ g.m_tauorder = 1 ∧ g.Ny2 - 1 ≥ g.m_yorder
    | Except.error _ => False := by
  obtain ⟨g, hg, -, ⟨hto, hyo⟩, ⟨-, -, h2⟩, -, -, -, -⟩ :=
    standard_orders_fit_axes
      (⟨Real.exp, Real.log, fun x => Real.log x / Real.log 10, Real.sqrt, fun a b => a ^ b,
        Real.pi⟩ : CMath ℝ)
      5 30 100 1000000 1 3 (1 / 4) (1 / 2) 5 "f2" 1 false (by simp)
  rw [hg]
  exact ⟨by rw [hyo]; decide, by rw [hto]; decide, h2 rfl⟩

/-- C22: a grid constructed with the DIS flag has one `y2` node, `y2min = y2max = 1` and
`y2` spacing 0, whatever `Nx`, `xmin` and `xmax` are, and its `y1` axis has `Nx` nodes over
`[fy(xmax), fy(xmin)]`. -/
theorem standard_dis_y2_axis (m : CMath K) (transvar : K) (NQ2 : Int) (Q2min Q2max : K)
    (Q2order Nx : Int) (xmin xmax : K) (xorder : Int) (transform : String) (Nproc : Int)
    (hmem : transform ∈ ["f", "f0", "f1", "f2", "f3", "f4"]) :
    ∃ g, igrid.standard m transvar NQ2 Q2min Q2max Q2order Nx xmin xmax xorder transform Nproc
        true = Except.ok g ∧
      g.isDISgrid = true ∧
      (g.m_Ny2 = 1 ∧ g.m_y2min = 1 ∧ g.m_y2max = 1 ∧ g.m_deltay2 = 0) ∧
      (g.Ny2 = 1 ∧ g.y2min = 1 ∧ g.y2max = 1) ∧
      (g.m_Ny1 = Nx ∧ g.m_y1min = g.fy xmax ∧ g.m_y1max = g.fy xmin) ∧
      (g.Ny1 = Nx ∧ g.y1min = g.fy xmax ∧ g.y1max = g.fy xmin) := by
  obtain ⟨t, ht⟩ := (construction_lookup_iff m transform).1 hmem
  obtain ⟨g, hg, ⟨hfy, htv, hdis⟩, ⟨-, hm1, hm2⟩, ⟨-, hN1, hN2⟩, -, ⟨a1, a2, a3, a4⟩,
    ⟨b1, b2, b3, b4⟩, hd⟩ :=
    standard_shape_of_lookup m transvar NQ2 Q2min Q2max Q2order Nx xmin xmax xorder transform
      Nproc true t ht
  have hfyx : ∀ x, g.fy x = t.mfy transvar x := by
    intro x
    unfold igrid.fy
    rw [hfy, htv]
  refine ⟨g, hg, hdis, ⟨by simpa using hm2, by simpa using b1, by simpa using b2, hd rfl⟩,
    ⟨by simpa using hN2, ?_, ?_⟩, ⟨hm1, ?_, ?_⟩, ⟨hN1, ?_, ?_⟩⟩
  · rw [b3, b1]; simp
  · rw [b4, b2]; simp
  · rw [hfyx]; exact a1
  · rw [hfyx]; exact a2
  · rw [hfyx]; exact a3
  · rw [hfyx]; exact a4

/-- Witness of C22: the transform `f0`, 50 nodes requested in `x`. -/
theorem standard_dis_y2_axis_witness :
    match igrid.standard
        (⟨Real.exp, Real.log, fun x => Real.log x / Real.log 10, Real.sqrt, fun a b => a ^ b,
          Real.pi⟩ : CMath ℝ)
        5 30 100 1000000 1 50 (1 / 4) (1 / 2) 1 "f0" 1 true with
    | Except.ok g => g.Ny2 = 1 ∧ g.y2min = 1 ∧ g.y2max = 1 ∧ g.m_deltay2 = 0 ∧ g.Ny1 = 50
    | Except.error _ => False := by
  obtain ⟨g, hg, -, ⟨-, -, -, hd⟩, ⟨h1, h2, h3⟩, -, ⟨h4, -, -⟩⟩ :=
    standard_dis_y2_axis
      (⟨Real.exp, Real.log, fun x => Real.log x / Real.log 10, Real.sqrt, fun a b => a ^ b,
        Real.pi⟩ : CMath ℝ)
      5 30 100 1000000 1 50 (1 / 4) (1 / 2) 1 "f0" 1 (by simp)
  rw [hg]
  exact ⟨h1, h2, h3, hd, h4⟩

/-! ### `fill_phasespace`, `operator+=` with differing axes, the scratch arrays of `fill` -/

/-- C27: `fill_phasespace(x1, x2, Q2, w)` does not interpolate: in every channel `c` it adds
`w[c]` to the single cell `(fkappa(Q2), fk1(x1), fk2(x2))` and leaves every other cell, and
the axes, as they were. -/
theorem fill_phasespace_single_cell (m : CMath K) (g : igrid K) (x1 x2 Q2 : K)
    (w : Nat → K) (c : Nat) :
    (∀ a b d : Int,
      ((g.fill_phasespace m x1 x2 Q2 w).m_weight c).cell a b d
        = (g.m_weight c).cell a b d +
          if c < g.m_Nproc.toNat ∧ a = igrid.fkappa m g Q2 ∧ b = g.fk1 x1 ∧ d = g.fk2 x2
          then w c else 0) ∧
    ((g.fill_phasespace m x1 x2 Q2 w).m_weight c).m_xaxis = (g.m_weight c).m_xaxis ∧
    ((g.fill_phasespace m x1 x2 Q2 w).m_weight c).m_yaxis = (g.m_weight c).m_yaxis ∧
    ((g.fill_phasespace m x1 x2 Q2 w).m_weight c).m_zaxis = (g.m_weight c).m_zaxis := by
  refine ⟨?_, ?_, ?_, ?_⟩
  · intro a b d
    unfold igrid.fill_phasespace
    simp only []
    have h := fill_loop_ip g.m_weight c a b d g.m_Nproc.toNat (igrid.fkappa m g Q2) (g.fk1 x1)
      (g.fk2 x2) w 1
    simp only [mul_one] at h
    rw [h]
    congr 1
    by_cases hc : c < g.m_Nproc.toNat
    · rw [Finset.sum_eq_single c]
      · simp [hc]
      · intro ip _ hne
        rw [if_neg]
        intro hh
        exact hne hh.1.symm
      · intro hnot
        exact absurd (Finset.mem_range.mpr hc) hnot
    · rw [if_neg (fun hh => hc hh.1)]
      apply Finset.sum_eq_zero
      intro ip hip
      rw [if_neg]
      intro hh
      rw [hh.1] at hc
      exact hc (Finset.mem_range.mp hip)
  · unfold igrid.fill_phasespace
    exact foldl_invariant (fun w : Nat → SparseMatrix3d K => (w c).m_xaxis) _
      (fun w ip => by
        by_cases hc : c = ip
        · subst hc; simp [SparseMatrix3d.add_cell]
        · simp [Function.update_noteq hc]) g.m_weight _
  · unfold igrid.fill_phasespace
    exact foldl_invariant (fun w : Nat → SparseMatrix3d K => (w c).m_yaxis) _
      (fun w ip => by
        by_cases hc : c = ip
        · subst hc; simp [SparseMatrix3d.add_cell]
        · simp [Function.update_noteq hc]) g.m_weight _
  · unfold igrid.fill_phasespace
    exact foldl_invariant (fun w : Nat → SparseMatrix3d K => (w c).m_zaxis) _
      (fun w ip => by
        by_cases hc : c = ip
        · subst hc; simp [SparseMatrix3d.add_cell]
        · simp [Function.update_noteq hc]) g.m_weight _

theorem compare_axes_iff (T S : SparseMatrix3d K) :
    T.compare_axes S = true ↔
      T.m_xaxis = S.m_xaxis ∧ T.m_yaxis = S.m_yaxis ∧ T.m_zaxis = S.m_zaxis := by
  constructor
  · intro h
    simp only [SparseMatrix3d.compare_axes, Bool.and_eq_true, decide_eq_true_eq] at h
    obtain ⟨⟨⟨x1, x2, x3⟩, y1, y2, y3⟩, z1, z2, z3⟩ := h
    refine ⟨?_, ?_, ?_⟩
    · cases hT : T.m_xaxis; cases hS : S.m_xaxis
      rw [hT, hS] at x1 x2 x3
      simp only at x1 x2 x3
      rw [x1, x2, x3]
    · cases hT : T.m_yaxis; cases hS : S.m_yaxis
      rw [hT, hS] at y1 y2 y3
      simp only at y1 y2 y3
      rw [y1, y2, y3]
    · cases hT : T.m_zaxis; cases hS : S.m_zaxis
      rw [hT, hS] at z1 z2 z3
      simp only at z1 z2 z3
      rw [z1, z2, z3]
  · rintro ⟨hx, hy, hz⟩
    exact compare_axes_of_eq T S hx hy hz

/-- The loop of `operator+=` over the first `n` channels: the sums when the axes of all of
them agree, the exception otherwise. -/
theorem add_assign_loop_cases (w0 h : Nat → SparseMatrix3d K) (n : Nat) :
    ((∀ c, c < n → (w0 c).compare_axes (h c) = true) ∧
      (List.range n).foldlM (fun w (ip : Nat) =>
        if (w ip).compare_axes (h ip) then
          (Except.ok (Function.update w ip ((w ip).add (h ip))) :
            Except String (Nat → SparseMatrix3d K))
        else Except.error "igrid::operator+=() grids do not match") w0
        = Except.ok (fun c => if c < n then (w0 c).add (h c) else w0 c)) ∨
    ((∃ c, c < n ∧ (w0 c).compare_axes (h c) = false) ∧
      (List.range n).foldlM (fun w (ip : Nat) =>
        if (w ip).compare_axes (h ip) then
          (Except.ok (Function.update w ip ((w ip).add (h ip))) :
            Except String (Nat → SparseMatrix3d K))
        else Except.error "igrid::operator+=() grids do not match") w0
        = Except.error "igrid::operator+=() grids do not match") := by
  induction n with
  | zero =>
    left
    exact ⟨fun c hc => absurd hc (Nat.not_lt_zero c), by simp [List.foldlM, pure, Except.pure]⟩
  | succ n ih =>
    rw [List.range_succ, List.foldlM_append]
    rcases ih with ⟨hall, hok⟩ | ⟨hex, herr⟩
    · rw [hok]
      simp only [List.foldlM, bind, Except.bind, pure, Except.pure, lt_irrefl, if_false]
      by_cases hn : (w0 n).compare_axes (h n) = true
      · left
        refine ⟨fun c hc => ?_, ?_⟩
        · rcases Nat.lt_succ_iff_lt_or_eq.mp hc with h1 | h1
          · exact hall c h1
          · rw [h1]; exact hn
        · rw [if_pos hn]
          show Except.ok _ = Except.ok _
          congr 1
          funext c
          by_cases hc : c = n
          · subst hc; simp
          · rw [Function.update_noteq hc]
            have : (c < n + 1) ↔ (c < n) := by omega
            simp only [this]
      · right
        refine ⟨⟨n, Nat.lt_succ_self n, by simpa using hn⟩, ?_⟩
        rw [if_neg hn]
    · right
      obtain ⟨c, hc, hcf⟩ := hex
      refine ⟨⟨c, Nat.lt_succ_of_lt hc, hcf⟩, ?_⟩
      rw [herr]
      rfl

/-- C26: `a += b` throws exactly when for some channel `c` of `a` the tensors `a[c]` and
`b[c]` have differing axes (`compare_axes` is false, that is, the `tau`, `y1` or `y2` axes
differ); when it does not throw, every cell of every channel of `a` is the sum of the
cells of `a` and `b`. -/
theorem add_assign_throws_iff_axes_differ (a b : igrid K) :
    ((∃ e, a.add_assign b = Except.error e) ↔
      ∃ c, c < a.m_Nproc.toNat ∧ (a.m_weight c).compare_axes (b.m_weight c) = false) ∧
    (∀ c, (a.m_weight c).compare_axes (b.m_weight c) = false ↔
      ¬ ((a.m_weight c).m_xaxis = (b.m_weight c).m_xaxis ∧
        (a.m_weight c).m_yaxis = (b.m_weight c).m_yaxis ∧
        (a.m_weight c).m_zaxis = (b.m_weight c).m_zaxis)) ∧
    (∀ r, a.add_assign b = Except.ok r →
      ∀ c, c < a.m_Nproc.toNat → ∀ i j k : Int,
        (r.m_weight c).cell i j k = (a.m_weight c).cell i j k + (b.m_weight c).cell i j k) := by
  refine ⟨?_, ?_, ?_⟩
  · unfold igrid.add_assign
    rcases add_assign_loop_cases a.m_weight b.m_weight a.m_Nproc.toNat with
      ⟨hall, hok⟩ | ⟨hex, herr⟩
    · rw [hok]
      constructor
      · rintro ⟨e, he⟩
        simp [bind, Except.bind] at he
      · rintro ⟨c, hc, hcf⟩
        rw [hall c hc] at hcf
        cases hcf
    · rw [herr]
      constructor
      · intro _
        exact hex
      · intro _
        exact ⟨_, rfl⟩
  · intro c
    rw [← compare_axes_iff]
    cases (a.m_weight c).compare_axes (b.m_weight c) <;> simp
  · intro r hr c hc i j k
    unfold igrid.add_assign at hr
    rcases add_assign_loop_cases a.m_weight b.m_weight a.m_Nproc.toNat with
      ⟨hall, hok⟩ | ⟨hex, herr⟩
    · rw [hok] at hr
      simp only [bind, Except.bind] at hr
      injection hr with hr
      subst hr
      simp [hc, SparseMatrix3d.add]
    · rw [herr] at hr
      simp [bind, Except.bind] at hr

/-- Witness of C26: the fresh grid of 5 nodes over `[0, 4]` added to itself. -/
theorem add_assign_throws_iff_axes_differ_witness :
    match (uniform_grid (fun _ x => -x) (fun _ y => -y) 5 0 4 2 1 : igrid ℚ).add_assign
        (uniform_grid (fun _ x => -x) (fun _ y => -y) 5 0 4 2 1 : igrid ℚ) with
    | Except.ok r => (r.m_weight 0).cell 0 0 0 = 0 + 0
    | Except.error _ => False := by
  have h := add_assign_ok (uniform_grid (fun _ x => -x) (fun _ y => -y) 5 0 4 2 1 : igrid ℚ)
    (uniform_grid (fun _ x => -x) (fun _ y => -y) 5 0 4 2 1 : igrid ℚ)
    (fun c => compare_axes_of_eq _ _ rfl rfl rfl)
  have h3 := (add_assign_throws_iff_axes_differ
    (uniform_grid (fun _ x => -x) (fun _ y => -y) 5 0 4 2 1 : igrid ℚ)
    (uniform_grid (fun _ x => -x) (fun _ y => -y) 5 0 4 2 1 : igrid ℚ)).2.2 _ h 0 (by decide)
    0 0 0
  rw [h]
  exact h3

/-! ### The flavour slots of `applcheck.cpp` -/

/-- The loop of `evolvepdf` over the first `n` slots. -/
theorem evolvepdf_loop (flavour_map : Nat → Bool) (xfxQ : Int → K → K → K) (x q : K)
    (xfx : Nat → K) (n : Nat) (i : Nat) :
    (List.range n).foldl (fun xfx (i : Nat) =>
        if flavour_map i then Function.update xfx i (xfxQ (index_to_pdg_id i) x q)
        else Function.update xfx i 0) xfx i
      = if i < n then (if flavour_map i then xfxQ (index_to_pdg_id i) x q else 0)
        else xfx i := by
  induction n with
  | zero => simp
  | succ n ih =>
    rw [List.range_succ, List.foldl_append]
    simp only [List.foldl_cons, List.foldl_nil]
    by_cases hi : i = n
    · subst hi
      split_ifs <;> simp_all
    · have hlt : (i < n + 1) ↔ (i < n) := by omega
      simp only [hlt]
      rw [← ih]
      split_ifs <;> rw [Function.update_noteq hi]

/-- C28: `index_to_pdg_id` maps the slots 0..13 to the PDG codes -6, -5, -4, -3, -2, -1,
21, 1, 2, 3, 4, 5, 6, 22 in that order, injectively; `evolvepdf` writes every one of the 14
entries: the value of the provider for `index_to_pdg_id(i)` when slot `i` is enabled and 0
when it is disabled, and nothing beyond them. -/
theorem evolvepdf_slot_layout (flavour_map : Nat → Bool) (xfxQ : Int → K → K → K) (x q : K)
    (xfx : Nat → K) :
    (List.range 14).map index_to_pdg_id = [-6, -5, -4, -3, -2, -1, 21, 1, 2, 3, 4, 5, 6, 22] ∧
    (∀ i j, i < 14 → j < 14 → index_to_pdg_id i = index_to_pdg_id j → i = j) ∧
    (∀ i, i < 14 → evolvepdf flavour_map xfxQ x q xfx i
      = if flavour_map i then xfxQ (index_to_pdg_id i) x q else 0) ∧
    (∀ i, 14 ≤ i → evolvepdf flavour_map xfxQ x q xfx i = xfx i) := by
  refine ⟨by decide, ?_, ?_, ?_⟩
  · intro i j hi hj h
    unfold index_to_pdg_id flavour_map_index.gluon flavour_map_index.photon at h
    split_ifs at h <;> omega
  · intro i hi
    unfold evolvepdf
    rw [evolvepdf_loop, if_pos hi]
  · intro i hi
    unfold evolvepdf
    rw [evolvepdf_loop, if_neg (by omega)]

/-- Witness of C28: the photon slot disabled, a provider that returns the PDG code. -/
theorem evolvepdf_slot_layout_witness :
    (List.range 14).map
      (evolvepdf (fun i => decide (i ≠ 13)) (fun (id : Int) (_ _ : ℚ) => (id : ℚ)) 1 1
        (fun _ => 7))
      = [-6, -5, -4, -3, -2, -1, 21, 1, 2, 3, 4, 5, 6, 0] := by
  have h := (evolvepdf_slot_layout (fun i => decide (i ≠ 13))
    (fun (id : Int) (_ _ : ℚ) => (id : ℚ)) 1 1 (fun _ => 7)).2.2.1
  simp only [List.range, List.range.loop, List.map]
  rw [h 0 (by decide), h 1 (by decide), h 2 (by decide), h 3 (by decide), h 4 (by decide),
    h 5 (by decide), h 6 (by decide), h 7 (by decide), h 8 (by decide), h 9 (by decide),
    h 10 (by decide), h 11 (by decide), h 12 (by decide), h 13 (by decide)]
  simp [index_to_pdg_id, flavour_map_index.gluon, flavour_map_index.photon]

/-! ### The scratch arrays of `fill` -/

/-- For an order below 16 on both axes every access of `fill` to its scratch arrays is
inside them. -/
theorem fill_scratch_in_bounds_of_le_15 (g : igrid K) (hy : g.m_yorder ≤ 15)
    (ht : g.m_tauorder ≤ 15) : g.fill_scratch_in_bounds := by
  unfold igrid.fill_scratch_in_bounds igrid.fill_scratch_indices_y
    igrid.fill_scratch_indices_tau fill_scratch_length
  constructor
  · intro i hi
    rw [List.mem_range] at hi
    omega
  · intro i hi
    rw [List.mem_range] at hi
    omega

/-- C30, the code at the failing input: the standard constructor called with 50 nodes in
`x`, 30 nodes in `Q2` and the order 16 on both keeps the order 16, and `fill` on that grid
accesses the index 16 of `_fI1`, `_fI2` and `_fI3`, which have 16 elements. -/
theorem fill_scratch_overrun_at_order_16 :
    Except.map
      (fun g : igrid ℝ =>
        (g.m_yorder, g.m_tauorder, decide (16 ∈ g.fill_scratch_indices_y),
          decide (16 ∈ g.fill_scratch_indices_tau), decide (16 < fill_scratch_length)))
      (igrid.standard
        (⟨Real.exp, Real.log, fun x => Real.log x / Real.log 10, Real.sqrt, fun a b => a ^ b,
          Real.pi⟩ : CMath ℝ)
        5 30 100 1000000 16 50 2e-7 1 16 "f2" 1 false)
      = Except.ok (16, 16, true, true, false) := by
  obtain ⟨g, hg, -, -, -, ⟨hto, hyo⟩, -, -, -⟩ :=
    standard_shape_of_lookup
      (⟨Real.exp, Real.log, fun x => Real.log x / Real.log 10, Real.sqrt, fun a b => a ^ b,
        Real.pi⟩ : CMath ℝ)
      5 30 100 1000000 16 50 2e-7 1 16 "f2" 1 false _ rfl
  rw [hg]
  simp only [Except.map, igrid.fill_scratch_indices_y, igrid.fill_scratch_indices_tau, hto,
    hyo]
  rfl

/-- C2, on the domain where `fill` has a defined result and beyond it: for orders between
0 and 15 on both axes and a point at which the three node selectors are defined,
`fill(x1, x2, Q2, w)` returns and adds
`w[c] * fI(i_tau, p_tau, u_tau) * fI(i1, p_y, u1) * fI(i2, p_y, u2) * R` to the cell
`(k_tau + i_tau, k1 + i1, k2 + i2)` of every channel `c` for every stencil offset, with the
nodes `k` returned by `fkappa`/`fk1`/`fk2`, the offsets `u = (coordinate - node(k))/delta`
and `R = 1/(W(x1) W(x2))`, `W(x) = sqrt(x^3)/(1 - 0.99x)^3`, on a reweighted grid and
`R = 1` otherwise; every cell outside the stencil box, every other channel and the axes
are left as they were. For an order above 15 on either axis, which the claim and the
comment in `fill` (order 16) allow, `fill` leaves its 16-element scratch arrays and has no
defined result; nor has it where a selector is not defined. The failing input: the grid
that the standard constructor builds with 50 nodes in `x`, 30 nodes in `Q2` and the order
16 on both, filled at `(0.25, 0.25, 10000)`. -/
theorem fill_adds_stencil (m : CMath K) (g : igrid K) (x1 x2 Q2 : K) (w : Nat → K) :
    (0 ≤ g.m_yorder → g.m_yorder ≤ 15 → 0 ≤ g.m_tauorder → g.m_tauorder ≤ 15 →
      igrid.fill_selectors_defined m g x1 x2 Q2 →
      ∃ g1 k1 k2 k3, g.fill_checked m x1 x2 Q2 w = some g1 ∧
        g.fk1_checked x1 = some k1 ∧ g.fk2_checked x2 = some k2 ∧
        igrid.fkappa_checked m g Q2 = some k3 ∧
        (∀ c i_tau i1 i2 : Nat, (c : Int) < g.m_Nproc → (i_tau : Int) ≤ g.m_tauorder →
          (i1 : Int) ≤ g.m_yorder → (i2 : Int) ≤ g.m_yorder →
          (g1.m_weight c).cell (k3 + (i_tau : Int)) (k1 + (i1 : Int)) (k2 + (i2 : Int))
            = (g.m_weight c).cell (k3 + (i_tau : Int)) (k1 + (i1 : Int)) (k2 + (i2 : Int)) +
              w c *
                fI (i_tau : Int) g.m_tauorder ((ftau m Q2 - g.gettau k3) / g.deltatau) *
                fI (i1 : Int) g.m_yorder ((g.fy x1 - g.gety1 k1) / g.deltay1) *
                fI (i2 : Int) g.m_yorder ((g.fy x2 - g.gety2 k2) / g.deltay2) *
                (if g.m_reweight then 1 / (weightfun m x1 * weightfun m x2) else 1)) ∧
        (∀ (c : Nat) (a b d : Int),
          ¬ ((c : Int) < g.m_Nproc ∧ (k3 ≤ a ∧ a ≤ k3 + g.m_tauorder) ∧
            (k1 ≤ b ∧ b ≤ k1 + g.m_yorder) ∧ (k2 ≤ d ∧ d ≤ k2 + g.m_yorder)) →
          (g1.m_weight c).cell a b d = (g.m_weight c).cell a b d) ∧
        (∀ c : Nat,
          (g1.m_weight c).m_xaxis = (g.m_weight c).m_xaxis ∧
          (g1.m_weight c).m_yaxis = (g.m_weight c).m_yaxis ∧
          (g1.m_weight c).m_zaxis = (g.m_weight c).m_zaxis)) ∧
    (∀ x : K, weightfun m x = m.sqrt (x ^ 3) / (1 - 0.99 * x) ^ 3) ∧
    (15 < g.m_yorder ∨ 15 < g.m_tauorder → g.fill_checked m x1 x2 Q2 w = none) ∧
    (0 ≤ g.m_yorder → g.m_yorder ≤ 15 → 0 ≤ g.m_tauorder → g.m_tauorder ≤ 15 →
      ¬ igrid.fill_selectors_defined m g x1 x2 Q2 →
      g.fill_checked m x1 x2 Q2 w = none) ∧
    Except.map
      (fun g : igrid ℝ =>
        g.fill_checked
          ⟨Real.exp, Real.log, fun x => Real.log x / Real.log 10, Real.sqrt,
            fun a b => a ^ b, Real.pi⟩
          0.25 0.25 10000 (fun _ => 1))
      (igrid.standard
        (⟨Real.exp, Real.log, fun x => Real.log x / Real.log 10, Real.sqrt,
          fun a b => a ^ b, Real.pi⟩ : CMath ℝ)
        5 30 100 1000000 16 50 2e-7 1 16 "f2" 1 false)
      = Except.ok none := by
  have hs := fill_stencil_cells m g x1 x2 Q2 w
  refine ⟨fun hy0 hy ht0 ht hdef => ?_, hs.2.2.2.2,
    fill_checked_none_of_order m g x1 x2 Q2 w,
    fill_checked_none_of_selectors m g x1 x2 Q2 w, ?_⟩
  swap
  · obtain ⟨g16, hg, -, -, -, ⟨hto, hyo⟩, -, -, -⟩ :=
      standard_shape_of_lookup
        (⟨Real.exp, Real.log, fun x => Real.log x / Real.log 10, Real.sqrt,
          fun a b => a ^ b, Real.pi⟩ : CMath ℝ)
        5 30 100 1000000 16 50 2e-7 1 16 "f2" 1 false _ rfl
    rw [hg]
    simp only [Except.map]
    rw [fill_checked_none_of_order _ g16 _ _ _ _ (Or.inl (by rw [hyo]; decide))]
  refine ⟨g.fill m x1 x2 Q2 w, g.fk1 x1, g.fk2 x2, igrid.fkappa m g Q2,
    fill_checked_some m g x1 x2 Q2 w hy0 hy ht0 ht hdef,
    by rw [fk1_checked_eq g x1 hy0 (by omega), if_pos hdef.1],
    by rw [fk2_checked_eq g x2 hy0 (by omega), if_pos hdef.2.1],
    by rw [fkappa_checked_eq m g Q2 ht0 (by omega), if_pos hdef.2.2],
    hs.1, hs.2.1, hs.2.2.1⟩

/-- Witness of C2: one channel, order 2, the fill at `(y1, y2, tau) = (7/2, 5/2, 5/2)` of
the grid of 5 nodes over `[0, 4]` with the transform `y = -x`: the fill returns, and the
cell at the stencil offset `(0, 1, 2)` gains the product of the three coefficients. -/
theorem fill_adds_stencil_witness :
    match (uniform_grid (fun _ x => -x) (fun _ y => -y) 5 0 4 2 1 : igrid ℚ).fill_checked
        (⟨fun x => x, fun x => x, fun x => x, fun x => x, fun a _ => a, 3⟩ : CMath ℚ)
        (-7 / 2) (-5 / 2) (5 / 32) (fun _ => 1),
      (uniform_grid (fun _ x => -x) (fun _ y => -y) 5 0 4 2 1 : igrid ℚ).fk1_checked (-7 / 2),
      (uniform_grid (fun _ x => -x) (fun _ y => -y) 5 0 4 2 1 : igrid ℚ).fk2_checked (-5 / 2),
      igrid.fkappa_checked
        (⟨fun x => x, fun x => x, fun x => x, fun x => x, fun a _ => a, 3⟩ : CMath ℚ)
        (uniform_grid (fun _ x => -x) (fun _ y => -y) 5 0 4 2 1 : igrid ℚ) (5 / 32) with
    | some g1, some k1, some k2, some k3 =>
      (g1.m_weight 0).cell (k3 + ((0 : Nat) : Int)) (k1 + ((1 : Nat) : Int))
          (k2 + ((2 : Nat) : Int))
        = ((uniform_grid (fun _ x => -x) (fun _ y => -y) 5 0 4 2 1 : igrid ℚ).m_weight
            0).cell
            (k3 + ((0 : Nat) : Int)) (k1 + ((1 : Nat) : Int)) (k2 + ((2 : Nat) : Int)) +
          1 *
            fI ((0 : Nat) : Int)
              (uniform_grid (fun _ x => -x) (fun _ y => -y) 5 0 4 2 1 : igrid ℚ).m_tauorder
              ((ftau
                  (⟨fun x => x, fun x => x, fun x => x, fun x => x, fun a _ => a, 3⟩ : CMath ℚ)
                  (5 / 32) -
                (uniform_grid (fun _ x => -x) (fun _ y => -y) 5 0 4 2 1 : igrid ℚ).gettau
                  k3) /
                (uniform_grid (fun _ x => -x) (fun _ y => -y) 5 0 4 2 1 : igrid ℚ).deltatau) *
            fI ((1 : Nat) : Int)
              (uniform_grid (fun _ x => -x) (fun _ y => -y) 5 0 4 2 1 : igrid ℚ).m_yorder
              (((uniform_grid (fun _ x => -x) (fun _ y => -y) 5 0 4 2 1 : igrid ℚ).fy
                  (-7 / 2) -
                (uniform_grid (fun _ x => -x) (fun _ y => -y) 5 0 4 2 1 : igrid ℚ).gety1
                  k1) /
                (uniform_grid (fun _ x => -x) (fun _ y => -y) 5 0 4 2 1 : igrid ℚ).deltay1) *
            fI ((2 : Nat) : Int)
              (uniform_grid (fun _ x => -x) (fun _ y => -y) 5 0 4 2 1 : igrid ℚ).m_yorder
              (((uniform_grid (fun _ x => -x) (fun _ y => -y) 5 0 4 2 1 : igrid ℚ).fy
                  (-5 / 2) -
                (uniform_grid (fun _ x => -x) (fun _ y => -y) 5 0 4 2 1 : igrid ℚ).gety2
                  k2) /
                (uniform_grid (fun _ x => -x) (fun _ y => -y) 5 0 4 2 1 : igrid ℚ).deltay2) *
            (if (uniform_grid (fun _ x => -x) (fun _ y => -y) 5 0 4 2 1 : igrid ℚ).m_reweight
              then 1 / (weightfun
                  (⟨fun x => x, fun x => x, fun x => x, fun x => x, fun a _ => a, 3⟩ : CMath ℚ)
                  (-7 / 2) *
                weightfun
                  (⟨fun x => x, fun x => x, fun x => x, fun x => x, fun a _ => a, 3⟩ : CMath ℚ)
                  (-5 / 2))
              else 1)
    | _, _, _, _ => False := by
  obtain ⟨g1, k1, k2, k3, hg, h1, h2, h3, hc, -⟩ := (fill_adds_stencil
    (⟨fun x => x, fun x => x, fun x => x, fun x => x, fun a _ => a, 3⟩ : CMath ℚ)
    (uniform_grid (fun _ x => -x) (fun _ y => -y) 5 0 4 2 1 : igrid ℚ) (-7 / 2) (-5 / 2)
    (5 / 32) (fun _ => 1)).1 (by decide) (by decide) (by decide) (by decide)
    (linear_grid_fill_defined (-7 / 2) (-5 / 2) (5 / 32) (by norm_num) (by norm_num)
      (by norm_num))
  rw [hg, h1, h2, h3]
  exact hc 0 0 1 2 (by decide) (by decide) (by decide) (by decide)

/-! ### `shrink` -/

/-- The two pointer arrays of `shrink` after the first `n` passes of its loop, for a list
`keep` without repetition. -/
theorem shrink_loop_invariant (w0 : Int → Option (SparseMatrix3d K)) (keep : List Int)
    (hinj : ∀ r s, r < keep.length → s < keep.length →
      keep.getD r 0 = keep.getD s 0 → r = s) (n : Nat) (hn : n ≤ keep.length) :
    (∀ c, ((List.range n).foldl (fun (s : shrink_state K) (ip : Nat) =>
        ({ w := Function.update s.w (keep.getD ip 0) none,
           m_weight := Function.update s.m_weight ip (s.w (keep.getD ip 0)) } :
          shrink_state K))
        { w := w0, m_weight := fun _ => none }).w c
      = if ∃ r, r < n ∧ keep.getD r 0 = c then none else w0 c) ∧
    (∀ r, ((List.range n).foldl (fun (s : shrink_state K) (ip : Nat) =>
        ({ w := Function.update s.w (keep.getD ip 0) none,
           m_weight := Function.update s.m_weight ip (s.w (keep.getD ip 0)) } :
          shrink_state K))
        { w := w0, m_weight := fun _ => none }).m_weight r
      = if r < n then w0 (keep.getD r 0) else none) := by
  induction n with
  | zero =>
    constructor
    · intro c
      simp
    · intro r
      simp
  | succ n ih =>
    obtain ⟨ihw, ihm⟩ := ih (by omega)
    rw [List.range_succ, List.foldl_append]
    simp only [List.foldl_cons, List.foldl_nil]
    constructor
    · intro c
      by_cases hc : c = keep.getD n 0
      · subst hc
        rw [Function.update_same, if_pos ⟨n, Nat.lt_succ_self n, rfl⟩]
      · rw [Function.update_noteq hc, ihw c]
        by_cases hex : ∃ r, r < n ∧ keep.getD r 0 = c
        · obtain ⟨r, hr, hrc⟩ := hex
          rw [if_pos ⟨r, hr, hrc⟩, if_pos ⟨r, Nat.lt_succ_of_lt hr, hrc⟩]
        · rw [if_neg hex, if_neg]
          rintro ⟨r, hr, hrc⟩
          rcases Nat.lt_succ_iff_lt_or_eq.mp hr with h1 | h1
          · exact hex ⟨r, h1, hrc⟩
          · subst h1
            exact hc hrc.symm
    · intro r
      by_cases hr : r = n
      · subst hr
        rw [Function.update_same, if_pos (Nat.lt_succ_self r), ihw, if_neg]
        rintro ⟨s, hs, hsc⟩
        have := hinj s r (by omega) (by omega) hsc
        omega
      · rw [Function.update_noteq hr, ihm r]
        have : (r < n + 1) ↔ (r < n) := by omega
        simp only [this]

/-- A strictly increasing list has no repetition, in terms of its entries by position. -/
theorem getD_injective_of_sorted (keep : List Int) (h : keep.Pairwise (fun a b => a < b)) :
    ∀ r s, r < keep.length → s < keep.length → keep.getD r 0 = keep.getD s 0 → r = s := by
  intro r s hr hs he
  have hnd : keep.Nodup := h.imp (fun hab => ne_of_lt hab)
  rw [List.getD_eq_getElem keep 0 hr, List.getD_eq_getElem keep 0 hs] at he
  exact (hnd.getElem_inj_iff).1 he

/-- C23: for a grid with `K ≥ 0` channels and a sorted list `keep` of distinct indices in
`[0, K)`, `shrink(keep)` returns true and leaves `|keep|` channels; at every position `r`
the new array holds the original tensor of channel `keep[r]`; the tensors that are
deleted are those of the channels not in `keep`. -/
theorem shrink_keeps_listed_channels (g : igrid K) (keep : List Int)
    (hsorted : keep.Pairwise (fun a b => a < b))
    (hrange : ∀ c ∈ keep, 0 ≤ c ∧ c < g.m_Nproc) :
    (g.shrink keep).1 = true ∧
    (g.shrink keep).2.m_Nproc = (keep.length : Int) ∧
    (∀ r, r < keep.length →
      (g.shrink_loop keep).m_weight r = some (g.m_weight (keep.getD r 0).toNat) ∧
      (g.shrink keep).2.m_weight r = g.m_weight (keep.getD r 0).toNat) ∧
    (∀ c : Nat, c ∈ g.shrink_deleted keep ↔ (c : Int) < g.m_Nproc ∧ (c : Int) ∉ keep) := by
  have hinv := shrink_loop_invariant
    (fun c => if 0 ≤ c ∧ c < g.m_Nproc then some (g.m_weight c.toNat) else none) keep
    (getD_injective_of_sorted keep hsorted) keep.length (le_refl _)
  beta_reduce at hinv
  have hmem : ∀ r, r < keep.length → keep.getD r 0 ∈ keep := by
    intro r hr
    rw [List.getD_eq_getElem keep 0 hr]
    exact List.getElem_mem hr
  have hptr : ∀ r, r < keep.length →
      (g.shrink_loop keep).m_weight r = some (g.m_weight (keep.getD r 0).toNat) := by
    intro r hr
    unfold igrid.shrink_loop
    rw [hinv.2 r, if_pos hr, if_pos (hrange _ (hmem r hr))]
  refine ⟨rfl, rfl, ?_, ?_⟩
  · intro r hr
    refine ⟨hptr r hr, ?_⟩
    show ((g.shrink_loop keep).m_weight r).getD _ = _
    rw [hptr r hr]
    rfl
  · intro c
    unfold igrid.shrink_deleted
    rw [List.mem_filter, List.mem_range]
    unfold igrid.shrink_loop
    rw [hinv.1 (c : Int)]
    constructor
    · rintro ⟨hc, hsome⟩
      refine ⟨by omega, ?_⟩
      intro hin
      obtain ⟨r, hr, hrc⟩ := List.mem_iff_getElem.mp hin
      rw [if_pos ⟨r, hr, by rw [List.getD_eq_getElem keep 0 hr]; exact hrc⟩] at hsome
      simp at hsome
    · rintro ⟨hc, hnot⟩
      refine ⟨by omega, ?_⟩
      rw [if_neg, if_pos ⟨by omega, hc⟩]
      · rfl
      · rintro ⟨r, hr, hrc⟩
        apply hnot
        rw [← hrc]
        exact hmem r hr

/-- Witness of C23: three channels, of which the first and the third are kept. -/
theorem shrink_keeps_listed_channels_witness :
    ((uniform_grid (fun _ x => -x) (fun _ y => -y) 5 0 4 2 3 : igrid ℚ).shrink [0, 2]).1
        = true ∧
      ((uniform_grid (fun _ x => -x) (fun _ y => -y) 5 0 4 2 3 : igrid ℚ).shrink
        [0, 2]).2.m_Nproc = 2 ∧
      ((uniform_grid (fun _ x => -x) (fun _ y => -y) 5 0 4 2 3 : igrid ℚ).shrink
        [0, 2]).2.m_weight 1
        = (uniform_grid (fun _ x => -x) (fun _ y => -y) 5 0 4 2 3 : igrid ℚ).m_weight 2 := by
  have h := shrink_keeps_listed_channels
    (uniform_grid (fun _ x => -x) (fun _ y => -y) 5 0 4 2 3 : igrid ℚ) [0, 2]
    (by simp) (by
      intro c hc
      simp only [List.mem_cons, List.mem_singleton, List.not_mem_nil, or_false] at hc
      rcases hc with rfl | rfl <;> exact ⟨by decide, by decide⟩)
  exact ⟨h.1, h.2.1, (h.2.2.1 1 (by decide)).2⟩

/-! ### Trimmed index ranges and the storage of `tsparse3d` -/

theorem le_getLast_of_pairwise : ∀ (l : List Nat) (hne : l ≠ []),
    l.Pairwise (fun a b => a < b) → ∀ a ∈ l, a ≤ l.getLast hne := by
  intro l
  induction l with
  | nil => intro hne; exact absurd rfl hne
  | cons b l ih =>
    intro hne hp a ha
    rw [List.pairwise_cons] at hp
    cases l with
    | nil =>
      simp only [List.mem_singleton] at ha
      simp [ha]
    | cons c l' =>
      rw [List.getLast_cons (List.cons_ne_nil c l')]
      rcases List.mem_cons.mp ha with h | h
      · subst h
        have h1 := hp.1 _ (List.getLast_mem (List.cons_ne_nil c l'))
        omega
      · exact ih (List.cons_ne_nil c l') hp.2 a h

/-- An index at which `p` holds lies in the range `[first_index, last_index]`, which lies
in `[0, N)`. -/
theorem index_range_of_mem (N : Nat) (p : Nat → Bool) (i : Nat) (hi : i < N)
    (hp : p i = true) :
    first_index N p ≤ (i : Int) ∧ (i : Int) ≤ last_index N p ∧ 0 ≤ first_index N p ∧
      last_index N p < (N : Int) := by
  unfold first_index last_index
  have hpw : List.Pairwise (fun a b => a < b) ((List.range N).filter p) :=
    List.Pairwise.filter _ (List.pairwise_lt_range _)
  have hmem : i ∈ (List.range N).filter p :=
    List.mem_filter.mpr ⟨List.mem_range.mpr hi, hp⟩
  have hsub : ∀ a ∈ (List.range N).filter p, a < N := fun a ha =>
    List.mem_range.mp (List.mem_filter.mp ha).1
  generalize (List.range N).filter p = l at hpw hmem hsub
  cases l with
  | nil => cases hmem
  | cons a l =>
    simp only []
    have hlast := le_getLast_of_pairwise (a :: l) (List.cons_ne_nil a l) hpw i hmem
    have hlt := hsub _ (List.getLast_mem (List.cons_ne_nil a l))
    rw [List.pairwise_cons] at hpw
    refine ⟨?_, ?_, ?_, ?_⟩
    · rcases List.mem_cons.mp hmem with h | h
      · rw [h]
      · have := hpw.1 _ h
        omega
    · exact_mod_cast hlast
    · omega
    · exact_mod_cast hlt

/-- The range `[first_index, last_index]` lies in `[0, N)`. -/
theorem index_range_bounds (N : Nat) (p : Nat → Bool) :
    0 ≤ first_index N p ∧ last_index N p < (N : Int) ∧ -1 ≤ last_index N p := by
  unfold first_index last_index
  have hsub : ∀ a ∈ (List.range N).filter p, a < N := fun a ha =>
    List.mem_range.mp (List.mem_filter.mp ha).1
  generalize (List.range N).filter p = l at hsub
  cases l with
  | nil => simp only []; omega
  | cons a l =>
    simp only []
    have hlt := hsub _ (List.getLast_mem (List.cons_ne_nil a l))
    omega

/-- The range depends on the predicate below `N` only. -/
theorem index_range_congr (N : Nat) (p q : Nat → Bool) (h : ∀ i, i < N → p i = q i) :
    first_index N p = first_index N q ∧ last_index N p = last_index N q := by
  have hf : (List.range N).filter p = (List.range N).filter q :=
    List.filter_congr (fun i hi => h i (List.mem_range.mp hi))
  unfold first_index last_index
  rw [hf]
  exact ⟨rfl, rfl⟩

/-- The ends of a range that is not empty are indices at which `p` holds. -/
theorem index_range_attained (N : Nat) (p : Nat → Bool) (i : Nat) (hi : i < N)
    (hp : p i = true) :
    (∃ a : Nat, first_index N p = (a : Int) ∧ a < N ∧ p a = true) ∧
    (∃ b : Nat, last_index N p = (b : Int) ∧ b < N ∧ p b = true) := by
  unfold first_index last_index
  have hmem : i ∈ (List.range N).filter p :=
    List.mem_filter.mpr ⟨List.mem_range.mpr hi, hp⟩
  have hsub : ∀ a ∈ (List.range N).filter p, a < N ∧ p a = true := fun a ha =>
    ⟨List.mem_range.mp (List.mem_filter.mp ha).1, (List.mem_filter.mp ha).2⟩
  generalize (List.range N).filter p = l at hmem hsub
  cases l with
  | nil => cases hmem
  | cons a l =>
    simp only []
    refine ⟨⟨a, rfl, hsub a (List.mem_cons_self a l)⟩, ⟨_, rfl, hsub _ ?_⟩⟩
    exact List.getLast_mem (List.cons_ne_nil a l)

/-- After `trim` a cell reads what it read before when it lies in the new ranges, and 0
otherwise. -/
theorem tsparse3d_trim_read (S : tsparse3d K) (i j k : Int) :
    S.trim.read i j k = if S.trim.stored i j k then S.read i j k else 0 := by
  by_cases h : S.trim.stored i j k
  · rw [if_pos h]
    have h2 := h
    unfold tsparse3d.stored at h2
    unfold tsparse3d.read
    rw [if_pos h]
    show (if _ then S.read i j k else 0) = S.read i j k
    exact if_pos h2
  · rw [if_neg h]
    unfold tsparse3d.read
    rw [if_neg h]

theorem tsparse3d_layer_nonzero_iff (S : tsparse3d K) (i : Nat) :
    S.layer_nonzero i = true ↔
      ∃ j k : Nat, j < S.Ny ∧ k < S.Nz ∧ S.read (i : Int) (j : Int) (k : Int) ≠ 0 := by
  unfold tsparse3d.layer_nonzero
  simp only [List.any_eq_true, List.mem_range, decide_eq_true_eq]
  constructor
  · rintro ⟨j, hj, k, hk, h⟩
    exact ⟨j, k, hj, hk, h⟩
  · rintro ⟨j, k, hj, hk, h⟩
    exact ⟨j, hj, k, hk, h⟩

theorem tsparse3d_row_nonzero_iff (S : tsparse3d K) (i : Int) (j : Nat) :
    S.row_nonzero i j = true ↔ ∃ k : Nat, k < S.Nz ∧ S.read i (j : Int) (k : Int) ≠ 0 := by
  unfold tsparse3d.row_nonzero
  simp only [List.any_eq_true, List.mem_range, decide_eq_true_eq]

theorem tsparse3d_col_nonzero_iff (S : tsparse3d K) (i : Int) (k : Nat) :
    S.col_nonzero i k = true ↔ ∃ j : Nat, j < S.Ny ∧ S.read i (j : Int) (k : Int) ≠ 0 := by
  unfold tsparse3d.col_nonzero
  simp only [List.any_eq_true, List.mem_range, decide_eq_true_eq]

/-- A cell of the logical shape that reads a non-zero value lies in the ranges that `trim`
leaves. -/
theorem tsparse3d_trim_stored (S : tsparse3d K) (i j k : Nat) (hi : i < S.Nx)
    (hj : j < S.Ny) (hk : k < S.Nz) (h : S.read (i : Int) (j : Int) (k : Int) ≠ 0) :
    S.trim.stored (i : Int) (j : Int) (k : Int) := by
  have hx := index_range_of_mem S.Nx S.layer_nonzero i hi
    ((tsparse3d_layer_nonzero_iff S i).2 ⟨j, k, hj, hk, h⟩)
  have hy := index_range_of_mem S.Ny (S.row_nonzero (i : Int)) j hj
    ((tsparse3d_row_nonzero_iff S i j).2 ⟨k, hk, h⟩)
  have hz := index_range_of_mem S.Nz (S.col_nonzero (i : Int)) k hk
    ((tsparse3d_col_nonzero_iff S i k).2 ⟨j, hj, h⟩)
  unfold tsparse3d.stored tsparse3d.trim
  simp only []
  rw [if_pos ⟨hx.1, hx.2.1⟩, if_pos ⟨hx.1, hx.2.1⟩, if_pos ⟨hx.1, hx.2.1⟩,
    if_pos ⟨hx.1, hx.2.1⟩]
  exact ⟨hx.1, hx.2.1, hy.1, hy.2.1, hz.1, hz.2.1⟩

/-- Reading a cell of the logical shape gives the same value before and after `trim`. -/
theorem tsparse3d_trim_lossless (S : tsparse3d K) (i j k : Nat) (hi : i < S.Nx)
    (hj : j < S.Ny) (hk : k < S.Nz) :
    S.trim.read (i : Int) (j : Int) (k : Int) = S.read (i : Int) (j : Int) (k : Int) := by
  rw [tsparse3d_trim_read]
  by_cases h : S.read (i : Int) (j : Int) (k : Int) = 0
  · rw [h]
    simp
  · rw [if_pos (tsparse3d_trim_stored S i j k hi hj hk h)]

theorem tsparse3d_trim_layer_nonzero (S : tsparse3d K) (i : Nat) (hi : i < S.Nx) :
    S.trim.layer_nonzero i = S.layer_nonzero i := by
  rw [Bool.eq_iff_iff, tsparse3d_layer_nonzero_iff, tsparse3d_layer_nonzero_iff]
  constructor
  · rintro ⟨j, k, hj, hk, h⟩
    exact ⟨j, k, hj, hk, by rwa [tsparse3d_trim_lossless S i j k hi hj hk] at h⟩
  · rintro ⟨j, k, hj, hk, h⟩
    exact ⟨j, k, hj, hk, by rwa [tsparse3d_trim_lossless S i j k hi hj hk]⟩

theorem tsparse3d_trim_row_nonzero (S : tsparse3d K) (i j : Nat) (hi : i < S.Nx)
    (hj : j < S.Ny) : S.trim.row_nonzero (i : Int) j = S.row_nonzero (i : Int) j := by
  rw [Bool.eq_iff_iff, tsparse3d_row_nonzero_iff, tsparse3d_row_nonzero_iff]
  constructor
  · rintro ⟨k, hk, h⟩
    exact ⟨k, hk, by rwa [tsparse3d_trim_lossless S i j k hi hj hk] at h⟩
  · rintro ⟨k, hk, h⟩
    exact ⟨k, hk, by rwa [tsparse3d_trim_lossless S i j k hi hj hk]⟩

theorem tsparse3d_trim_col_nonzero (S : tsparse3d K) (i k : Nat) (hi : i < S.Nx)
    (hk : k < S.Nz) : S.trim.col_nonzero (i : Int) k = S.col_nonzero (i : Int) k := by
  rw [Bool.eq_iff_iff, tsparse3d_col_nonzero_iff, tsparse3d_col_nonzero_iff]
  constructor
  · rintro ⟨j, hj, h⟩
    exact ⟨j, hj, by rwa [tsparse3d_trim_lossless S i j k hi hj hk] at h⟩
  · rintro ⟨j, hj, h⟩
    exact ⟨j, hj, by rwa [tsparse3d_trim_lossless S i j k hi hj hk]⟩

theorem tsparse3d_trim_val (S : tsparse3d K) (i j k : Int) :
    S.trim.val i j k = if S.trim.stored i j k then S.read i j k else 0 := rfl

/-- An outer index in the trimmed range is an index of the logical shape. -/
theorem tsparse3d_trim_layer_in_shape (S : tsparse3d K) (i : Int)
    (h : first_index S.Nx S.layer_nonzero ≤ i ∧ i ≤ last_index S.Nx S.layer_nonzero) :
    ∃ n : Nat, i = (n : Int) ∧ n < S.Nx := by
  have hb := index_range_bounds S.Nx S.layer_nonzero
  refine ⟨i.toNat, ?_, ?_⟩ <;> omega

/-- Applying `trim` twice leaves the storage that applying it once leaves. -/
theorem tsparse3d_trim_idempotent (S : tsparse3d K) : S.trim.trim = S.trim := by
  have hx := index_range_congr S.Nx S.trim.layer_nonzero S.layer_nonzero
    (fun i hi => tsparse3d_trim_layer_nonzero S i hi)
  have hxlo : S.trim.trim.xlo = S.trim.xlo := hx.1
  have hxhi : S.trim.trim.xhi = S.trim.xhi := hx.2
  have hrow : ∀ i : Int,
      first_index S.Nx S.layer_nonzero ≤ i ∧ i ≤ last_index S.Nx S.layer_nonzero →
      first_index S.Ny (S.trim.row_nonzero i) = first_index S.Ny (S.row_nonzero i) ∧
      last_index S.Ny (S.trim.row_nonzero i) = last_index S.Ny (S.row_nonzero i) := by
    intro i hi
    obtain ⟨n, rfl, hn⟩ := tsparse3d_trim_layer_in_shape S i hi
    exact index_range_congr S.Ny _ _ (fun j hj => tsparse3d_trim_row_nonzero S n j hn hj)
  have hcol : ∀ i : Int,
      first_index S.Nx S.layer_nonzero ≤ i ∧ i ≤ last_index S.Nx S.layer_nonzero →
      first_index S.Nz (S.trim.col_nonzero i) = first_index S.Nz (S.col_nonzero i) ∧
      last_index S.Nz (S.trim.col_nonzero i) = last_index S.Nz (S.col_nonzero i) := by
    intro i hi
    obtain ⟨n, rfl, hn⟩ := tsparse3d_trim_layer_in_shape S i hi
    exact index_range_congr S.Nz _ _ (fun k hk => tsparse3d_trim_col_nonzero S n k hn hk)
  have hylo : S.trim.trim.ylo = S.trim.ylo := by
    funext i
    show (if first_index S.Nx S.trim.layer_nonzero ≤ i ∧ i ≤ last_index S.Nx S.trim.layer_nonzero
        then first_index S.Ny (S.trim.row_nonzero i) else 0)
      = (if first_index S.Nx S.layer_nonzero ≤ i ∧ i ≤ last_index S.Nx S.layer_nonzero
        then first_index S.Ny (S.row_nonzero i) else 0)
    rw [hx.1, hx.2]
    split_ifs with h
    · exact (hrow i h).1
    · rfl
  have hyhi : S.trim.trim.yhi = S.trim.yhi := by
    funext i
    show (if first_index S.Nx S.trim.layer_nonzero ≤ i ∧ i ≤ last_index S.Nx S.trim.layer_nonzero
        then last_index S.Ny (S.trim.row_nonzero i) else -1)
      = (if first_index S.Nx S.layer_nonzero ≤ i ∧ i ≤ last_index S.Nx S.layer_nonzero
        then last_index S.Ny (S.row_nonzero i) else -1)
    rw [hx.1, hx.2]
    split_ifs with h
    · exact (hrow i h).2
    · rfl
  have hzlo : S.trim.trim.zlo = S.trim.zlo := by
    funext i
    show (if first_index S.Nx S.trim.layer_nonzero ≤ i ∧ i ≤ last_index S.Nx S.trim.layer_nonzero
        then first_index S.Nz (S.trim.col_nonzero i) else 0)
      = (if first_index S.Nx S.layer_nonzero ≤ i ∧ i ≤ last_index S.Nx S.layer_nonzero
        then first_index S.Nz (S.col_nonzero i) else 0)
    rw [hx.1, hx.2]
    split_ifs with h
    · exact (hcol i h).1
    · rfl
  have hzhi : S.trim.trim.zhi = S.trim.zhi := by
    funext i
    show (if first_index S.Nx S.trim.layer_nonzero ≤ i ∧ i ≤ last_index S.Nx S.trim.layer_nonzero
        then last_index S.Nz (S.trim.col_nonzero i) else -1)
      = (if first_index S.Nx S.layer_nonzero ≤ i ∧ i ≤ last_index S.Nx S.layer_nonzero
        then last_index S.Nz (S.col_nonzero i) else -1)
    rw [hx.1, hx.2]
    split_ifs with h
    · exact (hcol i h).2
    · rfl
  have hstored : ∀ i j k, S.trim.trim.stored i j k ↔ S.trim.stored i j k := by
    intro i j k
    unfold tsparse3d.stored
    rw [hxlo, hxhi, hylo, hyhi, hzlo, hzhi]
  apply tsparse3d.ext
  · rfl
  · rfl
  · rfl
  · exact hxlo
  · exact hxhi
  · exact hylo
  · exact hyhi
  · exact hzlo
  · exact hzhi
  · funext i j k
    rw [tsparse3d_trim_val, tsparse3d_trim_val, tsparse3d_trim_read]
    by_cases h : S.trim.stored i j k
    · rw [if_pos ((hstored i j k).2 h), if_pos h]
    · rw [if_neg (fun hh => h ((hstored i j k).1 hh)), if_neg h]

/-- `igrid::trim` leaves the logical content of the grid as it is. -/
theorem igrid_trim_eq (g : igrid K) : g.trim = g := by
  unfold igrid.trim
  have h : (List.range g.m_Nproc.toNat).foldl
      (fun w (i : Nat) => Function.update w i (w i).trim) g.m_weight = g.m_weight :=
    foldl_invariant (fun w : Nat → SparseMatrix3d K => w) _
      (fun w i => by
        funext c
        by_cases hc : c = i
        · subst hc; simp [SparseMatrix3d.trim]
        · simp [Function.update_noteq hc]) g.m_weight _
  rw [h]

/-- C29: for every tensor and every cell index `(i, j, k)` within its logical shape,
reading the cell before and after `trim()` gives the same value, and applying `trim()`
twice leaves the tensor in the state that applying it once leaves; `igrid::trim`, which
applies it to every channel, keeps every cell of every channel and is idempotent too. -/
theorem trim_lossless_and_idempotent (S : tsparse3d K) (g : igrid K) :
    (∀ i j k : Nat, i < S.Nx → j < S.Ny → k < S.Nz →
      S.trim.read (i : Int) (j : Int) (k : Int) = S.read (i : Int) (j : Int) (k : Int)) ∧
    S.trim.trim = S.trim ∧
    (∀ (c : Nat) (a b d : Int),
      (g.trim.m_weight c).cell a b d = (g.m_weight c).cell a b d) ∧
    g.trim.trim = g.trim := by
  refine ⟨fun i j k hi hj hk => tsparse3d_trim_lossless S i j k hi hj hk,
    tsparse3d_trim_idempotent S, ?_, ?_⟩
  · intro c a b d
    rw [igrid_trim_eq]
  · rw [igrid_trim_eq]

/-- Witness of C29: a tensor of shape `(2, 2, 2)` that stores the whole shape and holds one
non-zero value, at the cell `(1, 0, 1)`. -/
theorem trim_lossless_and_idempotent_witness :
    tsparse3d.read
      (tsparse3d.trim
        ({ Nx := 2, Ny := 2, Nz := 2, xlo := 0, xhi := 1,
            ylo := (fun _ => 0), yhi := (fun _ => 1),
            zlo := (fun _ => 0), zhi := (fun _ => 1),
            val := (fun i j k => if i = 1 ∧ j = 0 ∧ k = 1 then 5 else 0) } : tsparse3d ℚ))
      ((1 : Nat) : Int) ((0 : Nat) : Int) ((1 : Nat) : Int)
    = tsparse3d.read
        ({ Nx := 2, Ny := 2, Nz := 2, xlo := 0, xhi := 1,
            ylo := (fun _ => 0), yhi := (fun _ => 1),
            zlo := (fun _ => 0), zhi := (fun _ => 1),
            val := (fun i j k => if i = 1 ∧ j = 0 ∧ k = 1 then 5 else 0) } : tsparse3d ℚ)
      ((1 : Nat) : Int) ((0 : Nat) : Int) ((1 : Nat) : Int) :=
  (trim_lossless_and_idempotent
        ({ Nx := 2, Ny := 2, Nz := 2, xlo := 0, xhi := 1,
            ylo := (fun _ => 0), yhi := (fun _ => 1),
            zlo := (fun _ => 0), zhi := (fun _ => 1),
            val := (fun i j k => if i = 1 ∧ j = 0 ∧ k = 1 then 5 else 0) } : tsparse3d ℚ)
    (uniform_grid (fun _ x => -x) (fun _ y => -y) 5 0 4 2 1 : igrid ℚ)).1 1 0 1
    (by decide) (by decide) (by decide)

/-! ### `optimise` -/

/-- The extent of the trimmed range of outer indices is `xmax() - xmin() + 1`. -/
theorem trimmed_xextent_eq (T : SparseMatrix3d K) :
    T.trimmed_xextent = T.xmax - T.xmin + 1 := by
  unfold SparseMatrix3d.trimmed_xextent SparseMatrix3d.xmax SparseMatrix3d.xmin first_index
    last_index
  cases (List.range T.m_xaxis.N.toNat).filter T.layer_nonzero with
  | nil => rfl
  | cons i l => rfl

theorem foldl_fixed {W : Type} (step : W → Nat → W) (l : List Nat) (w : W)
    (h : ∀ z ∈ l, step w z = w) : l.foldl step w = w := by
  induction l with
  | nil => rfl
  | cons a l ih =>
    rw [List.foldl_cons, h a (List.mem_cons_self a l)]
    exact ih (fun z hz => h z (List.mem_cons_of_mem a hz))

/-- When every channel is empty the loop of `optimise` leaves the limits at their initial
values. -/
theorem optimise_find_limits_of_empty (g : igrid K)
    (h : ∀ ip, ip < g.m_Nproc.toNat → (g.m_weight ip).trimmed_xextent = 0) :
    g.optimise_find_limits
      = { y1setmin := g.Ny1, y1setmax := -1, y2setmin := g.Ny2, y2setmax := -1,
          tausetmin := g.Ntau, tausetmax := -1 } := by
  unfold igrid.optimise_find_limits
  apply foldl_fixed
  intro ip hip
  have := h ip (List.mem_range.mp hip)
  rw [trimmed_xextent_eq] at this
  rw [if_pos this]

/-- What `optimise` leaves, whichever branch it takes: empty tensors of the requested
shape on the ranges of the members, the same number of channels, the flag set. -/
theorem optimise_result (g : igrid K) (NQ2 Nx1 Nx2 : Int) :
    (∀ ip : Nat, (ip : Int) < g.m_Nproc →
      (g.optimise NQ2 Nx1 Nx2).m_weight ip
        = SparseMatrix3d.mk_empty NQ2 (g.optimise NQ2 Nx1 Nx2).m_taumin
          (g.optimise NQ2 Nx1 Nx2).m_taumax Nx1 (g.optimise NQ2 Nx1 Nx2).m_y1min
          (g.optimise NQ2 Nx1 Nx2).m_y1max Nx2 (g.optimise NQ2 Nx1 Nx2).m_y2min
          (g.optimise NQ2 Nx1 Nx2).m_y2max) ∧
    (g.optimise NQ2 Nx1 Nx2).m_Nproc = g.m_Nproc ∧
    (g.optimise NQ2 Nx1 Nx2).m_optimised = true ∧
    ((g.optimise NQ2 Nx1 Nx2).m_Ntau = NQ2 ∧ (g.optimise NQ2 Nx1 Nx2).m_Ny1 = Nx1 ∧
      (g.optimise NQ2 Nx1 Nx2).m_Ny2 = Nx2) ∧
    ((g.optimise NQ2 Nx1 Nx2).m_yorder = g.m_yorder ∧
      (g.optimise NQ2 Nx1 Nx2).m_tauorder = g.m_tauorder ∧
      (g.optimise NQ2 Nx1 Nx2).m_transform = g.m_transform ∧
      (g.optimise NQ2 Nx1 Nx2).m_transvar = g.m_transvar ∧
      (g.optimise NQ2 Nx1 Nx2).m_reweight = g.m_reweight ∧
      (g.optimise NQ2 Nx1 Nx2).m_symmetrise = g.m_symmetrise ∧
      (g.optimise NQ2 Nx1 Nx2).m_DISgrid = g.m_DISgrid) := by
  unfold igrid.optimise
  rw [igrid_trim_eq]
  by_cases h : g.optimise_find_limits.y1setmax = -1 ∨ g.optimise_find_limits.y2setmax = -1 ∨
      g.optimise_find_limits.tausetmax = -1
  · dsimp only []
    rw [if_pos h]
    refine ⟨fun ip hip => ?_, rfl, rfl, ⟨rfl, rfl, rfl⟩, ⟨rfl, rfl, rfl, rfl, rfl, rfl, rfl⟩⟩
    dsimp only []
    rw [if_pos hip]
  · dsimp only []
    rw [if_neg h]
    refine ⟨fun ip hip => ?_, rfl, rfl, ⟨rfl, rfl, rfl⟩, ⟨rfl, rfl, rfl, rfl, rfl, rfl, rfl⟩⟩
    dsimp only []
    rw [if_pos hip]

/-- When every channel is empty `optimise` keeps the ranges of the three axes. -/
theorem optimise_ranges_of_empty (g : igrid K) (NQ2 Nx1 Nx2 : Int)
    (h : ∀ ip, ip < g.m_Nproc.toNat → (g.m_weight ip).trimmed_xextent = 0) :
    (g.optimise NQ2 Nx1 Nx2).m_taumin = g.m_taumin ∧
    (g.optimise NQ2 Nx1 Nx2).m_taumax = g.m_taumax ∧
    (g.optimise NQ2 Nx1 Nx2).m_y1min = g.m_y1min ∧
    (g.optimise NQ2 Nx1 Nx2).m_y1max = g.m_y1max ∧
    (g.optimise NQ2 Nx1 Nx2).m_y2min = g.m_y2min ∧
    (g.optimise NQ2 Nx1 Nx2).m_y2max = g.m_y2max := by
  unfold igrid.optimise
  rw [igrid_trim_eq]
  dsimp only []
  rw [optimise_find_limits_of_empty g h]
  dsimp only []
  rw [if_pos (Or.inl rfl)]
  exact ⟨rfl, rfl, rfl, rfl, rfl, rfl⟩

/-- C25: after `optimise(NQ2, Nx1, Nx2)` every channel tensor is empty, all its cells read
0, with the logical shape `(NQ2, Nx1, Nx2)`; the number of channels is unchanged and the
optimised flag is true; when every channel was empty before, the `tau`, `y1` and `y2`
ranges are unchanged and only the node counts are replaced. -/
theorem optimise_discards_content (g : igrid K) (NQ2 Nx1 Nx2 : Int) :
    (∀ ip : Nat, (ip : Int) < g.m_Nproc →
      (∀ a b d : Int, ((g.optimise NQ2 Nx1 Nx2).m_weight ip).cell a b d = 0) ∧
      ((g.optimise NQ2 Nx1 Nx2).m_weight ip).m_xaxis.N = NQ2 ∧
      ((g.optimise NQ2 Nx1 Nx2).m_weight ip).m_yaxis.N = Nx1 ∧
      ((g.optimise NQ2 Nx1 Nx2).m_weight ip).m_zaxis.N = Nx2) ∧
    (g.optimise NQ2 Nx1 Nx2).m_Nproc = g.m_Nproc ∧
    (g.optimise NQ2 Nx1 Nx2).isOptimised = true ∧
    ((∀ ip, ip < g.m_Nproc.toNat → (g.m_weight ip).trimmed_xextent = 0) →
      ((g.optimise NQ2 Nx1 Nx2).m_taumin = g.m_taumin ∧
        (g.optimise NQ2 Nx1 Nx2).m_taumax = g.m_taumax ∧
        (g.optimise NQ2 Nx1 Nx2).m_y1min = g.m_y1min ∧
        (g.optimise NQ2 Nx1 Nx2).m_y1max = g.m_y1max ∧
        (g.optimise NQ2 Nx1 Nx2).m_y2min = g.m_y2min ∧
        (g.optimise NQ2 Nx1 Nx2).m_y2max = g.m_y2max) ∧
      ((g.optimise NQ2 Nx1 Nx2).m_Ntau = NQ2 ∧ (g.optimise NQ2 Nx1 Nx2).m_Ny1 = Nx1 ∧
        (g.optimise NQ2 Nx1 Nx2).m_Ny2 = Nx2) ∧
      (∀ ip : Nat, (ip : Int) < g.m_Nproc →
        (g.optimise NQ2 Nx1 Nx2).m_weight ip
          = SparseMatrix3d.mk_empty NQ2 g.m_taumin g.m_taumax Nx1 g.m_y1min g.m_y1max Nx2
            g.m_y2min g.m_y2max)) := by
  obtain ⟨hw, hNp, hopt, hN, -⟩ := optimise_result g NQ2 Nx1 Nx2
  refine ⟨fun ip hip => ?_, hNp, hopt, fun hempty => ?_⟩
  · rw [hw ip hip]
    exact ⟨fun _ _ _ => rfl, rfl, rfl, rfl⟩
  · obtain ⟨r1, r2, r3, r4, r5, r6⟩ := optimise_ranges_of_empty g NQ2 Nx1 Nx2 hempty
    refine ⟨⟨r1, r2, r3, r4, r5, r6⟩, hN, fun ip hip => ?_⟩
    rw [hw ip hip, r1, r2, r3, r4, r5, r6]

/-- Witness of C25: the fresh one-channel grid of 5 nodes over `[0, 4]`, optimised to
`(3, 4, 6)` nodes. -/
theorem optimise_discards_content_witness :
    ((uniform_grid (fun _ x => -x) (fun _ y => -y) 5 0 4 2 1 : igrid ℚ).optimise 3 4
        6).m_weight 0
      = SparseMatrix3d.mk_empty 3 0 4 4 0 4 6 0 4 :=
  ((optimise_discards_content
    (uniform_grid (fun _ x => -x) (fun _ y => -y) 5 0 4 2 1 : igrid ℚ) 3 4 6).2.2.2
    (fun _ _ => zero_cells_trimmed_xextent _ (fun _ _ _ => rfl))).2.2 0 (by decide)

theorem layer_nonzero_iff (T : SparseMatrix3d K) (i : Nat) :
    T.layer_nonzero i = true ↔
      ∃ j k : Nat, j < T.m_yaxis.N.toNat ∧ k < T.m_zaxis.N.toNat ∧
        T.cell (i : Int) (j : Int) (k : Int) ≠ 0 := by
  unfold SparseMatrix3d.layer_nonzero
  simp only [List.any_eq_true, List.mem_range, decide_eq_true_eq]
  constructor
  · rintro ⟨j, hj, k, hk, h⟩
    exact ⟨j, k, hj, hk, h⟩
  · rintro ⟨j, k, hj, hk, h⟩
    exact ⟨j, hj, k, hk, h⟩

theorem row_nonzero_iff (T : SparseMatrix3d K) (j : Nat) :
    T.row_nonzero j = true ↔
      ∃ i k : Nat, i < T.m_xaxis.N.toNat ∧ k < T.m_zaxis.N.toNat ∧
        T.cell (i : Int) (j : Int) (k : Int) ≠ 0 := by
  unfold SparseMatrix3d.row_nonzero
  simp only [List.any_eq_true, List.mem_range, decide_eq_true_eq]
  constructor
  · rintro ⟨i, hi, k, hk, h⟩
    exact ⟨i, k, hi, hk, h⟩
  · rintro ⟨i, k, hi, hk, h⟩
    exact ⟨i, hi, k, hk, h⟩

theorem col_nonzero_iff (T : SparseMatrix3d K) (k : Nat) :
    T.col_nonzero k = true ↔
      ∃ i j : Nat, i < T.m_xaxis.N.toNat ∧ j < T.m_yaxis.N.toNat ∧
        T.cell (i : Int) (j : Int) (k : Int) ≠ 0 := by
  unfold SparseMatrix3d.col_nonzero
  simp only [List.any_eq_true, List.mem_range, decide_eq_true_eq]
  constructor
  · rintro ⟨i, hi, j, hj, h⟩
    exact ⟨i, j, hi, hj, h⟩
  · rintro ⟨i, j, hi, hj, h⟩
    exact ⟨i, hi, j, hj, h⟩

/-- A range is empty when the predicate holds nowhere below `N`. -/
theorem index_range_empty (N : Nat) (p : Nat → Bool) (h : ∀ i, i < N → p i = false) :
    first_index N p = 0 ∧ last_index N p = -1 := by
  have hf : (List.range N).filter p = [] := by
    rw [List.filter_eq_nil_iff]
    intro i hi
    rw [h i (List.mem_range.mp hi)]
    simp
  unfold first_index last_index
  rw [hf]
  exact ⟨rfl, rfl⟩

/-- The least index below `N` at which `p` holds is `first_index`. -/
theorem first_index_eq_of_least (N : Nat) (p : Nat → Bool) (a : Nat) (ha : a < N)
    (hpa : p a = true) (hleast : ∀ i, i < N → p i = true → a ≤ i) :
    first_index N p = (a : Int) := by
  obtain ⟨⟨b, hb, hbN, hpb⟩, -⟩ := index_range_attained N p a ha hpa
  have h1 := (index_range_of_mem N p a ha hpa).1
  have h2 := hleast b hbN hpb
  omega

/-- The greatest index below `N` at which `p` holds is `last_index`. -/
theorem last_index_eq_of_greatest (N : Nat) (p : Nat → Bool) (a : Nat) (ha : a < N)
    (hpa : p a = true) (hgreatest : ∀ i, i < N → p i = true → i ≤ a) :
    last_index N p = (a : Int) := by
  obtain ⟨-, ⟨b, hb, hbN, hpb⟩⟩ := index_range_attained N p a ha hpa
  have h1 := (index_range_of_mem N p a ha hpa).2.1
  have h2 := hgreatest b hbN hpb
  omega

/-- A tensor has a non-zero trimmed extent exactly when a cell of its logical shape is not
zero. -/
theorem xextent_ne_zero_iff (T : SparseMatrix3d K) :
    T.xmax - T.xmin + 1 ≠ 0 ↔
      ∃ i j k : Nat, i < T.m_xaxis.N.toNat ∧ j < T.m_yaxis.N.toNat ∧ k < T.m_zaxis.N.toNat ∧
        T.cell (i : Int) (j : Int) (k : Int) ≠ 0 := by
  constructor
  · intro h
    by_contra hno
    apply h
    have hall : ∀ i, i < T.m_xaxis.N.toNat → T.layer_nonzero i = false := by
      intro i hi
      rw [Bool.eq_false_iff]
      intro hl
      obtain ⟨j, k, hj, hk, hc⟩ := (layer_nonzero_iff T i).1 hl
      exact hno ⟨i, j, k, hi, hj, hk, hc⟩
    have := index_range_empty _ _ hall
    unfold SparseMatrix3d.xmax SparseMatrix3d.xmin
    rw [this.1, this.2]
    rfl
  · rintro ⟨i, j, k, hi, hj, hk, hc⟩
    have := index_range_of_mem _ T.layer_nonzero i hi
      ((layer_nonzero_iff T i).2 ⟨j, k, hj, hk, hc⟩)
    unfold SparseMatrix3d.xmax SparseMatrix3d.xmin
    omega

theorem foldl_proj {W V : Type} (proj : W → V) (step : W → Nat → W) (step2 : V → Nat → V)
    (h : ∀ w z, proj (step w z) = step2 (proj w) z) (l : List Nat) (w : W) :
    proj (l.foldl step w) = l.foldl step2 (proj w) := by
  induction l generalizing w with
  | nil => rfl
  | cons a l ih => simp only [List.foldl_cons]; rw [ih, h]

theorem any_range_succ (n : Nat) (q : Nat → Bool) :
    (List.range (n + 1)).any q = ((List.range n).any q || q n) := by
  rw [List.range_succ, List.any_append]
  simp

/-- One pass of the loop of `optimise` for a channel that is not empty, on one axis: the
limits of the union of the filled indices. -/
theorem limits_step (N : Nat) (P q : Nat → Bool) (lo0 : Int)
    (hlo0 : ∀ a : Nat, a < N → (a : Int) < lo0) (lo hi : Int)
    (h2 : hi = last_index N P)
    (h1 : (∃ j, j < N ∧ P j = true) → lo = first_index N P)
    (h0 : (∀ j, j < N → P j = false) → lo = lo0)
    (j0 : Nat) (hj0 : j0 < N) (hq : q j0 = true) :
    (if first_index N q ≤ last_index N q ∧ hi < last_index N q then last_index N q else hi)
      = last_index N (fun j => P j || q j) ∧
    (if first_index N q < lo then first_index N q else lo)
      = first_index N (fun j => P j || q j) := by
  obtain ⟨⟨a, ha, haN, hqa⟩, ⟨b, hb, hbN, hqb⟩⟩ := index_range_attained N q j0 hj0 hq
  have hqr : ∀ i, i < N → q i = true → a ≤ i ∧ i ≤ b := by
    intro i hi hqi
    have := index_range_of_mem N q i hi hqi
    omega
  have hab : a ≤ b := (hqr a haN hqa).2
  rw [ha, hb]
  by_cases hP : ∃ j, j < N ∧ P j = true
  · obtain ⟨j1, hj1, hPj1⟩ := hP
    obtain ⟨⟨a0, ha0, ha0N, hPa0⟩, ⟨b0, hb0, hb0N, hPb0⟩⟩ :=
      index_range_attained N P j1 hj1 hPj1
    have hPr : ∀ i, i < N → P i = true → a0 ≤ i ∧ i ≤ b0 := by
      intro i hi hPi
      have := index_range_of_mem N P i hi hPi
      omega
    have hlo : lo = (a0 : Int) := by rw [h1 ⟨j1, hj1, hPj1⟩, ha0]
    have hhi : hi = (b0 : Int) := by rw [h2, hb0]
    rw [hlo, hhi]
    constructor
    · by_cases hbb : b0 < b
      · rw [if_pos ⟨by omega, by omega⟩]
        symm
        apply last_index_eq_of_greatest N _ b hbN
        · simp [hqb]
        · intro i hi hPi
          simp only [Bool.or_eq_true] at hPi
          rcases hPi with h | h
          · have := (hPr i hi h).2
            omega
          · exact (hqr i hi h).2
      · rw [if_neg (by omega)]
        symm
        apply last_index_eq_of_greatest N _ b0 hb0N
        · simp [hPb0]
        · intro i hi hPi
          simp only [Bool.or_eq_true] at hPi
          rcases hPi with h | h
          · exact (hPr i hi h).2
          · have := (hqr i hi h).2
            omega
    · by_cases haa : a < a0
      · rw [if_pos (by omega)]
        symm
        apply first_index_eq_of_least N _ a haN
        · simp [hqa]
        · intro i hi hPi
          simp only [Bool.or_eq_true] at hPi
          rcases hPi with h | h
          · have := (hPr i hi h).1
            omega
          · exact (hqr i hi h).1
      · rw [if_neg (by omega)]
        symm
        apply first_index_eq_of_least N _ a0 ha0N
        · simp [hPa0]
        · intro i hi hPi
          simp only [Bool.or_eq_true] at hPi
          rcases hPi with h | h
          · exact (hPr i hi h).1
          · have := (hqr i hi h).1
            omega
  · have hPf : ∀ j, j < N → P j = false := by
      intro j hj
      rw [Bool.eq_false_iff]
      intro hPj
      exact hP ⟨j, hj, hPj⟩
    have hlo : lo = lo0 := h0 hPf
    have hhi : hi = -1 := by rw [h2, (index_range_empty N P hPf).2]
    have hcongr := index_range_congr N (fun j => P j || q j) q (fun i hi => by
      simp [hPf i hi])
    rw [hcongr.1, hcongr.2, ha, hb, hlo, hhi]
    have := hlo0 a haN
    constructor
    · rw [if_pos ⟨by omega, by omega⟩]
    · rw [if_pos this]

/-- The loop of `optimise` over the first `n` channels, on one axis: `p ip` marks the
filled indices of channel `ip` and `skip ip` is the test for an empty channel. The upper
limit is the last filled index of all channels, and the lower limit the first one, when
there is one. -/
theorem limits_fold (N : Nat) (p : Nat → Nat → Bool) (skip : Nat → Prop)
    [DecidablePred skip] (lo0 : Int) (hlo0 : ∀ a : Nat, a < N → (a : Int) < lo0) (n : Nat)
    (hskip : ∀ ip, ip < n → (skip ip ↔ ∀ j, j < N → p ip j = false)) :
    ((List.range n).foldl (fun (s : Int × Int) (ip : Nat) =>
        if skip ip then s
        else (if first_index N (p ip) < s.1 then first_index N (p ip) else s.1,
          if first_index N (p ip) ≤ last_index N (p ip) ∧ s.2 < last_index N (p ip)
          then last_index N (p ip) else s.2)) (lo0, -1)).2
        = last_index N (fun j => (List.range n).any fun (ip : Nat) => p ip j) ∧
    ((∃ j, j < N ∧ ((List.range n).any fun (ip : Nat) => p ip j) = true) →
      ((List.range n).foldl (fun (s : Int × Int) (ip : Nat) =>
        if skip ip then s
        else (if first_index N (p ip) < s.1 then first_index N (p ip) else s.1,
          if first_index N (p ip) ≤ last_index N (p ip) ∧ s.2 < last_index N (p ip)
          then last_index N (p ip) else s.2)) (lo0, -1)).1
        = first_index N (fun j => (List.range n).any fun (ip : Nat) => p ip j)) ∧
    ((∀ j, j < N → ((List.range n).any fun (ip : Nat) => p ip j) = false) →
      ((List.range n).foldl (fun (s : Int × Int) (ip : Nat) =>
        if skip ip then s
        else (if first_index N (p ip) < s.1 then first_index N (p ip) else s.1,
          if first_index N (p ip) ≤ last_index N (p ip) ∧ s.2 < last_index N (p ip)
          then last_index N (p ip) else s.2)) (lo0, -1)).1 = lo0) := by
  induction n with
  | zero =>
    refine ⟨?_, ?_, ?_⟩
    · simp only [List.range_zero, List.foldl_nil, List.any_nil]
      rw [(index_range_empty N (fun _ => false) (fun _ _ => rfl)).2]
    · rintro ⟨j, _, hj⟩
      simp at hj
    · intro _
      rfl
  | succ n ih =>
    obtain ⟨ih2, ih1, ih0⟩ := ih (fun ip hip => hskip ip (Nat.lt_succ_of_lt hip))
    have hany : ∀ j, ((List.range (n + 1)).any fun (ip : Nat) => p ip j)
        = (((List.range n).any fun (ip : Nat) => p ip j) || p n j) :=
      fun j => any_range_succ n (fun ip => p ip j)
    simp only [hany]
    rw [List.range_succ, List.foldl_append]
    simp only [List.foldl_cons, List.foldl_nil]
    by_cases hs : skip n
    · rw [if_pos hs]
      have hpf := (hskip n (Nat.lt_succ_self n)).1 hs
      have hcongr := index_range_congr N
        (fun j => ((List.range n).any fun (ip : Nat) => p ip j) || p n j)
        (fun j => (List.range n).any fun (ip : Nat) => p ip j)
        (fun i hi => by simp [hpf i hi])
      rw [hcongr.1, hcongr.2]
      refine ⟨ih2, ?_, ?_⟩
      · rintro ⟨j, hj, hPj⟩
        rw [hpf j hj, Bool.or_false] at hPj
        exact ih1 ⟨j, hj, hPj⟩
      · intro hall
        apply ih0
        intro j hj
        have h3 := hall j hj
        rw [hpf j hj, Bool.or_false] at h3
        exact h3
    · rw [if_neg hs]
      have hex : ∃ j0, j0 < N ∧ p n j0 = true := by
        by_contra hno
        apply hs
        rw [hskip n (Nat.lt_succ_self n)]
        intro j hj
        rw [Bool.eq_false_iff]
        intro hpj
        exact hno ⟨j, hj, hpj⟩
      obtain ⟨j0, hj0, hq⟩ := hex
      have hstep := limits_step N (fun j => (List.range n).any fun (ip : Nat) => p ip j)
        (p n) lo0 hlo0 _ _ ih2 ih1 ih0 j0 hj0 hq
      refine ⟨hstep.1, fun _ => hstep.2, ?_⟩
      intro hall
      have := hall j0 hj0
      rw [hq, Bool.or_true] at this
      cases this

/-- The widened limits of `optimise` as a margin: one node below; one node above for a
grid that is already optimised and `order + 1` nodes above otherwise; clipped to the
axis. -/
theorem optimise_widen_eq (optimised : Bool) (lo hi N order : Int) (hlo : 0 ≤ lo)
    (hhi : hi ≤ N - 1) :
    optimise_widen optimised lo hi N order
      = (max (lo - 1) 0, min (hi + (if optimised then 1 else order + 1)) (N - 1)) := by
  unfold optimise_widen
  cases optimised
  · simp only [Bool.false_eq_true, if_false]
    refine Prod.ext ?_ ?_
    · show (if lo > 0 then lo - 1 else lo) = max (lo - 1) 0
      split_ifs <;> omega
    · show (if hi + (order + 1) ≥ N then N - 1 else hi + (order + 1))
        = min (hi + (order + 1)) (N - 1)
      split_ifs <;> omega
  · simp only [if_true]
    refine Prod.ext ?_ ?_
    · show (if lo > 0 then lo - 1 else lo) = max (lo - 1) 0
      split_ifs <;> omega
    · show (if hi < N - 1 then hi + 1 else hi) = min (hi + 1) (N - 1)
      split_ifs <;> omega

/-- A channel is skipped by the loop of `optimise` exactly when none of its rows holds a
non-zero cell. -/
theorem skip_iff_rows (T : SparseMatrix3d K) :
    T.xmax - T.xmin + 1 = 0 ↔ ∀ j, j < T.m_yaxis.N.toNat → T.row_nonzero j = false := by
  constructor
  · intro h j hj
    rw [Bool.eq_false_iff]
    intro hr
    obtain ⟨i, k, hi, hk, hc⟩ := (row_nonzero_iff T j).1 hr
    exact (xextent_ne_zero_iff T).2 ⟨i, j, k, hi, hj, hk, hc⟩ h
  · intro h
    by_contra hne
    obtain ⟨i, j, k, hi, hj, hk, hc⟩ := (xextent_ne_zero_iff T).1 hne
    have := h j hj
    rw [(row_nonzero_iff T j).2 ⟨i, k, hi, hk, hc⟩] at this
    cases this

theorem skip_iff_cols (T : SparseMatrix3d K) :
    T.xmax - T.xmin + 1 = 0 ↔ ∀ k, k < T.m_zaxis.N.toNat → T.col_nonzero k = false := by
  constructor
  · intro h k hk
    rw [Bool.eq_false_iff]
    intro hr
    obtain ⟨i, j, hi, hj, hc⟩ := (col_nonzero_iff T k).1 hr
    exact (xextent_ne_zero_iff T).2 ⟨i, j, k, hi, hj, hk, hc⟩ h
  · intro h
    by_contra hne
    obtain ⟨i, j, k, hi, hj, hk, hc⟩ := (xextent_ne_zero_iff T).1 hne
    have := h k hk
    rw [(col_nonzero_iff T k).2 ⟨i, j, hi, hj, hc⟩] at this
    cases this

theorem skip_iff_layers (T : SparseMatrix3d K) :
    T.xmax - T.xmin + 1 = 0 ↔ ∀ i, i < T.m_xaxis.N.toNat → T.layer_nonzero i = false := by
  constructor
  · intro h i hi
    rw [Bool.eq_false_iff]
    intro hr
    obtain ⟨j, k, hj, hk, hc⟩ := (layer_nonzero_iff T i).1 hr
    exact (xextent_ne_zero_iff T).2 ⟨i, j, k, hi, hj, hk, hc⟩ h
  · intro h
    by_contra hne
    obtain ⟨i, j, k, hi, hj, hk, hc⟩ := (xextent_ne_zero_iff T).1 hne
    have := h i hi
    rw [(layer_nonzero_iff T i).2 ⟨j, k, hj, hk, hc⟩] at this
    cases this

/-- The limits that the loop of `optimise` finds on the `y1` axis are the first and the
last index of that axis at which some channel is filled. -/
theorem optimise_limits_y1 (g : igrid K) (hal : g.channels_aligned) :
    g.optimise_find_limits.y1setmax = last_index g.Ny1.toNat g.populated_y1 ∧
    ((∃ j, j < g.Ny1.toNat ∧ g.populated_y1 j = true) →
      g.optimise_find_limits.y1setmin = first_index g.Ny1.toNat g.populated_y1) := by
  have key : (g.optimise_find_limits.y1setmin, g.optimise_find_limits.y1setmax)
      = (List.range g.m_Nproc.toNat).foldl (fun (s : Int × Int) (ip : Nat) =>
          if (g.m_weight ip).xmax - (g.m_weight ip).xmin + 1 = 0 then s
          else (if first_index g.Ny1.toNat (g.m_weight ip).row_nonzero < s.1
              then first_index g.Ny1.toNat (g.m_weight ip).row_nonzero else s.1,
            if first_index g.Ny1.toNat (g.m_weight ip).row_nonzero
                ≤ last_index g.Ny1.toNat (g.m_weight ip).row_nonzero ∧
              s.2 < last_index g.Ny1.toNat (g.m_weight ip).row_nonzero
            then last_index g.Ny1.toNat (g.m_weight ip).row_nonzero else s.2)) (g.Ny1, -1) := by
    unfold igrid.optimise_find_limits
    refine foldl_proj (fun L : optimise_limits => (L.y1setmin, L.y1setmax)) _ _ ?_ _ _
    intro L ip
    have hN : (g.m_weight ip).m_yaxis.N = g.Ny1 := (hal ip).2.1
    dsimp only []
    unfold SparseMatrix3d.ymin SparseMatrix3d.ymax
    rw [hN]
    simp only [gt_iff_lt]
    split_ifs <;> rfl
  have hfold := limits_fold g.Ny1.toNat (fun ip => (g.m_weight ip).row_nonzero)
    (fun ip => (g.m_weight ip).xmax - (g.m_weight ip).xmin + 1 = 0) g.Ny1
    (fun a ha => by omega) g.m_Nproc.toNat
    (fun ip _ => by
      have hN : (g.m_weight ip).m_yaxis.N = g.Ny1 := (hal ip).2.1
      rw [← hN]
      exact skip_iff_rows (g.m_weight ip))
  rw [show g.optimise_find_limits.y1setmin
      = (g.optimise_find_limits.y1setmin, g.optimise_find_limits.y1setmax).1 from rfl,
    show g.optimise_find_limits.y1setmax
      = (g.optimise_find_limits.y1setmin, g.optimise_find_limits.y1setmax).2 from rfl, key]
  exact ⟨hfold.1, hfold.2.1⟩

/-- The limits that the loop of `optimise` finds on the `y2` axis are the first and the
last index of that axis at which some channel is filled. -/
theorem optimise_limits_y2 (g : igrid K) (hal : g.channels_aligned) :
    g.optimise_find_limits.y2setmax = last_index g.Ny2.toNat g.populated_y2 ∧
    ((∃ j, j < g.Ny2.toNat ∧ g.populated_y2 j = true) →
      g.optimise_find_limits.y2setmin = first_index g.Ny2.toNat g.populated_y2) := by
  have key : (g.optimise_find_limits.y2setmin, g.optimise_find_limits.y2setmax)
      = (List.range g.m_Nproc.toNat).foldl (fun (s : Int × Int) (ip : Nat) =>
          if (g.m_weight ip).xmax - (g.m_weight ip).xmin + 1 = 0 then s
          else (if first_index g.Ny2.toNat (g.m_weight ip).col_nonzero < s.1
              then first_index g.Ny2.toNat (g.m_weight ip).col_nonzero else s.1,
            if first_index g.Ny2.toNat (g.m_weight ip).col_nonzero
                ≤ last_index g.Ny2.toNat (g.m_weight ip).col_nonzero ∧
              s.2 < last_index g.Ny2.toNat (g.m_weight ip).col_nonzero
            then last_index g.Ny2.toNat (g.m_weight ip).col_nonzero else s.2)) (g.Ny2, -1) := by
    unfold igrid.optimise_find_limits
    refine foldl_proj (fun L : optimise_limits => (L.y2setmin, L.y2setmax)) _ _ ?_ _ _
    intro L ip
    have hN : (g.m_weight ip).m_zaxis.N = g.Ny2 := (hal ip).2.2
    dsimp only []
    unfold SparseMatrix3d.zmin SparseMatrix3d.zmax
    rw [hN]
    simp only [gt_iff_lt]
    split_ifs <;> rfl
  have hfold := limits_fold g.Ny2.toNat (fun ip => (g.m_weight ip).col_nonzero)
    (fun ip => (g.m_weight ip).xmax - (g.m_weight ip).xmin + 1 = 0) g.Ny2
    (fun a ha => by omega) g.m_Nproc.toNat
    (fun ip _ => by
      have hN : (g.m_weight ip).m_zaxis.N = g.Ny2 := (hal ip).2.2
      rw [← hN]
      exact skip_iff_cols (g.m_weight ip))
  rw [show g.optimise_find_limits.y2setmin
      = (g.optimise_find_limits.y2setmin, g.optimise_find_limits.y2setmax).1 from rfl,
    show g.optimise_find_limits.y2setmax
      = (g.optimise_find_limits.y2setmin, g.optimise_find_limits.y2setmax).2 from rfl, key]
  exact ⟨hfold.1, hfold.2.1⟩

/-- The limits that the loop of `optimise` finds on the `tau` axis are the first and the
last index of that axis at which some channel is filled. -/
theorem optimise_limits_tau (g : igrid K) (hal : g.channels_aligned) :
    g.optimise_find_limits.tausetmax = last_index g.Ntau.toNat g.populated_tau ∧
    ((∃ j, j < g.Ntau.toNat ∧ g.populated_tau j = true) →
      g.optimise_find_limits.tausetmin = first_index g.Ntau.toNat g.populated_tau) := by
  have key : (g.optimise_find_limits.tausetmin, g.optimise_find_limits.tausetmax)
      = (List.range g.m_Nproc.toNat).foldl (fun (s : Int × Int) (ip : Nat) =>
          if (g.m_weight ip).xmax - (g.m_weight ip).xmin + 1 = 0 then s
          else (if first_index g.Ntau.toNat (g.m_weight ip).layer_nonzero < s.1
              then first_index g.Ntau.toNat (g.m_weight ip).layer_nonzero else s.1,
            if first_index g.Ntau.toNat (g.m_weight ip).layer_nonzero
                ≤ last_index g.Ntau.toNat (g.m_weight ip).layer_nonzero ∧
              s.2 < last_index g.Ntau.toNat (g.m_weight ip).layer_nonzero
            then last_index g.Ntau.toNat (g.m_weight ip).layer_nonzero else s.2)) (g.Ntau, -1) := by
    unfold igrid.optimise_find_limits
    refine foldl_proj (fun L : optimise_limits => (L.tausetmin, L.tausetmax)) _ _ ?_ _ _
    intro L ip
    have hN : (g.m_weight ip).m_xaxis.N = g.Ntau := (hal ip).1
    dsimp only []
    unfold SparseMatrix3d.xmin SparseMatrix3d.xmax
    rw [hN]
    simp only [gt_iff_lt]
    split_ifs <;> rfl
  have hfold := limits_fold g.Ntau.toNat (fun ip => (g.m_weight ip).layer_nonzero)
    (fun ip => (g.m_weight ip).xmax - (g.m_weight ip).xmin + 1 = 0) g.Ntau
    (fun a ha => by omega) g.m_Nproc.toNat
    (fun ip _ => by
      have hN : (g.m_weight ip).m_xaxis.N = g.Ntau := (hal ip).1
      rw [← hN]
      exact skip_iff_layers (g.m_weight ip))
  rw [show g.optimise_find_limits.tausetmin
      = (g.optimise_find_limits.tausetmin, g.optimise_find_limits.tausetmax).1 from rfl,
    show g.optimise_find_limits.tausetmax
      = (g.optimise_find_limits.tausetmin, g.optimise_find_limits.tausetmax).2 from rfl, key]
  exact ⟨hfold.1, hfold.2.1⟩


/-- With a non-empty channel the limits found by `optimise` are the populated index range
of every axis, which lies within the axis. -/
theorem optimise_limits_of_filled (g : igrid K) (hal : g.channels_aligned)
    (hne : ∃ ip, ip < g.m_Nproc.toNat ∧ (g.m_weight ip).trimmed_xextent ≠ 0) :
    (g.optimise_find_limits.y1setmin = first_index g.Ny1.toNat g.populated_y1 ∧
      g.optimise_find_limits.y1setmax = last_index g.Ny1.toNat g.populated_y1 ∧
      0 ≤ first_index g.Ny1.toNat g.populated_y1 ∧
      first_index g.Ny1.toNat g.populated_y1 ≤ last_index g.Ny1.toNat g.populated_y1 ∧
      last_index g.Ny1.toNat g.populated_y1 ≤ g.Ny1 - 1) ∧
    (g.optimise_find_limits.y2setmin = first_index g.Ny2.toNat g.populated_y2 ∧
      g.optimise_find_limits.y2setmax = last_index g.Ny2.toNat g.populated_y2 ∧
      0 ≤ first_index g.Ny2.toNat g.populated_y2 ∧
      first_index g.Ny2.toNat g.populated_y2 ≤ last_index g.Ny2.toNat g.populated_y2 ∧
      last_index g.Ny2.toNat g.populated_y2 ≤ g.Ny2 - 1) ∧
    (g.optimise_find_limits.tausetmin = first_index g.Ntau.toNat g.populated_tau ∧
      g.optimise_find_limits.tausetmax = last_index g.Ntau.toNat g.populated_tau ∧
      0 ≤ first_index g.Ntau.toNat g.populated_tau ∧
      first_index g.Ntau.toNat g.populated_tau ≤ last_index g.Ntau.toNat g.populated_tau ∧
      last_index g.Ntau.toNat g.populated_tau ≤ g.Ntau - 1) := by
  obtain ⟨ip, hip, hx⟩ := hne
  rw [trimmed_xextent_eq] at hx
  obtain ⟨i, j, k, hi, hj, hk, hc⟩ := (xextent_ne_zero_iff _).1 hx
  have hi2 : i < g.Ntau.toNat := by rw [← (hal ip).1]; exact hi
  have hj2 : j < g.Ny1.toNat := by rw [← (hal ip).2.1]; exact hj
  have hk2 : k < g.Ny2.toNat := by rw [← (hal ip).2.2]; exact hk
  have hp1 : g.populated_y1 j = true := by
    unfold igrid.populated_y1
    rw [List.any_eq_true]
    exact ⟨ip, List.mem_range.2 hip, (row_nonzero_iff _ j).2 ⟨i, k, hi, hk, hc⟩⟩
  have hp2 : g.populated_y2 k = true := by
    unfold igrid.populated_y2
    rw [List.any_eq_true]
    exact ⟨ip, List.mem_range.2 hip, (col_nonzero_iff _ k).2 ⟨i, j, hi, hj, hc⟩⟩
  have hp3 : g.populated_tau i = true := by
    unfold igrid.populated_tau
    rw [List.any_eq_true]
    exact ⟨ip, List.mem_range.2 hip, (layer_nonzero_iff _ i).2 ⟨j, k, hj, hk, hc⟩⟩
  have b1 := index_range_of_mem g.Ny1.toNat g.populated_y1 j hj2 hp1
  have b2 := index_range_of_mem g.Ny2.toNat g.populated_y2 k hk2 hp2
  have b3 := index_range_of_mem g.Ntau.toNat g.populated_tau i hi2 hp3
  have l1 := optimise_limits_y1 g hal
  have l2 := optimise_limits_y2 g hal
  have l3 := optimise_limits_tau g hal
  refine ⟨⟨l1.2 ⟨j, hj2, hp1⟩, l1.1, b1.2.2.1, ?_, ?_⟩, ⟨l2.2 ⟨k, hk2, hp2⟩, l2.1, b2.2.2.1, ?_, ?_⟩,
    ⟨l3.2 ⟨i, hi2, hp3⟩, l3.1, b3.2.2.1, ?_, ?_⟩⟩ <;> omega

/-- When the loop of `optimise` has found filled cells, the new ranges are the old nodes
at the widened limits. -/
theorem optimise_ranges_of_limits (g : igrid K) (NQ2 Nx1 Nx2 : Int)
    (h : ¬ (g.optimise_find_limits.y1setmax = -1 ∨ g.optimise_find_limits.y2setmax = -1 ∨
      g.optimise_find_limits.tausetmax = -1)) :
    (g.optimise NQ2 Nx1 Nx2).m_y1min = g.gety1 (optimise_widen g.isOptimised
      g.optimise_find_limits.y1setmin g.optimise_find_limits.y1setmax g.m_Ny1 g.m_yorder).1 ∧
    (g.optimise NQ2 Nx1 Nx2).m_y1max = g.gety1 (optimise_widen g.isOptimised
      g.optimise_find_limits.y1setmin g.optimise_find_limits.y1setmax g.m_Ny1 g.m_yorder).2 ∧
    (g.optimise NQ2 Nx1 Nx2).m_y2min = g.gety2 (optimise_widen g.isOptimised
      g.optimise_find_limits.y2setmin g.optimise_find_limits.y2setmax g.m_Ny2 g.m_yorder).1 ∧
    (g.optimise NQ2 Nx1 Nx2).m_y2max = g.gety2 (optimise_widen g.isOptimised
      g.optimise_find_limits.y2setmin g.optimise_find_limits.y2setmax g.m_Ny2 g.m_yorder).2 ∧
    (g.optimise NQ2 Nx1 Nx2).m_taumin = g.gettau (optimise_widen g.isOptimised
      g.optimise_find_limits.tausetmin g.optimise_find_limits.tausetmax g.m_Ntau
      g.m_tauorder).1 ∧
    (g.optimise NQ2 Nx1 Nx2).m_taumax = g.gettau (optimise_widen g.isOptimised
      g.optimise_find_limits.tausetmin g.optimise_find_limits.tausetmax g.m_Ntau
      g.m_tauorder).2 := by
  unfold igrid.optimise
  rw [igrid_trim_eq]
  dsimp only []
  rw [if_neg h]
  exact ⟨rfl, rfl, rfl, rfl, rfl, rfl⟩

/-- The new ranges of `optimise` for a grid with a non-empty channel, in terms of the
populated index ranges. -/
theorem optimise_ranges_of_filled (g : igrid K) (NQ2 Nx1 Nx2 : Int)
    (hal : g.channels_aligned)
    (hN : g.m_Ny1 = g.Ny1 ∧ g.m_Ny2 = g.Ny2 ∧ g.m_Ntau = g.Ntau)
    (hne : ∃ ip, ip < g.m_Nproc.toNat ∧ (g.m_weight ip).trimmed_xextent ≠ 0) :
    ((g.optimise NQ2 Nx1 Nx2).m_y1min
        = g.gety1 (max (first_index g.Ny1.toNat g.populated_y1 - 1) 0) ∧
      (g.optimise NQ2 Nx1 Nx2).m_y1max
        = g.gety1 (min (last_index g.Ny1.toNat g.populated_y1
            + (if g.isOptimised then 1 else g.m_yorder + 1)) (g.Ny1 - 1))) ∧
    ((g.optimise NQ2 Nx1 Nx2).m_y2min
        = g.gety2 (max (first_index g.Ny2.toNat g.populated_y2 - 1) 0) ∧
      (g.optimise NQ2 Nx1 Nx2).m_y2max
        = g.gety2 (min (last_index g.Ny2.toNat g.populated_y2
            + (if g.isOptimised then 1 else g.m_yorder + 1)) (g.Ny2 - 1))) ∧
    ((g.optimise NQ2 Nx1 Nx2).m_taumin
        = g.gettau (max (first_index g.Ntau.toNat g.populated_tau - 1) 0) ∧
      (g.optimise NQ2 Nx1 Nx2).m_taumax
        = g.gettau (min (last_index g.Ntau.toNat g.populated_tau
            + (if g.isOptimised then 1 else g.m_tauorder + 1)) (g.Ntau - 1))) := by
  obtain ⟨⟨a1, a2, a3, a4, a5⟩, ⟨b1, b2, b3, b4, b5⟩, ⟨c1, c2, c3, c4, c5⟩⟩ :=
    optimise_limits_of_filled g hal hne
  have hnot : ¬ (g.optimise_find_limits.y1setmax = -1 ∨
      g.optimise_find_limits.y2setmax = -1 ∨ g.optimise_find_limits.tausetmax = -1) := by
    rw [a2, b2, c2]
    omega
  obtain ⟨r1, r2, r3, r4, r5, r6⟩ := optimise_ranges_of_limits g NQ2 Nx1 Nx2 hnot
  rw [r1, r2, r3, r4, r5, r6, a1, a2, b1, b2, c1, c2, hN.1, hN.2.1, hN.2.2,
    optimise_widen_eq _ _ _ _ _ a3 a5, optimise_widen_eq _ _ _ _ _ b3 b5,
    optimise_widen_eq _ _ _ _ _ c3 c5]
  exact ⟨⟨rfl, rfl⟩, ⟨rfl, rfl⟩, ⟨rfl, rfl⟩⟩

/-- C24 (amended): for an igrid whose channels share the axes of the grid and of which at
least one is not empty, `optimise` sets each axis range to
`[node(max(lo - 1, 0)), node(min(hi + m, N - 1))]`, where `[lo, hi]` is the populated
index range of that axis over all channels, `N` the old node count, `node` the old
axis nodes; the margin below is one node in either case, and the margin `m` above is 1 if
the grid was already optimised and `order + 1` if it was not; the new tensors of all
channels carry these ranges. -/
theorem optimise_ranges_with_margins (g : igrid K) (NQ2 Nx1 Nx2 : Int)
    (hal : g.channels_aligned)
    (hN : g.m_Ny1 = g.Ny1 ∧ g.m_Ny2 = g.Ny2 ∧ g.m_Ntau = g.Ntau)
    (hne : ∃ ip, ip < g.m_Nproc.toNat ∧ (g.m_weight ip).trimmed_xextent ≠ 0) :
    ((g.optimise NQ2 Nx1 Nx2).m_y1min
        = g.gety1 (max (first_index g.Ny1.toNat g.populated_y1 - 1) 0) ∧
      (g.optimise NQ2 Nx1 Nx2).m_y1max
        = g.gety1 (min (last_index g.Ny1.toNat g.populated_y1
            + (if g.isOptimised then 1 else g.m_yorder + 1)) (g.Ny1 - 1))) ∧
    ((g.optimise NQ2 Nx1 Nx2).m_y2min
        = g.gety2 (max (first_index g.Ny2.toNat g.populated_y2 - 1) 0) ∧
      (g.optimise NQ2 Nx1 Nx2).m_y2max
        = g.gety2 (min (last_index g.Ny2.toNat g.populated_y2
            + (if g.isOptimised then 1 else g.m_yorder + 1)) (g.Ny2 - 1))) ∧
    ((g.optimise NQ2 Nx1 Nx2).m_taumin
        = g.gettau (max (first_index g.Ntau.toNat g.populated_tau - 1) 0) ∧
      (g.optimise NQ2 Nx1 Nx2).m_taumax
        = g.gettau (min (last_index g.Ntau.toNat g.populated_tau
            + (if g.isOptimised then 1 else g.m_tauorder + 1)) (g.Ntau - 1))) ∧
    (∀ ip : Nat, (ip : Int) < g.m_Nproc →
      ((g.optimise NQ2 Nx1 Nx2).m_weight ip).m_yaxis
        = ⟨Nx1, (g.optimise NQ2 Nx1 Nx2).m_y1min, (g.optimise NQ2 Nx1 Nx2).m_y1max⟩ ∧
      ((g.optimise NQ2 Nx1 Nx2).m_weight ip).m_zaxis
        = ⟨Nx2, (g.optimise NQ2 Nx1 Nx2).m_y2min, (g.optimise NQ2 Nx1 Nx2).m_y2max⟩ ∧
      ((g.optimise NQ2 Nx1 Nx2).m_weight ip).m_xaxis
        = ⟨NQ2, (g.optimise NQ2 Nx1 Nx2).m_taumin, (g.optimise NQ2 Nx1 Nx2).m_taumax⟩) := by
  obtain ⟨h1, h2, h3⟩ := optimise_ranges_of_filled g NQ2 Nx1 Nx2 hal hN hne
  refine ⟨h1, h2, h3, fun ip hip => ?_⟩
  rw [(optimise_result g NQ2 Nx1 Nx2).1 ip hip]
  exact ⟨rfl, rfl, rfl⟩

/-- On an axis with a single populated index both ends of the populated range are that
index. -/
theorem index_range_single (N : Nat) (p : Nat → Bool) (a : Nat) (ha : a < N)
    (hp : ∀ j, j < N → (p j = true ↔ j = a)) :
    first_index N p = (a : Int) ∧ last_index N p = (a : Int) :=
  ⟨first_index_eq_of_least N p a ha ((hp a ha).2 rfl)
      (fun i hi hpi => le_of_eq ((hp i hi).1 hpi).symm),
    last_index_eq_of_greatest N p a ha ((hp a ha).2 rfl)
      (fun i hi hpi => le_of_eq ((hp i hi).1 hpi))⟩

theorem single_cell_grid_cell (i j k : Nat) :
    (single_cell_grid.m_weight 0).cell (i : Int) (j : Int) (k : Int) ≠ 0
      ↔ i = 3 ∧ j = 3 ∧ k = 3 := by
  show (if (i : Int) = 3 ∧ (j : Int) = 3 ∧ (k : Int) = 3 then (0 : ℚ) + 1 else 0) ≠ 0 ↔ _
  constructor
  · intro h
    by_contra hn
    apply h
    rw [if_neg]
    intro hh
    exact hn ⟨by omega, by omega, by omega⟩
  · rintro ⟨rfl, rfl, rfl⟩
    norm_num

/-- The only non-empty channel of `single_cell_grid` is filled at `(3, 3, 3)` alone. -/
theorem single_cell_grid_filled :
    (single_cell_grid.m_weight 0).trimmed_xextent ≠ 0 := by
  rw [trimmed_xextent_eq]
  exact (xextent_ne_zero_iff _).2
    ⟨3, 3, 3, by decide, by decide, by decide, (single_cell_grid_cell 3 3 3).2 ⟨rfl, rfl, rfl⟩⟩

theorem single_cell_grid_populated :
    (first_index single_cell_grid.Ny1.toNat single_cell_grid.populated_y1 = 3 ∧
      last_index single_cell_grid.Ny1.toNat single_cell_grid.populated_y1 = 3) ∧
    (first_index single_cell_grid.Ny2.toNat single_cell_grid.populated_y2 = 3 ∧
      last_index single_cell_grid.Ny2.toNat single_cell_grid.populated_y2 = 3) ∧
    (first_index single_cell_grid.Ntau.toNat single_cell_grid.populated_tau = 3 ∧
      last_index single_cell_grid.Ntau.toNat single_cell_grid.populated_tau = 3) := by
  refine ⟨index_range_single _ _ 3 (by decide) (fun j _ => ?_),
    index_range_single _ _ 3 (by decide) (fun k _ => ?_),
    index_range_single _ _ 3 (by decide) (fun i _ => ?_)⟩
  · show (([0] : List Nat).any fun (ip : Nat) => (single_cell_grid.m_weight ip).row_nonzero j)
      = true ↔ _
    simp only [List.any_cons, List.any_nil, Bool.or_false]
    rw [row_nonzero_iff]
    constructor
    · rintro ⟨i, k, -, -, hc⟩
      exact ((single_cell_grid_cell i j k).1 hc).2.1
    · rintro rfl
      exact ⟨3, 3, by decide, by decide, (single_cell_grid_cell 3 3 3).2 ⟨rfl, rfl, rfl⟩⟩
  · show (([0] : List Nat).any fun (ip : Nat) => (single_cell_grid.m_weight ip).col_nonzero k)
      = true ↔ _
    simp only [List.any_cons, List.any_nil, Bool.or_false]
    rw [col_nonzero_iff]
    constructor
    · rintro ⟨i, j, -, -, hc⟩
      exact ((single_cell_grid_cell i j k).1 hc).2.2
    · rintro rfl
      exact ⟨3, 3, by decide, by decide, (single_cell_grid_cell 3 3 3).2 ⟨rfl, rfl, rfl⟩⟩
  · show (([0] : List Nat).any fun (ip : Nat) =>
      (single_cell_grid.m_weight ip).layer_nonzero i) = true ↔ _
    simp only [List.any_cons, List.any_nil, Bool.or_false]
    rw [layer_nonzero_iff]
    constructor
    · rintro ⟨j, k, -, -, hc⟩
      exact ((single_cell_grid_cell i j k).1 hc).1
    · rintro rfl
      exact ⟨3, 3, by decide, by decide, (single_cell_grid_cell 3 3 3).2 ⟨rfl, rfl, rfl⟩⟩

/-- Witness of C24: the grid not yet optimised with the single filled cell `(3, 3, 3)`,
order 1 and 10 nodes per axis is cut to the nodes 2 and 5 on `y1`. -/
theorem optimise_ranges_with_margins_witness :
    (single_cell_grid.optimise 10 10 10).m_y1min
        = single_cell_grid.gety1 (max (first_index single_cell_grid.Ny1.toNat
            single_cell_grid.populated_y1 - 1) 0) ∧
      (single_cell_grid.optimise 10 10 10).m_y1max
        = single_cell_grid.gety1 (min (last_index single_cell_grid.Ny1.toNat
            single_cell_grid.populated_y1
            + (if single_cell_grid.isOptimised then 1 else single_cell_grid.m_yorder + 1))
            (single_cell_grid.Ny1 - 1)) :=
  (optimise_ranges_with_margins single_cell_grid 10 10 10 (fun _ => ⟨rfl, rfl, rfl⟩)
    ⟨rfl, rfl, rfl⟩ ⟨0, by decide, single_cell_grid_filled⟩).1

/-- Counterexample to C24 as worded: `single_cell_grid` is not optimised and has order 1,
so the claimed margin is 2 on both sides and the claimed lower end of the `y1` range is
node `max(3 - 2, 0) = 1`, which is 1; `optimise` moves the lower end by one node only, to
node 2, which is 2. The upper end is node `min(3 + 2, 9) = 5` for both. -/
theorem optimise_lower_margin_is_one :
    single_cell_grid.isOptimised = false ∧ single_cell_grid.m_yorder = 1 ∧
    first_index single_cell_grid.Ny1.toNat single_cell_grid.populated_y1 = 3 ∧
    last_index single_cell_grid.Ny1.toNat single_cell_grid.populated_y1 = 3 ∧
    (single_cell_grid.optimise 10 10 10).m_y1min = 2 ∧
    (single_cell_grid.optimise 10 10 10).m_y1max = 5 ∧
    single_cell_grid.gety1 (max (first_index single_cell_grid.Ny1.toNat
      single_cell_grid.populated_y1 - (single_cell_grid.m_yorder + 1)) 0) = 1 := by
  obtain ⟨⟨hlo, hhi⟩, -, -⟩ := single_cell_grid_populated
  obtain ⟨⟨h1, h2⟩, -, -⟩ := optimise_ranges_of_filled single_cell_grid 10 10 10
    (fun _ => ⟨rfl, rfl, rfl⟩) ⟨rfl, rfl, rfl⟩ ⟨0, by decide, single_cell_grid_filled⟩
  refine ⟨rfl, rfl, hlo, hhi, ?_, ?_, ?_⟩
  · rw [h1, hlo]
    norm_num [igrid.gety1, axis.node, axis.delta, single_cell_grid, SparseMatrix3d.add_cell,
      SparseMatrix3d.mk_empty]
  · rw [h2, hhi]
    norm_num [igrid.gety1, axis.node, axis.delta, single_cell_grid, SparseMatrix3d.add_cell,
      SparseMatrix3d.mk_empty, igrid.isOptimised, igrid.Ny1, uniform_grid, igrid.construct]
  · rw [hlo]
    norm_num [igrid.gety1, axis.node, axis.delta, single_cell_grid, SparseMatrix3d.add_cell,
      SparseMatrix3d.mk_empty, uniform_grid, igrid.construct]

/-! ### `optimise` and the orders -/

/-- C31 (amended): `optimise(NQ2, Nx1, Nx2)` keeps both interpolation orders and replaces
the node counts by the requested ones without lowering an order, so the grid after
`optimise` satisfies `N_tau - 1 ≥ tau_order`, `N_y1 - 1 ≥ y_order` and
`N_y2 - 1 ≥ y_order` exactly when the requested counts satisfy `NQ2 - 1 ≥ tau_order`,
`Nx1 - 1 ≥ y_order` and `Nx2 - 1 ≥ y_order`. -/
theorem optimise_axis_invariant_iff (g : igrid K) (NQ2 Nx1 Nx2 : Int)
    (hNproc : 0 < g.m_Nproc) :
    ((g.optimise NQ2 Nx1 Nx2).m_tauorder = g.m_tauorder ∧
      (g.optimise NQ2 Nx1 Nx2).m_yorder = g.m_yorder) ∧
    ((g.optimise NQ2 Nx1 Nx2).m_Ntau = NQ2 ∧ (g.optimise NQ2 Nx1 Nx2).m_Ny1 = Nx1 ∧
      (g.optimise NQ2 Nx1 Nx2).m_Ny2 = Nx2) ∧
    ((g.optimise NQ2 Nx1 Nx2).Ntau = NQ2 ∧ (g.optimise NQ2 Nx1 Nx2).Ny1 = Nx1 ∧
      (g.optimise NQ2 Nx1 Nx2).Ny2 = Nx2) ∧
    (((g.optimise NQ2 Nx1 Nx2).Ntau - 1 ≥ (g.optimise NQ2 Nx1 Nx2).m_tauorder ∧
        (g.optimise NQ2 Nx1 Nx2).Ny1 - 1 ≥ (g.optimise NQ2 Nx1 Nx2).m_yorder ∧
        (g.optimise NQ2 Nx1 Nx2).Ny2 - 1 ≥ (g.optimise NQ2 Nx1 Nx2).m_yorder) ↔
      (NQ2 - 1 ≥ g.m_tauorder ∧ Nx1 - 1 ≥ g.m_yorder ∧ Nx2 - 1 ≥ g.m_yorder)) := by
  obtain ⟨hw, -, -, hN, hy, ht, -⟩ := optimise_result g NQ2 Nx1 Nx2
  have h0 := hw 0 (by exact_mod_cast hNproc)
  have a1 : (g.optimise NQ2 Nx1 Nx2).Ntau = NQ2 := by
    unfold igrid.Ntau; rw [h0]; rfl
  have a2 : (g.optimise NQ2 Nx1 Nx2).Ny1 = Nx1 := by
    unfold igrid.Ny1; rw [h0]; rfl
  have a3 : (g.optimise NQ2 Nx1 Nx2).Ny2 = Nx2 := by
    unfold igrid.Ny2; rw [h0]; rfl
  refine ⟨⟨ht, hy⟩, hN, ⟨a1, a2, a3⟩, ?_⟩
  rw [a1, a2, a3, ht, hy]

/-- Witness of C31: the grid with the single filled cell, of order 1, optimised to
`(4, 3, 2)` nodes. -/
theorem optimise_axis_invariant_iff_witness :
    (single_cell_grid.optimise 4 3 2).Ntau - 1 ≥ (single_cell_grid.optimise 4 3 2).m_tauorder ∧
      (single_cell_grid.optimise 4 3 2).Ny1 - 1 ≥ (single_cell_grid.optimise 4 3 2).m_yorder ∧
      (single_cell_grid.optimise 4 3 2).Ny2 - 1 ≥ (single_cell_grid.optimise 4 3 2).m_yorder :=
  (optimise_axis_invariant_iff single_cell_grid 4 3 2 (by decide)).2.2.2.2
    ⟨by decide, by decide, by decide⟩

/-- Counterexample to C31: the fresh grid of 5 nodes per axis and order 2 satisfies
`N - 1 ≥ order` on every axis; after `optimise(2, 2, 2)`, whose arguments are all at least
1, every axis has 2 nodes and the orders are still 2. -/
theorem optimise_breaks_axis_invariant :
    ((uniform_grid (fun _ x => -x) (fun _ y => -y) 5 0 4 2 1 : igrid ℚ).Ntau - 1
        ≥ (uniform_grid (fun _ x => -x) (fun _ y => -y) 5 0 4 2 1 : igrid ℚ).m_tauorder ∧
      (uniform_grid (fun _ x => -x) (fun _ y => -y) 5 0 4 2 1 : igrid ℚ).Ny1 - 1
        ≥ (uniform_grid (fun _ x => -x) (fun _ y => -y) 5 0 4 2 1 : igrid ℚ).m_yorder ∧
      (uniform_grid (fun _ x => -x) (fun _ y => -y) 5 0 4 2 1 : igrid ℚ).Ny2 - 1
        ≥ (uniform_grid (fun _ x => -x) (fun _ y => -y) 5 0 4 2 1 : igrid ℚ).m_yorder) ∧
    ((uniform_grid (fun _ x => -x) (fun _ y => -y) 5 0 4 2 1 : igrid ℚ).optimise 2 2 2).Ntau
      = 2 ∧
    ((uniform_grid (fun _ x => -x) (fun _ y => -y) 5 0 4 2 1 : igrid ℚ).optimise 2 2 2).Ny1
      = 2 ∧
    ((uniform_grid (fun _ x => -x) (fun _ y => -y) 5 0 4 2 1 : igrid ℚ).optimise 2 2 2).Ny2
      = 2 ∧
    ((uniform_grid (fun _ x => -x) (fun _ y => -y) 5 0 4 2 1 : igrid ℚ).optimise 2 2
      2).m_tauorder = 2 ∧
    ((uniform_grid (fun _ x => -x) (fun _ y => -y) 5 0 4 2 1 : igrid ℚ).optimise 2 2
      2).m_yorder = 2 := by
  obtain ⟨hw, -, -, -, hy, ht, -⟩ := optimise_result
    (uniform_grid (fun _ x => -x) (fun _ y => -y) 5 0 4 2 1 : igrid ℚ) 2 2 2
  have h0 := hw 0 (by decide)
  refine ⟨⟨by decide, by decide, by decide⟩, ?_, ?_, ?_, ht, hy⟩
  · unfold igrid.Ntau; rw [h0]; rfl
  · unfold igrid.Ny1; rw [h0]; rfl
  · unfold igrid.Ny2; rw [h0]; rfl

/-! ### The memo table of `fac` -/

/-- The loop of `fac` extends a table of factorials up to `i` and stops there. -/
theorem fac_loop_invariant (i : Int) (hi : i ≤ 33) : ∀ (n : Nat) (s : fac_state K),
    (i - s.ntop).toNat = n → 0 ≤ s.ntop → s.ntop ≤ 33 →
    (∀ k : Nat, (k : Int) ≤ s.ntop → s.f k = (k.factorial : K)) →
    (fac_loop i s).ntop = max s.ntop i ∧
      ∀ k : Nat, (k : Int) ≤ (fac_loop i s).ntop → (fac_loop i s).f k = (k.factorial : K) := by
  intro n
  induction n with
  | zero =>
    intro s h _ _ hf
    rw [fac_loop, if_neg (by omega)]
    exact ⟨by omega, hf⟩
  | succ n ih =>
    intro s h h0 h33 hf
    rw [fac_loop, if_pos (by omega)]
    have hstep := ih
      { ntop := s.ntop + 1,
        f := Function.update s.f (s.ntop + 1).toNat
          (s.f s.ntop.toNat * ((s.ntop + 1 : Int) : K)) }
      (by show (i - (s.ntop + 1)).toNat = n; omega)
      (by show 0 ≤ s.ntop + 1; omega) (by show s.ntop + 1 ≤ 33; omega)
      (by
        intro k hk
        have hk2 : (k : Int) ≤ s.ntop + 1 := hk
        show Function.update s.f (s.ntop + 1).toNat
          (s.f s.ntop.toNat * ((s.ntop + 1 : Int) : K)) k = _
        by_cases hkn : k = (s.ntop + 1).toNat
        · rw [hkn, Function.update_same, hf s.ntop.toNat (by omega)]
          have e1 : (s.ntop + 1).toNat = s.ntop.toNat + 1 := by omega
          rw [e1, Nat.factorial_succ]
          have e2 : ((s.ntop + 1 : Int) : K) = ((s.ntop.toNat + 1 : Nat) : K) := by
            have : s.ntop + 1 = ((s.ntop.toNat + 1 : Nat) : Int) := by omega
            rw [this]
            norm_cast
          rw [e2]
          push_cast
          ring
        · rw [Function.update_noteq hkn]
          exact hf k (by omega))
    refine ⟨?_, hstep.2⟩
    rw [hstep.1]
    show max (s.ntop + 1) i = max s.ntop i
    omega

/-- The invariant of the static variables of `fac` over every history of calls. -/
theorem fac_history_invariant (calls : List Int) :
    (4 ≤ (fac_history calls : fac_state K).ntop ∧
      (fac_history calls : fac_state K).ntop ≤ 33) ∧
    ∀ k : Nat, (k : Int) ≤ (fac_history calls : fac_state K).ntop →
      (fac_history calls : fac_state K).f k = (k.factorial : K) := by
  unfold fac_history
  induction calls using List.reverseRecOn with
  | nil =>
    refine ⟨⟨le_refl _, by show (4 : Int) ≤ 33; omega⟩, ?_⟩
    intro k hk
    have hk4 : k ≤ 4 := by
      have : (k : Int) ≤ 4 := hk
      omega
    interval_cases k <;> norm_num [fac_state.init, Nat.factorial]
  | append_singleton l i ih =>
    rw [List.foldl_append]
    simp only [List.foldl_cons, List.foldl_nil]
    generalize List.foldl (fun s i => (fac_call s i).2) (fac_state.init : fac_state K) l = s
      at ih ⊢
    obtain ⟨⟨h4, h33⟩, hf⟩ := ih
    unfold fac_call
    by_cases h1 : i < 0
    · rw [if_pos h1]
      exact ⟨⟨h4, h33⟩, hf⟩
    · rw [if_neg h1]
      by_cases h2 : i > 33
      · rw [if_pos h2]
        exact ⟨⟨h4, h33⟩, hf⟩
      · rw [if_neg h2]
        obtain ⟨hn, hf2⟩ := fac_loop_invariant i (by omega) _ s rfl (by omega) h33 hf
        refine ⟨⟨?_, ?_⟩, hf2⟩
        · show 4 ≤ (fac_loop i s).ntop
          rw [hn]; omega
        · show (fac_loop i s).ntop ≤ 33
          rw [hn]; omega

/-- C32: for every history of earlier calls, that is, every reachable state of the static
memo table `f` and its high-water mark `ntop`: the mark stays within `4..33`, the table
holds `f[k] = k!` for every `k` up to the mark, `fac(i)` returns `i!` for every `i` with
`0 ≤ i ≤ 33` and leaves a state with the same invariant, and for `i < 0` or `i > 33` it
returns 0 and leaves the table and the mark unchanged; the value returned never depends on
the history. -/
theorem fac_memo_table (calls : List Int) (i : Int) :
    (4 ≤ (fac_history calls : fac_state K).ntop ∧
      (fac_history calls : fac_state K).ntop ≤ 33) ∧
    (∀ k : Nat, (k : Int) ≤ (fac_history calls : fac_state K).ntop →
      (fac_history calls : fac_state K).f k = (k.factorial : K)) ∧
    (0 ≤ i → i ≤ 33 →
      (fac_call (fac_history calls : fac_state K) i).1 = (i.toNat.factorial : K) ∧
      (fac_call (fac_history calls : fac_state K) i).2.ntop
        = max (fac_history calls : fac_state K).ntop i) ∧
    (i < 0 ∨ i > 33 →
      fac_call (fac_history calls : fac_state K) i = (0, fac_history calls)) ∧
    (fac_call (fac_history calls : fac_state K) i).1 = fac i := by
  obtain ⟨⟨h4, h33⟩, hf⟩ := fac_history_invariant (K := K) calls
  have hval : 0 ≤ i → i ≤ 33 →
      (fac_call (fac_history calls : fac_state K) i).1 = (i.toNat.factorial : K) ∧
      (fac_call (fac_history calls : fac_state K) i).2.ntop
        = max (fac_history calls : fac_state K).ntop i := by
    intro h0 h1
    obtain ⟨hn, hf2⟩ := fac_loop_invariant i h1 _ (fac_history calls : fac_state K) rfl
      (by omega) h33 hf
    unfold fac_call
    rw [if_neg (by omega), if_neg (by omega)]
    refine ⟨?_, hn⟩
    show (fac_loop i (fac_history calls)).f i.toNat = _
    exact hf2 i.toNat (by rw [hn]; omega)
  have hout : i < 0 ∨ i > 33 →
      fac_call (fac_history calls : fac_state K) i = (0, fac_history calls) := by
    intro h
    unfold fac_call
    by_cases h1 : i < 0
    · rw [if_pos h1]
    · rw [if_neg h1, if_pos (by omega)]
  refine ⟨⟨h4, h33⟩, hf, hval, hout, ?_⟩
  by_cases hin : 0 ≤ i ∧ i ≤ 33
  · rw [(hval hin.1 hin.2).1]
    have e := fac_eq (K := K) i.toNat (by omega)
    rw [Int.toNat_of_nonneg hin.1] at e
    rw [e]
  · have hor : i < 0 ∨ i > 33 := by omega
    rw [hout hor]
    unfold fac
    by_cases h1 : i < 0
    · rw [if_pos h1]
    · rw [if_neg h1, if_pos (by omega)]

/-- Witness of C32: after the calls `fac(7)`, `fac(-1)`, `fac(40)` and `fac(3)` the call
`fac(10)` returns `10!`. -/
theorem fac_memo_table_witness :
    (fac_call (fac_history [7, -1, 40, 3] : fac_state ℚ) 10).1 = 3628800 := by
  have h := ((fac_memo_table (K := ℚ) [7, -1, 40, 3] 10).2.2.1 (by decide) (by decide)).1
  rw [h]
  norm_num [Nat.factorial]

/-! ### The copy constructor -/

theorem copy_loop (w0 v : Nat → SparseMatrix3d K) (n ip : Nat) :
    (List.range n).foldl (fun w (ip : Nat) => Function.update w ip (v ip).copy) w0 ip
      = if ip < n then v ip else w0 ip := by
  induction n with
  | zero => simp
  | succ n ih =>
    rw [List.range_succ, List.foldl_append]
    simp only [List.foldl_cons, List.foldl_nil]
    by_cases h : ip = n
    · subst h
      rw [Function.update_same, if_pos (Nat.lt_succ_self _)]
      rfl
    · rw [Function.update_noteq h, ih]
      by_cases h2 : ip < n
      · rw [if_pos h2, if_pos (by omega)]
      · rw [if_neg h2, if_neg (by omega)]

/-- C33: the copy constructor copies the node counts, ranges and spacings of all three
axes, both interpolation orders, the channel count, the transform name and pair,
`transvar`, the reweight, symmetrise and optimised flags and every channel tensor; the DIS
flag it does not copy: the member `m_DISgrid` of the new object is the indeterminate value
it happens to hold, and the constructed object is the same whatever the DIS flag of the
source is. -/
theorem copy_constructor_skips_DISgrid (m : CMath K) (g : igrid K) (indeterminate : Bool)
    (hreg : g.transform_registered m) :
    ∃ r, igrid.copy m g indeterminate = Except.ok r ∧
      (r.m_Ny1 = g.m_Ny1 ∧ r.m_y1min = g.m_y1min ∧ r.m_y1max = g.m_y1max ∧
        r.m_deltay1 = g.m_deltay1) ∧
      (r.m_Ny2 = g.m_Ny2 ∧ r.m_y2min = g.m_y2min ∧ r.m_y2max = g.m_y2max ∧
        r.m_deltay2 = g.m_deltay2) ∧
      (r.m_Ntau = g.m_Ntau ∧ r.m_taumin = g.m_taumin ∧ r.m_taumax = g.m_taumax ∧
        r.m_deltatau = g.m_deltatau) ∧
      (r.m_yorder = g.m_yorder ∧ r.m_tauorder = g.m_tauorder ∧ r.m_Nproc = g.m_Nproc) ∧
      (r.m_transform = g.m_transform ∧ r.mfx = g.mfx ∧ r.mfy = g.mfy ∧
        r.m_transvar = g.m_transvar) ∧
      (r.m_reweight = g.m_reweight ∧ r.m_symmetrise = g.m_symmetrise ∧
        r.m_optimised = g.m_optimised) ∧
      (∀ ip : Nat, ip < g.m_Nproc.toNat → r.m_weight ip = g.m_weight ip) ∧
      r.m_DISgrid = indeterminate ∧
      ∀ b : Bool, igrid.copy m { g with m_DISgrid := b } indeterminate = Except.ok r := by
  obtain ⟨fmap, hf, hl⟩ := hreg
  have hcopy : ∀ b : Bool, igrid.copy m { g with m_DISgrid := b } indeterminate
      = Except.ok
        { mfy := g.mfy, mfx := g.mfx,
          m_Ny1 := g.m_Ny1,
          m_y1min := g.m_y1min, m_y1max := g.m_y1max, m_deltay1 := g.m_deltay1,
          m_Ny2 := g.m_Ny2,
          m_y2min := g.m_y2min, m_y2max := g.m_y2max, m_deltay2 := g.m_deltay2,
          m_yorder := g.m_yorder,
          m_Ntau := g.m_Ntau,
          m_taumin := g.m_taumin, m_taumax := g.m_taumax, m_deltatau := g.m_deltatau,
          m_tauorder := g.m_tauorder,
          m_Nproc := g.m_Nproc,
          m_transform := g.m_transform,
          m_transvar := g.m_transvar,
          m_reweight := g.m_reweight,
          m_symmetrise := g.m_symmetrise,
          m_optimised := g.m_optimised,
          m_DISgrid := indeterminate,
          m_fmap := fmap,
          m_weight :=
            (List.range g.m_Nproc.toNat).foldl
              (fun w (ip : Nat) => Function.update w ip (g.m_weight ip).copy)
              (fun _ => SparseMatrix3d.mk_empty 0 0 0 0 0 0 0 0 0) } := by
    intro b
    unfold igrid.copy
    simp only [hf, bind, Except.bind]
    rw [hl]
  have hg : igrid.copy m g indeterminate = igrid.copy m { g with m_DISgrid := g.m_DISgrid }
      indeterminate := rfl
  refine ⟨_, hg.trans (hcopy g.m_DISgrid), ⟨rfl, rfl, rfl, rfl⟩, ⟨rfl, rfl, rfl, rfl⟩,
    ⟨rfl, rfl, rfl, rfl⟩, ⟨rfl, rfl, rfl⟩, ⟨rfl, rfl, rfl, rfl⟩, ⟨rfl, rfl, rfl⟩, ?_, rfl, hcopy⟩
  intro ip hip
  show (List.range g.m_Nproc.toNat).foldl
    (fun w (ip : Nat) => Function.update w ip (g.m_weight ip).copy)
    (fun _ => SparseMatrix3d.mk_empty 0 0 0 0 0 0 0 0 0) ip = _
  rw [copy_loop, if_pos hip]

/-- The grid of 5 nodes over `[0, 4]` with the registered pair of the transform `f0` and
the DIS flag set is registered too. -/
theorem f0_dis_registered :
    ({ (uniform_grid
      (_fy0 (⟨Real.exp, Real.log, fun x => Real.log x / Real.log 10, Real.sqrt,
        fun a b => a ^ b, Real.pi⟩ : CMath ℝ))
      (_fx0 (⟨Real.exp, Real.log, fun x => Real.log x / Real.log 10, Real.sqrt,
        fun a b => a ^ b, Real.pi⟩ : CMath ℝ)) 5 0 4 2 1 : igrid ℝ) with
        m_DISgrid := true } : igrid ℝ).transform_registered
      ⟨Real.exp, Real.log, fun x => Real.log x / Real.log 10, Real.sqrt, fun a b => a ^ b,
        Real.pi⟩ :=
  ⟨_, init_fmap_nil _, by simp [uniform_grid, igrid.construct, List.lookup]⟩

/-- Witness of C33: the copy of a grid whose DIS flag is set, where the member of the new
object happens to hold `false`: the node count is copied, the DIS flag is not. -/
theorem copy_constructor_skips_DISgrid_witness :
    Except.map (fun r : igrid ℝ => (r.m_Ny1, r.m_DISgrid))
      (igrid.copy
        (⟨Real.exp, Real.log, fun x => Real.log x / Real.log 10, Real.sqrt,
          fun a b => a ^ b, Real.pi⟩ : CMath ℝ)
        ({ (uniform_grid
          (_fy0 (⟨Real.exp, Real.log, fun x => Real.log x / Real.log 10, Real.sqrt,
            fun a b => a ^ b, Real.pi⟩ : CMath ℝ))
          (_fx0 (⟨Real.exp, Real.log, fun x => Real.log x / Real.log 10, Real.sqrt,
            fun a b => a ^ b, Real.pi⟩ : CMath ℝ)) 5 0 4 2 1 : igrid ℝ) with
            m_DISgrid := true } : igrid ℝ) false)
      = Except.ok (5, false) := by
  obtain ⟨r, hr, ⟨h1, -⟩, -, -, -, -, -, -, hd, -⟩ :=
    copy_constructor_skips_DISgrid _ _ false f0_dis_registered
  rw [hr]
  simp only [Except.map, h1, hd]
  rfl

/-! ### The fractional offsets of `fill` -/

/-- On an axis with spacing `delta > 0` and an order `p` with `1 ≤ p ≤ N - 1`, a
coordinate inside `[min, max]` lies between the node `k` of the clamp and the node
`k + p`, in units of the spacing. -/
theorem spec_offset_bounds (a : axis K) (p : Int) (y : K) (hd : 0 < a.delta) (h1 : 1 ≤ p)
    (hp : p ≤ a.N - 1) (hy0 : a.min ≤ y) (hy1 : y ≤ a.max) :
    0 ≤ (y - a.node (lower_node_spec a.min a.delta a.N p y)) / a.delta ∧
    (y - a.node (lower_node_spec a.min a.delta a.N p y)) / a.delta ≤ (p : K) := by
  have hN : ((a.N : K) - 1) ≠ 0 := by
    intro h
    have : a.delta = 0 := by simp [axis.delta, h]
    linarith
  have hmul : a.delta * ((a.N : K) - 1) = a.max - a.min := by
    unfold axis.delta
    field_simp
  have hu : ∀ k : Int, (y - a.node k) / a.delta = (y - a.min) / a.delta - (k : K) := by
    intro k
    unfold axis.node
    field_simp
    ring
  have ht0 : 0 ≤ (y - a.min) / a.delta := div_nonneg (by linarith) hd.le
  have ht1 : (y - a.min) / a.delta ≤ ((a.N - 1 : Int) : K) := by
    rw [div_le_iff₀ hd]
    push_cast
    nlinarith
  have hf0 : 0 ≤ ⌊(y - a.min) / a.delta⌋ := Int.floor_nonneg.mpr ht0
  have hfl : ((⌊(y - a.min) / a.delta⌋ : Int) : K) ≤ (y - a.min) / a.delta := Int.floor_le _
  have hfu : (y - a.min) / a.delta < ((⌊(y - a.min) / a.delta⌋ : Int) : K) + 1 :=
    Int.lt_floor_add_one _
  rw [hu]
  generalize hk : lower_node_spec a.min a.delta a.N p y = k
  unfold lower_node_spec at hk
  have hk1 : k ≤ ⌊(y - a.min) / a.delta⌋ := by omega
  have hk2 : k = a.N - 1 - p ∨ ⌊(y - a.min) / a.delta⌋ + 1 ≤ k + p := by omega
  have hk1K : (k : K) ≤ ((⌊(y - a.min) / a.delta⌋ : Int) : K) := by exact_mod_cast hk1
  constructor
  · linarith
  · rcases hk2 with h | h
    · rw [h]
      push_cast at ht1 ⊢
      linarith
    · have hK : ((⌊(y - a.min) / a.delta⌋ : Int) : K) + 1 ≤ (k : K) + (p : K) := by
        exact_mod_cast h
      linarith

/-- C34: for every axis with spacing `delta > 0`, `N` nodes and order `p` with
`1 ≤ p ≤ N - 1`, and every coordinate `y` with `ymin ≤ y ≤ ymax`, the fractional offset
`u = (y - node(k))/delta` that `fill` passes to `fI`, with `k` the node returned by `fk1`,
`fk2` or `fkappa`, satisfies `0 ≤ u ≤ p`. -/
theorem fill_offsets_within_stencil (m : CMath K) (g : igrid K) (x1 x2 Q2 : K) :
    (0 < g.deltay1 → 1 ≤ g.m_yorder → g.m_yorder ≤ g.Ny1 - 1 →
      g.y1min ≤ g.fy x1 → g.fy x1 ≤ g.y1max →
      0 ≤ g.fill_u_y1 x1 ∧ g.fill_u_y1 x1 ≤ (g.m_yorder : K)) ∧
    (0 < g.deltay2 → 1 ≤ g.m_yorder → g.m_yorder ≤ g.Ny2 - 1 →
      g.y2min ≤ g.fy x2 → g.fy x2 ≤ g.y2max →
      0 ≤ g.fill_u_y2 x2 ∧ g.fill_u_y2 x2 ≤ (g.m_yorder : K)) ∧
    (0 < g.deltatau → 1 ≤ g.m_tauorder → g.m_tauorder ≤ g.Ntau - 1 →
      g.taumin ≤ ftau m Q2 → ftau m Q2 ≤ g.taumax →
      0 ≤ g.fill_u_tau m Q2 ∧ g.fill_u_tau m Q2 ≤ (g.m_tauorder : K)) := by
  refine ⟨fun hd h1 hp hy0 hy1 => ?_, fun hd h1 hp hy0 hy1 => ?_,
    fun hd h1 hp hy0 hy1 => ?_⟩
  · unfold igrid.fill_u_y1
    rw [fk1_eq_spec g x1 hp]
    exact spec_offset_bounds (g.m_weight 0).m_yaxis g.m_yorder (g.fy x1) hd h1 hp hy0 hy1
  · unfold igrid.fill_u_y2
    rw [fk2_eq_spec g x2 hp]
    exact spec_offset_bounds (g.m_weight 0).m_zaxis g.m_yorder (g.fy x2) hd h1 hp hy0 hy1
  · unfold igrid.fill_u_tau
    rw [fkappa_eq_spec m g Q2 hp]
    exact spec_offset_bounds (g.m_weight 0).m_xaxis g.m_tauorder (ftau m Q2) hd h1 hp hy0 hy1

/-- Witness of C34: the grid of 5 nodes over `[0, 4]` with order 2 and the transform
`y = -x`, filled at `x1 = -7/2`, that is `y = 7/2`: the node is 2 and the offset `3/2`. -/
theorem fill_offsets_within_stencil_witness :
    0 ≤ (uniform_grid (fun _ x => -x) (fun _ y => -y) 5 0 4 2 1 : igrid ℚ).fill_u_y1 (-7 / 2) ∧
      (uniform_grid (fun _ x => -x) (fun _ y => -y) 5 0 4 2 1 : igrid ℚ).fill_u_y1 (-7 / 2)
        ≤ (((uniform_grid (fun _ x => -x) (fun _ y => -y) 5 0 4 2 1 : igrid ℚ).m_yorder : Int)
          : ℚ) :=
  (fill_offsets_within_stencil
    (⟨fun x => x, fun x => x, fun x => x, fun x => x, fun a _ => a, 3⟩ : CMath ℚ)
    (uniform_grid (fun _ x => -x) (fun _ y => -y) 5 0 4 2 1 : igrid ℚ) (-7 / 2) 0 1).1
    (by norm_num [uniform_grid, igrid.construct, igrid.deltay1, axis.delta,
      SparseMatrix3d.mk_empty])
    (by decide) (by decide)
    (by norm_num [uniform_grid, igrid.construct, igrid.y1min, igrid.fy,
      SparseMatrix3d.mk_empty])
    (by norm_num [uniform_grid, igrid.construct, igrid.y1max, igrid.fy,
      SparseMatrix3d.mk_empty])

/-! ### The divisions by `N - 1` -/

theorem standard_spacing_eq (min max : K) (N : Int) :
    standard_spacing min max N
      = some (if N > 1 then (max - min) / ((N : K) - 1) else 0) := by
  unfold standard_spacing spacing_quotient
  by_cases h : N > 1
  · rw [if_pos h, if_pos h, if_neg (by omega)]
    push_cast
    rfl
  · rw [if_neg h, if_neg h]

/-- What the standard constructor builds is registered, and its spacings are the guarded
ones. -/
theorem standard_spacings (m : CMath K) (transvar : K) (NQ2 : Int) (Q2min Q2max : K)
    (Q2order Nx : Int) (xmin xmax : K) (xorder : Int) (transform : String) (Nproc : Int)
    (disflag : Bool) (g : igrid K)
    (h : igrid.standard m transvar NQ2 Q2min Q2max Q2order Nx xmin xmax xorder transform Nproc
      disflag = Except.ok g) :
    g.transform_registered m ∧
    g.guarded_spacings = some (g.m_deltay1, g.m_deltay2, g.m_deltatau) ∧
    (g.m_Ny1 = Nx ∧ g.m_Ny2 = (if disflag then 1 else Nx) ∧ g.m_Ntau = NQ2) ∧
    g.m_DISgrid = disflag := by
  unfold igrid.standard at h
  simp only [init_fmap_nil, bind, Except.bind] at h
  split at h
  · cases h
  · rename_i t ht
    injection h with h
    subst h
    refine ⟨⟨_, init_fmap_nil m, ?_⟩, ?_, ⟨rfl, rfl, rfl⟩, rfl⟩
    · exact ht
    · unfold igrid.guarded_spacings
      simp only [standard_spacing_eq, bind, Option.bind]
      rfl

/-- The spacings that the read constructor stores are the quotients
`(max - min)/(N - 1)` of the members it has just read, without a test on `N`. -/
theorem read_spacing_expressions (m : CMath K) (f : igrid_record K) (r : igrid K)
    (hr : igrid.read m f = Except.ok r) :
    r.m_deltay1 = (r.m_y1max - r.m_y1min) / (((r.m_Ny1 - 1 : Int)) : K) ∧
    r.m_deltay2 = (r.m_y2max - r.m_y2min) / (((r.m_Ny2 - 1 : Int)) : K) ∧
    r.m_deltatau = (r.m_taumax - r.m_taumin) / (((r.m_Ntau - 1 : Int)) : K) := by
  unfold igrid.read at hr
  simp only [init_fmap_nil, bind, Except.bind] at hr
  split at hr
  · cases hr
  · split at hr
    · injection hr with hr
      subst hr
      exact ⟨rfl, rfl, rfl⟩
    · cases hr

/-- The spacings that `optimise` stores are the quotients `(max - min)/(N - 1)` of the
members it has just set, in both branches, without a test on `N`. -/
theorem optimise_spacing_expressions (g : igrid K) (NQ2 Nx1 Nx2 : Int) :
    (g.optimise NQ2 Nx1 Nx2).m_deltay1
      = ((g.optimise NQ2 Nx1 Nx2).m_y1max - (g.optimise NQ2 Nx1 Nx2).m_y1min) /
        ((((g.optimise NQ2 Nx1 Nx2).m_Ny1 - 1 : Int)) : K) ∧
    (g.optimise NQ2 Nx1 Nx2).m_deltay2
      = ((g.optimise NQ2 Nx1 Nx2).m_y2max - (g.optimise NQ2 Nx1 Nx2).m_y2min) /
        ((((g.optimise NQ2 Nx1 Nx2).m_Ny2 - 1 : Int)) : K) ∧
    (g.optimise NQ2 Nx1 Nx2).m_deltatau
      = ((g.optimise NQ2 Nx1 Nx2).m_taumax - (g.optimise NQ2 Nx1 Nx2).m_taumin) /
        ((((g.optimise NQ2 Nx1 Nx2).m_Ntau - 1 : Int)) : K) := by
  unfold igrid.optimise
  rw [igrid_trim_eq]
  by_cases h : g.optimise_find_limits.y1setmax = -1 ∨
      g.optimise_find_limits.y2setmax = -1 ∨ g.optimise_find_limits.tausetmax = -1
  · dsimp only []
    rw [if_pos h]
    exact ⟨rfl, rfl, rfl⟩
  · dsimp only []
    rw [if_neg h]
    exact ⟨rfl, rfl, rfl⟩

/-- The standard constructor builds a grid for the transform `f0`. -/
theorem standard_f0_ok (m : CMath K) (transvar : K) (NQ2 : Int) (Q2min Q2max : K)
    (Q2order Nx : Int) (xmin xmax : K) (xorder : Int) (Nproc : Int) (disflag : Bool) :
    ∃ g, igrid.standard m transvar NQ2 Q2min Q2max Q2order Nx xmin xmax xorder "f0" Nproc
      disflag = Except.ok g := by
  obtain ⟨g, hg, -⟩ := standard_of_lookup m transvar NQ2 Q2min Q2max Q2order Nx xmin xmax
    xorder "f0" Nproc disflag ⟨_fx0 m, _fy0 m⟩ (by simp [List.lookup])
  exact ⟨g, hg⟩

/-- C35, the code at the failing input: the standard constructor called with the DIS flag
(transform `f0`, 3 nodes in `x`) builds a grid with one `y2` node and, by its test
`if ( m_Ny2>1 ) ... else m_deltay2 = 0;`, the `y2` spacing 0. That grid is written and read
back: the read constructor finds `m_Ny2 = 1` and stores the quotient
`(m_y2max-m_y2min)/(m_Ny2-1)` with the divisor 0, which has no finite value, where the
claim has the spacing set to 0 without a division; `optimise(10, 10, 1)` on the constructed
grid stores the same quotient with the divisor `m_Ny2 - 1 = 0`. -/
theorem read_and_optimise_divide_by_zero :
    match igrid.standard
        (⟨Real.exp, Real.log, fun x => Real.log x / Real.log 10, Real.sqrt,
          fun a b => a ^ b, Real.pi⟩ : CMath ℝ)
        5 30 100 1000000 1 3 (1 / 2) 1 2 "f0" 1 true with
    | Except.ok g =>
      (g.m_Ny2 = 1 ∧ g.m_deltay2 = 0 ∧
        standard_spacing g.m_y2min g.m_y2max g.m_Ny2 = some 0) ∧
      (match igrid.read
          (⟨Real.exp, Real.log, fun x => Real.log x / Real.log 10, Real.sqrt,
            fun a b => a ^ b, Real.pi⟩ : CMath ℝ) g.write with
        | Except.ok r =>
          r.m_Ny2 = 1 ∧
          r.m_deltay2 = (r.m_y2max - r.m_y2min) / (((r.m_Ny2 - 1 : Int)) : ℝ) ∧
          r.m_Ny2 - 1 = 0 ∧
          spacing_quotient r.m_y2min r.m_y2max r.m_Ny2 = none
        | Except.error _ => False) ∧
      ((g.optimise 10 10 1).m_Ny2 = 1 ∧
        (g.optimise 10 10 1).m_deltay2
          = ((g.optimise 10 10 1).m_y2max - (g.optimise 10 10 1).m_y2min) /
            ((((g.optimise 10 10 1).m_Ny2 - 1 : Int)) : ℝ) ∧
        (g.optimise 10 10 1).m_Ny2 - 1 = 0 ∧
        spacing_quotient (g.optimise 10 10 1).m_y2min (g.optimise 10 10 1).m_y2max
          (g.optimise 10 10 1).m_Ny2 = none)
    | Except.error _ => False := by
  obtain ⟨g, hg⟩ := standard_f0_ok
    (⟨Real.exp, Real.log, fun x => Real.log x / Real.log 10, Real.sqrt,
      fun a b => a ^ b, Real.pi⟩ : CMath ℝ) 5 30 100 1000000 1 3 (1 / 2) 1 2 1 true
  obtain ⟨hreg, hs, ⟨-, hN2, -⟩, -⟩ := standard_spacings _ _ _ _ _ _ _ _ _ _ _ _ _ g hg
  obtain ⟨r, hr, -, ⟨-, hr2, -⟩, -⟩ := read_write _ g hreg
  rw [hg]
  simp only []
  rw [hr]
  simp only []
  have hN2g : g.m_Ny2 = 1 := by
    rw [hN2]
    rfl
  have hN2r : r.m_Ny2 = 1 := by
    rw [hr2, hN2]
    simp only [if_true]
    have := toInt_int_add_half (K := ℝ) 1 (by norm_num)
    simpa using this
  have hsp : standard_spacing g.m_y2min g.m_y2max g.m_Ny2 = some 0 := by
    rw [standard_spacing_eq, hN2g, if_neg (by decide)]
  have hd2 : g.m_deltay2 = 0 := by
    unfold igrid.guarded_spacings at hs
    simp only [standard_spacing_eq, bind, Option.bind, Option.some.injEq, Prod.mk.injEq]
      at hs
    rw [← hs.2.1, hN2g, if_neg (by decide)]
  obtain ⟨-, -, -, ⟨-, -, n3⟩, -⟩ := optimise_result g 10 10 1
  refine ⟨⟨hN2g, hd2, hsp⟩,
    ⟨hN2r, (read_spacing_expressions _ _ r hr).2.1, by rw [hN2r]; rfl, ?_⟩,
    n3, (optimise_spacing_expressions g 10 10 1).2.1, by rw [n3]; rfl, ?_⟩
  · unfold spacing_quotient
    rw [if_pos (by rw [hN2r]; rfl)]
  · unfold spacing_quotient
    rw [if_pos (by rw [n3]; rfl)]

/-! ### `operator+=` on failure -/

theorem add_assign_state_loop_ok (w0 h : Nat → SparseMatrix3d K) (n : Nat)
    (hax : ∀ c, c < n → (w0 c).compare_axes (h c) = true) :
    (List.range n).foldl
      (fun (s : Bool × (Nat → SparseMatrix3d K)) (ip : Nat) =>
        if s.1 then s
        else if (s.2 ip).compare_axes (h ip) then
          (false, Function.update s.2 ip ((s.2 ip).add (h ip)))
        else (true, s.2)) (false, w0)
      = (false, fun c => if c < n then (w0 c).add (h c) else w0 c) := by
  induction n with
  | zero => simp
  | succ n ih =>
    rw [List.range_succ, List.foldl_append, ih (fun c hc => hax c (Nat.lt_succ_of_lt hc))]
    simp only [List.foldl_cons, List.foldl_nil, lt_irrefl, if_false, Bool.false_eq_true]
    rw [if_pos (hax n (Nat.lt_succ_self n))]
    congr 1
    funext c
    by_cases hc : c = n
    · subst hc; simp
    · rw [Function.update_noteq hc]
      have : (c < n + 1) ↔ (c < n) := by omega
      simp only [this]

theorem add_assign_state_loop_throw (w0 h : Nat → SparseMatrix3d K) (n : Nat)
    (h0 : (w0 0).compare_axes (h 0) = false) :
    (List.range (n + 1)).foldl
      (fun (s : Bool × (Nat → SparseMatrix3d K)) (ip : Nat) =>
        if s.1 then s
        else if (s.2 ip).compare_axes (h ip) then
          (false, Function.update s.2 ip ((s.2 ip).add (h ip)))
        else (true, s.2)) (false, w0)
      = (true, w0) := by
  induction n with
  | zero =>
    simp only [List.range_succ, List.range_zero, List.nil_append, List.foldl_cons,
      List.foldl_nil, Bool.false_eq_true, if_false]
    rw [h0]
    simp
  | succ n ih =>
    rw [List.range_succ, List.foldl_append, ih]
    simp

/-- The exception of `operator+=` and the flag of the state agree, and the grid returned
without an exception is the state. -/
theorem add_assign_state_eq (g h : igrid K) :
    g.add_assign h
      = if (g.add_assign_state h).1 then Except.error "igrid::operator+=() grids do not match"
        else Except.ok (g.add_assign_state h).2 := by
  unfold igrid.add_assign igrid.add_assign_state
  simp only []
  generalize g.m_Nproc.toNat = n
  have key : ∀ n,
      ((List.range n).foldlM (fun w (ip : Nat) =>
        if (w ip).compare_axes (h.m_weight ip) then
          (Except.ok (Function.update w ip ((w ip).add (h.m_weight ip))) :
            Except String (Nat → SparseMatrix3d K))
        else Except.error "igrid::operator+=() grids do not match") g.m_weight)
      = if ((List.range n).foldl
          (fun (s : Bool × (Nat → SparseMatrix3d K)) (ip : Nat) =>
            if s.1 then s
            else if (s.2 ip).compare_axes (h.m_weight ip) then
              (false, Function.update s.2 ip ((s.2 ip).add (h.m_weight ip)))
            else (true, s.2)) (false, g.m_weight)).1
        then Except.error "igrid::operator+=() grids do not match"
        else Except.ok ((List.range n).foldl
          (fun (s : Bool × (Nat → SparseMatrix3d K)) (ip : Nat) =>
            if s.1 then s
            else if (s.2 ip).compare_axes (h.m_weight ip) then
              (false, Function.update s.2 ip ((s.2 ip).add (h.m_weight ip)))
            else (true, s.2)) (false, g.m_weight)).2 := by
    intro n
    induction n with
    | zero => simp [List.foldlM, pure, Except.pure]
    | succ n ih =>
      rw [List.range_succ, List.foldlM_append, List.foldl_append, ih]
      generalize (List.range n).foldl
          (fun (s : Bool × (Nat → SparseMatrix3d K)) (ip : Nat) =>
            if s.1 then s
            else if (s.2 ip).compare_axes (h.m_weight ip) then
              (false, Function.update s.2 ip ((s.2 ip).add (h.m_weight ip)))
            else (true, s.2)) (false, g.m_weight) = s
      obtain ⟨b, w⟩ := s
      cases b
      · by_cases hc : (w n).compare_axes (h.m_weight n) = true
        · simp [List.foldlM, bind, Except.bind, pure, Except.pure, hc]
        · simp [List.foldlM, bind, Except.bind, pure, Except.pure, hc]
      · simp [List.foldlM, bind, Except.bind, pure, Except.pure]
  rw [key n]
  split_ifs <;> rfl

/-- C36: `a += b` is atomic on failure: provided all channels of the receiver share the
same axes, all channels of the argument share the same axes, and both have the same number
of channels, `a += b` either adds every channel and does not throw, or throws with every
channel tensor of `a` unchanged; it throws exactly when there is a channel and the axes of
`a` and `b` differ. -/
theorem add_assign_atomic (a b : igrid K)
    (ha : ∀ c, c < a.m_Nproc.toNat → (a.m_weight c).m_xaxis = (a.m_weight 0).m_xaxis ∧
      (a.m_weight c).m_yaxis = (a.m_weight 0).m_yaxis ∧
      (a.m_weight c).m_zaxis = (a.m_weight 0).m_zaxis)
    (hb : ∀ c, c < b.m_Nproc.toNat → (b.m_weight c).m_xaxis = (b.m_weight 0).m_xaxis ∧
      (b.m_weight c).m_yaxis = (b.m_weight 0).m_yaxis ∧
      (b.m_weight c).m_zaxis = (b.m_weight 0).m_zaxis)
    (hN : a.m_Nproc = b.m_Nproc) :
    (((a.add_assign_state b).1 = false ∧
        a.add_assign b = Except.ok (a.add_assign_state b).2 ∧
        (∀ c, c < a.m_Nproc.toNat →
          (a.add_assign_state b).2.m_weight c = (a.m_weight c).add (b.m_weight c))) ∨
      ((a.add_assign_state b).1 = true ∧
        a.add_assign b = Except.error "igrid::operator+=() grids do not match" ∧
        (∀ c, (a.add_assign_state b).2.m_weight c = a.m_weight c))) ∧
    ((a.add_assign_state b).1 = true ↔
      0 < a.m_Nproc.toNat ∧ (a.m_weight 0).compare_axes (b.m_weight 0) = false) := by
  have hcmp : ∀ c, c < a.m_Nproc.toNat →
      (a.m_weight c).compare_axes (b.m_weight c)
        = (a.m_weight 0).compare_axes (b.m_weight 0) := by
    intro c hc
    obtain ⟨a1, a2, a3⟩ := ha c hc
    obtain ⟨b1, b2, b3⟩ := hb c (by rw [← hN]; exact hc)
    simp only [SparseMatrix3d.compare_axes, a1, a2, a3, b1, b2, b3]
  have heq := add_assign_state_eq a b
  by_cases h0 : 0 < a.m_Nproc.toNat ∧ (a.m_weight 0).compare_axes (b.m_weight 0) = false
  · obtain ⟨n, hn⟩ : ∃ n, a.m_Nproc.toNat = n + 1 := ⟨a.m_Nproc.toNat - 1, by omega⟩
    have hs : a.add_assign_state b = (true, { a with m_weight := a.m_weight }) := by
      unfold igrid.add_assign_state
      simp only []
      rw [hn, add_assign_state_loop_throw a.m_weight b.m_weight n h0.2]
    rw [hs] at heq ⊢
    refine ⟨Or.inr ⟨rfl, ?_, fun c => rfl⟩, ⟨fun _ => h0, fun _ => rfl⟩⟩
    rw [heq]
    rfl
  · have hall : ∀ c, c < a.m_Nproc.toNat →
        (a.m_weight c).compare_axes (b.m_weight c) = true := by
      intro c hc
      rw [hcmp c hc]
      by_contra hf
      exact h0 ⟨by omega, by simpa using hf⟩
    have hs : a.add_assign_state b
        = (false, { a with m_weight := fun c =>
            if c < a.m_Nproc.toNat then (a.m_weight c).add (b.m_weight c)
            else a.m_weight c }) := by
      unfold igrid.add_assign_state
      simp only []
      rw [add_assign_state_loop_ok a.m_weight b.m_weight _ hall]
    rw [hs] at heq ⊢
    refine ⟨Or.inl ⟨rfl, ?_, fun c hc => ?_⟩, ⟨fun hf => ?_, fun hf => absurd hf h0⟩⟩
    · rw [heq]
      rfl
    · show (if c < a.m_Nproc.toNat then (a.m_weight c).add (b.m_weight c) else a.m_weight c)
        = _
      rw [if_pos hc]
    · cases hf

/-- Witness of C36: two channels over `[0, 4]` with 5 nodes receive two channels over
`[0, 4]` with 6 nodes: the call throws and the second channel of the receiver still has 5
nodes. -/
theorem add_assign_atomic_witness :
    (((uniform_grid (fun _ x => -x) (fun _ y => -y) 5 0 4 2 2 : igrid ℚ).add_assign_state
        (uniform_grid (fun _ x => -x) (fun _ y => -y) 6 0 4 2 2 : igrid ℚ)).1,
      (((uniform_grid (fun _ x => -x) (fun _ y => -y) 5 0 4 2 2 : igrid ℚ).add_assign_state
        (uniform_grid (fun _ x => -x) (fun _ y => -y) 6 0 4 2 2 : igrid ℚ)).2.m_weight
          1).m_yaxis.N) = (true, 5) := by
  have h := add_assign_atomic
    (uniform_grid (fun _ x => -x) (fun _ y => -y) 5 0 4 2 2 : igrid ℚ)
    (uniform_grid (fun _ x => -x) (fun _ y => -y) 6 0 4 2 2 : igrid ℚ)
    (fun _ _ => ⟨rfl, rfl, rfl⟩) (fun _ _ => ⟨rfl, rfl, rfl⟩) rfl
  have hthrow := h.2.2 ⟨by decide, by
    simp [SparseMatrix3d.compare_axes, uniform_grid, igrid.construct,
      SparseMatrix3d.mk_empty]⟩
  rcases h.1 with ⟨h1, -, -⟩ | ⟨h1, -, h3⟩
  · rw [hthrow] at h1
    cases h1
  · rw [h1, h3 1]
    rfl

/-! ### The state after `amc_convolute` -/

/-- A number below `a * N` written as `q * N + r` with a digit `0 ≤ r < N` determines the
digit and the rest. -/
theorem radix_unique (N q r q2 r2 : Int) (hr0 : 0 ≤ r) (hr : r < N) (hs0 : 0 ≤ r2)
    (hs : r2 < N) (h : q * N + r = q2 * N + r2) : q = q2 ∧ r = r2 := by
  have hN : 0 < N := by omega
  have e1 : (q * N + r) % N = r := by
    rw [add_comm, Int.add_mul_emod_self, Int.emod_eq_of_lt hr0 hr]
  have e2 : (q2 * N + r2) % N = r2 := by
    rw [add_comm, Int.add_mul_emod_self, Int.emod_eq_of_lt hs0 hs]
  have hrr : r = r2 := by rw [← e1, ← e2, h]
  refine ⟨?_, hrr⟩
  have h3 : q * N = q2 * N := by omega
  exact Int.eq_of_mul_eq_mul_right (by omega) h3

theorem radix_bounds (N q r A : Int) (hq0 : 0 ≤ q) (hq : q < A) (hr0 : 0 ≤ r) (hr : r < N) :
    0 ≤ q * N + r ∧ q * N + r < A * N := by
  have hN : 0 < N := by omega
  constructor
  · have := mul_nonneg hq0 hN.le
    omega
  · have h1 : (q + 1) * N ≤ A * N := Int.mul_le_mul_of_nonneg_right (by omega) hN.le
    have h2 : (q + 1) * N = q * N + N := by ring
    omega

/-- C38: for every shape `(Nx, Ny, Nz)` with positive extents the index
`(i*Ny + j)*Nz + k` of `fill_fast` maps the in-range triples `0 ≤ i < Nx`, `0 ≤ j < Ny`,
`0 ≤ k < Nz` one-to-one onto `0 .. Nx*Ny*Nz - 1`: every in-range access falls inside the
table, no two cells share a slot, every slot belongs to a cell; and `SparseMatrix3d::fill`
reaches the table only for in-range indices. (The statement needs `Ny` and `Nz`
positive; with `Nx ≤ 0` there is no in-range triple and no slot.) -/
theorem fill_fast_index_bijective (Nx Ny Nz : Int) (hy : 0 < Ny) (hz : 0 < Nz) :
    (∀ i j k : Int, 0 ≤ i → i < Nx → 0 ≤ j → j < Ny → 0 ≤ k → k < Nz →
      0 ≤ fill_fast_index Ny Nz i j k ∧ fill_fast_index Ny Nz i j k ≤ Nx * Ny * Nz - 1) ∧
    (∀ i j k i2 j2 k2 : Int, 0 ≤ i → i < Nx → 0 ≤ j → j < Ny → 0 ≤ k → k < Nz →
      0 ≤ i2 → i2 < Nx → 0 ≤ j2 → j2 < Ny → 0 ≤ k2 → k2 < Nz →
      fill_fast_index Ny Nz i j k = fill_fast_index Ny Nz i2 j2 k2 →
      i = i2 ∧ j = j2 ∧ k = k2) ∧
    (∀ n : Int, 0 ≤ n → n ≤ Nx * Ny * Nz - 1 →
      ∃ i j k : Int, (0 ≤ i ∧ i < Nx) ∧ (0 ≤ j ∧ j < Ny) ∧ (0 ≤ k ∧ k < Nz) ∧
        fill_fast_index Ny Nz i j k = n) ∧
    (∀ (m_fastindex : Bool) (i j k n : Int),
      SparseMatrix3d.fill Nx Ny Nz m_fastindex i j k = fill_access.fast n →
      (0 ≤ i ∧ i < Nx) ∧ (0 ≤ j ∧ j < Ny) ∧ (0 ≤ k ∧ k < Nz) ∧
        n = fill_fast_index Ny Nz i j k ∧ 0 ≤ n ∧ n ≤ Nx * Ny * Nz - 1) := by
  have hin : ∀ i j k : Int, 0 ≤ i → i < Nx → 0 ≤ j → j < Ny → 0 ≤ k → k < Nz →
      0 ≤ fill_fast_index Ny Nz i j k ∧ fill_fast_index Ny Nz i j k ≤ Nx * Ny * Nz - 1 := by
    intro i j k hi0 hi hj0 hj hk0 hk
    obtain ⟨a0, a1⟩ := radix_bounds Ny i j Nx hi0 hi hj0 hj
    obtain ⟨b0, b1⟩ := radix_bounds Nz (i * Ny + j) k (Nx * Ny) a0 a1 hk0 hk
    unfold fill_fast_index
    exact ⟨b0, by omega⟩
  refine ⟨hin, ?_, ?_, ?_⟩
  · intro i j k i2 j2 k2 hi0 hi hj0 hj hk0 hk hi20 hi2 hj20 hj2 hk20 hk2 h
    unfold fill_fast_index at h
    obtain ⟨h1, h2⟩ := radix_unique Nz _ k _ k2 hk0 hk hk20 hk2 h
    obtain ⟨h3, h4⟩ := radix_unique Ny i j i2 j2 hj0 hj hj20 hj2 h1
    exact ⟨h3, h4, h2⟩
  · intro n hn0 hn
    have hk0 : 0 ≤ n % Nz := Int.emod_nonneg _ (by omega)
    have hk : n % Nz < Nz := Int.emod_lt_of_pos _ hz
    have hq0 : 0 ≤ n / Nz := Int.ediv_nonneg hn0 hz.le
    have hj0 : 0 ≤ (n / Nz) % Ny := Int.emod_nonneg _ (by omega)
    have hj : (n / Nz) % Ny < Ny := Int.emod_lt_of_pos _ hy
    have hi0 : 0 ≤ (n / Nz) / Ny := Int.ediv_nonneg hq0 hy.le
    have e1 : (n / Nz) * Nz + n % Nz = n := by
      rw [mul_comm]; exact Int.ediv_add_emod n Nz
    have e2 : ((n / Nz) / Ny) * Ny + (n / Nz) % Ny = n / Nz := by
      rw [mul_comm]; exact Int.ediv_add_emod (n / Nz) Ny
    have hq : n / Nz < Nx * Ny := by
      rw [Int.ediv_lt_iff_lt_mul hz]
      omega
    have hi : (n / Nz) / Ny < Nx := by
      rw [Int.ediv_lt_iff_lt_mul hy]
      exact hq
    refine ⟨(n / Nz) / Ny, (n / Nz) % Ny, n % Nz, ⟨hi0, hi⟩, ⟨hj0, hj⟩, ⟨hk0, hk⟩, ?_⟩
    unfold fill_fast_index
    rw [e2, e1]
  · intro fast i j k n h
    unfold SparseMatrix3d.fill at h
    by_cases hout : i < 0 ∨ i ≥ Nx ∨ j < 0 ∨ j ≥ Ny ∨ k < 0 ∨ k ≥ Nz
    · rw [if_pos hout] at h
      cases h
    · rw [if_neg hout] at h
      cases fast
      · simp at h
      · simp only [if_true, fill_access.fast.injEq] at h
        have hb := hin i j k (by omega) (by omega) (by omega) (by omega) (by omega) (by omega)
        rw [h] at hb
        exact ⟨⟨by omega, by omega⟩, ⟨by omega, by omega⟩, ⟨by omega, by omega⟩, h.symm,
          hb.1, hb.2⟩

/-- Witness of C38: the shape `(3, 4, 5)`: the cell `(2, 3, 4)` has the last slot, 59. -/
theorem fill_fast_index_bijective_witness :
    SparseMatrix3d.fill 3 4 5 true 2 3 4 = fill_access.fast 59 ∧
      (0 ≤ fill_fast_index 4 5 2 3 4 ∧ fill_fast_index 4 5 2 3 4 ≤ 3 * 4 * 5 - 1) :=
  ⟨by decide, (fill_fast_index_bijective 3 4 5 (by decide) (by decide)).1 2 3 4
    (by decide) (by decide) (by decide) (by decide) (by decide) (by decide)⟩

end thms

end appl
